import Mathlib

set_option linter.unusedSectionVars false

/-!
# AudioVerse: a shallow embedding of the mixing engine

Floating-point samples and times are embedded as exact numbers (rationals, or
an arbitrary ordered field where the libm functions are needed), machine
integers that the code keeps non-negative as naturals.  A C++ counting loop
`for (int i = 0; i < n; ++i) body` is embedded with `forLoop`.
-/

/-- The counting loop `for (i = 0; i < n; ++i) s = body i s`. -/
def forLoop {σ : Type} : Nat → (Nat → σ → σ) → σ → σ
  | 0, _, s => s
  | n + 1, body, s => body n (forLoop n body s)

/-- The conversion `static_cast<int>(x)` of a floating-point value: truncation towards zero. -/
def truncToInt {K : Type} [LinearOrderedField K] [FloorRing K] (x : K) : Int :=
  if 0 ≤ x then ⌊x⌋ else ⌈x⌉

/-! ## The arithmetic of `double` -/

namespace Double

/-- The integer nearest to `m`, the even one of the two when `m` is half-way between them. -/
def roundEven (m : ℚ) : Int :=
  if m - ⌊m⌋ < 1 / 2 then ⌊m⌋
  else if 1 / 2 < m - ⌊m⌋ then ⌊m⌋ + 1
  else if ⌊m⌋ % 2 = 0 then ⌊m⌋ else ⌊m⌋ + 1

/-- The distance between neighbouring `double`s around `x`: `2^(e-52)` for
`2^e ≤ |x| < 2^(e+1)`, and `2^(-1074)` for every `|x| < 2^(-1022)`. -/
def ulp (x : ℚ) : ℚ :=
  (2 : ℚ) ^ (max (Int.log 2 |x|) (-1022) - 52)

/-- The `double` nearest to the exact value `x`, the one with the even significand when `x` is
half-way between two of them (the rounding of IEEE 754 binary64 arithmetic).  A value beyond
the largest `double` is rounded in the same way instead of becoming an infinity. -/
def round (x : ℚ) : ℚ :=
  (roundEven (x / ulp x) : ℚ) * ulp x

/-- The sum `a + b` of two `double`s. -/
def add (a b : ℚ) : ℚ := round (a + b)

/-- The difference `a - b` of two `double`s. -/
def sub (a b : ℚ) : ℚ := round (a - b)

/-- The product `a * b` of two `double`s. -/
def mul (a b : ℚ) : ℚ := round (a * b)

/-- The quotient `a / b` of two `double`s, for a divisor other than zero. -/
def div (a b : ℚ) : ℚ := round (a / b)

/-- The conversion `static_cast<int>(x)` of a `double`: truncation towards zero; the
conversion is undefined (`none`) when the truncated value is not an `int`. -/
def toInt (x : ℚ) : Option Int :=
  if -(2 ^ 31 : Int) ≤ truncToInt x ∧ truncToInt x < (2 ^ 31 : Int) then some (truncToInt x)
  else none

/-- The non-negative values that a `double` can hold: `M * 2^j` with a significand
`M < 2^53` and an exponent `j ≥ -1074`. -/
def Rep (x : ℚ) : Prop :=
  ∃ (M : Nat) (j : Int), M < 2 ^ 53 ∧ -1074 ≤ j ∧ x = (M : ℚ) * (2 : ℚ) ^ j

end Double

/-! ## `cpp-daw/include/Transport.hpp` -/

namespace DAW

/-- The enumeration `Transport::State`. -/
inductive State where
  | STOPPED
  | PLAYING
  | PAUSED
  | RECORDING
  deriving DecidableEq, Repr

/-- The data members of `class Transport` (the UI callbacks carry no state and are left out). -/
structure Transport where
  state_ : State
  position_ : ℚ
  loopEnabled_ : Bool
  loopStart_ : ℚ
  loopEnd_ : ℚ
  bpm_ : ℚ
  timeSigNumerator_ : Int
  timeSigDenominator_ : Int
  metronomeEnabled_ : Bool
  deriving DecidableEq

namespace Transport

/-- The member initialisers of `Transport() = default`. -/
def init : Transport :=
  { state_ := State.STOPPED, position_ := 0, loopEnabled_ := false, loopStart_ := 0,
    loopEnd_ := 60, bpm_ := 120, timeSigNumerator_ := 4, timeSigDenominator_ := 4,
    metronomeEnabled_ := false }

/-- `Transport::Play`. -/
def Play (t : Transport) : Transport :=
  if t.state_ = State.PAUSED then { t with state_ := State.PLAYING }
  else if t.state_ = State.STOPPED then { t with state_ := State.PLAYING }
  else t

/-- `Transport::Pause`. -/
def Pause (t : Transport) : Transport :=
  if t.state_ = State.PLAYING ∨ t.state_ = State.RECORDING then { t with state_ := State.PAUSED }
  else t

/-- `Transport::Stop`: the body assigns `state_` and notifies, nothing else. -/
def Stop (t : Transport) : Transport :=
  { t with state_ := State.STOPPED }

/-- `Transport::Record`. -/
def Record (t : Transport) : Transport :=
  if t.state_ = State.STOPPED ∨ t.state_ = State.PAUSED then { t with state_ := State.RECORDING }
  else t

/-- `Transport::GetState`. -/
def GetState (t : Transport) : State := t.state_

/-- `Transport::IsPlaying`. -/
def IsPlaying (t : Transport) : Bool :=
  t.state_ = State.PLAYING || t.state_ = State.RECORDING

/-- `Transport::SetPosition`. -/
def SetPosition (t : Transport) (seconds : ℚ) : Transport :=
  { t with position_ := max 0 seconds }

/-- `Transport::GetPosition`. -/
def GetPosition (t : Transport) : ℚ := t.position_

/-- `Transport::AdvancePosition`. -/
def AdvancePosition (t : Transport) (samples sampleRate : Int) : Transport :=
  if t.IsPlaying then
    let current_pos := t.position_ + (samples : ℚ) / (sampleRate : ℚ)
    let current_pos :=
      if t.loopEnabled_ = true ∧ current_pos ≥ t.loopEnd_ then t.loopStart_ else current_pos
    { t with position_ := current_pos }
  else t

/-- `Transport::SetLoopEnabled`. -/
def SetLoopEnabled (t : Transport) (enabled : Bool) : Transport :=
  { t with loopEnabled_ := enabled }

/-- `Transport::SetLoopRegion`. -/
def SetLoopRegion (t : Transport) (start stop : ℚ) : Transport :=
  let loopStart := max 0 start
  { t with loopStart_ := loopStart, loopEnd_ := max loopStart stop }

end Transport

/-- `DAWEngine::Stop` on the engine's transport: it forwards to `Transport::Stop` and prints. -/
def DAWEngine_Stop (transport_ : Transport) : Transport := transport_.Stop

/-- The transport of the loop test: playing, looping over `[2.0, 5.0)`, at position `4.9`. -/
def loopTransport : Transport :=
  { Transport.init with
    state_ := State.PLAYING, position_ := 49 / 10, loopEnabled_ := true,
    loopStart_ := 2, loopEnd_ := 5 }

end DAW

/-! ## `cpp-daw-web/audio_recording_system.hpp` -/

/-- The data members of `class RecordingBuffer`.  The positions and sizes are `int`s that the
class keeps non-negative (`0 ≤ pos < bufferSize`), embedded as naturals. -/
structure RecordingBuffer (α : Type) where
  buffer : List α
  writePos : Nat
  readPos : Nat
  bufferSize : Nat
  channels : Nat

namespace RecordingBuffer

variable {α : Type} [Zero α]

/-- The constructor `RecordingBuffer(size, numChannels)`. -/
def mk_ (size numChannels : Nat) : RecordingBuffer α :=
  { buffer := List.replicate (size * numChannels) 0, writePos := 0, readPos := 0,
    bufferSize := size, channels := numChannels }

/-- The inner loop of `write`: the channels of one frame go to the slot at `wp`. -/
def writeFrame (channels : Nat) (samples : Nat → α) (frame wp : Nat) (buffer : List α) :
    List α :=
  forLoop channels
    (fun ch buf => buf.set ((wp * channels + ch) % buf.length) (samples (frame * channels + ch)))
    buffer

/-- `RecordingBuffer::write`; `samples` is the caller's array, read by index. -/
def write (rb : RecordingBuffer α) (samples : Nat → α) (numFrames : Nat) : RecordingBuffer α :=
  let r := forLoop numFrames
    (fun frame (s : List α × Nat) =>
      (writeFrame rb.channels samples frame s.2 s.1, (s.2 + 1) % rb.bufferSize))
    (rb.buffer, rb.writePos)
  { rb with buffer := r.1, writePos := r.2 }

/-- The availability computed by both `read` and `getAvailableFrames`. -/
def available (rb : RecordingBuffer α) : Nat :=
  if rb.writePos ≥ rb.readPos then rb.writePos - rb.readPos
  else rb.bufferSize - rb.readPos + rb.writePos

/-- The inner loop of `read`: the channels of the slot at `rp` go to frame `frame` of the
destination. -/
def readFrame (channels : Nat) (buffer : List α) (frame rp : Nat) (dest : Nat → α) : Nat → α :=
  forLoop channels
    (fun ch d =>
      Function.update d (frame * channels + ch)
        (buffer.getD ((rp * channels + ch) % buffer.length) 0))
    dest

/-- `RecordingBuffer::read`; `samples` is the caller's destination array, written by index.
Returns the buffer, the destination and the number of frames read. -/
def read (rb : RecordingBuffer α) (samples : Nat → α) (maxFrames : Nat) :
    RecordingBuffer α × (Nat → α) × Nat :=
  let framesToRead := min maxFrames rb.available
  let r := forLoop framesToRead
    (fun frame (s : (Nat → α) × Nat) =>
      (readFrame rb.channels rb.buffer frame s.2 s.1, (s.2 + 1) % rb.bufferSize))
    (samples, rb.readPos)
  ({ rb with readPos := r.2 }, r.1, framesToRead)

/-- `RecordingBuffer::clear`. -/
def clear (rb : RecordingBuffer α) : RecordingBuffer α :=
  { rb with writePos := 0, readPos := 0, buffer := rb.buffer.map (fun _ => 0) }

/-- `RecordingBuffer::getAvailableFrames`. -/
def getAvailableFrames (rb : RecordingBuffer α) : Nat := rb.available

/-- The class invariant the constructor establishes and every method keeps: the store holds
`bufferSize * channels` samples and both positions are below `bufferSize`. -/
def WellFormed (rb : RecordingBuffer α) : Prop :=
  rb.buffer.length = rb.bufferSize * rb.channels ∧ rb.writePos < rb.bufferSize ∧
    rb.readPos < rb.bufferSize

instance (rb : RecordingBuffer α) : Decidable rb.WellFormed := by
  unfold WellFormed
  infer_instance

end RecordingBuffer

/-- A fresh ring buffer of four mono frames. -/
def ringOfFour : RecordingBuffer Int := RecordingBuffer.mk_ 4 1

/-- A fresh ring buffer of four stereo frames. -/
def stereoRing : RecordingBuffer Int := RecordingBuffer.mk_ 4 2

/-- The caller's array holding the samples `1, 2, 3, ...`. -/
def countingSamples : Nat → Int := fun i => (i : Int) + 1

/-- A destination array, zero before the read. -/
def zeroDest : Nat → Int := fun _ => 0

/-! ## `cpp-daw-web/advanced_track_manager.hpp` -/

/-- The structure `TimePosition`: a time in seconds and in samples. -/
structure TimePosition where
  seconds : ℚ
  samples : Int
  deriving DecidableEq

/-- The constructor `TimePosition(double s, int sampleRate)`: the product is rounded to
`double` before the conversion to `int64_t`. -/
def TimePosition.ofSeconds (s : ℚ) (sampleRate : Int) : TimePosition :=
  { seconds := s, samples := truncToInt (Double.mul s (sampleRate : ℚ)) }

/-- The constructor `TimePosition(double s)` with the default rate 44100. -/
def TimePosition.mk_ (s : ℚ) : TimePosition := TimePosition.ofSeconds s 44100

/-- The structure `AudioClip::ClipProperties`. -/
structure ClipProperties where
  name : String
  filePath : String
  startTime : TimePosition
  duration : TimePosition
  offset : TimePosition
  volume : ℚ
  fadeInTime : ℚ
  fadeOutTime : ℚ
  isMuted : Bool
  colorIndex : Int
  deriving DecidableEq

/-- The data members of `class AudioClip`.  `audioData` is a `shared_ptr` to source audio:
`none` is the null pointer, `some h` the shared object `h`. -/
structure AudioClip where
  properties : ClipProperties
  audioData : Option Nat
  trackId : Int
  clipId : Int
  deriving DecidableEq

namespace AudioClip

/-- The constructor `AudioClip(trackId, clipId, name)` with the member defaults. -/
def mk_ (trackId clipId : Int) (name : String) : AudioClip :=
  { properties :=
      { name := name, filePath := "", startTime := TimePosition.mk_ 0,
        duration := TimePosition.mk_ 0, offset := TimePosition.mk_ 0, volume := 1,
        fadeInTime := 0, fadeOutTime := 0, isMuted := false, colorIndex := 0 },
    audioData := none, trackId := trackId, clipId := clipId }

/-- `AudioClip::split`: returns the right-hand clip and the clip itself after the call. -/
def split (c : AudioClip) (splitTime : TimePosition) : AudioClip × AudioClip :=
  let rightClip := mk_ c.trackId (c.clipId + 1000) (c.properties.name ++ "_split")
  let splitRelative := splitTime.seconds - c.properties.startTime.seconds
  if 0 < splitRelative ∧ splitRelative < c.properties.duration.seconds then
    let rightProps :=
      { rightClip.properties with
        startTime := splitTime
        duration := TimePosition.mk_ (c.properties.duration.seconds - splitRelative)
        offset := TimePosition.mk_ (c.properties.offset.seconds + splitRelative)
        volume := c.properties.volume
        fadeInTime := c.properties.fadeInTime
        fadeOutTime := c.properties.fadeOutTime
        colorIndex := c.properties.colorIndex }
    ({ rightClip with properties := rightProps, audioData := c.audioData },
     { c with properties := { c.properties with duration := TimePosition.mk_ splitRelative } })
  else (rightClip, c)

/-- `AudioClip::getStartTime`. -/
def getStartTime (c : AudioClip) : ℚ := c.properties.startTime.seconds

/-- `AudioClip::getEndTime`. -/
def getEndTime (c : AudioClip) : ℚ :=
  c.properties.startTime.seconds + c.properties.duration.seconds

/-- `AudioClip::getDuration`. -/
def getDuration (c : AudioClip) : ℚ := c.properties.duration.seconds

end AudioClip

/-- A clip over `[1, 5)` on track 0 for the split example. -/
def exampleClip : AudioClip :=
  { AudioClip.mk_ 0 1 "Clip" with
    properties :=
      { (AudioClip.mk_ 0 1 "Clip").properties with
        startTime := TimePosition.mk_ 1, duration := TimePosition.mk_ 4 },
    audioData := some 7 }

/-- The libm functions and the constant `M_PI` the DSP code calls, as parameters of the
embedding. -/
structure Libm (K : Type) where
  sin : K → K
  cos : K → K
  pi : K

/-! ## `cpp-daw/include/AudioBuffer.hpp`, `cpp-daw/src/Track.cpp` -/

namespace DAW

variable {K : Type} [LinearOrderedField K]

/-- The data members of the planar `DAW::AudioBuffer`. -/
structure AudioBuffer (K : Type) where
  numChannels_ : Nat
  numFrames_ : Nat
  channels_ : List (List K)

namespace AudioBuffer

/-- The constructor `AudioBuffer(numChannels, numFrames)`: every channel zero-filled. -/
def mk_ (numChannels numFrames : Nat) : AudioBuffer K :=
  { numChannels_ := numChannels, numFrames_ := numFrames,
    channels_ := List.replicate numChannels (List.replicate numFrames 0) }

/-- `AudioBuffer::GetNumChannels`. -/
def GetNumChannels (b : AudioBuffer K) : Nat := b.numChannels_

/-- `AudioBuffer::GetNumFrames`. -/
def GetNumFrames (b : AudioBuffer K) : Nat := b.numFrames_

/-- `AudioBuffer::GetChannelData`: the channel's samples, `none` for the null pointer. -/
def GetChannelData (b : AudioBuffer K) (channel : Nat) : Option (List K) :=
  if channel < b.numChannels_ then b.channels_[channel]? else none

/-- The read `GetChannelData(ch)[i]`. -/
def getAt (b : AudioBuffer K) (ch i : Nat) : K :=
  ((b.GetChannelData ch).getD []).getD i 0

/-- The store `GetChannelData(ch)[i] = v`. -/
def setAt (b : AudioBuffer K) (ch i : Nat) (v : K) : AudioBuffer K :=
  match b.GetChannelData ch with
  | some data => { b with channels_ := b.channels_.set ch (data.set i v) }
  | none => b

end AudioBuffer

/-- The state of a `DAW::Clip` that rendering would read. -/
structure Clip (K : Type) where
  name_ : String
  startTime_ : K
  duration_ : K
  audioData_ : Option (AudioBuffer K)
  offset_ : K
  gain_ : K
  muted_ : Bool
  fadeInTime_ : K
  fadeOutTime_ : K

/-- The data members of `DAW::Track` that `ProcessAudio` reads.  An entry of `fxChain_` is the
action of that plug-in's `Process` on a buffer. -/
structure Track (K : Type) where
  name_ : String
  index_ : Int
  muted_ : Bool
  soloed_ : Bool
  recordArmed_ : Bool
  volume_ : K
  pan_ : K
  clips_ : List (Clip K)
  fxChain_ : List (AudioBuffer K → AudioBuffer K)

namespace Track

/-- The constructor `Track(name, index)` with the member defaults. -/
def mk_ (name : String) (index : Int) : Track K :=
  { name_ := name, index_ := index, muted_ := false, soloed_ := false, recordArmed_ := false,
    volume_ := 1, pan_ := 0, clips_ := [], fxChain_ := [] }

/-- `Track::AddClip`. -/
def AddClip (t : Track K) (clip : Clip K) : Track K :=
  { t with clips_ := t.clips_ ++ [clip] }

/-- `Track::ProcessClips`: the body is the comment `// Placeholder`. -/
def ProcessClips (_t : Track K) (buffer : AudioBuffer K) (_startTime _endTime : K)
    (_sampleRate : Int) : AudioBuffer K :=
  buffer

/-- `Track::ProcessFXChain`. -/
def ProcessFXChain (t : Track K) (buffer : AudioBuffer K) : AudioBuffer K :=
  t.fxChain_.foldl (fun b fx => fx b) buffer

/-- `Track::UpdateMetering`: the body is the comment `// Placeholder`. -/
def UpdateMetering (t : Track K) (_buffer : AudioBuffer K) : Track K := t

/-- `Track::ApplyVolumeAndPan`. -/
def ApplyVolumeAndPan (M : Libm K) (t : Track K) (buffer : AudioBuffer K) : AudioBuffer K :=
  let vol := t.volume_
  let pan := t.pan_
  let panLeft := M.cos ((pan + 1) * (1 / 4) * M.pi) * vol
  let panRight := M.sin ((pan + 1) * (1 / 4) * M.pi) * vol
  if buffer.GetNumChannels ≥ 2 then
    forLoop buffer.GetNumFrames
      (fun i b =>
        let b := b.setAt 0 i (b.getAt 0 i * panLeft)
        b.setAt 1 i (b.getAt 1 i * panRight))
      buffer
  else if buffer.GetNumChannels = 1 then
    forLoop buffer.GetNumFrames (fun i b => b.setAt 0 i (b.getAt 0 i * vol)) buffer
  else buffer

/-- `Track::ProcessAudio`: returns the output buffer after the call. -/
def ProcessAudio (M : Libm K) (t : Track K) (outputBuffer : AudioBuffer K)
    (startTime endTime : K) (sampleRate : Int) : AudioBuffer K :=
  let trackBuffer : AudioBuffer K :=
    AudioBuffer.mk_ outputBuffer.GetNumChannels outputBuffer.GetNumFrames
  let trackBuffer := t.ProcessClips trackBuffer startTime endTime sampleRate
  let trackBuffer := t.ProcessFXChain trackBuffer
  let trackBuffer := t.ApplyVolumeAndPan M trackBuffer
  if !t.muted_ then
    forLoop outputBuffer.GetNumChannels
      (fun ch out =>
        forLoop outputBuffer.GetNumFrames
          (fun i out => out.setAt ch i (out.getAt ch i + trackBuffer.getAt ch i)) out)
      outputBuffer
  else outputBuffer

end Track

/-- A stereo source of four full-scale frames. -/
def fullScaleSource : AudioBuffer ℚ :=
  { numChannels_ := 2, numFrames_ := 4, channels_ := [[1, 1, 1, 1], [1, 1, 1, 1]] }

/-- An unmuted clip over `[0, 1)` holding the full-scale source. -/
def fullScaleClip : Clip ℚ :=
  { name_ := "clip", startTime_ := 0, duration_ := 1, audioData_ := some fullScaleSource,
    offset_ := 0, gain_ := 1, muted_ := false, fadeInTime_ := 0, fadeOutTime_ := 0 }

/-- An unmuted track (volume 1, pan 0, no effects) holding the full-scale clip. -/
def trackWithClip : Track ℚ := (Track.mk_ "track" 0).AddClip fullScaleClip

end DAW

/-! ## `cpp-daw-web/advanced_cpp_daw.cpp` -/

namespace Web

variable {K : Type} [LinearOrderedField K] [FloorRing K]

/-- The data members of the interleaved `AudioBuffer`. -/
structure AudioBuffer (K : Type) where
  samples : List K
  sampleRate : Int
  channels : Nat

namespace AudioBuffer

/-- The constructor `AudioBuffer(size, sr, ch)`. -/
def mk_ (size : Nat) (sr : Int) (ch : Nat) : AudioBuffer K :=
  { samples := List.replicate (size * ch) 0, sampleRate := sr, channels := ch }

/-- `AudioBuffer::resize`: `std::vector::resize` truncates or pads with zeros. -/
def resize (b : AudioBuffer K) (size : Nat) : AudioBuffer K :=
  { b with samples :=
      b.samples.take (size * b.channels)
        ++ List.replicate (size * b.channels - b.samples.length) 0 }

/-- `AudioBuffer::clear`. -/
def clear (b : AudioBuffer K) : AudioBuffer K :=
  { b with samples := b.samples.map (fun _ => 0) }

/-- A read through `getSample(frame, channel)`.  Out of range the code hands out a static
dummy, zero unless written to; the loops embedded here never index out of range. -/
def getSample (b : AudioBuffer K) (frame channel : Nat) : K :=
  b.samples.getD (frame * b.channels + channel) 0

/-- A store through the reference `getSample(frame, channel)`; out of range it goes to the
dummy and leaves the buffer as it is. -/
def setSample (b : AudioBuffer K) (frame channel : Nat) (v : K) : AudioBuffer K :=
  { b with samples := b.samples.set (frame * b.channels + channel) v }

/-- `AudioBuffer::getFrameCount`. -/
def getFrameCount (b : AudioBuffer K) : Nat := b.samples.length / b.channels

end AudioBuffer

/-- The structure `Reverb::DelayLine`. -/
structure DelayLine (K : Type) where
  buffer : List K
  size : Nat
  index : Nat

namespace DelayLine

/-- The constructor `DelayLine(size)`. -/
def mk_ (size : Nat) : DelayLine K :=
  { buffer := List.replicate size 0, size := size, index := 0 }

/-- `DelayLine::process`: stores the input at `index`, reads the same cell back and advances. -/
def process (d : DelayLine K) (input : K) : DelayLine K × K :=
  let buffer := d.buffer.set d.index input
  let output := buffer.getD d.index 0
  ({ d with buffer := buffer, index := (d.index + 1) % d.size }, output)

end DelayLine

/-- The data members of `class Reverb`. -/
structure Reverb (K : Type) where
  delays : List (DelayLine K)
  roomSize : K
  damping : K
  wetLevel : K
  dryLevel : K

namespace Reverb

/-- The constructor `Reverb()`. -/
def mk_ : Reverb K :=
  { delays := [DelayLine.mk_ 1116, DelayLine.mk_ 1188, DelayLine.mk_ 1277, DelayLine.mk_ 1356],
    roomSize := 1 / 2, damping := 1 / 2, wetLevel := 3 / 10, dryLevel := 7 / 10 }

/-- `Reverb::process`. -/
def process (r : Reverb K) (input : K) : Reverb K × K :=
  let acc := r.delays.foldl
    (fun (acc : List (DelayLine K) × K) delay =>
      let res := delay.process (input * r.roomSize)
      (acc.1 ++ [res.1], acc.2 + res.2 * (1 / 4)))
    ([], 0)
  let output := acc.2 * (1 - r.damping)
  ({ r with delays := acc.1 }, input * r.dryLevel + output * r.wetLevel)

end Reverb

/-- The data members of `class Delay`. -/
structure Delay (K : Type) where
  buffer : List K
  bufferSize : Nat
  writePos : Nat
  delayTime : K
  feedback : K
  wetLevel : K
  dryLevel : K
  sampleRate : Int

namespace Delay

/-- The constructor `Delay(sampleRate)`. -/
def mk_ (sampleRate : Nat) : Delay K :=
  { buffer := List.replicate (sampleRate * 2) 0, bufferSize := sampleRate * 2, writePos := 0,
    delayTime := 1 / 4, feedback := 3 / 10, wetLevel := 3 / 10, dryLevel := 7 / 10,
    sampleRate := sampleRate }

/-- `Delay::process`. -/
def process (d : Delay K) (input : K) : Delay K × K :=
  let readPos : Int := (d.writePos : Int) - truncToInt (d.delayTime * (d.sampleRate : K))
  let readPos : Int := if readPos < 0 then readPos + (d.bufferSize : Int) else readPos
  let delayed := d.buffer.getD readPos.toNat 0
  let buffer := d.buffer.set d.writePos (input + delayed * d.feedback)
  ({ d with buffer := buffer, writePos := (d.writePos + 1) % d.bufferSize },
    input * d.dryLevel + delayed * d.wetLevel)

end Delay

/-- The data members of `class Filter`. -/
structure Filter (K : Type) where
  cutoff : K
  resonance : K
  sampleRate : K
  z1 : K
  z2 : K

namespace Filter

/-- The constructor `Filter(sampleRate)`. -/
def mk_ (sampleRate : K) : Filter K :=
  { cutoff := 1000, resonance := 7 / 10, sampleRate := sampleRate, z1 := 0, z2 := 0 }

/-- `Filter::process`. -/
def process (M : Libm K) (f : Filter K) (input : K) : Filter K × K :=
  let omega := 2 * M.pi * f.cutoff / f.sampleRate
  let alpha := M.sin omega / (2 * f.resonance)
  let z1 := f.z1 + alpha * (input - f.z1)
  ({ f with z1 := z1 }, z1)

end Filter

/-- The data members of `class WavetableSynth`. -/
structure WavetableSynth (K : Type) where
  wavetable : List K
  phase : K
  frequency : K
  amplitude : K
  sampleRate : Int

/-- The constructor `WavetableSynth(sampleRate)` with `generateWavetable`. -/
def WavetableSynth.mk_ (M : Libm K) (sampleRate : Int) : WavetableSynth K :=
  { wavetable := (List.range 1024).map (fun i =>
      let t : K := (i : K) / 1024
      M.sin (2 * M.pi * t) * (1 / 2) + M.sin (4 * M.pi * t) * (1 / 4)
        + M.sin (6 * M.pi * t) * (1 / 8)),
    phase := 0, frequency := 440, amplitude := 1 / 2, sampleRate := sampleRate }

/-- The data members of the engine's `class Track`. -/
structure Track (K : Type) where
  id : Int
  name : String
  volume : K
  pan : K
  isMuted : Bool
  isSoloed : Bool
  isRecording : Bool
  reverb : Reverb K
  delay : Delay K
  filter : Filter K
  synth : WavetableSynth K
  buffer : AudioBuffer K

namespace Track

/-- The constructor `Track(trackId, trackName)`. -/
def mk_ (M : Libm K) (trackId : Int) (trackName : String) : Track K :=
  { id := trackId, name := trackName, volume := 3 / 4, pan := 0, isMuted := false,
    isSoloed := false, isRecording := false, reverb := Reverb.mk_, delay := Delay.mk_ 44100,
    filter := Filter.mk_ 44100, synth := WavetableSynth.mk_ M 44100,
    buffer := AudioBuffer.mk_ 1024 44100 2 }

/-- The body of the two loops of `Track::processAudio` at frame `i`, channel `ch`: one sample
goes through filter, delay and reverb, is scaled by volume and pan gain and added to the
output. -/
def processSample (M : Libm K) (i ch : Nat) (s : Track K × AudioBuffer K) :
    Track K × AudioBuffer K :=
  let t := s.1
  let output := s.2
  let sample := t.buffer.getSample i ch
  let f := t.filter.process M sample
  let d := t.delay.process f.2
  let r := t.reverb.process d.2
  let panGain : K := if ch = 0 then 1 - max 0 t.pan else 1 + min 0 t.pan
  let sample := r.2 * (t.volume * panGain)
  ({ t with filter := f.1, delay := d.1, reverb := r.1 },
    output.setSample i ch (output.getSample i ch + sample))

/-- The loops of `Track::processAudio`, after the mute check. -/
def render (M : Libm K) (t : Track K) (output : AudioBuffer K) : Track K × AudioBuffer K :=
  forLoop (min t.buffer.getFrameCount output.getFrameCount)
    (fun i s => forLoop (min t.buffer.channels output.channels)
      (fun ch s => processSample M i ch s) s)
    (t, output)

/-- `Track::processAudio`: returns the track and the output buffer after the call. -/
def processAudio (M : Libm K) (t : Track K) (output : AudioBuffer K) :
    Track K × AudioBuffer K :=
  if t.isMuted then (t, output) else t.render M output

end Track

/-- The data members of `class CPPDAWEngine`. -/
structure CPPDAWEngine (K : Type) where
  tracks : List (Track K)
  masterBuffer : AudioBuffer K
  masterVolume : K
  sampleRate : Int
  bufferSize : Int
  isPlaying : Bool
  isRecording : Bool
  currentTime : K
  tempo : K
  isInitialized : Bool

namespace CPPDAWEngine

/-- The constructor `CPPDAWEngine()`. -/
def mk_ : CPPDAWEngine K :=
  { tracks := [], masterBuffer := AudioBuffer.mk_ 512 44100 2, masterVolume := 3 / 4,
    sampleRate := 44100, bufferSize := 512, isPlaying := false, isRecording := false,
    currentTime := 0, tempo := 120, isInitialized := false }

/-- `CPPDAWEngine::initialize`. -/
def initialize_ (e : CPPDAWEngine K) : CPPDAWEngine K := { e with isInitialized := true }

/-- The track loop of `CPPDAWEngine::processAudio`: a track is handed to
`Track::processAudio` when `!isMuted || isSoloed`. -/
def processTracks (M : Libm K) (tracks : List (Track K)) (master : AudioBuffer K) :
    List (Track K) × AudioBuffer K :=
  tracks.foldl
    (fun (acc : List (Track K) × AudioBuffer K) track =>
      if !track.isMuted || track.isSoloed then
        let r := track.processAudio M acc.2
        (acc.1 ++ [r.1], r.2)
      else (acc.1 ++ [track], acc.2))
    ([], master)

/-- The master-volume loop of `CPPDAWEngine::processAudio`. -/
def applyMasterVolume (masterVolume : K) (master : AudioBuffer K) : AudioBuffer K :=
  forLoop master.getFrameCount
    (fun i m => forLoop master.channels
      (fun ch m => m.setSample i ch (m.getSample i ch * masterVolume)) m)
    master

/-- `CPPDAWEngine::processAudio`. -/
def processAudio (M : Libm K) (e : CPPDAWEngine K) : CPPDAWEngine K :=
  if !e.isInitialized then e
  else
    let r := processTracks M e.tracks e.masterBuffer.clear
    { e with tracks := r.1, masterBuffer := applyMasterVolume e.masterVolume r.2 }

/-- `CPPDAWEngine::addTrack`: the engine after the call (the id returned is the old count). -/
def addTrack (M : Libm K) (e : CPPDAWEngine K) (name : String) : CPPDAWEngine K :=
  { e with tracks := e.tracks ++ [Track.mk_ M (e.tracks.length : Int) name] }

/-- `CPPDAWEngine::muteTrack`: toggles the flag of an existing track. -/
def muteTrack (e : CPPDAWEngine K) (trackId : Nat) : CPPDAWEngine K :=
  { e with tracks := e.tracks.modify (fun t => { t with isMuted := !t.isMuted }) trackId }

/-- `CPPDAWEngine::soloTrack`: toggles the flag of an existing track. -/
def soloTrack (e : CPPDAWEngine K) (trackId : Nat) : CPPDAWEngine K :=
  { e with tracks := e.tracks.modify (fun t => { t with isSoloed := !t.isSoloed }) trackId }

end CPPDAWEngine

/-- The audibility policy in the words of the specification: a track is audible iff (no track
of the project is soloed and the track is not muted) or the track itself is soloed. -/
def specAudible (tracks : List (Track K)) (t : Track K) : Bool :=
  (!(tracks.any (fun u => u.isSoloed)) && !t.isMuted) || t.isSoloed

/-- The master buffer a block has when exactly the tracks picked by `audible` contribute: the
cleared master, plus the rendering of each picked track in order, times the master volume. -/
def mixOf (M : Libm K) (audible : Track K → Bool) (e : CPPDAWEngine K) : AudioBuffer K :=
  CPPDAWEngine.applyMasterVolume e.masterVolume
    (e.tracks.foldl
      (fun master t => if audible t then (t.render M master).2 else master)
      e.masterBuffer.clear)

/-- A track whose buffer holds the constant full-scale signal. -/
def constantTrack (M : Libm K) (trackId : Int) (name : String) (soloed : Bool) : Track K :=
  { Track.mk_ M trackId name with
    isSoloed := soloed,
    buffer := { samples := List.replicate 2048 1, sampleRate := 44100, channels := 2 } }

/-- The engine of the solo example: initialised, track A soloed, track B neither soloed nor
muted, both holding the same constant signal. -/
def soloEngine (M : Libm K) : CPPDAWEngine K :=
  { (CPPDAWEngine.mk_ : CPPDAWEngine K).initialize_ with
    tracks := [constantTrack M 0 "A" true, constantTrack M 1 "B" false] }

end Web

/-! ## Planar sample storage -/

/-- The read `data[ch][s]` of a vector of channel vectors. -/
def cellGet {K : Type} [Zero K] (data : List (List K)) (ch s : Nat) : K :=
  (data.getD ch []).getD s 0

/-- The store `data[ch][s] = v` of a vector of channel vectors. -/
def cellSet {K : Type} (data : List (List K)) (ch s : Nat) (v : K) : List (List K) :=
  data.set ch ((data.getD ch []).set s v)

/-- The element `data[ch][s]` when both indices are inside the vectors, `none` otherwise. -/
def cell? {K : Type} (data : List (List K)) (ch s : Nat) : Option K :=
  (data[ch]?).bind (fun row => row[s]?)

/-- The function `std::clamp(v, lo, hi)`. -/
def stdClamp {K : Type} [LinearOrder K] (v lo hi : K) : K :=
  if v < lo then lo else if hi < v then hi else v

/-- The conversion `static_cast<size_t>(x)` of a non-negative floating-point value. -/
def truncToSize {K : Type} [LinearOrderedField K] [FloorRing K] (x : K) : Nat :=
  (truncToInt x).toNat

/-! ## `cpp-daw/src/AudioBuffer.cpp`, `cpp-daw/src/Clip.cpp` -/

namespace Classic

variable {K : Type} [LinearOrderedField K] [FloorRing K]

/-- The data members of the `AudioBuffer` of `AudioBuffer.cpp` (the lower-case interface). -/
structure AudioBuffer (K : Type) where
  m_numChannels : Nat
  m_numSamples : Nat
  m_sampleRate : K
  m_data : List (List K)

namespace AudioBuffer

/-- The constructor `AudioBuffer(numChannels, numSamples, sampleRate)`. -/
def mk_ (numChannels numSamples : Nat) (sampleRate : K) : AudioBuffer K :=
  { m_numChannels := numChannels, m_numSamples := numSamples, m_sampleRate := sampleRate,
    m_data := List.replicate numChannels (List.replicate numSamples 0) }

/-- `AudioBuffer::getNumChannels`. -/
def getNumChannels (b : AudioBuffer K) : Nat := b.m_numChannels

/-- `AudioBuffer::getNumSamples`. -/
def getNumSamples (b : AudioBuffer K) : Nat := b.m_numSamples

/-- `AudioBuffer::clear()`. -/
def clear (b : AudioBuffer K) : AudioBuffer K :=
  { b with m_data := b.m_data.map (fun channel => channel.map (fun _ => 0)) }

/-- `AudioBuffer::getSample`. -/
def getSample (b : AudioBuffer K) (channel sample : Nat) : K :=
  if channel < b.m_numChannels ∧ sample < b.m_numSamples then cellGet b.m_data channel sample
  else 0

/-- `AudioBuffer::setSample`. -/
def setSample (b : AudioBuffer K) (channel sample : Nat) (value : K) : AudioBuffer K :=
  if channel < b.m_numChannels ∧ sample < b.m_numSamples then
    { b with m_data := cellSet b.m_data channel sample value }
  else b

/-- `AudioBuffer::addSample`. -/
def addSample (b : AudioBuffer K) (channel sample : Nat) (value : K) : AudioBuffer K :=
  if channel < b.m_numChannels ∧ sample < b.m_numSamples then
    { b with m_data :=
        cellSet b.m_data channel sample (cellGet b.m_data channel sample + value) }
  else b

/-- `AudioBuffer::addFrom(other)`. -/
def addFrom (b other : AudioBuffer K) : AudioBuffer K :=
  let channelsToProcess := min b.m_numChannels other.m_numChannels
  let samplesToProcess := min b.m_numSamples other.m_numSamples
  let data := forLoop channelsToProcess
    (fun ch data =>
      forLoop samplesToProcess
        (fun s data => cellSet data ch s (cellGet data ch s + cellGet other.m_data ch s))
        data)
    b.m_data
  { b with m_data := data }

/-- `AudioBuffer::applyGain(gain)`. -/
def applyGain (b : AudioBuffer K) (gain : K) : AudioBuffer K :=
  { b with m_data := b.m_data.map (fun channel => channel.map (fun sample => sample * gain)) }

/-- The class invariant: `m_data` holds `m_numChannels` channels of `m_numSamples` samples. -/
def WellFormed (b : AudioBuffer K) : Prop :=
  b.m_data.length = b.m_numChannels ∧ ∀ row ∈ b.m_data, row.length = b.m_numSamples

instance (b : AudioBuffer K) : Decidable b.WellFormed := by
  unfold WellFormed
  infer_instance

end AudioBuffer

/-- The data members of the `Clip` of `Clip.cpp`. -/
structure Clip (K : Type) where
  m_name : String
  m_sampleRate : K
  m_startTime : K
  m_duration : K
  m_fadeInTime : K
  m_fadeOutTime : K
  m_gain : K
  m_isLooped : Bool
  m_loopStart : K
  m_loopEnd : K
  m_pitchShift : K
  m_isMuted : Bool
  m_audioData : Option (AudioBuffer K)

namespace Clip

/-- The constructor `Clip(name, sampleRate)`. -/
def mk_ (name : String) (sampleRate : K) : Clip K :=
  { m_name := name, m_sampleRate := sampleRate, m_startTime := 0, m_duration := 0,
    m_fadeInTime := 0, m_fadeOutTime := 0, m_gain := 1, m_isLooped := false, m_loopStart := 0,
    m_loopEnd := 0, m_pitchShift := 0, m_isMuted := false, m_audioData := none }

/-- `Clip::calculateFadeMultiplier`. -/
def calculateFadeMultiplier (c : Clip K) (samplePosition : Nat) : K :=
  let timePosition : K := (samplePosition : K) / c.m_sampleRate
  let multiplier : K := 1
  let multiplier :=
    if c.m_fadeInTime > 0 ∧ timePosition < c.m_fadeInTime then
      multiplier * (timePosition / c.m_fadeInTime)
    else multiplier
  if c.m_fadeOutTime > 0 then
    let fadeOutStart := c.m_duration - c.m_fadeOutTime
    if timePosition > fadeOutStart then
      let fadeOutProgress := (timePosition - fadeOutStart) / c.m_fadeOutTime
      multiplier * (1 - fadeOutProgress)
    else multiplier
  else multiplier

/-- `Clip::loadAudioData`; `none` is the null pointer. -/
def loadAudioData (c : Clip K) (audioData : Option (AudioBuffer K)) : Clip K :=
  match audioData with
  | some data =>
    { c with m_audioData := some data,
             m_duration := (data.getNumSamples : K) / c.m_sampleRate }
  | none => { c with m_audioData := none }

/-- `Clip::setStartTime`. -/
def setStartTime (c : Clip K) (startTime : K) : Clip K :=
  { c with m_startTime := max 0 startTime }

/-- `Clip::setDuration`. -/
def setDuration (c : Clip K) (duration : K) : Clip K :=
  { c with m_duration := max 0 duration }

/-- `Clip::setFadeIn`. -/
def setFadeIn (c : Clip K) (fadeTime : K) : Clip K :=
  { c with m_fadeInTime := stdClamp fadeTime 0 (c.m_duration * (1 / 2)) }

/-- `Clip::setFadeOut`. -/
def setFadeOut (c : Clip K) (fadeTime : K) : Clip K :=
  { c with m_fadeOutTime := stdClamp fadeTime 0 (c.m_duration * (1 / 2)) }

/-- `Clip::getEndTime`. -/
def getEndTime (c : Clip K) : K := c.m_startTime + c.m_duration

/-- `Clip::trimToSelection`. -/
def trimToSelection (c : Clip K) (selectionStart selectionEnd : K) : Clip K :=
  match c.m_audioData with
  | none => c
  | some audio =>
    if selectionStart ≥ selectionEnd then c
    else
      let originalSamples := audio.getNumSamples
      let startSample := min (truncToSize (selectionStart * c.m_sampleRate)) originalSamples
      let endSample := min (truncToSize (selectionEnd * c.m_sampleRate)) originalSamples
      if startSample ≥ endSample then c
      else
        let newLength := endSample - startSample
        let newBuffer : AudioBuffer K :=
          AudioBuffer.mk_ audio.getNumChannels newLength c.m_sampleRate
        let copied := forLoop audio.getNumChannels
          (fun ch data =>
            data.set ch (((audio.m_data.getD ch []).drop startSample).take newLength))
          newBuffer.m_data
        let newBuffer : AudioBuffer K := { newBuffer with m_data := copied }
        { c with m_audioData := some newBuffer,
                 m_duration := (newLength : K) / c.m_sampleRate,
                 m_startTime := c.m_startTime + selectionStart }

end Clip

/-- A clip at 4 Hz lasting 2 s with fades of half a second at both ends. -/
def fadedClip : Clip ℚ :=
  { Clip.mk_ "faded" 4 with m_duration := 2, m_fadeInTime := 1 / 2, m_fadeOutTime := 1 / 2 }

/-- A clip after `setDuration(10)`, `setFadeIn(5)`, `setDuration(2)`. -/
def shortenedClip : Clip ℚ :=
  (((Clip.mk_ "clip" 44100).setDuration 10).setFadeIn 5).setDuration 2

/-- A stereo buffer of three frames holding `1, 2, 3` and `4, 5, 6`. -/
def smallBuffer : AudioBuffer ℚ :=
  { m_numChannels := 2, m_numSamples := 3, m_sampleRate := 44100,
    m_data := [[1, 2, 3], [4, 5, 6]] }

end Classic

/-! ## `cpp-daw/include/AudioBuffer.hpp`: mixing -/

namespace DAW

namespace AudioBuffer

variable {K : Type} [LinearOrderedField K]

/-- `AudioBuffer::MixFrom(other, gain, startFrame)` for `startFrame >= 0`.  The frame count is
the `int` minimum of `numFrames_ - startFrame` and `other.numFrames_`; when the difference is
negative the loop runs no iteration, as for the count 0 used here. -/
def MixFrom (b other : AudioBuffer K) (gain : K) (startFrame : Nat) : AudioBuffer K :=
  let framesToMix := min (b.numFrames_ - startFrame) other.numFrames_
  let channelsToMix := min b.numChannels_ other.numChannels_
  let data := forLoop channelsToMix
    (fun ch data =>
      forLoop framesToMix
        (fun frame data =>
          cellSet data ch (startFrame + frame)
            (cellGet data ch (startFrame + frame) + cellGet other.channels_ ch frame * gain))
        data)
    b.channels_
  { b with channels_ := data }

/-- The class invariant: `channels_` holds `numChannels_` channels of `numFrames_` samples. -/
def WellFormed (b : AudioBuffer K) : Prop :=
  b.channels_.length = b.numChannels_ ∧ ∀ row ∈ b.channels_, row.length = b.numFrames_

instance (b : AudioBuffer K) : Decidable b.WellFormed := by
  unfold WellFormed
  infer_instance

end AudioBuffer

/-- A stereo buffer of two frames holding `1, 2` and `3, 4`. -/
def stereoPair {K : Type} [LinearOrderedField K] : AudioBuffer K :=
  { numChannels_ := 2, numFrames_ := 2, channels_ := [[1, 2], [3, 4]] }

/-- A mono buffer of two frames holding `1, 2`. -/
def monoPair {K : Type} [LinearOrderedField K] : AudioBuffer K :=
  { numChannels_ := 1, numFrames_ := 2, channels_ := [[1, 2]] }

end DAW

/-! ## `cpp-daw-web/advanced_track_manager.hpp`, `enhanced_cpp_daw_engine.cpp`: tracks -/

/-- The structure `EnhancedTrack::TrackState`. -/
structure TrackState where
  id : Int
  name : String
  volume : ℚ
  pan : ℚ
  isMuted : Bool
  isSoloed : Bool
  isArmed : Bool
  isRecording : Bool
  colorIndex : Int
  height : Int
  deriving DecidableEq

/-- The data members of `class EnhancedTrack`. -/
structure EnhancedTrack where
  state : TrackState
  clips : List AudioClip
  nextClipId : Int
  deriving DecidableEq

namespace EnhancedTrack

/-- The constructor `EnhancedTrack(id, name)` with the member defaults. -/
def mk_ (id : Int) (name : String) : EnhancedTrack :=
  { state := { id := id, name := name, volume := 1, pan := 0, isMuted := false,
               isSoloed := false, isArmed := false, isRecording := false, colorIndex := 0,
               height := 100 },
    clips := [], nextClipId := 1 }

/-- `EnhancedTrack::addClip`: the track after the call (the new clip is its last one). -/
def addClip (t : EnhancedTrack) (name : String) (startTime duration : TimePosition) :
    EnhancedTrack :=
  let clip := AudioClip.mk_ t.state.id t.nextClipId name
  let clip := { clip with properties :=
    { clip.properties with startTime := startTime, duration := duration } }
  { t with clips := t.clips ++ [clip], nextClipId := t.nextClipId + 1 }

/-- `EnhancedTrack::getTrackDuration`. -/
def getTrackDuration (t : EnhancedTrack) : ℚ :=
  t.clips.foldl (fun maxEnd clip => max maxEnd clip.getEndTime) 0

end EnhancedTrack

/-- The structure `TimelineView::ViewState` with the zoom limits of `TimelineView`. -/
structure TimelineView where
  startTime : ℚ
  zoomLevel : ℚ
  viewWidth : ℚ
  maxTime : ℚ
  minZoom : ℚ
  maxZoom : ℚ
  deriving DecidableEq

/-- The data members of `class AdvancedTrackManager`. -/
structure AdvancedTrackManager where
  tracks : List EnhancedTrack
  timeline : TimelineView
  selectedTrackId : Int
  nextTrackId : Int
  currentTime : ℚ
  isPlaying : Bool
  deriving DecidableEq

namespace AdvancedTrackManager

/-- The constructor `AdvancedTrackManager()`. -/
def mk_ : AdvancedTrackManager :=
  { tracks := [],
    timeline := { startTime := 0, zoomLevel := 50, viewWidth := 800, maxTime := 600,
                  minZoom := 1 / 10, maxZoom := 1000 },
    selectedTrackId := -1, nextTrackId := 1, currentTime := 0, isPlaying := false }

/-- `AdvancedTrackManager::addTrack`: the manager after the call. -/
def addTrack (m : AdvancedTrackManager) (name : String) : AdvancedTrackManager :=
  { m with tracks := m.tracks ++ [EnhancedTrack.mk_ m.nextTrackId name],
           nextTrackId := m.nextTrackId + 1 }

/-- `AdvancedTrackManager::getTrack`: the first track with the id, `none` for null. -/
def getTrack (m : AdvancedTrackManager) (trackId : Int) : Option EnhancedTrack :=
  m.tracks.find? (fun track => track.state.id = trackId)

end AdvancedTrackManager

/-- The clip loop of `EnhancedCPPDAWEngine::splitClip`: the first clip with the id is split in
place and the id of the returned right-hand clip is the result; the right-hand clip itself is
dropped (`// In a full implementation, add the new clip to the track`).  `none` when no clip
has the id. -/
def splitClipLoop (clipId : Int) (splitTime : ℚ) : List AudioClip → Option (List AudioClip × Int)
  | [] => none
  | clip :: rest =>
    if clip.clipId = clipId then
      let r := clip.split (TimePosition.mk_ splitTime)
      some (r.2 :: rest, r.1.clipId)
    else
      (splitClipLoop clipId splitTime rest).map (fun r => (clip :: r.1, r.2))

/-- The track lookup of `EnhancedCPPDAWEngine::splitClip`: the first track with the id is the
one `getTrack` hands out; its clips are run through the clip loop. -/
def splitClipTracks (trackId clipId : Int) (splitTime : ℚ) :
    List EnhancedTrack → Option (List EnhancedTrack × Int)
  | [] => none
  | track :: rest =>
    if track.state.id = trackId then
      (splitClipLoop clipId splitTime track.clips).map
        (fun r => ({ track with clips := r.1 } :: rest, r.2))
    else
      (splitClipTracks trackId clipId splitTime rest).map (fun r => (track :: r.1, r.2))

/-- `EnhancedCPPDAWEngine::splitClip` on the engine's track manager: the manager after the call
and the returned id (`-1` when the track or the clip is not found). -/
def EnhancedCPPDAWEngine_splitClip (trackManager : AdvancedTrackManager)
    (trackId clipId : Int) (splitTime : ℚ) : AdvancedTrackManager × Int :=
  match splitClipTracks trackId clipId splitTime trackManager.tracks with
  | some r => ({ trackManager with tracks := r.1 }, r.2)
  | none => (trackManager, -1)

/-- A manager with one track holding one clip over `[1, 5)`. -/
def oneClipManager : AdvancedTrackManager :=
  { AdvancedTrackManager.mk_ with
    tracks := [(EnhancedTrack.mk_ 1 "Track").addClip "Clip" (TimePosition.mk_ 1)
      (TimePosition.mk_ 4)],
    nextTrackId := 2 }

/-! ## `cpp-daw/include/FXPlugin_new.hpp`, `cpp-daw/plugins/BasicFX_old.cpp` -/

/-- The call `v.resize(n, x)` of a `std::vector`: truncate, or pad with `x`. -/
def vecResize {K : Type} (l : List K) (n : Nat) (x : K) : List K :=
  l.take n ++ List.replicate (n - l.length) x

/-- The assignment `m[key] = value` of a `std::map` kept as an association list. -/
def mapAssign {V : Type} (m : List (String × V)) (key : String) (value : V) :
    List (String × V) :=
  if m.any (fun e => e.1 = key) then m.map (fun e => if e.1 = key then (key, value) else e)
  else m ++ [(key, value)]

/-- The lookup `m.find(key)` of a `std::map` kept as an association list. -/
def mapFind {V : Type} (m : List (String × V)) (key : String) : Option V :=
  (m.find? (fun e => e.1 = key)).map (fun e => e.2)

namespace Classic

variable {K : Type} [LinearOrderedField K] [FloorRing K]

/-- The structure `FXPlugin::Parameter`. -/
structure Parameter (K : Type) where
  name : String
  value : K
  minValue : K
  maxValue : K
  displayName : String

/-- The data members of the base class `FXPlugin` of `FXPlugin_new.hpp`. -/
structure FXPlugin (K : Type) where
  m_name : String
  m_enabled : Bool
  m_parameters : List (String × Parameter K)

namespace FXPlugin

/-- The constructor `FXPlugin(name)`. -/
def mk_ (name : String) : FXPlugin K :=
  { m_name := name, m_enabled := true, m_parameters := [] }

/-- `FXPlugin::addParameter`. -/
def addParameter (p : FXPlugin K) (name : String) (defaultValue minValue maxValue : K)
    (displayName : String) : FXPlugin K :=
  let param : Parameter K :=
    { name := name, value := defaultValue, minValue := minValue, maxValue := maxValue,
      displayName := displayName }
  { p with m_parameters := mapAssign p.m_parameters name param }

/-- `FXPlugin::setParameter` (the hook `onParameterChanged` does nothing). -/
def setParameter (p : FXPlugin K) (name : String) (value : K) : FXPlugin K :=
  match mapFind p.m_parameters name with
  | some param =>
    let clamped : Parameter K :=
      { param with value := stdClamp value param.minValue param.maxValue }
    { p with m_parameters := mapAssign p.m_parameters name clamped }
  | none => p

/-- `FXPlugin::getParameter`. -/
def getParameter (p : FXPlugin K) (name : String) : K :=
  match mapFind p.m_parameters name with
  | some param => param.value
  | none => 0

/-- `FXPlugin::hasParameter`. -/
def hasParameter (p : FXPlugin K) (name : String) : Bool :=
  (mapFind p.m_parameters name).isSome

/-- `FXPlugin::setEnabled`. -/
def setEnabled (p : FXPlugin K) (enabled : Bool) : FXPlugin K := { p with m_enabled := enabled }

/-- `FXPlugin::isEnabled`. -/
def isEnabled (p : FXPlugin K) : Bool := p.m_enabled

end FXPlugin

/-- The read position of a circular delay line: `delaySamples` cells behind `writePosition`. -/
def delayReadPosition (size writePosition delaySamples : Nat) : Nat :=
  if writePosition ≥ delaySamples then writePosition - delaySamples
  else size - delaySamples + writePosition

/-- The data members of `class DelayFX`. -/
structure DelayFX (K : Type) where
  base : FXPlugin K
  m_sampleRate : K
  m_delayBufferL : List K
  m_delayBufferR : List K
  m_writePosition : Nat

namespace DelayFX

/-- `DelayFX::setSampleRate`. -/
def setSampleRate (d : DelayFX K) (sampleRate : K) : DelayFX K :=
  let maxDelaySamples := truncToSize (sampleRate * 2)
  { d with m_sampleRate := sampleRate,
           m_delayBufferL := vecResize d.m_delayBufferL maxDelaySamples 0,
           m_delayBufferR := vecResize d.m_delayBufferR maxDelaySamples 0,
           m_writePosition := 0 }

/-- The constructor `DelayFX()`. -/
def mk_ : DelayFX K :=
  let base : FXPlugin K := FXPlugin.mk_ "Delay"
  let base := base.addParameter "delayTime" (1 / 4) (1 / 1000) 2 "Delay Time"
  let base := base.addParameter "feedback" (3 / 10) 0 (19 / 20) "Feedback"
  let base := base.addParameter "wetLevel" (3 / 10) 0 1 "Wet Level"
  let base := base.addParameter "dryLevel" (7 / 10) 0 1 "Dry Level"
  setSampleRate
    { base := base, m_sampleRate := 0, m_delayBufferL := [], m_delayBufferR := [],
      m_writePosition := 0 }
    44100

/-- The body of the sample loop of `DelayFX::process` at sample `i`. -/
def processSample (delaySamples : Nat) (feedback wetLevel dryLevel : K) (i : Nat)
    (s : DelayFX K × AudioBuffer K) : DelayFX K × AudioBuffer K :=
  let d := s.1
  let buffer := s.2
  let readPosition := delayReadPosition d.m_delayBufferL.length d.m_writePosition delaySamples
  let delayedL := d.m_delayBufferL.getD readPosition 0
  let delayedR := d.m_delayBufferR.getD readPosition 0
  let inputL := cellGet buffer.m_data 0 i
  let inputR := cellGet buffer.m_data 1 i
  let bufL := d.m_delayBufferL.set d.m_writePosition (inputL + delayedL * feedback)
  let bufR := d.m_delayBufferR.set d.m_writePosition (inputR + delayedR * feedback)
  let data := cellSet buffer.m_data 0 i (inputL * dryLevel + delayedL * wetLevel)
  let data := cellSet data 1 i (inputR * dryLevel + delayedR * wetLevel)
  ({ d with m_delayBufferL := bufL, m_delayBufferR := bufR,
            m_writePosition := (d.m_writePosition + 1) % bufL.length },
   { buffer with m_data := data })

/-- `DelayFX::process`: the effect and the buffer after the call. -/
def process (d : DelayFX K) (buffer : AudioBuffer K) (numSamples : Nat) :
    DelayFX K × AudioBuffer K :=
  if !d.base.isEnabled ∨ buffer.getNumChannels < 2 then (d, buffer)
  else
    let delayTime := d.base.getParameter "delayTime"
    let feedback := d.base.getParameter "feedback"
    let wetLevel := d.base.getParameter "wetLevel"
    let dryLevel := d.base.getParameter "dryLevel"
    let delaySamples :=
      min (truncToSize (delayTime * d.m_sampleRate)) (d.m_delayBufferL.length - 1)
    forLoop numSamples (processSample delaySamples feedback wetLevel dryLevel) (d, buffer)

end DelayFX

/-- The data members of `class ChorusFX`. -/
structure ChorusFX (K : Type) where
  base : FXPlugin K
  m_sampleRate : K
  m_delayBufferL : List K
  m_delayBufferR : List K
  m_writePosition : Nat
  m_phase : K

namespace ChorusFX

/-- `ChorusFX::setSampleRate`. -/
def setSampleRate (c : ChorusFX K) (sampleRate : K) : ChorusFX K :=
  let maxDelaySamples := truncToSize (sampleRate * (5 / 100))
  { c with m_sampleRate := sampleRate,
           m_delayBufferL := vecResize c.m_delayBufferL maxDelaySamples 0,
           m_delayBufferR := vecResize c.m_delayBufferR maxDelaySamples 0,
           m_writePosition := 0 }

/-- The constructor `ChorusFX()`. -/
def mk_ : ChorusFX K :=
  let base : FXPlugin K := FXPlugin.mk_ "Chorus"
  let base := base.addParameter "rate" (1 / 2) (1 / 10) 5 "Rate"
  let base := base.addParameter "depth" (3 / 10) 0 1 "Depth"
  let base := base.addParameter "wetLevel" (1 / 2) 0 1 "Wet Level"
  let base := base.addParameter "dryLevel" (1 / 2) 0 1 "Dry Level"
  let base := base.addParameter "voices" (1 / 2) 0 1 "Voices"
  let c := setSampleRate
    { base := base, m_sampleRate := 0, m_delayBufferL := [], m_delayBufferR := [],
      m_writePosition := 0, m_phase := 0 }
    44100
  { c with m_phase := 0 }

/-- The body of the voice loop of `ChorusFX::process`: one voice's interpolated taps are added
to the running sums `(chorusL, chorusR)`.  The conversion to `size_t` is that of a non-negative
`modulatedDelay`; for a negative one the source's conversion is undefined (`castToSize`). -/
def voiceStep (M : Libm K) (c : ChorusFX K) (depth : K) (numVoices : Nat) (voice : Nat)
    (acc : K × K) : K × K :=
  let voicePhase := c.m_phase + ((voice : K) * 2 * M.pi / (numVoices : K))
  let lfoValue := M.sin voicePhase
  let baseDelay : K := ((voice : K) + 1) * (5 / 1000)
  let modulatedDelay := baseDelay + lfoValue * depth * (1 / 100)
  let delaySamples :=
    min (truncToSize (modulatedDelay * c.m_sampleRate)) (c.m_delayBufferL.length - 1)
  let readPosition := delayReadPosition c.m_delayBufferL.length c.m_writePosition delaySamples
  let nextPosition := (readPosition + 1) % c.m_delayBufferL.length
  let fraction := modulatedDelay * c.m_sampleRate - (delaySamples : K)
  let delayedL := c.m_delayBufferL.getD readPosition 0 * (1 - fraction)
    + c.m_delayBufferL.getD nextPosition 0 * fraction
  let delayedR := c.m_delayBufferR.getD readPosition 0 * (1 - fraction)
    + c.m_delayBufferR.getD nextPosition 0 * fraction
  (acc.1 + delayedL / (numVoices : K), acc.2 + delayedR / (numVoices : K))

/-- The body of the sample loop of `ChorusFX::process` at sample `i`. -/
def processSample (M : Libm K) (depth wetLevel dryLevel : K) (numVoices : Nat)
    (phaseIncrement : K) (i : Nat) (s : ChorusFX K × AudioBuffer K) :
    ChorusFX K × AudioBuffer K :=
  let c := s.1
  let buffer := s.2
  let inputL := cellGet buffer.m_data 0 i
  let inputR := cellGet buffer.m_data 1 i
  let c := { c with m_delayBufferL := c.m_delayBufferL.set c.m_writePosition inputL,
                    m_delayBufferR := c.m_delayBufferR.set c.m_writePosition inputR }
  let chorus := forLoop numVoices (voiceStep M c depth numVoices) (0, 0)
  let data := cellSet buffer.m_data 0 i (inputL * dryLevel + chorus.1 * wetLevel)
  let data := cellSet data 1 i (inputR * dryLevel + chorus.2 * wetLevel)
  let phase := c.m_phase + phaseIncrement
  let phase := if phase ≥ 2 * M.pi then phase - 2 * M.pi else phase
  ({ c with m_writePosition := (c.m_writePosition + 1) % c.m_delayBufferL.length,
            m_phase := phase },
   { buffer with m_data := data })

/-- `ChorusFX::process`: the effect and the buffer after the call. -/
def process (M : Libm K) (c : ChorusFX K) (buffer : AudioBuffer K) (numSamples : Nat) :
    ChorusFX K × AudioBuffer K :=
  if !c.base.isEnabled ∨ buffer.getNumChannels < 2 then (c, buffer)
  else
    let rate := c.base.getParameter "rate"
    let depth := c.base.getParameter "depth"
    let wetLevel := c.base.getParameter "wetLevel"
    let dryLevel := c.base.getParameter "dryLevel"
    let voicesParam := c.base.getParameter "voices"
    let numVoices : Nat := if voicesParam < 1 / 2 then 2 else 4
    let phaseIncrement := (2 * M.pi * rate) / c.m_sampleRate
    forLoop numSamples (processSample M depth wetLevel dryLevel numVoices phaseIncrement)
      (c, buffer)

end ChorusFX

/-- The data members of `ReverbFX::CombFilter`. -/
structure CombFilter (K : Type) where
  m_buffer : List K
  m_delayLength : Nat
  m_writePos : Nat
  m_filterState : K

namespace CombFilter

/-- The constructor `CombFilter(delayLength)`. -/
def mk_ (delayLength : Nat) : CombFilter K :=
  { m_buffer := List.replicate delayLength 0, m_delayLength := delayLength, m_writePos := 0,
    m_filterState := 0 }

/-- `CombFilter::process`: the filter after the call and the returned sample. -/
def process (f : CombFilter K) (input feedback damping : K) : CombFilter K × K :=
  let output := f.m_buffer.getD f.m_writePos 0
  let filterState := output * (1 - damping) + f.m_filterState * damping
  ({ f with m_filterState := filterState,
            m_buffer := f.m_buffer.set f.m_writePos (input + filterState * feedback),
            m_writePos := (f.m_writePos + 1) % f.m_delayLength },
   output)

end CombFilter

/-- The data members of `ReverbFX::AllpassFilter`. -/
structure AllpassFilter (K : Type) where
  m_buffer : List K
  m_delayLength : Nat
  m_writePos : Nat

namespace AllpassFilter

/-- The constructor `AllpassFilter(delayLength)`. -/
def mk_ (delayLength : Nat) : AllpassFilter K :=
  { m_buffer := List.replicate delayLength 0, m_delayLength := delayLength, m_writePos := 0 }

/-- `AllpassFilter::process`: the filter after the call and the returned sample. -/
def process (f : AllpassFilter K) (input feedback : K) : AllpassFilter K × K :=
  let delayedInput := f.m_buffer.getD f.m_writePos 0
  let output := -input * feedback + delayedInput
  ({ f with m_buffer := f.m_buffer.set f.m_writePos (input + delayedInput * feedback),
            m_writePos := (f.m_writePos + 1) % f.m_delayLength },
   output)

end AllpassFilter

/-- The data members of `class ReverbFX`. -/
structure ReverbFX (K : Type) where
  base : FXPlugin K
  m_sampleRate : K
  m_combFilters : List (CombFilter K)
  m_allpassFilters : List (AllpassFilter K)

namespace ReverbFX

/-- `ReverbFX::setSampleRate`. -/
def setSampleRate (r : ReverbFX K) (sampleRate : K) : ReverbFX K :=
  let combDelays : List Nat := [1557, 1617, 1491, 1422, 1277, 1356, 1188, 1116]
  let allpassDelays : List Nat := [225, 556, 441, 341]
  { r with m_sampleRate := sampleRate,
           m_combFilters := combDelays.map (fun delay =>
             CombFilter.mk_ (truncToSize ((delay : K) * sampleRate / 44100))),
           m_allpassFilters := allpassDelays.map (fun delay =>
             AllpassFilter.mk_ (truncToSize ((delay : K) * sampleRate / 44100))) }

/-- The constructor `ReverbFX()`. -/
def mk_ : ReverbFX K :=
  let base : FXPlugin K := FXPlugin.mk_ "Reverb"
  let base := base.addParameter "roomSize" (1 / 2) 0 1 "Room Size"
  let base := base.addParameter "damping" (1 / 2) 0 1 "Damping"
  let base := base.addParameter "wetLevel" (3 / 10) 0 1 "Wet Level"
  let base := base.addParameter "dryLevel" (7 / 10) 0 1 "Dry Level"
  let base := base.addParameter "width" 1 0 1 "Stereo Width"
  setSampleRate { base := base, m_sampleRate := 0, m_combFilters := [], m_allpassFilters := [] }
    44100

/-- The comb loop of `ReverbFX::process`: the filters after the loop and the sums
`(reverbL, reverbR)`, even-indexed filters adding to the left, odd-indexed to the right. -/
def processCombs (combs : List (CombFilter K)) (inputMono roomSize damping : K) :
    List (CombFilter K) × K × K :=
  let r := combs.foldl
    (fun (acc : List (CombFilter K) × Nat × K × K) comb =>
      let res := comb.process inputMono roomSize damping
      let cf := acc.2.1
      if cf % 2 = 0 then (acc.1 ++ [res.1], cf + 1, acc.2.2.1 + res.2, acc.2.2.2)
      else (acc.1 ++ [res.1], cf + 1, acc.2.2.1, acc.2.2.2 + res.2))
    ([], 0, 0, 0)
  (r.1, r.2.2.1, r.2.2.2)

/-- The allpass loop of `ReverbFX::process`: every filter processes the left sum and then the
right sum. -/
def processAllpasses (allpasses : List (AllpassFilter K)) (reverbL reverbR : K) :
    List (AllpassFilter K) × K × K :=
  allpasses.foldl
    (fun (acc : List (AllpassFilter K) × K × K) allpass =>
      let resL := allpass.process acc.2.1 (1 / 2)
      let resR := resL.1.process acc.2.2 (1 / 2)
      (acc.1 ++ [resR.1], resL.2, resR.2))
    ([], reverbL, reverbR)

/-- The body of the sample loop of `ReverbFX::process` at sample `i`. -/
def processSample (roomSize damping wetLevel dryLevel width : K) (i : Nat)
    (s : ReverbFX K × AudioBuffer K) : ReverbFX K × AudioBuffer K :=
  let r := s.1
  let buffer := s.2
  let inputL := cellGet buffer.m_data 0 i
  let inputR := cellGet buffer.m_data 1 i
  let inputMono := (inputL + inputR) * (1 / 2)
  let combs := processCombs r.m_combFilters inputMono roomSize damping
  let allpasses := processAllpasses r.m_allpassFilters combs.2.1 combs.2.2
  let reverbL := allpasses.2.1
  let reverbR := allpasses.2.2
  let mid := (reverbL + reverbR) * (1 / 2)
  let side := (reverbL - reverbR) * (1 / 2) * width
  let reverbL := mid + side
  let reverbR := mid - side
  let data := cellSet buffer.m_data 0 i (inputL * dryLevel + reverbL * wetLevel)
  let data := cellSet data 1 i (inputR * dryLevel + reverbR * wetLevel)
  ({ r with m_combFilters := combs.1, m_allpassFilters := allpasses.1 },
   { buffer with m_data := data })

/-- `ReverbFX::process`: the effect and the buffer after the call. -/
def process (r : ReverbFX K) (buffer : AudioBuffer K) (numSamples : Nat) :
    ReverbFX K × AudioBuffer K :=
  if !r.base.isEnabled ∨ buffer.getNumChannels < 2 then (r, buffer)
  else
    let roomSize := r.base.getParameter "roomSize"
    let damping := r.base.getParameter "damping"
    let wetLevel := r.base.getParameter "wetLevel"
    let dryLevel := r.base.getParameter "dryLevel"
    let width := r.base.getParameter "width"
    forLoop numSamples (processSample roomSize damping wetLevel dryLevel width) (r, buffer)

end ReverbFX

end Classic

/-! ## `cpp-daw/include/FXPlugin.hpp`, `cpp-daw/plugins/BasicFX.hpp` -/

/-- An index computed in `size_t` arithmetic from a possibly negative `int` sum and reduced
modulo the vector size: the sum wraps modulo `2^64` first. -/
def wrapIndex (x : Int) (size : Nat) : Nat :=
  ((x % (2 ^ 64 : Int)) % (size : Int)).toNat

namespace DAW

variable {K : Type} [LinearOrderedField K] [FloorRing K]

/-- The enumeration `FXParameter::Type`. -/
inductive FXParameterType where
  | RANGE
  | BOOLEAN
  | CHOICE
  deriving DecidableEq, Repr

/-- The structure `FXParameter`. -/
structure FXParameter (K : Type) where
  id : String
  name : String
  type : FXParameterType
  minValue : K
  maxValue : K
  defaultValue : K
  step : K
  choices : List String

/-- `FXParameter::Range`. -/
def FXParameter.Range (id name : String) (min max defaultVal stepSize : K) : FXParameter K :=
  { id := id, name := name, type := FXParameterType.RANGE, minValue := min, maxValue := max,
    defaultValue := defaultVal, step := stepSize, choices := [] }

/-- The data members of the base class `FXPlugin` of `FXPlugin.hpp`. -/
structure FXPlugin (K : Type) where
  id_ : String
  name_ : String
  description_ : String
  parameters_ : List (String × K)
  parameterDefs_ : List (FXParameter K)
  sampleRate_ : Int
  maxBufferSize_ : Int
  bypassed_ : Bool

namespace FXPlugin

/-- The constructor `FXPlugin(id, name, description)` with the member defaults. -/
def mk_ (id name description : String) : FXPlugin K :=
  { id_ := id, name_ := name, description_ := description, parameters_ := [],
    parameterDefs_ := [], sampleRate_ := 48000, maxBufferSize_ := 512, bypassed_ := false }

/-- `FXPlugin::SetParameter` (the hook `OnParameterChanged` does nothing). -/
def SetParameter (p : FXPlugin K) (paramId : String) (value : K) : FXPlugin K :=
  { p with parameters_ := mapAssign p.parameters_ paramId value }

/-- `FXPlugin::GetParameter`. -/
def GetParameter (p : FXPlugin K) (paramId : String) : K :=
  match mapFind p.parameters_ paramId with
  | some value => value
  | none => 0

/-- `FXPlugin::AddParameter`. -/
def AddParameter (p : FXPlugin K) (param : FXParameter K) : FXPlugin K :=
  { p with parameterDefs_ := p.parameterDefs_ ++ [param],
           parameters_ := mapAssign p.parameters_ param.id param.defaultValue }

/-- `FXPlugin::Initialize`. -/
def Initialize (p : FXPlugin K) (sampleRate maxBufferSize : Int) : FXPlugin K :=
  { p with sampleRate_ := sampleRate, maxBufferSize_ := maxBufferSize }

/-- `FXPlugin::SetBypassed`. -/
def SetBypassed (p : FXPlugin K) (bypassed : Bool) : FXPlugin K :=
  { p with bypassed_ := bypassed }

/-- `FXPlugin::IsBypassed`. -/
def IsBypassed (p : FXPlugin K) : Bool := p.bypassed_

end FXPlugin

/-- The data members of `class DelayPlugin`. -/
structure DelayPlugin (K : Type) where
  base : FXPlugin K
  delayLineL_ : List K
  delayLineR_ : List K
  writeIndexL_ : Nat
  writeIndexR_ : Nat
  filterStateL_ : K
  filterStateR_ : K

namespace DelayPlugin

/-- The constructor `DelayPlugin()`. -/
def mk_ : DelayPlugin K :=
  let base : FXPlugin K :=
    FXPlugin.mk_ "delay" "Stereo Delay" "Ping-pong style delay with feedback and tone"
  let base := base.AddParameter
    (FXParameter.Range "timeL" "Time L" (2 / 100) (12 / 10) (3 / 10) (1 / 100))
  let base := base.AddParameter
    (FXParameter.Range "timeR" "Time R" (2 / 100) (12 / 10) (45 / 100) (1 / 100))
  let base := base.AddParameter
    (FXParameter.Range "feedback" "Feedback" 0 (95 / 100) (35 / 100) (1 / 100))
  let base := base.AddParameter (FXParameter.Range "wet" "Wet" 0 1 (3 / 10) (1 / 100))
  let base := base.AddParameter (FXParameter.Range "tone" "Tone" 500 8000 4000 10)
  { base := base, delayLineL_ := [], delayLineR_ := [], writeIndexL_ := 0, writeIndexR_ := 0,
    filterStateL_ := 0, filterStateR_ := 0 }

/-- `DelayPlugin::Initialize`. -/
def Initialize (d : DelayPlugin K) (sampleRate maxBufferSize : Int) : DelayPlugin K :=
  let maxDelaySamples : Int := truncToInt ((12 / 10 : K) * (sampleRate : K)) + 1
  { d with base := d.base.Initialize sampleRate maxBufferSize,
           delayLineL_ := vecResize d.delayLineL_ maxDelaySamples.toNat 0,
           delayLineR_ := vecResize d.delayLineR_ maxDelaySamples.toNat 0,
           writeIndexL_ := 0, writeIndexR_ := 0, filterStateL_ := 0, filterStateR_ := 0 }

/-- The body of the frame loop of `DelayPlugin::ProcessAudio` at frame `i`. -/
def processFrame (delaySamplesL delaySamplesR : Int) (filterCoeff feedback wet : K) (i : Nat)
    (s : DelayPlugin K × AudioBuffer K) : DelayPlugin K × AudioBuffer K :=
  let d := s.1
  let buffer := s.2
  let readIndexL := wrapIndex
    ((d.writeIndexL_ : Int) - delaySamplesL + (d.delayLineL_.length : Int)) d.delayLineL_.length
  let readIndexR := wrapIndex
    ((d.writeIndexR_ : Int) - delaySamplesR + (d.delayLineR_.length : Int)) d.delayLineR_.length
  let delayedL := d.delayLineL_.getD readIndexL 0
  let delayedR := d.delayLineR_.getD readIndexR 0
  let filterStateL := d.filterStateL_ + filterCoeff * (delayedL - d.filterStateL_)
  let filterStateR := d.filterStateR_ + filterCoeff * (delayedR - d.filterStateR_)
  let delayedL := filterStateL
  let delayedR := filterStateR
  let inputL := buffer.getAt 0 i
  let inputR := buffer.getAt 1 i
  let feedbackL := delayedR * feedback
  let feedbackR := delayedL * feedback
  let lineL := d.delayLineL_.set d.writeIndexL_ (inputL + feedbackL)
  let lineR := d.delayLineR_.set d.writeIndexR_ (inputR + feedbackR)
  let buffer := buffer.setAt 0 i (inputL + delayedL * wet)
  let buffer := buffer.setAt 1 i (inputR + delayedR * wet)
  ({ d with delayLineL_ := lineL, delayLineR_ := lineR,
            writeIndexL_ := (d.writeIndexL_ + 1) % lineL.length,
            writeIndexR_ := (d.writeIndexR_ + 1) % lineR.length,
            filterStateL_ := filterStateL, filterStateR_ := filterStateR },
   buffer)

/-- `DelayPlugin::ProcessAudio`: the plug-in and the buffer after the call. -/
def ProcessAudio (d : DelayPlugin K) (buffer : AudioBuffer K) (sampleRate : Int) :
    DelayPlugin K × AudioBuffer K :=
  if d.base.bypassed_ then (d, buffer)
  else
    let timeL := d.base.GetParameter "timeL"
    let timeR := d.base.GetParameter "timeR"
    let feedback := d.base.GetParameter "feedback"
    let wet := d.base.GetParameter "wet"
    let tone := d.base.GetParameter "tone"
    let delaySamplesL := truncToInt (timeL * (sampleRate : K))
    let delaySamplesR := truncToInt (timeR * (sampleRate : K))
    let cutoff := tone / ((sampleRate : K) * (1 / 2))
    let cutoff := stdClamp cutoff (1 / 100) (99 / 100)
    let filterCoeff := cutoff
    forLoop buffer.GetNumFrames
      (processFrame delaySamplesL delaySamplesR filterCoeff feedback wet) (d, buffer)

end DelayPlugin

/-- The constant `ChorusPlugin::DAW_PI`. -/
def DAW_PI : K := 314159265358979323846 / 100000000000000000000

/-- The data members of `class ChorusPlugin`. -/
structure ChorusPlugin (K : Type) where
  base : FXPlugin K
  delayLine_ : List K
  writeIndex_ : Nat
  lfoPhase_ : K

namespace ChorusPlugin

/-- The constructor `ChorusPlugin()`. -/
def mk_ : ChorusPlugin K :=
  let base : FXPlugin K := FXPlugin.mk_ "chorus" "Chorus" "Classic chorus using modulated delay"
  let base := base.AddParameter
    (FXParameter.Range "rate" "Rate" (5 / 100) 5 (12 / 10) (1 / 100))
  let base := base.AddParameter
    (FXParameter.Range "depth" "Depth" 0 (2 / 100) (45 / 10000) (1 / 10000))
  let base := base.AddParameter (FXParameter.Range "mix" "Mix" 0 1 (4 / 10) (1 / 100))
  { base := base, delayLine_ := [], writeIndex_ := 0, lfoPhase_ := 0 }

/-- `ChorusPlugin::Initialize`. -/
def Initialize (c : ChorusPlugin K) (sampleRate maxBufferSize : Int) : ChorusPlugin K :=
  let maxDelaySamples : Int := truncToInt ((5 / 100 : K) * (sampleRate : K)) + 1
  { c with base := c.base.Initialize sampleRate maxBufferSize,
           delayLine_ := vecResize c.delayLine_ maxDelaySamples.toNat 0,
           writeIndex_ := 0, lfoPhase_ := 0 }

/-- The body of the frame loop of `ChorusPlugin::ProcessAudio` for channel `ch` at frame `i`;
the state is the delay line, the buffer and the local LFO phase. -/
def processFrame (M : Libm K) (writeIndex : Nat) (depth mix lfoIncrement : K)
    (sampleRate : Int) (ch i : Nat) (s : List K × AudioBuffer K × K) :
    List K × AudioBuffer K × K :=
  let delayLine := s.1
  let buffer := s.2.1
  let localLfoPhase := s.2.2
  let lfoValue := M.sin localLfoPhase
  let modDelay := depth * (sampleRate : K) * (1 + lfoValue)
  let readPos : K := (writeIndex : K) - modDelay
  let readPos := if readPos < 0 then readPos + (delayLine.length : K) else readPos
  let readIndex : Int := truncToInt readPos
  let frac := readPos - (readIndex : K)
  let nextIndex := wrapIndex (readIndex + 1) delayLine.length
  let delayedSample := delayLine.getD readIndex.toNat 0 * (1 - frac)
    + delayLine.getD nextIndex 0 * frac
  let delayLine := if ch = 0 then delayLine.set writeIndex (buffer.getAt ch i) else delayLine
  let buffer := buffer.setAt ch i (buffer.getAt ch i * (1 - mix) + delayedSample * mix)
  let localLfoPhase := localLfoPhase + lfoIncrement
  let localLfoPhase :=
    if localLfoPhase > 2 * DAW_PI then localLfoPhase - 2 * DAW_PI else localLfoPhase
  (delayLine, buffer, localLfoPhase)

/-- `ChorusPlugin::ProcessAudio`: the plug-in and the buffer after the call. -/
def ProcessAudio (M : Libm K) (c : ChorusPlugin K) (buffer : AudioBuffer K) (sampleRate : Int) :
    ChorusPlugin K × AudioBuffer K :=
  if c.base.bypassed_ then (c, buffer)
  else
    let rate := c.base.GetParameter "rate"
    let depth := c.base.GetParameter "depth"
    let mix := c.base.GetParameter "mix"
    let lfoIncrement := rate * 2 * DAW_PI / (sampleRate : K)
    let numFrames := buffer.GetNumFrames
    let r := forLoop buffer.GetNumChannels
      (fun ch (s : List K × AudioBuffer K) =>
        let inner := forLoop numFrames
          (processFrame M c.writeIndex_ depth mix lfoIncrement sampleRate ch)
          (s.1, s.2, c.lfoPhase_)
        (inner.1, inner.2.1))
      (c.delayLine_, buffer)
    let lfoPhase := c.lfoPhase_ + lfoIncrement * (numFrames : K)
    let lfoPhase := if lfoPhase > 2 * DAW_PI then lfoPhase - 2 * DAW_PI else lfoPhase
    ({ c with delayLine_ := r.1, lfoPhase_ := lfoPhase,
              writeIndex_ := (c.writeIndex_ + numFrames) % r.1.length },
     r.2)

end ChorusPlugin

end DAW

/-- A `DelayFX` switched off with `setEnabled(false)`. -/
def Classic.disabledDelay : Classic.DelayFX ℚ :=
  { (Classic.DelayFX.mk_ : Classic.DelayFX ℚ) with
    base := (Classic.DelayFX.mk_ : Classic.DelayFX ℚ).base.setEnabled false }

/-! ## `cpp-daw/include/Transport.hpp`: tempo, musical time, metronome -/

namespace DAW

/-- The `std::clamp` that `Transport.hpp` defines for itself: `max(low, min(value, high))`. -/
def clamp {α : Type} [LinearOrder α] (value low high : α) : α :=
  max low (min value high)

namespace Transport

/-- `Transport::SetBPM`. -/
def SetBPM (t : Transport) (bpm : ℚ) : Transport :=
  { t with bpm_ := clamp bpm 20 300 }

/-- `Transport::SetTimeSignature`. -/
def SetTimeSignature (t : Transport) (numerator denominator : Int) : Transport :=
  { t with timeSigNumerator_ := clamp numerator 1 32,
           timeSigDenominator_ := clamp denominator 1 32 }

/-- `Transport::SecondsToBeats`; the argument and the result are exact numbers of any field. -/
def SecondsToBeats {K : Type} [DivisionRing K] (t : Transport) (seconds : K) : K :=
  seconds * ((t.bpm_ : K) / 60)

/-- `Transport::BeatsToSeconds`. -/
def BeatsToSeconds {K : Type} [DivisionRing K] (t : Transport) (beats : K) : K :=
  beats / ((t.bpm_ : K) / 60)

/-- `Transport::SecondsToBars`. -/
def SecondsToBars {K : Type} [DivisionRing K] (t : Transport) (seconds : K) : K :=
  let beats := t.SecondsToBeats seconds
  beats / (t.timeSigNumerator_ : K)

/-- `Transport::BarsToSeconds`. -/
def BarsToSeconds {K : Type} [DivisionRing K] (t : Transport) (bars : K) : K :=
  let beats := bars * (t.timeSigNumerator_ : K)
  t.BeatsToSeconds beats

/-- `Transport::SetMetronomeEnabled`. -/
def SetMetronomeEnabled (t : Transport) (enabled : Bool) : Transport :=
  { t with metronomeEnabled_ := enabled }

/-- `Transport::SecondsToBeats` as the machine computes it: the quotient and the product are
each rounded to `double`. -/
def SecondsToBeatsRounded (t : Transport) (seconds : ℚ) : ℚ :=
  Double.mul seconds (Double.div t.bpm_ 60)

/-- The value `currentTime / beatDuration` of `ShouldTriggerMetronome`, as computed in
`double`. -/
def currentBeatTime (t : Transport) : ℚ :=
  Double.div t.position_ (Double.div 60 t.bpm_)

/-- The value `nextTime / beatDuration` of `ShouldTriggerMetronome`, as computed in
`double`. -/
def nextBeatTime (t : Transport) (samples sampleRate : Int) : ℚ :=
  Double.div (Double.add t.position_ (Double.div (samples : ℚ) (sampleRate : ℚ)))
    (Double.div 60 t.bpm_)

/-- `Transport::ShouldTriggerMetronome`, a `const` member: it reads the state and returns the
flag.  Every operation on `double` is rounded; the result is `none` when a conversion to `int`
is undefined. -/
def ShouldTriggerMetronome (t : Transport) (samples sampleRate : Int) : Option Bool :=
  if !t.metronomeEnabled_ || !t.IsPlaying then some false
  else
    let currentTime := t.position_
    let nextTime := Double.add currentTime (Double.div (samples : ℚ) (sampleRate : ℚ))
    let beatDuration := Double.div 60 t.bpm_
    (Double.toInt (Double.div currentTime beatDuration)).bind fun currentBeat =>
      (Double.toInt (Double.div nextTime beatDuration)).bind fun nextBeat =>
        some (decide (nextBeat > currentBeat))

/-- The documented ranges of the transport state: a non-negative position, a tempo of 20 to 300
BPM, a time signature with both parts in 1..32 and a loop region `0 <= loopStart <= loopEnd`. -/
def InRange (t : Transport) : Prop :=
  0 ≤ t.position_ ∧ (20 ≤ t.bpm_ ∧ t.bpm_ ≤ 300) ∧
  (1 ≤ t.timeSigNumerator_ ∧ t.timeSigNumerator_ ≤ 32) ∧
  (1 ≤ t.timeSigDenominator_ ∧ t.timeSigDenominator_ ≤ 32) ∧
  (0 ≤ t.loopStart_ ∧ t.loopStart_ ≤ t.loopEnd_)

instance (t : Transport) : Decidable t.InRange := by
  unfold InRange
  infer_instance

end Transport

/-- A playing transport at 300 BPM with the metronome on, at position 0.5 s. -/
def clickTransport : Transport :=
  { Transport.init with
    state_ := State.PLAYING, position_ := 1 / 2, bpm_ := 300, metronomeEnabled_ := true }

end DAW

/-! ## `cpp-daw-web/advanced_track_manager.hpp`: solo and removal -/

namespace AdvancedTrackManager

/-- `AdvancedTrackManager::removeTrack`: `remove_if` on the id followed by `erase`. -/
def removeTrack (m : AdvancedTrackManager) (trackId : Int) : AdvancedTrackManager :=
  { m with tracks := m.tracks.filter (fun track => !decide (track.state.id = trackId)) }

/-- The second statement of `soloTrack`: the track that `getTrack(trackId)` hands out (the
first one with the id) gets `isSoloed = true`; nothing happens when `getTrack` returns null. -/
def soloFound (trackId : Int) : List EnhancedTrack → List EnhancedTrack
  | [] => []
  | track :: rest =>
    if track.state.id = trackId then
      { track with state := { track.state with isSoloed := true } } :: rest
    else track :: soloFound trackId rest

/-- `AdvancedTrackManager::soloTrack`: every track is unsoloed first, then the track with the
id is soloed. -/
def soloTrack (m : AdvancedTrackManager) (trackId : Int) : AdvancedTrackManager :=
  let unsoloed := m.tracks.map
    (fun track => { track with state := { track.state with isSoloed := false } })
  { m with tracks := soloFound trackId unsoloed }

end AdvancedTrackManager

/-- A manager with the tracks 1 and 2 after `soloTrack(1)`. -/
def soloedManager : AdvancedTrackManager :=
  ((AdvancedTrackManager.mk_.addTrack "Drums").addTrack "Bass").soloTrack 1

/-! ## `cpp-daw/plugins/BasicFX.hpp`: the parameters of `DelayPlugin` -/

namespace DAW

namespace DelayPlugin

variable {K : Type} [LinearOrderedField K] [FloorRing K]

/-- `SetParameter` on a `DelayPlugin`: the member inherited from `FXPlugin`. -/
def SetParameter (d : DelayPlugin K) (paramId : String) (value : K) : DelayPlugin K :=
  { d with base := d.base.SetParameter paramId value }

/-- `GetParameter` on a `DelayPlugin`: the member inherited from `FXPlugin`. -/
def GetParameter (d : DelayPlugin K) (paramId : String) : K :=
  d.base.GetParameter paramId

end DelayPlugin

end DAW

/-- The base plugin of a `DelayFX` after the first two `addParameter` calls of its constructor. -/
def Classic.feedbackPlugin : Classic.FXPlugin ℚ :=
  ((Classic.FXPlugin.mk_ "Delay").addParameter "delayTime" (1 / 4) (1 / 1000) 2 "Delay Time")
    |>.addParameter "feedback" (3 / 10) 0 (19 / 20) "Feedback"

/-! ## `cpp-daw/plugins/BasicFX_old.cpp`: `reset` -/

namespace Classic

variable {K : Type} [LinearOrderedField K] [FloorRing K]

/-- `DelayFX::reset`: both delay lines are filled with zeros and the write position is 0. -/
def DelayFX.reset (d : DelayFX K) : DelayFX K :=
  { d with m_delayBufferL := d.m_delayBufferL.map (fun _ => 0),
           m_delayBufferR := d.m_delayBufferR.map (fun _ => 0),
           m_writePosition := 0 }

/-- `ReverbFX::CombFilter::reset`. -/
def CombFilter.reset (f : CombFilter K) : CombFilter K :=
  { f with m_buffer := f.m_buffer.map (fun _ => 0), m_writePos := 0, m_filterState := 0 }

/-- `ReverbFX::AllpassFilter::reset`: the body in the source is empty, the filter is left as it
is. -/
def AllpassFilter.reset (f : AllpassFilter K) : AllpassFilter K := f

/-- `ReverbFX::reset`: every comb filter and every allpass filter is reset. -/
def ReverbFX.reset (r : ReverbFX K) : ReverbFX K :=
  { r with m_combFilters := r.m_combFilters.map CombFilter.reset,
           m_allpassFilters := r.m_allpassFilters.map AllpassFilter.reset }

/-- A stereo buffer of five samples holding a unit impulse in both channels. -/
def impulseBuffer : AudioBuffer ℚ :=
  { m_numChannels := 2, m_numSamples := 5, m_sampleRate := 196,
    m_data := [[1, 0, 0, 0, 0], [1, 0, 0, 0, 0]] }

/-- A stereo buffer holding one silent sample. -/
def silentBuffer : AudioBuffer ℚ :=
  { m_numChannels := 2, m_numSamples := 1, m_sampleRate := 196, m_data := [[0], [0]] }

/-- A `ReverbFX` at a sample rate of 196 Hz (comb lengths 6, 7, 6, 6, 5, 6, 5, 4 and allpass
lengths 1, 2, 1, 1). -/
def smallReverb : ReverbFX ℚ := ReverbFX.mk_.setSampleRate 196

/-- The small reverb after it has processed the impulse. -/
def rungReverb : ReverbFX ℚ := (smallReverb.process impulseBuffer 5).1

end Classic

/-! ## `cpp-daw/src/Clip.cpp`: rendering -/

/-- The difference `a - b` of two `size_t` values: it wraps modulo `2^64`. -/
def sizeSub (a b : Nat) : Nat :=
  (((a : Int) - (b : Int)) % (2 ^ 64 : Int)).toNat

namespace Classic

namespace Clip

variable {K : Type} [LinearOrderedField K] [FloorRing K]

/-- The body of the sample loop of `Clip::processAudioData` on channel `ch` at index `i`.  The
flag of the state is set once a `break` has left the loop; the later indices then do nothing. -/
def processAudioStep (c : Clip K) (audio : AudioBuffer K)
    (outputStartSample clipStartSample ch i : Nat) (s : Bool × AudioBuffer K) :
    Bool × AudioBuffer K :=
  if s.1 = true then s
  else
    let outputBuffer := s.2
    let clipSamples := audio.getNumSamples
    let clipPos := clipStartSample + i
    let outputPos := outputStartSample + i
    if outputPos ≥ outputBuffer.getNumSamples then (true, outputBuffer)
    else
      let clipPos :=
        if c.m_isLooped = true ∧ clipPos ≥ clipSamples then
          let loopLength := truncToSize ((c.m_loopEnd - c.m_loopStart) * c.m_sampleRate)
          if loopLength > 0 then
            truncToSize (c.m_loopStart * c.m_sampleRate) + clipPos % loopLength
          else clipPos % clipSamples
        else clipPos
      if clipPos ≥ clipSamples then (true, outputBuffer)
      else
        let sample := cellGet audio.m_data ch clipPos * c.m_gain
        let sample := sample * c.calculateFadeMultiplier clipPos
        (false, outputBuffer.addSample ch outputPos sample)

/-- `Clip::processAudioData`. -/
def processAudioData (c : Clip K) (outputBuffer : AudioBuffer K)
    (outputStartSample clipStartSample numSamples : Nat) : AudioBuffer K :=
  match c.m_audioData with
  | none => outputBuffer
  | some audio =>
    let channelsToProcess := min outputBuffer.getNumChannels audio.getNumChannels
    forLoop channelsToProcess
      (fun ch out =>
        (forLoop numSamples (processAudioStep c audio outputStartSample clipStartSample ch)
          (false, out)).2)
      outputBuffer

/-- `Clip::process`: the output buffer after the call. -/
def process (c : Clip K) (outputBuffer : AudioBuffer K) (currentSample numSamples : Nat)
    (isPlaying : Bool) : AudioBuffer K :=
  if isPlaying = false ∨ c.m_isMuted = true ∨ c.m_audioData.isNone = true ∨ c.m_duration ≤ 0 then
    outputBuffer
  else
    let currentTimeSeconds := (currentSample : K) / c.m_sampleRate
    let clipEndTime := c.m_startTime + c.m_duration
    if currentTimeSeconds ≥ clipEndTime ∨
        currentTimeSeconds + (numSamples : K) / c.m_sampleRate ≤ c.m_startTime then
      outputBuffer
    else
      let outputStartSample :=
        if currentTimeSeconds < c.m_startTime then
          truncToSize ((c.m_startTime - currentTimeSeconds) * c.m_sampleRate)
        else 0
      let startSampleInClip :=
        if currentTimeSeconds < c.m_startTime then 0
        else truncToSize ((currentTimeSeconds - c.m_startTime) * c.m_sampleRate)
      let endSampleInClip :=
        if currentTimeSeconds + (numSamples : K) / c.m_sampleRate > clipEndTime then
          min numSamples (truncToSize ((clipEndTime - currentTimeSeconds) * c.m_sampleRate))
        else numSamples
      let samplesToProcess := sizeSub endSampleInClip outputStartSample
      if samplesToProcess = 0 then outputBuffer
      else c.processAudioData outputBuffer outputStartSample startSampleInClip samplesToProcess

end Clip

/-- A clip at 4 Hz over `[1, 2)` holding the stereo samples `1, 2, 3, 4` and `5, 6, 7, 8`. -/
def tonePart : Clip ℚ :=
  { Clip.mk_ "tone" 4 with
    m_startTime := 1, m_duration := 1,
    m_audioData := some { m_numChannels := 2, m_numSamples := 4, m_sampleRate := 4,
                          m_data := [[1, 2, 3, 4], [5, 6, 7, 8]] } }

/-- A clip at 4 Hz over `[5/4, 9/4)` with gain 2 holding the mono samples `1, 1, 1, 1`. -/
def overlapPart : Clip ℚ :=
  { Clip.mk_ "overlap" 4 with
    m_startTime := 5 / 4, m_duration := 1, m_gain := 2,
    m_audioData := some { m_numChannels := 1, m_numSamples := 4, m_sampleRate := 4,
                          m_data := [[1, 1, 1, 1]] } }

/-- A stereo output buffer of eight samples at 4 Hz holding `10` everywhere. -/
def mixBuffer : AudioBuffer ℚ :=
  { m_numChannels := 2, m_numSamples := 8, m_sampleRate := 4,
    m_data := [[10, 10, 10, 10, 10, 10, 10, 10], [10, 10, 10, 10, 10, 10, 10, 10]] }

end Classic

/-! ## `cpp-daw/plugins/BasicFX_old.cpp`: a delay over successive blocks -/

namespace Classic

namespace DelayFX

variable {K : Type} [LinearOrderedField K] [FloorRing K]

/-- Successive calls of `process`, one per block `(buffer, numSamples)` of a stream: the effect
after the last block and the processed blocks. -/
def processStream (d : DelayFX K) : List (AudioBuffer K × Nat) → DelayFX K × List (AudioBuffer K)
  | [] => (d, [])
  | block :: rest =>
    let r := d.process block.1 block.2
    let r2 := processStream r.1 rest
    (r2.1, r.2 :: r2.2)

/-- Every value held in either delay line has magnitude at most `B`. -/
def StoredWithin (d : DelayFX K) (B : K) : Prop :=
  (∀ v ∈ d.m_delayBufferL, |v| ≤ B) ∧ (∀ v ∈ d.m_delayBufferR, |v| ≤ B)

instance (d : DelayFX K) (B : K) : Decidable (d.StoredWithin B) := by
  unfold StoredWithin
  infer_instance

end DelayFX

/-- A `DelayFX` at a sample rate of 4 Hz: delay lines of 8 cells, a delay of one sample. -/
def smallDelay : DelayFX ℚ := DelayFX.mk_.setSampleRate 4

end Classic

/-! ## `cpp-daw/src/AudioBuffer.cpp`: `clearRange` -/

/-- The call `std::fill(v.begin() + first, v.begin() + last, x)` on a vector.  The iterators
must delimit a range of the vector, `first <= last <= v.size()`: the loop
`for (; first != last; ++first) *first = x` otherwise runs past `last` and stores outside the
vector, and the result is `none`. -/
def stdFill {K : Type} (v : List K) (first last : Nat) (x : K) : Option (List K) :=
  if first ≤ last ∧ last ≤ v.length then
    some (v.take first ++ List.replicate (last - first) x ++ v.drop last)
  else none

namespace Classic

namespace AudioBuffer

variable {K : Type} [LinearOrderedField K] [FloorRing K]

/-- `AudioBuffer::clearRange(startSample, numSamples)`; the sum is a `size_t` sum.  `none` when
one of the `std::fill` calls is handed iterators that do not delimit a range. -/
def clearRange (b : AudioBuffer K) (startSample numSamples : Nat) : Option (AudioBuffer K) :=
  let endSample := min ((startSample + numSamples) % 2 ^ 64) b.m_numSamples
  (b.m_data.mapM (fun channel => stdFill channel startSample endSample 0)).map
    (fun data => { b with m_data := data })

end AudioBuffer

end Classic

/-! ## `cpp-daw/include/Transport.hpp`: the musical position -/

namespace DAW

/-- The structure `Transport::MusicalPosition`. -/
structure MusicalPosition where
  bars : Int
  beats : Int
  ticks : Int
  fractionalTicks : ℚ
  deriving DecidableEq

/-- `Transport::GetMusicalPosition(ticksPerBeat)`.  Every operation on `double` is rounded,
`std::floor` and the conversions from `int` are exact, `%` on `int` is the truncating
remainder; the result is `none` when a conversion to `int` or the remainder is undefined. -/
def Transport.GetMusicalPosition (t : Transport) (ticksPerBeat : Int) :
    Option MusicalPosition :=
  let totalBeats := t.SecondsToBeatsRounded t.position_
  (Double.toInt (Double.div totalBeats (t.timeSigNumerator_ : ℚ))).bind fun bars =>
    (Double.toInt totalBeats).bind fun wholeBeats =>
      if t.timeSigNumerator_ = 0 then none
      else
        let beats := wholeBeats.tmod t.timeSigNumerator_
        let fractionalBeat := Double.sub totalBeats (⌊totalBeats⌋ : ℚ)
        let totalTicks := Double.mul fractionalBeat (ticksPerBeat : ℚ)
        (Double.toInt totalTicks).bind fun ticks =>
          let fractionalTicks := Double.sub totalTicks (ticks : ℚ)
          some { bars := bars, beats := beats, ticks := ticks,
                 fractionalTicks := fractionalTicks }

/-- A transport at 42 BPM in 4/4 at position 90 s: 63 beats. -/
def slowTransport : Transport :=
  { Transport.init with position_ := 90, bpm_ := 42 }

/-! ## `cpp-daw/src/Track.cpp`: the effect chain -/

namespace Track

variable {K : Type} [LinearOrderedField K] [FloorRing K]

/-- `Track::MoveFX(fromSlot, toSlot)`: the effect is erased at `fromSlot` and inserted before
position `toSlot` of the shortened chain. -/
def MoveFX (t : Track K) (fromSlot toSlot : Int) : Track K :=
  if fromSlot ≥ 0 ∧ fromSlot.toNat < t.fxChain_.length ∧ toSlot ≥ 0 ∧
      toSlot.toNat < t.fxChain_.length ∧ fromSlot ≠ toSlot then
    match t.fxChain_[fromSlot.toNat]? with
    | some fx =>
      { t with fxChain_ := (t.fxChain_.eraseIdx fromSlot.toNat).insertIdx toSlot.toNat fx }
    | none => t
  else t

/-- `Track::AddFX` for a non-null effect. -/
def AddFX (t : Track K) (fx : AudioBuffer K → AudioBuffer K) : Track K :=
  { t with fxChain_ := t.fxChain_ ++ [fx] }

end Track

/-- A track with three effects: gains of 2, 3 and 5 on the first sample of channel 0. -/
def threeFxTrack : Track ℚ :=
  (((Track.mk_ "fx" 0).AddFX (fun b => b.setAt 0 0 (b.getAt 0 0 * 2))).AddFX
    (fun b => b.setAt 0 0 (b.getAt 0 0 * 3))).AddFX (fun b => b.setAt 0 0 (b.getAt 0 0 * 5))

end DAW

/-! ## `cpp-daw-web/advanced_cpp_daw.cpp`: sample references, reverb parameters -/

namespace Web

variable {K : Type} [LinearOrderedField K] [FloorRing K]

namespace AudioBuffer

/-- The cell that `getSample(frame, channel)` returns a reference to: `some index` for
`samples[index]`, `none` for the function's `static float dummy`. -/
def getSampleCell (b : AudioBuffer K) (frame channel : Int) : Option Nat :=
  let index := frame * (b.channels : Int) + channel
  if index ≥ 0 ∧ index < (b.samples.length : Int) then some index.toNat else none

/-- A read through the reference `getSample(frame, channel)`; `dummy` is the value the static
cell holds at the time. -/
def readSample (b : AudioBuffer K) (dummy : K) (frame channel : Int) : K :=
  match b.getSampleCell frame channel with
  | some index => b.samples.getD index 0
  | none => dummy

/-- A store `getSample(frame, channel) = v`: the buffer and the static cell after it. -/
def writeSample (b : AudioBuffer K) (dummy : K) (frame channel : Int) (v : K) :
    AudioBuffer K × K :=
  match b.getSampleCell frame channel with
  | some index => ({ b with samples := b.samples.set index v }, dummy)
  | none => (b, v)

end AudioBuffer

namespace DelayLine

/-- What the constructor establishes and `process` keeps: `size` cells and an index inside. -/
def WellFormed (d : DelayLine K) : Prop :=
  d.buffer.length = d.size ∧ d.index < d.size

instance (d : DelayLine K) : Decidable d.WellFormed := by
  unfold WellFormed
  infer_instance

end DelayLine

namespace Reverb

/-- `Reverb::setRoomSize`. -/
def setRoomSize (r : Reverb K) (size : K) : Reverb K := { r with roomSize := stdClamp size 0 1 }

/-- `Reverb::setDamping`. -/
def setDamping (r : Reverb K) (damp : K) : Reverb K := { r with damping := stdClamp damp 0 1 }

/-- `Reverb::setWetLevel`. -/
def setWetLevel (r : Reverb K) (wet : K) : Reverb K := { r with wetLevel := stdClamp wet 0 1 }

/-- `Reverb::setDryLevel`. -/
def setDryLevel (r : Reverb K) (dry : K) : Reverb K := { r with dryLevel := stdClamp dry 0 1 }

/-- What the constructor establishes and every member keeps: four well-formed delay lines. -/
def WellFormed (r : Reverb K) : Prop :=
  r.delays.length = 4 ∧ ∀ d ∈ r.delays, d.WellFormed

instance (r : Reverb K) : Decidable r.WellFormed := by
  unfold WellFormed
  infer_instance

end Reverb

/-- An interleaved stereo buffer of two frames holding `1, 2, 3, 4`. -/
def twoFrames : AudioBuffer ℚ := { samples := [1, 2, 3, 4], sampleRate := 44100, channels := 2 }

/-- A reverb with delay lines of 2, 3, 2 and 3 cells, one of them mid-cycle. -/
def tinyReverb : Reverb ℚ :=
  { delays := [{ buffer := [5, 6], size := 2, index := 1 }, DelayLine.mk_ 3, DelayLine.mk_ 2,
               DelayLine.mk_ 3],
    roomSize := 1 / 2, damping := 1 / 2, wetLevel := 3 / 10, dryLevel := 7 / 10 }

end Web

/-! ## `Clip::processAudioData` and `ChorusFX::process`: the positions read -/

namespace Classic

variable {K : Type} [LinearOrderedField K] [FloorRing K]

/-- The source position that the sample loop of `Clip::processAudioData` uses for `clipPos`:
the statements under `// Handle looping`. -/
def Clip.wrappedPosition (c : Clip K) (clipSamples clipPos : Nat) : Nat :=
  if c.m_isLooped = true ∧ clipPos ≥ clipSamples then
    let loopLength := truncToSize ((c.m_loopEnd - c.m_loopStart) * c.m_sampleRate)
    if loopLength > 0 then
      truncToSize (c.m_loopStart * c.m_sampleRate) + clipPos % loopLength
    else clipPos % clipSamples
  else clipPos

/-- The value `modulatedDelay` of one voice in `ChorusFX::process` at LFO phase `phase`. -/
def ChorusFX.modulatedDelay (M : Libm K) (phase depth : K) (numVoices voice : Nat) : K :=
  let voicePhase := phase + ((voice : K) * 2 * M.pi / (numVoices : K))
  let lfoValue := M.sin voicePhase
  let baseDelay : K := ((voice : K) + 1) * (5 / 1000)
  baseDelay + lfoValue * depth * (1 / 100)

/-- The conversion `static_cast<size_t>(x)` of a floating-point value: truncation towards
zero; the conversion is undefined (`none`) when the truncated value is not a `size_t`, as it is
for every `x ≤ -1`. -/
def castToSize (x : K) : Option Nat :=
  if -1 < x ∧ x < 2 ^ 64 then some (truncToSize x) else none

/-- The clip over `[1, 2)` with four samples, looped over `[1/4, 3/4)`: samples 1 and 2. -/
def loopedPart : Clip ℚ :=
  { tonePart with m_isLooped := true, m_loopStart := 1 / 4, m_loopEnd := 3 / 4 }

end Classic

/-! ## `cpp-daw-web/audio_recording_system.hpp`: the track recorder -/

/-- The samples of the first `numFrames` frames of an interleaved array of `channels`
channels. -/
def interleavedFrames {α : Type} (channels : Nat) (samples : Nat → α) (numFrames : Nat) :
    List α :=
  (List.range (numFrames * channels)).map samples

/-- The frames of a ring buffer that have been written and not yet read, oldest first. -/
def RecordingBuffer.pending {α : Type} [Zero α] (rb : RecordingBuffer α) : List α :=
  (List.range (rb.available * rb.channels)).map
    (fun i => rb.buffer.getD
      (((rb.readPos + i / rb.channels) % rb.bufferSize * rb.channels + i % rb.channels)
        % rb.buffer.length) 0)

/-- The state of `class AudioFileWriter` that the recorder acts on.  `channels` is
`format.channels`.  `received` lists, call by call, the samples that `writeInterleavedSamples`
reads from the array it is handed; the bytes that reach the file are a function of them
(clamping to [-1, 1] and the sample format). -/
structure AudioFileWriter (α : Type) where
  channels : Nat
  isOpen : Bool
  samplesWritten : Int
  received : List (List α)

namespace AudioFileWriter

variable {α : Type} [Zero α]

/-- The constructor `AudioFileWriter(filename, fmt)`. -/
def mk_ (channels : Nat) : AudioFileWriter α :=
  { channels := channels, isOpen := false, samplesWritten := 0, received := [] }

/-- `AudioFileWriter::open`; `opens` tells whether the file system opens the file. -/
def open_ (w : AudioFileWriter α) (opens : Bool) : AudioFileWriter α × Bool :=
  if w.isOpen then (w, true)
  else if !opens then (w, false)
  else ({ w with isOpen := true, samplesWritten := 0 }, true)

/-- `AudioFileWriter::writeInterleavedSamples(samples, numFrames)` for a non-null array. -/
def writeInterleavedSamples (w : AudioFileWriter α) (samples : Nat → α) (numFrames : Nat) :
    AudioFileWriter α :=
  if !w.isOpen then w
  else
    { w with received := w.received ++ [interleavedFrames w.channels samples numFrames],
             samplesWritten := w.samplesWritten + (numFrames : Int) }

/-- `AudioFileWriter::close`. -/
def close (w : AudioFileWriter α) : AudioFileWriter α :=
  if !w.isOpen then w else { w with isOpen := false }

end AudioFileWriter

/-- The enumeration `TrackRecorder::RecordMode`. -/
inductive RecordMode where
  | OVERDUB
  | REPLACE
  | PUNCH_IN_OUT
  deriving DecidableEq, Repr

/-- The structure `TrackRecorder::RecordingState`. -/
structure RecordingState where
  isArmed : Bool
  isRecording : Bool
  mode : RecordMode
  punchInTime : ℚ
  punchOutTime : ℚ
  recordingPath : String
  recordingStartTime : ℚ

/-- The data members of `class TrackRecorder`; `audioChannels` is `audioFormat.channels`. -/
structure TrackRecorder (α : Type) where
  trackId : Int
  state : RecordingState
  buffer : RecordingBuffer α
  fileWriter : Option (AudioFileWriter α)
  audioChannels : Nat

namespace TrackRecorder

variable {α : Type} [Zero α]

/-- The constructor `TrackRecorder(id, bufferSize, channels)`. -/
def mk_ (id : Int) (bufferSize channels : Nat) : TrackRecorder α :=
  { trackId := id,
    state := { isArmed := false, isRecording := false, mode := RecordMode.OVERDUB,
               punchInTime := 0, punchOutTime := 0, recordingPath := "",
               recordingStartTime := 0 },
    buffer := RecordingBuffer.mk_ bufferSize channels,
    fileWriter := none, audioChannels := channels }

/-- `TrackRecorder::armForRecording`. -/
def armForRecording (r : TrackRecorder α) (armed : Bool) : TrackRecorder α :=
  { r with state := { r.state with isArmed := armed } }

/-- `TrackRecorder::setRecordMode`. -/
def setRecordMode (r : TrackRecorder α) (mode : RecordMode) : TrackRecorder α :=
  { r with state := { r.state with mode := mode } }

/-- `TrackRecorder::startRecording`; `opens` tells whether the file can be opened. -/
def startRecording (r : TrackRecorder α) (filename : String) (startTime : ℚ) (opens : Bool) :
    TrackRecorder α × Bool :=
  if r.state.isRecording ∨ !r.state.isArmed then (r, false)
  else
    let r := { r with state :=
      { r.state with recordingPath := filename, recordingStartTime := startTime } }
    let w := (AudioFileWriter.mk_ r.audioChannels : AudioFileWriter α).open_ opens
    if !w.2 then ({ r with fileWriter := none }, false)
    else
      ({ r with fileWriter := some w.1, buffer := r.buffer.clear,
                state := { r.state with isRecording := true } }, true)

/-- The loop `while ((framesRead = buffer->read(tempBuffer.data(), 1024)) > 0)` of
`flushBufferToFile`, run for at most `fuel` evaluations of its condition: the buffer and the
file writer when the loop has ended, `none` when it has not ended by then. -/
def flushLoop : Nat → RecordingBuffer α → (Nat → α) → AudioFileWriter α →
    Option (RecordingBuffer α × AudioFileWriter α)
  | 0, _, _, _ => none
  | fuel + 1, buffer, tempBuffer, w =>
    let r := buffer.read tempBuffer 1024
    if r.2.2 > 0 then flushLoop fuel r.1 r.2.1 (w.writeInterleavedSamples r.2.1 r.2.2)
    else some (r.1, w)

/-- `TrackRecorder::flushBufferToFile`, the loop bounded by `fuel`.  `tempBuffer` holds
`1024 * audioChannels` samples, all of them zero at first; the array of the model has no end,
which is the same as long as `audioChannels` is not below the buffer's channel count. -/
def flushBufferToFile (fuel : Nat) (r : TrackRecorder α) : Option (TrackRecorder α) :=
  match r.fileWriter with
  | none => some r
  | some w =>
    (flushLoop fuel r.buffer (fun _ => 0) w).map
      (fun p => { r with buffer := p.1, fileWriter := some p.2 })

/-- `TrackRecorder::processAudio`, the flush loop bounded by `fuel`. -/
def processAudio (fuel : Nat) (r : TrackRecorder α) (inputSamples : Nat → α) (numFrames : Nat)
    (currentTime : ℚ) : Option (TrackRecorder α) :=
  if !r.state.isRecording then some r
  else if r.state.mode = RecordMode.PUNCH_IN_OUT ∧
      (currentTime < r.state.punchInTime ∨ currentTime > r.state.punchOutTime) then some r
  else
    let r := { r with buffer := r.buffer.write inputSamples numFrames }
    if r.buffer.getAvailableFrames > 4096 then r.flushBufferToFile fuel else some r

/-- `TrackRecorder::stopRecording`, the flush loop bounded by `fuel`: the recorder after the
call and the file writer as it was closed (`none` when no file was open). -/
def stopRecording (fuel : Nat) (r : TrackRecorder α) :
    Option (TrackRecorder α × Option (AudioFileWriter α)) :=
  if !r.state.isRecording then some (r, none)
  else
    match r.fileWriter with
    | some _ =>
      (r.flushBufferToFile fuel).map
        (fun r1 =>
          ({ r1 with fileWriter := none, state := { r1.state with isRecording := false } },
           r1.fileWriter.map AudioFileWriter.close))
    | none => some ({ r with state := { r.state with isRecording := false } }, none)

/-- The samples handed to the file writer so far, call after call. -/
def handed (r : TrackRecorder α) : List α :=
  match r.fileWriter with
  | some w => w.received.flatten
  | none => []

/-- A recorder that is recording in OVERDUB or REPLACE mode into an open file writer, with a
well-formed ring buffer; the audio format and the file writer have the buffer's channel
count. -/
def Recording (r : TrackRecorder α) : Prop :=
  r.state.isRecording = true ∧ r.state.mode ≠ RecordMode.PUNCH_IN_OUT ∧ r.buffer.WellFormed ∧
  r.audioChannels = r.buffer.channels ∧
  r.fileWriter.map (fun w => w.isOpen && decide (w.channels = r.buffer.channels)) = some true

instance (r : TrackRecorder α) : Decidable r.Recording := by
  unfold Recording
  infer_instance

/-- A recording session: the `processAudio` calls of a list, one after the other. -/
def processCalls (fuel : Nat) :
    TrackRecorder α → List ((Nat → α) × Nat × ℚ) → Option (TrackRecorder α)
  | r, [] => some r
  | r, call :: rest =>
    match r.processAudio fuel call.1 call.2.1 call.2.2 with
    | some r1 => processCalls fuel r1 rest
    | none => none

/-- The frames of the calls of a session, in order. -/
def framesOfCalls (channels : Nat) (calls : List ((Nat → α) × Nat × ℚ)) : List α :=
  (calls.map (fun call => interleavedFrames channels call.1 call.2.1)).flatten

end TrackRecorder

/-- An armed stereo recorder with the default buffer of 8192 frames after `startRecording`. -/
def runningRecorder : TrackRecorder Int :=
  (((TrackRecorder.mk_ 1 8192 2).armForRecording true).startRecording "take.wav" 0 true).1

/-- A ring buffer of four mono frames holding `7, 8, 9` unread from position 3 on. -/
def wrappedRing : RecordingBuffer Int :=
  { buffer := [8, 9, 0, 7], writePos := 2, readPos := 3, bufferSize := 4, channels := 1 }

/-- A recorder whose ring buffer of four mono frames holds `7, 8, 9` unread, with an open
file. -/
def drainingRecorder : TrackRecorder Int :=
  { (TrackRecorder.mk_ 2 4 1 : TrackRecorder Int) with
    buffer := wrappedRing,
    fileWriter := some { channels := 1, isOpen := true, samplesWritten := 0, received := [] } }

namespace Classic

namespace Clip

variable {K : Type} [LinearOrderedField K] [FloorRing K]

/-- The arguments `(outputStartSample, startSampleInClip, samplesToProcess)` that
`Clip::process` hands to `processAudioData`: the overlap of the clip with the window in
output and in clip coordinates; `none` when `process` returns before the call. -/
def renderWindow (c : Clip K) (currentSample numSamples : Nat) (isPlaying : Bool) :
    Option (Nat × Nat × Nat) :=
  if isPlaying = false ∨ c.m_isMuted = true ∨ c.m_audioData.isNone = true ∨ c.m_duration ≤ 0 then
    none
  else
    let currentTimeSeconds := (currentSample : K) / c.m_sampleRate
    let clipEndTime := c.m_startTime + c.m_duration
    if currentTimeSeconds ≥ clipEndTime ∨
        currentTimeSeconds + (numSamples : K) / c.m_sampleRate ≤ c.m_startTime then
      none
    else
      let outputStartSample :=
        if currentTimeSeconds < c.m_startTime then
          truncToSize ((c.m_startTime - currentTimeSeconds) * c.m_sampleRate)
        else 0
      let startSampleInClip :=
        if currentTimeSeconds < c.m_startTime then 0
        else truncToSize ((currentTimeSeconds - c.m_startTime) * c.m_sampleRate)
      let endSampleInClip :=
        if currentTimeSeconds + (numSamples : K) / c.m_sampleRate > clipEndTime then
          min numSamples (truncToSize ((clipEndTime - currentTimeSeconds) * c.m_sampleRate))
        else numSamples
      let samplesToProcess := sizeSub endSampleInClip outputStartSample
      if samplesToProcess = 0 then none
      else some (outputStartSample, startSampleInClip, samplesToProcess)

/-- The value that the sample loop of `processAudioData` adds for the source position
`clipPos` on channel `ch`: the source sample at the wrapped position, times the gain, times
the fade multiplier at that position. -/
def renderedSample (c : Clip K) (audio : AudioBuffer K) (ch clipPos : Nat) : K :=
  cellGet audio.m_data ch (c.wrappedPosition audio.getNumSamples clipPos) * c.m_gain
    * c.calculateFadeMultiplier (c.wrappedPosition audio.getNumSamples clipPos)

/-- Whether the sample loop of `processAudioData` runs through its first `k` indices without a
`break`: at each of them the output position is inside the output buffer of `numOutSamples`
samples and the wrapped source position is inside the audio. -/
def runsThrough (c : Clip K) (audio : AudioBuffer K)
    (numOutSamples outputStartSample clipStartSample k : Nat) : Bool :=
  (List.range k).all fun j =>
    decide (outputStartSample + j < numOutSamples ∧
      c.wrappedPosition audio.getNumSamples (clipStartSample + j) < audio.getNumSamples)

/-- The contribution of a clip to sample `p` of channel `ch` of an output buffer of
`numChannels` channels of `numOutSamples` samples, for the window
`(currentSample, numSamples)`: inside the overlap of the clip with the window, on a channel
that the audio has, and as long as the sample loop has not stopped, it is the source sample of
the position `startSampleInClip + (p - outputStartSample)` times gain and fade; everywhere
else it is 0. -/
def contribution (c : Clip K) (numChannels numOutSamples currentSample numSamples : Nat)
    (isPlaying : Bool) (ch p : Nat) : K :=
  match c.m_audioData, c.renderWindow currentSample numSamples isPlaying with
  | some audio, some w =>
    if ch < min numChannels audio.getNumChannels ∧ w.1 ≤ p ∧ p - w.1 < w.2.2 ∧
        c.runsThrough audio numOutSamples w.1 w.2.1 (p - w.1 + 1) = true then
      c.renderedSample audio ch (w.2.1 + (p - w.1))
    else 0
  | _, _ => 0

/-- A clip that holds audio of at least one sample, with a positive sample rate and a loop
region `0 ≤ loopStart ≤ loopEnd` as `setLoopPoints` keeps it: for such a clip no conversion
to `size_t` in `process` meets a negative value and `processAudioData` divides by no zero. -/
def HoldsAudio (c : Clip K) : Prop :=
  0 < c.m_sampleRate ∧ 0 ≤ c.m_loopStart ∧ c.m_loopStart ≤ c.m_loopEnd ∧
  (c.m_audioData.map fun audio => decide (0 < audio.getNumSamples)) = some true

instance (c : Clip K) : Decidable c.HoldsAudio := by
  unfold HoldsAudio
  infer_instance

end Clip

end Classic

/-! ## Theorems -/

namespace DAW

/-- C2, as stated, fails: advancing the looping transport from 4.9 by 8820 samples at 44100 Hz
(0.2 s) leaves the position at 2.0, not at 2.1. -/
theorem C2_loop_wrap_not_carried :
    (loopTransport.AdvancePosition 8820 44100).position_ = 2 ∧
    (loopTransport.AdvancePosition 8820 44100).position_ ≠ 21 / 10 := by
  norm_num [Transport.AdvancePosition, Transport.IsPlaying, loopTransport, Transport.init]

/-- C2, amended: for a playing transport looping over [2.0, 5.0) at position 4.9, advancing by
samples/sampleRate = 0.2 at any sample rate leaves the position exactly at loopStart = 2.0. -/
theorem C2_loop_resets_to_loopStart (samples sampleRate : Int) (_hrate : 0 < sampleRate)
    (hstep : (samples : ℚ) / (sampleRate : ℚ) = 1 / 5) :
    (loopTransport.AdvancePosition samples sampleRate).position_ = 2 := by
  simp only [Transport.AdvancePosition, Transport.IsPlaying, loopTransport, Transport.init, hstep]
  norm_num

/-- Witness of C2 (amended) at 48 kHz: 9600 samples are 0.2 s. -/
theorem C2_loop_resets_to_loopStart_witness :
    (loopTransport.AdvancePosition 9600 48000).position_ = 2 :=
  C2_loop_resets_to_loopStart 9600 48000 (by decide) (by norm_num)

/-- C4 at the failing input: stopping a transport that plays at position 3 sets the state to
Stopped but leaves the position at 3, not 0. -/
theorem C4_stop_keeps_position :
    (DAWEngine_Stop { Transport.init with state_ := State.PLAYING, position_ := 3 }).state_
        = State.STOPPED ∧
    (DAWEngine_Stop { Transport.init with state_ := State.PLAYING, position_ := 3 }).position_
        = 3 := by
  constructor <;> rfl

/-- C5: Play maps Stopped and Paused to Playing and leaves Playing and Recording alone; Pause
maps Playing and Recording to Paused and leaves Stopped and Paused alone; Record maps Stopped
and Paused to Recording and leaves Playing and Recording alone; only the state field changes,
and IsPlaying holds exactly in Playing and Recording. -/
theorem C5_transition_table (t : Transport) :
    t.Play = { t with state_ :=
      match t.state_ with
      | State.STOPPED => State.PLAYING
      | State.PAUSED => State.PLAYING
      | State.PLAYING => State.PLAYING
      | State.RECORDING => State.RECORDING } ∧
    t.Pause = { t with state_ :=
      match t.state_ with
      | State.PLAYING => State.PAUSED
      | State.RECORDING => State.PAUSED
      | State.STOPPED => State.STOPPED
      | State.PAUSED => State.PAUSED } ∧
    t.Record = { t with state_ :=
      match t.state_ with
      | State.STOPPED => State.RECORDING
      | State.PAUSED => State.RECORDING
      | State.PLAYING => State.PLAYING
      | State.RECORDING => State.RECORDING } ∧
    t.Play.position_ = t.position_ ∧ t.Pause.position_ = t.position_ ∧
    t.Record.position_ = t.position_ ∧
    (t.IsPlaying = true ↔ (t.state_ = State.PLAYING ∨ t.state_ = State.RECORDING)) := by
  obtain ⟨s, p, le, ls, lend, bpm, n, d, m⟩ := t
  cases s <;> simp [Transport.Play, Transport.Pause, Transport.Record, Transport.IsPlaying]

end DAW

/-! ### The recording ring buffer -/

namespace RecordingBuffer

variable {α : Type}

theorem writeFrame_length (channels : Nat) (samples : Nat → α) (frame wp : Nat)
    (buffer : List α) :
    (writeFrame channels samples frame wp buffer).length = buffer.length := by
  unfold writeFrame
  generalize hb : (fun (ch : Nat) (buf : List α) =>
    buf.set ((wp * channels + ch) % buf.length) (samples (frame * channels + ch))) = body
  have hstep : ∀ c (b : List α), (body c b).length = b.length := by
    intro c b; subst hb; simp
  generalize channels = n
  induction n with
  | zero => rfl
  | succ n ih => simp [forLoop, hstep, ih]

variable [Zero α]

theorem getD_set_eq_ite (l : List α) (i j : Nat) (a : α) (hi : i < l.length) :
    (l.set i a).getD j 0 = if j = i then a else l.getD j 0 := by
  simp only [List.getD_eq_getElem?_getD, List.getElem?_set, hi, if_true]
  by_cases h : i = j
  · subst h; simp
  · have h2 : ¬ j = i := fun e => h e.symm
    simp [h, h2]

/-- One frame of `write` keeps the length of the store and overwrites exactly the first
`n` samples of slot `wp`. -/
theorem writeFrame_loop (channels : Nat) (samples : Nat → α) (frame wp : Nat) (buffer : List α)
    (hslot : wp * channels + channels ≤ buffer.length) (n : Nat) (hn : n ≤ channels) :
    (forLoop n (fun ch buf =>
        buf.set ((wp * channels + ch) % buf.length) (samples (frame * channels + ch)))
      buffer).length = buffer.length ∧
    ∀ j, (forLoop n (fun ch buf =>
        buf.set ((wp * channels + ch) % buf.length) (samples (frame * channels + ch)))
      buffer).getD j 0 =
      if wp * channels ≤ j ∧ j < wp * channels + n
      then samples (frame * channels + (j - wp * channels)) else buffer.getD j 0 := by
  induction n with
  | zero =>
    refine ⟨rfl, fun j => ?_⟩
    have : ¬ (wp * channels ≤ j ∧ j < wp * channels + 0) := by omega
    simp only [forLoop]
    rw [if_neg this]
  | succ n ih =>
    obtain ⟨hlen, hget⟩ := ih (by omega)
    refine ⟨by simp [forLoop, hlen], fun j => ?_⟩
    have hlt : wp * channels + n < buffer.length := by omega
    simp only [forLoop, hlen, Nat.mod_eq_of_lt hlt]
    rw [getD_set_eq_ite _ _ _ _ (by rw [hlen]; exact hlt), hget j]
    by_cases hj : j = wp * channels + n
    · subst hj
      have : wp * channels ≤ wp * channels + n ∧ wp * channels + n < wp * channels + (n + 1) := by
        omega
      simp [this]
    · by_cases hc : wp * channels ≤ j ∧ j < wp * channels + n
      · have : wp * channels ≤ j ∧ j < wp * channels + (n + 1) := by omega
        simp [hj, hc, this]
      · have : ¬ (wp * channels ≤ j ∧ j < wp * channels + (n + 1)) := by omega
        simp [hj, hc, this]

theorem writeFrame_getD (channels : Nat) (samples : Nat → α) (frame wp : Nat) (buffer : List α)
    (hslot : wp * channels + channels ≤ buffer.length) (j : Nat) :
    (writeFrame channels samples frame wp buffer).getD j 0 =
      if wp * channels ≤ j ∧ j < wp * channels + channels
      then samples (frame * channels + (j - wp * channels)) else buffer.getD j 0 :=
  (writeFrame_loop channels samples frame wp buffer hslot channels le_rfl).2 j

/-- Two frames less than a capacity apart land in different slots. -/
theorem slot_ne (C p f n : Nat) (hf : f < n) (hn : n < C) : (p + f) % C ≠ (p + n) % C := by
  intro h
  have h1 : f ≡ n [MOD C] := Nat.ModEq.add_left_cancel' p h
  have h2 : f % C = n % C := h1
  rw [Nat.mod_eq_of_lt (by omega), Nat.mod_eq_of_lt hn] at h2
  omega

/-- Samples of slot `s` lie outside slot `t` when the slots differ. -/
theorem slot_disjoint (ch s t c : Nat) (hc : c < ch) (hst : s ≠ t) :
    ¬ (t * ch ≤ s * ch + c ∧ s * ch + c < t * ch + ch) := by
  rcases Nat.lt_or_gt_of_ne hst with h | h
  · have := Nat.mul_le_mul_right ch (Nat.succ_le_of_lt h)
    rw [Nat.succ_mul] at this
    omega
  · have := Nat.mul_le_mul_right ch (Nat.succ_le_of_lt h)
    rw [Nat.succ_mul] at this
    omega

/-- The write loop: after `n` frames the position has advanced by `n` modulo the capacity and
the store has kept its length. -/
theorem write_loop_pos (C ch : Nat) (samples : Nat → α) (buf0 : List α) (wp0 : Nat)
    (hwp : wp0 < C) (n : Nat) :
    (forLoop n (fun frame (s : List α × Nat) =>
        (writeFrame ch samples frame s.2 s.1, (s.2 + 1) % C)) (buf0, wp0)).2 = (wp0 + n) % C ∧
    (forLoop n (fun frame (s : List α × Nat) =>
        (writeFrame ch samples frame s.2 s.1, (s.2 + 1) % C)) (buf0, wp0)).1.length
      = buf0.length := by
  induction n with
  | zero => exact ⟨(Nat.mod_eq_of_lt hwp).symm, rfl⟩
  | succ n ih =>
    obtain ⟨h1, h2⟩ := ih
    refine ⟨?_, ?_⟩
    · simp only [forLoop, h1, Nat.mod_add_mod]
      rfl
    · simp only [forLoop, writeFrame_length, h2]

/-- The write loop: as long as no more frames than the capacity are written, frame `f` sits in
slot `(wp0 + f) % C`, channel by channel. -/
theorem write_loop_data (C ch : Nat) (samples : Nat → α) (buf0 : List α) (wp0 : Nat)
    (hwp : wp0 < C) (hlen : buf0.length = C * ch) (n : Nat) (hn : n ≤ C) :
    ∀ f, f < n → ∀ c, c < ch →
      (forLoop n (fun frame (s : List α × Nat) =>
        (writeFrame ch samples frame s.2 s.1, (s.2 + 1) % C)) (buf0, wp0)).1.getD
          ((wp0 + f) % C * ch + c) 0 = samples (f * ch + c) := by
  induction n with
  | zero => intro f hf; omega
  | succ n ih =>
    intro f hf c hc
    obtain ⟨hpos, hl⟩ := write_loop_pos C ch samples buf0 wp0 hwp n
    have hCpos : 0 < C := by omega
    have hslotlt : (wp0 + n) % C < C := Nat.mod_lt _ hCpos
    have hslot : (wp0 + n) % C * ch + ch ≤
        (forLoop n (fun frame (s : List α × Nat) =>
          (writeFrame ch samples frame s.2 s.1, (s.2 + 1) % C)) (buf0, wp0)).1.length := by
      rw [hl, hlen]
      have := Nat.mul_le_mul_right ch (Nat.succ_le_of_lt hslotlt)
      rw [Nat.succ_mul] at this
      exact this
    simp only [forLoop, hpos]
    rw [writeFrame_getD _ _ _ _ _ hslot]
    by_cases hfn : f = n
    · subst hfn
      have : (wp0 + f) % C * ch ≤ (wp0 + f) % C * ch + c ∧
          (wp0 + f) % C * ch + c < (wp0 + f) % C * ch + ch := by omega
      rw [if_pos this]
      congr 1
      omega
    · have hlt : f < n := by omega
      rw [if_neg (slot_disjoint ch _ _ c hc (slot_ne C wp0 f n hlt (by omega)))]
      exact ih (by omega) f hlt c hc

/-- One frame of `read` overwrites exactly the first `n` samples of destination frame `frame`
with the samples of slot `rp`. -/
theorem readFrame_loop (channels : Nat) (buffer : List α) (frame rp : Nat) (dest : Nat → α)
    (n j : Nat) :
    forLoop n (fun ch d =>
        Function.update d (frame * channels + ch)
          (buffer.getD ((rp * channels + ch) % buffer.length) 0)) dest j =
      if frame * channels ≤ j ∧ j < frame * channels + n
      then buffer.getD ((rp * channels + (j - frame * channels)) % buffer.length) 0
      else dest j := by
  induction n with
  | zero =>
    have : ¬ (frame * channels ≤ j ∧ j < frame * channels + 0) := by omega
    simp only [forLoop]
    rw [if_neg this]
  | succ n ih =>
    simp only [forLoop, Function.update_apply, ih]
    by_cases hj : j = frame * channels + n
    · subst hj
      have : frame * channels ≤ frame * channels + n ∧
          frame * channels + n < frame * channels + (n + 1) := by omega
      simp [this]
    · by_cases hc : frame * channels ≤ j ∧ j < frame * channels + n
      · have : frame * channels ≤ j ∧ j < frame * channels + (n + 1) := by omega
        simp [hj, hc, this]
      · have : ¬ (frame * channels ≤ j ∧ j < frame * channels + (n + 1)) := by omega
        simp [hj, hc, this]

/-- The read loop: after `n` frames the position has advanced by `n` modulo the capacity. -/
theorem read_loop_pos (C ch : Nat) (buffer : List α) (dest : Nat → α) (rp0 : Nat)
    (hrp : rp0 < C) (n : Nat) :
    (forLoop n (fun frame (s : (Nat → α) × Nat) =>
        (readFrame ch buffer frame s.2 s.1, (s.2 + 1) % C)) (dest, rp0)).2 = (rp0 + n) % C := by
  induction n with
  | zero => exact (Nat.mod_eq_of_lt hrp).symm
  | succ n ih =>
    simp only [forLoop, ih, Nat.mod_add_mod]
    rfl

/-- The read loop: destination frame `f` receives the samples of slot `(rp0 + f) % C`. -/
theorem read_loop_data (C ch : Nat) (buffer : List α) (dest : Nat → α) (rp0 : Nat)
    (hrp : rp0 < C) (n : Nat) :
    ∀ f, f < n → ∀ c, c < ch →
      (forLoop n (fun frame (s : (Nat → α) × Nat) =>
        (readFrame ch buffer frame s.2 s.1, (s.2 + 1) % C)) (dest, rp0)).1 (f * ch + c) =
      buffer.getD (((rp0 + f) % C * ch + c) % buffer.length) 0 := by
  induction n with
  | zero => intro f hf; omega
  | succ n ih =>
    intro f hf c hc
    simp only [forLoop, read_loop_pos C ch buffer dest rp0 hrp n]
    unfold readFrame
    rw [readFrame_loop]
    by_cases hfn : f = n
    · subst hfn
      have : f * ch ≤ f * ch + c ∧ f * ch + c < f * ch + ch := by omega
      rw [if_pos this]
      congr 2
      omega
    · have hlt : f < n := by omega
      rw [if_neg (slot_disjoint ch f n c hc hfn)]
      exact ih f hlt c hc

theorem write_fields (rb : RecordingBuffer α) (samples : Nat → α) (n : Nat) :
    (rb.write samples n).readPos = rb.readPos ∧ (rb.write samples n).bufferSize = rb.bufferSize ∧
    (rb.write samples n).channels = rb.channels := ⟨rfl, rfl, rfl⟩

/-- `write` advances `writePos` by the frame count modulo the capacity and keeps the class
invariant. -/
theorem write_writePos (rb : RecordingBuffer α) (samples : Nat → α) (n : Nat)
    (hwf : rb.WellFormed) :
    (rb.write samples n).writePos = (rb.writePos + n) % rb.bufferSize ∧
    (rb.write samples n).WellFormed := by
  obtain ⟨hlen, hwp, hrp⟩ := hwf
  obtain ⟨h1, h2⟩ := write_loop_pos rb.bufferSize rb.channels samples rb.buffer rb.writePos hwp n
  have hpos : (rb.write samples n).writePos = (rb.writePos + n) % rb.bufferSize := h1
  refine ⟨hpos, ?_, ?_, hrp⟩
  · exact h2.trans hlen
  · rw [hpos]
    exact Nat.mod_lt _ (by omega)

/-- The wrap-around difference of a position `p` and the position `t` frames further on is
`t` modulo the capacity. -/
theorem available_after (C p t : Nat) (hp : p < C) :
    (if (p + t) % C ≥ p then (p + t) % C - p else C - p + (p + t) % C) = t % C := by
  have ht : t % C < C := Nat.mod_lt _ (by omega)
  rw [← Nat.add_mod_mod p t C]
  generalize t % C = u at ht
  rcases Nat.lt_or_ge (p + u) C with h | h
  · rw [Nat.mod_eq_of_lt h]
    split <;> omega
  · rw [Nat.mod_eq_sub_mod h, Nat.mod_eq_of_lt (by omega)]
    split <;> omega

/-- A run of `write` calls with no `read` in between advances `writePos` by the total frame
count modulo the capacity and touches neither `readPos` nor the capacity. -/
theorem writes_positions (ws : List ((Nat → α) × Nat)) (rb : RecordingBuffer α)
    (hwf : rb.WellFormed) :
    (ws.foldl (fun b w => b.write w.1 w.2) rb).writePos
        = (rb.writePos + (ws.map Prod.snd).sum) % rb.bufferSize ∧
    (ws.foldl (fun b w => b.write w.1 w.2) rb).readPos = rb.readPos ∧
    (ws.foldl (fun b w => b.write w.1 w.2) rb).bufferSize = rb.bufferSize := by
  induction ws generalizing rb with
  | nil =>
    refine ⟨?_, rfl, rfl⟩
    simp [Nat.mod_eq_of_lt hwf.2.1]
  | cons w ws ih =>
    obtain ⟨hpos, hwf2⟩ := write_writePos rb w.1 w.2 hwf
    obtain ⟨h1, h2, h3⟩ := ih (rb.write w.1 w.2) hwf2
    refine ⟨?_, h2, h3⟩
    simp only [List.foldl_cons, List.map_cons, List.sum_cons]
    rw [h1, hpos]
    show ((rb.writePos + w.2) % rb.bufferSize + _) % rb.bufferSize = _
    rw [Nat.mod_add_mod, Nat.add_assoc]

end RecordingBuffer

namespace RecordingBuffer

variable {α : Type} [Zero α]

/-- C6: on a well-formed, empty ring buffer (readPos = writePos), writing N < capacity frames
and then reading N frames returns N, and the destination holds the written frames sample for
sample, channel for channel, in the same order. -/
theorem C6_write_read_roundtrip (rb : RecordingBuffer α) (samples dest : Nat → α) (N : Nat)
    (hwf : rb.WellFormed) (hempty : rb.readPos = rb.writePos) (hN : N < rb.bufferSize) :
    ((rb.write samples N).read dest N).2.2 = N ∧
    ∀ f, f < N → ∀ c, c < rb.channels →
      ((rb.write samples N).read dest N).2.1 (f * rb.channels + c)
        = samples (f * rb.channels + c) := by
  obtain ⟨hpos, hwf2⟩ := write_writePos rb samples N hwf
  obtain ⟨hlen, hwp, hrp⟩ := hwf
  have havail : (rb.write samples N).available = N := by
    unfold available
    rw [hpos]
    show (if (rb.writePos + N) % rb.bufferSize ≥ rb.readPos
      then (rb.writePos + N) % rb.bufferSize - rb.readPos
      else rb.bufferSize - rb.readPos + (rb.writePos + N) % rb.bufferSize) = N
    rw [hempty, available_after rb.bufferSize rb.writePos N hwp, Nat.mod_eq_of_lt hN]
  refine ⟨?_, ?_⟩
  · show min N (rb.write samples N).available = N
    rw [havail, Nat.min_self]
  · intro f hf c hc
    show (forLoop (min N (rb.write samples N).available)
      (fun frame (s : (Nat → α) × Nat) =>
        (readFrame rb.channels (rb.write samples N).buffer frame s.2 s.1,
          (s.2 + 1) % rb.bufferSize)) (dest, rb.readPos)).1 (f * rb.channels + c) = _
    rw [havail, Nat.min_self,
      read_loop_data rb.bufferSize rb.channels _ dest rb.readPos hrp N f hf c hc, hempty]
    have hslot : (rb.writePos + f) % rb.bufferSize < rb.bufferSize := Nat.mod_lt _ (by omega)
    have hidx : (rb.writePos + f) % rb.bufferSize * rb.channels + c
        < (rb.write samples N).buffer.length := by
      rw [hwf2.1]
      show _ < rb.bufferSize * rb.channels
      have := Nat.mul_le_mul_right rb.channels (Nat.succ_le_of_lt hslot)
      rw [Nat.succ_mul] at this
      omega
    rw [Nat.mod_eq_of_lt hidx]
    exact write_loop_data rb.bufferSize rb.channels samples rb.buffer rb.writePos hwp hlen N
      (by omega) f hf c hc

/-- C7, amended: starting empty, after any run of writes with no read in between,
getAvailableFrames equals the total number of frames written modulo the capacity, which is
always below the capacity. -/
theorem C7_available_wraps (rb : RecordingBuffer α) (ws : List ((Nat → α) × Nat))
    (hwf : rb.WellFormed) (hempty : rb.readPos = rb.writePos) :
    (ws.foldl (fun b w => b.write w.1 w.2) rb).getAvailableFrames
        = (ws.map Prod.snd).sum % rb.bufferSize ∧
    (ws.foldl (fun b w => b.write w.1 w.2) rb).getAvailableFrames < rb.bufferSize := by
  obtain ⟨h1, h2, h3⟩ := writes_positions ws rb hwf
  have hval : (ws.foldl (fun b w => b.write w.1 w.2) rb).getAvailableFrames
      = (ws.map Prod.snd).sum % rb.bufferSize := by
    unfold getAvailableFrames available
    rw [h1, h2, h3, hempty]
    exact available_after rb.bufferSize rb.writePos _ hwf.2.1
  refine ⟨hval, ?_⟩
  rw [hval]
  exact Nat.mod_lt _ (by have := hwf.2.1; omega)

/-- C8: on a buffer whose positions are below the capacity, read returns
min(maxFrames, (writePos - readPos) mod capacity), leaves writePos unchanged, advances readPos
by the returned count modulo the capacity, and getAvailableFrames drops by exactly that count. -/
theorem C8_read_contract (rb : RecordingBuffer α) (dest : Nat → α) (maxFrames : Nat)
    (hrp : rb.readPos < rb.bufferSize) (hwp : rb.writePos < rb.bufferSize) :
    (rb.read dest maxFrames).2.2
        = min maxFrames
            ((((rb.writePos : Int) - (rb.readPos : Int)) % (rb.bufferSize : Int)).toNat) ∧
    (rb.read dest maxFrames).1.writePos = rb.writePos ∧
    (rb.read dest maxFrames).1.readPos
        = (rb.readPos + (rb.read dest maxFrames).2.2) % rb.bufferSize ∧
    (rb.read dest maxFrames).1.getAvailableFrames + (rb.read dest maxFrames).2.2
        = rb.getAvailableFrames := by
  have hav : rb.available
      = (((rb.writePos : Int) - (rb.readPos : Int)) % (rb.bufferSize : Int)).toNat := by
    unfold available
    split
    · rw [Int.emod_eq_of_lt (by omega) (by omega)]
      omega
    · rw [← Int.add_emod_self, Int.emod_eq_of_lt (by omega) (by omega)]
      omega
  have hk : (rb.read dest maxFrames).2.2 = min maxFrames rb.available := rfl
  have hle : (rb.read dest maxFrames).2.2 ≤ rb.available := by rw [hk]; exact Nat.min_le_right _ _
  have hpos : (rb.read dest maxFrames).1.readPos
      = (rb.readPos + (rb.read dest maxFrames).2.2) % rb.bufferSize :=
    read_loop_pos rb.bufferSize rb.channels rb.buffer dest rb.readPos hrp _
  refine ⟨by rw [hk, hav], rfl, hpos, ?_⟩
  unfold getAvailableFrames
  generalize (rb.read dest maxFrames).2.2 = k at hle hpos
  have hw : (rb.read dest maxFrames).1.writePos = rb.writePos := rfl
  have hb : (rb.read dest maxFrames).1.bufferSize = rb.bufferSize := rfl
  unfold available at hle ⊢
  rw [hw, hb, hpos]
  rcases Nat.lt_or_ge (rb.readPos + k) rb.bufferSize with h | h
  · rw [Nat.mod_eq_of_lt h]
    split at hle <;> split <;> omega
  · have hlt : rb.readPos + k - rb.bufferSize < rb.bufferSize := by
      split at hle <;> omega
    rw [Nat.mod_eq_sub_mod h, Nat.mod_eq_of_lt hlt]
    split at hle <;> split <;> omega

end RecordingBuffer

/-- Witness of C6: three stereo frames written to a fresh four-frame ring come back in order. -/
theorem C6_write_read_roundtrip_witness :
    ((stereoRing.write countingSamples 3).read zeroDest 3).2.2 = 3 ∧
    ∀ f, f < 3 → ∀ c, c < stereoRing.channels →
      ((stereoRing.write countingSamples 3).read zeroDest 3).2.1 (f * stereoRing.channels + c)
        = countingSamples (f * stereoRing.channels + c) :=
  RecordingBuffer.C6_write_read_roundtrip stereoRing countingSamples zeroDest 3
    (by decide) (by decide) (by decide)

/-- C7, as stated, fails: after five frames are written to a fresh ring of capacity four,
getAvailableFrames is 1, not 4. -/
theorem C7_available_does_not_saturate :
    (ringOfFour.write countingSamples 5).getAvailableFrames = 1 ∧
    (ringOfFour.write countingSamples 5).getAvailableFrames ≠ ringOfFour.bufferSize := by
  decide

/-- Witness of C7 (amended): writes of 3 and 2 frames to a fresh ring of capacity four. -/
theorem C7_available_wraps_witness :
    ([(countingSamples, 3), (countingSamples, 2)].foldl
        (fun b w => b.write w.1 w.2) ringOfFour).getAvailableFrames = 1 := by
  have h := (RecordingBuffer.C7_available_wraps ringOfFour
    [(countingSamples, 3), (countingSamples, 2)] (by decide) (by decide)).1
  rw [h]
  decide

/-- Witness of C8: reading at most 5 frames from a ring holding 3 returns 3. -/
theorem C8_read_contract_witness :
    ((stereoRing.write countingSamples 3).read zeroDest 5).2.2 = 3 := by
  have h := (RecordingBuffer.C8_read_contract (stereoRing.write countingSamples 3) zeroDest 5
    (by decide) (by decide)).1
  rw [h]
  decide

/-! ### Clip splitting -/

/-- C10: splitting a clip over [t0, t0 + d) at a time ts strictly inside leaves the original
over [t0, ts) and returns a right clip over [ts, t0 + d): the start is kept, the original's end
and the right clip's start are ts, and the right clip ends at t0 + d. -/
theorem C10_split_ranges (c : AudioClip) (ts : TimePosition)
    (h1 : c.getStartTime < ts.seconds) (h2 : ts.seconds < c.getStartTime + c.getDuration) :
    (c.split ts).2.getStartTime = c.getStartTime ∧
    (c.split ts).2.getEndTime = ts.seconds ∧
    (c.split ts).1.getStartTime = ts.seconds ∧
    (c.split ts).1.getEndTime = c.getStartTime + c.getDuration := by
  simp only [AudioClip.getStartTime, AudioClip.getDuration] at h1 h2
  have hcond : 0 < ts.seconds - c.properties.startTime.seconds ∧
      ts.seconds - c.properties.startTime.seconds < c.properties.duration.seconds := by
    constructor <;> linarith
  simp only [AudioClip.split, hcond, and_self, if_true, AudioClip.getStartTime,
    AudioClip.getEndTime, AudioClip.getDuration, TimePosition.mk_, TimePosition.ofSeconds]
  refine ⟨trivial, ?_, trivial, ?_⟩ <;> ring

/-- Witness of C10: the clip over [1, 5) split at 2.5 gives [1, 2.5) and [2.5, 5). -/
theorem C10_split_ranges_witness :
    (exampleClip.split (TimePosition.mk_ (5 / 2))).2.getEndTime = 5 / 2 ∧
    (exampleClip.split (TimePosition.mk_ (5 / 2))).1.getEndTime = 5 := by
  have h := C10_split_ranges exampleClip (TimePosition.mk_ (5 / 2))
    (by norm_num [exampleClip, AudioClip.getStartTime, AudioClip.mk_, TimePosition.mk_,
      TimePosition.ofSeconds])
    (by norm_num [exampleClip, AudioClip.getStartTime, AudioClip.getDuration, AudioClip.mk_,
      TimePosition.mk_, TimePosition.ofSeconds])
  refine ⟨h.2.1, ?_⟩
  rw [h.2.2.2]
  norm_num [exampleClip, AudioClip.getStartTime, AudioClip.getDuration, AudioClip.mk_,
    TimePosition.mk_, TimePosition.ofSeconds]

/-! ### Track mixdown of `cpp-daw` -/

namespace DAW

variable {K : Type} [LinearOrderedField K]

theorem list_set_of_getElem? {β : Type} (l : List β) (i : Nat) (a : β) (h : l[i]? = some a) :
    l.set i a = l := by
  apply List.ext_getElem?
  intro j
  rw [List.getElem?_set]
  by_cases hij : i = j
  · subst hij
    have hlt : i < l.length := by
      by_contra hge
      rw [List.getElem?_eq_none (by omega)] at h
      exact Option.noConfusion h
    simp [hlt, h]
  · simp [hij]

theorem list_set_getD_self (l : List K) (i : Nat) : l.set i (l.getD i 0) = l := by
  by_cases hi : i < l.length
  · apply list_set_of_getElem?
    simp [List.getD_eq_getElem?_getD, List.getElem?_eq_getElem hi]
  · exact List.set_eq_of_length_le (by omega)

/-- Storing back the value a cell already holds leaves the buffer as it is. -/
theorem AudioBuffer.setAt_getAt_self (b : AudioBuffer K) (ch i : Nat) :
    b.setAt ch i (b.getAt ch i) = b := by
  unfold AudioBuffer.setAt AudioBuffer.getAt
  cases hdata : b.GetChannelData ch with
  | none => rfl
  | some data =>
    have hget : b.channels_[ch]? = some data := by
      unfold AudioBuffer.GetChannelData at hdata
      split at hdata
      · exact hdata
      · exact Option.noConfusion hdata
    simp only [Option.getD_some, list_set_getD_self]
    rw [list_set_of_getElem? _ _ _ hget]

/-- A store changes a read either to the stored value or not at all. -/
theorem AudioBuffer.getAt_setAt_cases (b : AudioBuffer K) (ch i ch2 i2 : Nat) (v : K) :
    (b.setAt ch i v).getAt ch2 i2 = v ∨ (b.setAt ch i v).getAt ch2 i2 = b.getAt ch2 i2 := by
  unfold AudioBuffer.setAt
  cases hdata : b.GetChannelData ch with
  | none => exact Or.inr rfl
  | some data =>
    have hget : b.channels_[ch]? = some data := by
      unfold AudioBuffer.GetChannelData at hdata
      split at hdata
      · exact hdata
      · exact Option.noConfusion hdata
    simp only [AudioBuffer.getAt, AudioBuffer.GetChannelData]
    by_cases hc2 : ch2 < b.numChannels_
    · simp only [hc2, if_true, List.getElem?_set]
      by_cases hcc : ch = ch2
      · subst hcc
        have hlt : ch < b.channels_.length := by
          by_contra hge
          rw [List.getElem?_eq_none (by omega)] at hget
          exact Option.noConfusion hget
        simp only [hlt, if_true, Option.getD_some, hget, List.getD_eq_getElem?_getD,
          List.getElem?_set]
        by_cases hii : i = i2
        · subst hii
          by_cases hil : i < data.length
          · left; simp [hil]
          · right; simp [hil, List.getElem?_eq_none (Nat.le_of_not_lt hil)]
        · right; simp [hii]
      · right; simp [hcc]
    · right; simp [hc2]

/-- A freshly constructed buffer reads zero everywhere. -/
theorem AudioBuffer.getAt_mk_ (nc nf ch i : Nat) :
    (AudioBuffer.mk_ nc nf : AudioBuffer K).getAt ch i = 0 := by
  simp only [AudioBuffer.getAt, AudioBuffer.GetChannelData, AudioBuffer.mk_,
    List.getD_eq_getElem?_getD, List.getElem?_replicate]
  by_cases h1 : ch < nc <;> by_cases h2 : i < nf <;> simp [h1, h2]

/-- A loop that only stores zeros into a silent buffer leaves it silent. -/
theorem silent_forLoop (n : Nat) (body : Nat → AudioBuffer K → AudioBuffer K)
    (hbody : ∀ k b, (∀ ch i, b.getAt ch i = 0) → ∀ ch i, (body k b).getAt ch i = 0)
    (b : AudioBuffer K) (hb : ∀ ch i, b.getAt ch i = 0) :
    ∀ ch i, (forLoop n body b).getAt ch i = 0 := by
  induction n with
  | zero => exact hb
  | succ n ih => exact hbody n _ ih

theorem silent_setAt (b : AudioBuffer K) (hb : ∀ ch i, b.getAt ch i = 0) (c k : Nat) (g : K) :
    ∀ ch i, (b.setAt c k (b.getAt c k * g)).getAt ch i = 0 := by
  intro ch i
  rcases AudioBuffer.getAt_setAt_cases b c k ch i (b.getAt c k * g) with h | h
  · rw [h, hb, zero_mul]
  · rw [h, hb]

/-- Volume and pan keep a silent buffer silent. -/
theorem Track.ApplyVolumeAndPan_silent (M : Libm K) (t : Track K) (b : AudioBuffer K)
    (hb : ∀ ch i, b.getAt ch i = 0) : ∀ ch i, (t.ApplyVolumeAndPan M b).getAt ch i = 0 := by
  unfold Track.ApplyVolumeAndPan
  simp only
  split
  · apply silent_forLoop _ _ _ _ hb
    intro k b2 hb2
    exact silent_setAt _ (silent_setAt b2 hb2 0 k _) 1 k _
  · split
    · apply silent_forLoop _ _ _ _ hb
      intro k b2 hb2
      exact silent_setAt b2 hb2 0 k _
    · exact hb

/-- A loop whose body is the identity returns its start state. -/
theorem forLoop_id {σ : Type} (n : Nat) (body : Nat → σ → σ) (hbody : ∀ k s, body k s = s)
    (s : σ) : forLoop n body s = s := by
  induction n with
  | zero => rfl
  | succ n ih => simp [forLoop, hbody, ih]

/-- With an empty effect chain `Track::ProcessAudio` returns the output buffer as it got it,
whatever clips the track holds: `ProcessClips` renders nothing. -/
theorem Track.ProcessAudio_ignores_clips (M : Libm K) (t : Track K) (out : AudioBuffer K)
    (startTime endTime : K) (sampleRate : Int) (hfx : t.fxChain_ = []) :
    t.ProcessAudio M out startTime endTime sampleRate = out := by
  unfold Track.ProcessAudio
  simp only [Track.ProcessClips, Track.ProcessFXChain, hfx, List.foldl_nil]
  split
  · apply forLoop_id
    intro ch b
    apply forLoop_id
    intro i b2
    rw [Track.ApplyVolumeAndPan_silent M t _ (fun c k => AudioBuffer.getAt_mk_ _ _ c k),
      add_zero, AudioBuffer.setAt_getAt_self]
  · rfl

/-- C9 at the failing input: for the unmuted track with volume 1, pan 0, no effects and a
full-scale clip over [0, 1), rendering the window [0, 1) into a silent stereo buffer of four
frames leaves the buffer silent: the clip is not rendered. -/
theorem C9_clip_not_rendered (M : Libm ℚ) :
    trackWithClip.ProcessAudio M (AudioBuffer.mk_ 2 4) 0 1 4 = AudioBuffer.mk_ 2 4 ∧
    trackWithClip.clips_ = [fullScaleClip] ∧
    fullScaleSource.getAt 0 0 = 1 :=
  ⟨Track.ProcessAudio_ignores_clips M trackWithClip _ 0 1 4 rfl, rfl, rfl⟩

end DAW

/-! ### Solo and mute in the web engine -/

/-- A property kept by every iteration holds after the loop. -/
theorem forLoop_inv {σ : Type} (P : σ → Prop) (body : Nat → σ → σ)
    (hbody : ∀ k s, P s → P (body k s)) (n : Nat) (s : σ) (hs : P s) :
    P (forLoop n body s) := by
  induction n with
  | zero => exact hs
  | succ n ih => exact hbody n _ ih

/-- In a nested frame/channel loop whose iterations other than `(0, 0)` leave an observation
alone, the observation after the loops is the one right after iteration `(0, 0)`. -/
theorem forLoop2_first {σ β : Type} (obs : σ → β) (Inv : σ → Prop) (body : Nat → Nat → σ → σ)
    (hinv : ∀ i ch s, Inv s → Inv (body i ch s))
    (hobs : ∀ i ch s, Inv s → (i ≠ 0 ∨ ch ≠ 0) → obs (body i ch s) = obs s)
    (nF nC : Nat) (hF : 0 < nF) (hC : 0 < nC) (s : σ) (hs : Inv s) :
    obs (forLoop nF (fun i s => forLoop nC (fun ch s => body i ch s) s) s)
      = obs (body 0 0 s) := by
  have inner_inv : ∀ i n s, Inv s → Inv (forLoop n (fun ch s => body i ch s) s) :=
    fun i n s h => forLoop_inv Inv _ (fun ch s hs => hinv i ch s hs) n s h
  have inner_other : ∀ i, i ≠ 0 → ∀ n s, Inv s →
      obs (forLoop n (fun ch s => body i ch s) s) = obs s := by
    intro i hi n s h
    induction n with
    | zero => rfl
    | succ n ih =>
      show obs (body i n (forLoop n (fun ch s => body i ch s) s)) = obs s
      rw [hobs i n _ (inner_inv i n s h) (Or.inl hi), ih]
  have inner_zero : ∀ n, 0 < n → ∀ s, Inv s →
      obs (forLoop n (fun ch s => body 0 ch s) s) = obs (body 0 0 s) := by
    intro n hn s h
    induction n with
    | zero => omega
    | succ n ih =>
      rcases Nat.eq_zero_or_pos n with h0 | hpos
      · subst h0; rfl
      · show obs (body 0 n (forLoop n (fun ch s => body 0 ch s) s)) = obs (body 0 0 s)
        rw [hobs 0 n _ (inner_inv 0 n s h) (Or.inr (by omega)), ih hpos]
  induction nF with
  | zero => omega
  | succ n ih =>
    rcases Nat.eq_zero_or_pos n with h0 | hpos
    · subst h0
      exact inner_zero nC hC s hs
    · show obs (forLoop nC (fun ch s => body n ch s)
        (forLoop n (fun i s => forLoop nC (fun ch s => body i ch s) s) s)) = obs (body 0 0 s)
      have hI : Inv (forLoop n (fun i s => forLoop nC (fun ch s => body i ch s) s) s) :=
        forLoop_inv Inv _ (fun i s hs => inner_inv i nC s hs) n s hs
      rw [inner_other n (by omega) nC _ hI, ih hpos]

namespace Web

variable {K : Type} [LinearOrderedField K] [FloorRing K]

theorem getD_set_other (l : List K) (i j : Nat) (v : K) (h : i ≠ j) :
    (l.set i v).getD j 0 = l.getD j 0 := by
  simp [List.getD_eq_getElem?_getD, List.getElem?_set, h]

theorem getD_set_same (l : List K) (i : Nat) (v : K) (h : i < l.length) :
    (l.set i v).getD i 0 = v := by
  simp [List.getD_eq_getElem?_getD, List.getElem?_set, h]

/-- One sample step keeps the shape of the output buffer. -/
theorem Track.processSample_shape (M : Libm K) (i ch : Nat) (s : Track K × AudioBuffer K) :
    (Track.processSample M i ch s).2.channels = s.2.channels ∧
    (Track.processSample M i ch s).2.samples.length = s.2.samples.length := by
  simp [Track.processSample, AudioBuffer.setSample]

/-- Rendering a track keeps the shape of the output buffer. -/
theorem Track.render_shape (M : Libm K) (t : Track K) (out : AudioBuffer K) :
    (t.render M out).2.channels = out.channels ∧
    (t.render M out).2.samples.length = out.samples.length := by
  unfold Track.render
  apply forLoop_inv (fun s : Track K × AudioBuffer K =>
    s.2.channels = out.channels ∧ s.2.samples.length = out.samples.length)
  · intro i s hs
    apply forLoop_inv (fun s : Track K × AudioBuffer K =>
      s.2.channels = out.channels ∧ s.2.samples.length = out.samples.length)
    · intro ch s2 hs2
      obtain ⟨h1, h2⟩ := Track.processSample_shape M i ch s2
      exact ⟨h1.trans hs2.1, h2.trans hs2.2⟩
    · exact hs
  · exact ⟨rfl, rfl⟩

/-- The first output sample after rendering a track: only the step at frame 0, channel 0
reaches it, adding the track's first sample after filter, delay, reverb, volume and pan. -/
theorem Track.render_first (M : Libm K) (t : Track K) (out : AudioBuffer K)
    (hch : 1 ≤ out.channels) (hlen : 0 < out.samples.length)
    (hF : 0 < min t.buffer.getFrameCount out.getFrameCount)
    (hC : 0 < min t.buffer.channels out.channels) :
    (t.render M out).2.getSample 0 0 =
      out.getSample 0 0 +
        (t.reverb.process (t.delay.process
          (t.filter.process M (t.buffer.getSample 0 0)).2).2).2
          * (t.volume * (1 - max 0 t.pan)) := by
  unfold Track.render
  have key : (forLoop (min t.buffer.getFrameCount out.getFrameCount)
      (fun i s => forLoop (min t.buffer.channels out.channels)
        (fun ch s => Track.processSample M i ch s) s) (t, out)).2.samples.getD 0 0
      = (Track.processSample M 0 0 (t, out)).2.samples.getD 0 0 :=
    forLoop2_first (fun s : Track K × AudioBuffer K => s.2.samples.getD 0 0)
    (fun s => 1 ≤ s.2.channels) (fun i ch s => Track.processSample M i ch s)
    (fun i ch s hs => by
      show 1 ≤ (Track.processSample M i ch s).2.channels
      rw [(Track.processSample_shape M i ch s).1]; exact hs)
    (fun i ch s hs hne => by
      have hidx : i * s.2.channels + ch ≠ 0 := by
        rcases hne with h | h
        · have : 1 ≤ i * s.2.channels := Nat.mul_pos (Nat.pos_of_ne_zero h) hs
          omega
        · omega
      simp only [Track.processSample, AudioBuffer.setSample]
      exact getD_set_other _ _ _ _ hidx)
    _ _ hF hC (t, out) hch
  have hobs : ∀ b : AudioBuffer K, b.getSample 0 0 = b.samples.getD 0 0 := by
    intro b; simp [AudioBuffer.getSample]
  rw [hobs, key]
  simp only [Track.processSample, AudioBuffer.setSample, AudioBuffer.getSample, Nat.zero_mul,
    Nat.add_zero, if_true]
  rw [getD_set_same _ _ _ hlen]

/-- The master-volume loop keeps the shape of the buffer. -/
theorem applyMasterVolume_shape (mv : K) (m : AudioBuffer K) :
    (CPPDAWEngine.applyMasterVolume mv m).channels = m.channels ∧
    (CPPDAWEngine.applyMasterVolume mv m).samples.length = m.samples.length := by
  unfold CPPDAWEngine.applyMasterVolume
  apply forLoop_inv (fun s : AudioBuffer K =>
    s.channels = m.channels ∧ s.samples.length = m.samples.length)
  · intro i s hs
    apply forLoop_inv (fun s : AudioBuffer K =>
      s.channels = m.channels ∧ s.samples.length = m.samples.length)
    · intro ch s2 hs2
      simpa [AudioBuffer.setSample] using hs2
    · exact hs
  · exact ⟨rfl, rfl⟩

/-- The first sample after the master-volume loop is the first sample times the volume. -/
theorem applyMasterVolume_first (mv : K) (m : AudioBuffer K)
    (hch : 1 ≤ m.channels) (hlen : 0 < m.samples.length) (hF : 0 < m.getFrameCount) :
    (CPPDAWEngine.applyMasterVolume mv m).getSample 0 0 = m.getSample 0 0 * mv := by
  unfold CPPDAWEngine.applyMasterVolume
  have key : (forLoop m.getFrameCount
      (fun i s => forLoop m.channels
        (fun ch (s : AudioBuffer K) => s.setSample i ch (s.getSample i ch * mv)) s)
      m).samples.getD 0 0
      = (m.setSample 0 0 (m.getSample 0 0 * mv)).samples.getD 0 0 :=
    forLoop2_first (fun s : AudioBuffer K => s.samples.getD 0 0)
    (fun s => 1 ≤ s.channels)
    (fun i ch (s : AudioBuffer K) => s.setSample i ch (s.getSample i ch * mv))
    (fun i ch s hs => by simpa [AudioBuffer.setSample] using hs)
    (fun i ch s hs hne => by
      have hidx : i * s.channels + ch ≠ 0 := by
        rcases hne with h | h
        · have : 1 ≤ i * s.channels := Nat.mul_pos (Nat.pos_of_ne_zero h) hs
          omega
        · omega
      simp only [AudioBuffer.setSample]
      exact getD_set_other _ _ _ _ hidx)
    _ _ hF hch m hch
  have hobs : ∀ b : AudioBuffer K, b.getSample 0 0 = b.samples.getD 0 0 := by
    intro b; simp [AudioBuffer.getSample]
  rw [hobs, key]
  simp only [AudioBuffer.setSample, AudioBuffer.getSample, Nat.zero_mul, Nat.add_zero]
  rw [getD_set_same _ _ _ hlen]

end Web

namespace Web

variable {K : Type} [LinearOrderedField K] [FloorRing K]

/-- The track loop of the engine adds a track to the master exactly when its gate
`!isMuted || isSoloed` holds, as long as no track is both muted and soloed. -/
theorem processTracks_master (M : Libm K) (tracks : List (Track K))
    (hno : ∀ t ∈ tracks, ¬ (t.isMuted = true ∧ t.isSoloed = true))
    (done : List (Track K)) (master : AudioBuffer K) :
    (tracks.foldl
      (fun (acc : List (Track K) × AudioBuffer K) track =>
        if !track.isMuted || track.isSoloed then
          let r := track.processAudio M acc.2
          (acc.1 ++ [r.1], r.2)
        else (acc.1 ++ [track], acc.2))
      (done, master)).2 =
    tracks.foldl
      (fun master t => if !t.isMuted || t.isSoloed then (t.render M master).2 else master)
      master := by
  induction tracks generalizing done master with
  | nil => rfl
  | cons t ts ih =>
    have ht := hno t (List.mem_cons_self t ts)
    have hts : ∀ u ∈ ts, ¬ (u.isMuted = true ∧ u.isSoloed = true) :=
      fun u hu => hno u (List.mem_cons_of_mem t hu)
    simp only [List.foldl_cons]
    by_cases hg : (!t.isMuted || t.isSoloed) = true
    · have hm : t.isMuted = false := by
        cases hmu : t.isMuted
        · rfl
        · rw [hmu] at hg
          exact absurd ⟨hmu, by simpa using hg⟩ ht
      simp only [hg, if_true, Track.processAudio, hm, Bool.false_eq_true, if_false]
      exact ih hts _ _
    · simp only [hg, if_false]
      exact ih hts _ _

theorem processAudio_master (M : Libm K) (e : CPPDAWEngine K) (hinit : e.isInitialized = true)
    (hno : ∀ t ∈ e.tracks, ¬ (t.isMuted = true ∧ t.isSoloed = true)) :
    (e.processAudio M).masterBuffer = mixOf M (fun t => !t.isMuted || t.isSoloed) e := by
  unfold CPPDAWEngine.processAudio mixOf CPPDAWEngine.processTracks
  simp only [hinit, Bool.not_true, Bool.false_eq_true, if_false]
  rw [processTracks_master M e.tracks hno]

theorem getD_replicate_lt (n i : Nat) (a : K) (h : i < n) :
    (List.replicate n a).getD i 0 = a := by
  simp [List.getD_eq_getElem?_getD, List.getElem?_replicate, h]

/-- A fresh delay line hands its input straight back. -/
theorem delayLine_fresh_process (n : Nat) (hn : 0 < n) (x : K) :
    ((DelayLine.mk_ n : DelayLine K).process x).2 = x := by
  simp only [DelayLine.process, DelayLine.mk_]
  exact getD_set_same _ _ _ (by simpa using hn)

/-- The output of a fresh reverb. -/
theorem reverb_fresh_process (x : K) :
    ((Reverb.mk_ : Reverb K).process x).2 = x * (31 / 40) := by
  simp only [Reverb.process, Reverb.mk_, List.foldl_cons, List.foldl_nil,
    delayLine_fresh_process 1116 (by decide), delayLine_fresh_process 1188 (by decide),
    delayLine_fresh_process 1277 (by decide), delayLine_fresh_process 1356 (by decide)]
  ring

/-- The output of a fresh delay at 44100 Hz: the delayed tap is still silent. -/
theorem delay_fresh_process (x : K) :
    ((Delay.mk_ 44100 : Delay K).process x).2 = x * (7 / 10) := by
  have h : ((1 / 4 : K) * (((44100 : Nat) : Int) : K)) = ((11025 : Int) : K) := by
    push_cast; norm_num
  have ht : truncToInt ((1 / 4 : K) * (((44100 : Nat) : Int) : K)) = 11025 := by
    rw [h]; simp [truncToInt]
  simp only [Delay.process, Delay.mk_, ht]
  have hpos : (if ((0 : Nat) : Int) - 11025 < 0 then ((0 : Nat) : Int) - 11025
      + ((44100 * 2 : Nat) : Int) else ((0 : Nat) : Int) - 11025).toNat = 77175 := by decide
  rw [hpos, getD_replicate_lt _ _ _ (by decide)]
  ring

/-- The output of a fresh filter at 44100 Hz. -/
theorem filter_fresh_process (M : Libm K) (x : K) :
    ((Filter.mk_ 44100 : Filter K).process M x).2
      = M.sin (2 * M.pi * 1000 / 44100) / (2 * (7 / 10)) * x := by
  simp only [Filter.process, Filter.mk_]
  ring

/-- What a fresh track with the constant signal adds to the first output sample. -/
theorem constantTrack_first (M : Libm K) (trackId : Int) (name : String) (soloed : Bool) :
    ((constantTrack M trackId name soloed).reverb.process
      ((constantTrack M trackId name soloed).delay.process
        ((constantTrack M trackId name soloed).filter.process M
          ((constantTrack M trackId name soloed).buffer.getSample 0 0)).2).2).2
      * ((constantTrack M trackId name soloed).volume
          * (1 - max 0 (constantTrack M trackId name soloed).pan))
      = M.sin (2 * M.pi * 1000 / 44100) * (93 / 320) := by
  have hs : (constantTrack M trackId name soloed).buffer.getSample 0 0 = 1 := by
    simp only [constantTrack, AudioBuffer.getSample]
    exact getD_replicate_lt _ _ _ (by decide)
  rw [hs]
  simp only [constantTrack, Track.mk_, filter_fresh_process, delay_fresh_process, reverb_fresh_process,
    max_self]
  ring

end Web

namespace Web

variable {K : Type} [LinearOrderedField K] [FloorRing K]

/-- A cleared sample list reads zero at every index. -/
theorem getD_map_zero (l : List K) (i : Nat) : (l.map (fun _ => (0 : K))).getD i 0 = 0 := by
  rw [List.getD_eq_getElem?_getD, List.getElem?_map]
  cases l[i]? <;> rfl

/-- Rendering a constant-signal track into a buffer shaped like the master adds
`sin(2π·1000/44100)·93/320` to the first sample. -/
theorem constantTrack_render_first (M : Libm K) (trackId : Int) (name : String) (soloed : Bool)
    (out : AudioBuffer K) (hch : out.channels = 2) (hlen : out.samples.length = 1024) :
    ((constantTrack M trackId name soloed).render M out).2.getSample 0 0
      = out.getSample 0 0 + M.sin (2 * M.pi * 1000 / 44100) * (93 / 320) := by
  have hbF : (constantTrack M trackId name soloed).buffer.getFrameCount = 1024 := by
    show (List.replicate 2048 (1 : K)).length / 2 = 1024
    rw [List.length_replicate]
  have hbC : (constantTrack M trackId name soloed).buffer.channels = 2 := rfl
  have hoF : out.getFrameCount = 512 := by
    unfold AudioBuffer.getFrameCount
    rw [hch, hlen]
  rw [Track.render_first M _ out (by omega) (by omega) (by rw [hbF, hoF]; decide)
    (by rw [hbC, hch]; decide), constantTrack_first]

/-- The first master sample of the solo example, as the engine computes it and as the
specification's policy would have it. -/
theorem soloEngine_first_samples (M : Libm K) :
    ((soloEngine M).processAudio M).masterBuffer.getSample 0 0
      = (M.sin (2 * M.pi * 1000 / 44100) * (93 / 320)
          + M.sin (2 * M.pi * 1000 / 44100) * (93 / 320)) * (3 / 4) ∧
    (mixOf M (specAudible (soloEngine M).tracks) (soloEngine M)).getSample 0 0
      = M.sin (2 * M.pi * 1000 / 44100) * (93 / 320) * (3 / 4) := by
  have hno : ∀ t ∈ (soloEngine M).tracks, ¬ (t.isMuted = true ∧ t.isSoloed = true) := by
    intro t ht
    simp only [soloEngine, List.mem_cons, List.mem_singleton, List.not_mem_nil, or_false] at ht
    rcases ht with h | h <;> subst h <;> exact fun h => Bool.noConfusion h.1
  have hm0c : ((soloEngine M).masterBuffer.clear).channels = 2 := rfl
  have hm0l : ((soloEngine M).masterBuffer.clear).samples.length = 1024 := by
    show ((List.replicate (512 * 2) (0 : K)).map (fun _ => (0 : K))).length = 1024
    rw [List.length_map, List.length_replicate]
  have hm0z : ((soloEngine M).masterBuffer.clear).getSample 0 0 = 0 :=
    getD_map_zero _ _
  have hmv : (soloEngine M).masterVolume = 3 / 4 := rfl
  have htracks : (soloEngine M).tracks
      = [constantTrack M 0 "A" true, constantTrack M 1 "B" false] := rfl
  have hgA : (!(constantTrack M 0 "A" true).isMuted || (constantTrack M 0 "A" true).isSoloed)
      = true := rfl
  have hgB : (!(constantTrack M 1 "B" false).isMuted || (constantTrack M 1 "B" false).isSoloed)
      = true := rfl
  have hsA : specAudible [constantTrack M 0 "A" true, constantTrack M 1 "B" false]
      (constantTrack M 0 "A" true) = true := rfl
  have hsB : specAudible [constantTrack M 0 "A" true, constantTrack M 1 "B" false]
      (constantTrack M 1 "B" false) = false := rfl
  have hA := constantTrack_render_first M 0 "A" true _ hm0c hm0l
  have hAs := Track.render_shape M (constantTrack M 0 "A" true) (soloEngine M).masterBuffer.clear
  have hAc := hAs.1.trans hm0c
  have hAl := hAs.2.trans hm0l
  have hB := constantTrack_render_first M 1 "B" false _ hAc hAl
  have hBs := Track.render_shape M (constantTrack M 1 "B" false)
    ((constantTrack M 0 "A" true).render M (soloEngine M).masterBuffer.clear).2
  have hBc := hBs.1.trans hAc
  have hBl := hBs.2.trans hAl
  constructor
  · rw [processAudio_master M (soloEngine M) rfl hno]
    have hfold : mixOf M (fun t => !t.isMuted || t.isSoloed) (soloEngine M)
        = CPPDAWEngine.applyMasterVolume (3 / 4)
            ((constantTrack M 1 "B" false).render M
              ((constantTrack M 0 "A" true).render M (soloEngine M).masterBuffer.clear).2).2 := by
      unfold mixOf
      rw [hmv, htracks, List.foldl_cons, List.foldl_cons, List.foldl_nil]
      beta_reduce
      rw [if_pos hgA, if_pos hgB]
    rw [hfold, applyMasterVolume_first _ _ (by omega) (by omega)
      (by unfold AudioBuffer.getFrameCount; rw [hBc, hBl]; decide), hB, hA, hm0z, zero_add]
  · have hfold : mixOf M (specAudible (soloEngine M).tracks) (soloEngine M)
        = CPPDAWEngine.applyMasterVolume (3 / 4)
            ((constantTrack M 0 "A" true).render M (soloEngine M).masterBuffer.clear).2 := by
      unfold mixOf
      rw [hmv, htracks, List.foldl_cons, List.foldl_cons, List.foldl_nil]
      rw [if_pos hsA, if_neg (by rw [hsB]; exact Bool.false_ne_true)]
    rw [hfold, applyMasterVolume_first _ _ (by omega) (by omega)
      (by unfold AudioBuffer.getFrameCount; rw [hAc, hAl]; decide), hA, hm0z, zero_add]

/-- C1, as stated, fails: with track A soloed and track B neither soloed nor muted, both
holding the same constant signal, the first master sample is twice what A alone contributes,
so the master buffer is not the mix the solo policy prescribes. -/
theorem C1_solo_does_not_silence_others :
    ((soloEngine (Libm.mk Real.sin Real.cos Real.pi)).processAudio
        (Libm.mk Real.sin Real.cos Real.pi)).masterBuffer.getSample 0 0
      ≠ (mixOf (Libm.mk Real.sin Real.cos Real.pi)
          (specAudible (soloEngine (Libm.mk Real.sin Real.cos Real.pi)).tracks)
          (soloEngine (Libm.mk Real.sin Real.cos Real.pi))).getSample 0 0 ∧
    ((soloEngine (Libm.mk Real.sin Real.cos Real.pi)).processAudio
        (Libm.mk Real.sin Real.cos Real.pi)).masterBuffer
      ≠ mixOf (Libm.mk Real.sin Real.cos Real.pi)
          (specAudible (soloEngine (Libm.mk Real.sin Real.cos Real.pi)).tracks)
          (soloEngine (Libm.mk Real.sin Real.cos Real.pi)) := by
  have hsin : 0 < Real.sin (2 * Real.pi * 1000 / 44100) := by
    apply Real.sin_pos_of_pos_of_lt_pi
    · positivity
    · have := Real.pi_pos
      linarith
  obtain ⟨h1, h2⟩ := soloEngine_first_samples (Libm.mk Real.sin Real.cos Real.pi)
  have hne : ((soloEngine (Libm.mk Real.sin Real.cos Real.pi)).processAudio
        (Libm.mk Real.sin Real.cos Real.pi)).masterBuffer.getSample 0 0
      ≠ (mixOf (Libm.mk Real.sin Real.cos Real.pi)
          (specAudible (soloEngine (Libm.mk Real.sin Real.cos Real.pi)).tracks)
          (soloEngine (Libm.mk Real.sin Real.cos Real.pi))).getSample 0 0 := by
    rw [h1, h2]
    intro h
    simp only at h
    linarith
  exact ⟨hne, fun h => hne (by rw [h])⟩

/-- The track loop of the engine adds exactly the tracks that are not muted: the gate
`!isMuted || isSoloed` hands a muted and soloed track to `Track::processAudio`, which returns
at once for a muted track. -/
theorem processTracks_unmuted (M : Libm K) (tracks : List (Track K))
    (done : List (Track K)) (master : AudioBuffer K) :
    (tracks.foldl
      (fun (acc : List (Track K) × AudioBuffer K) track =>
        if !track.isMuted || track.isSoloed then
          let r := track.processAudio M acc.2
          (acc.1 ++ [r.1], r.2)
        else (acc.1 ++ [track], acc.2))
      (done, master)).2 =
    tracks.foldl
      (fun master t => if !t.isMuted then (t.render M master).2 else master)
      master := by
  induction tracks generalizing done master with
  | nil => rfl
  | cons t ts ih =>
    simp only [List.foldl_cons]
    cases hmu : t.isMuted
    · simp only [Bool.not_false, Bool.true_or, if_true, Track.processAudio, hmu,
        Bool.false_eq_true, if_false]
      exact ih _ _
    · cases hso : t.isSoloed
      · simp only [Bool.not_true, Bool.or_self, Bool.false_eq_true, if_false]
        exact ih _ _
      · simp only [Bool.not_true, Bool.or_true, if_true, Track.processAudio, hmu,
          Bool.false_eq_true, if_false]
        exact ih _ _

/-- C1, amended: in every initialised engine the master buffer after processAudio is the
cleared master plus the rendering of exactly the tracks that are not muted, in order, times the
master volume.  A muted track adds nothing even when it is soloed (the gate
`!isMuted || isSoloed` lets it through and `Track::processAudio` returns at once), and
whether some other track is soloed plays no part; on the tracks that are not both muted and
soloed the gate `!isMuted || isSoloed` is the same test. -/
theorem C1_track_is_added_iff_not_muted (M : Libm K) (e : CPPDAWEngine K)
    (hinit : e.isInitialized = true) :
    (e.processAudio M).masterBuffer = mixOf M (fun t => !t.isMuted) e ∧
    ∀ t : Track K, ¬ (t.isMuted = true ∧ t.isSoloed = true) →
      (!t.isMuted || t.isSoloed) = !t.isMuted := by
  constructor
  · unfold CPPDAWEngine.processAudio mixOf CPPDAWEngine.processTracks
    simp only [hinit, Bool.not_true, Bool.false_eq_true, if_false]
    rw [processTracks_unmuted M e.tracks]
  · intro t ht
    cases hmu : t.isMuted
    · rfl
    · cases hso : t.isSoloed
      · rfl
      · exact absurd ⟨hmu, hso⟩ ht

/-- Witness of C1 (amended): the solo example, where neither track is muted, and the same
engine with track A muted as well as soloed, where only B is left in the mix. -/
theorem C1_track_is_added_iff_not_muted_witness :
    ((soloEngine (Libm.mk Real.sin Real.cos Real.pi)).processAudio
        (Libm.mk Real.sin Real.cos Real.pi)).masterBuffer
      = mixOf (Libm.mk Real.sin Real.cos Real.pi) (fun t => !t.isMuted)
          (soloEngine (Libm.mk Real.sin Real.cos Real.pi)) ∧
    (((soloEngine (Libm.mk Real.sin Real.cos Real.pi)).muteTrack 0).processAudio
        (Libm.mk Real.sin Real.cos Real.pi)).masterBuffer
      = mixOf (Libm.mk Real.sin Real.cos Real.pi) (fun t => !t.isMuted)
          ((soloEngine (Libm.mk Real.sin Real.cos Real.pi)).muteTrack 0) :=
  ⟨(C1_track_is_added_iff_not_muted (Libm.mk Real.sin Real.cos Real.pi)
      (soloEngine (Libm.mk Real.sin Real.cos Real.pi)) rfl).1,
   (C1_track_is_added_iff_not_muted (Libm.mk Real.sin Real.cos Real.pi)
      ((soloEngine (Libm.mk Real.sin Real.cos Real.pi)).muteTrack 0) rfl).1⟩

end Web

/-! ### Clip splitting, continued -/

/-- C12 at the failing input: on a track holding one clip over [1, 5), splitClip at 2.5
returns the id of a right-hand clip (1001) but leaves the track with a single clip, and the
track duration drops from 5 to 2.5. -/
theorem C12_split_drops_right_half :
    (EnhancedCPPDAWEngine_splitClip oneClipManager 1 1 (5 / 2)).2 = 1001 ∧
    ((EnhancedCPPDAWEngine_splitClip oneClipManager 1 1 (5 / 2)).1.tracks.map
      (fun t => t.clips.length)) = [1] ∧
    (oneClipManager.tracks.map (fun t => t.getTrackDuration)) = [5] ∧
    ((EnhancedCPPDAWEngine_splitClip oneClipManager 1 1 (5 / 2)).1.tracks.map
      (fun t => t.getTrackDuration)) = [5 / 2] := by
  norm_num [EnhancedCPPDAWEngine_splitClip, splitClipTracks, splitClipLoop, oneClipManager,
    AdvancedTrackManager.mk_, EnhancedTrack.mk_, EnhancedTrack.addClip,
    EnhancedTrack.getTrackDuration, AudioClip.split, AudioClip.mk_, AudioClip.getEndTime,
    TimePosition.mk_, TimePosition.ofSeconds]

/-! ### Clip fades -/

namespace Classic

variable {K : Type} [LinearOrderedField K] [FloorRing K]

/-- C13: for a clip with duration d > 0 and fades 0 < f <= d/2, 0 < g <= d/2, the fade
multiplier is 0 at sample position 0, is 1 at the sample position of local time f, and is 0 at
the sample position of local time d. -/
theorem C13_fade_multiplier (c : Clip K) (hrate : 0 < c.m_sampleRate)
    (_hd : 0 < c.m_duration)
    (hf : 0 < c.m_fadeInTime) (hf2 : c.m_fadeInTime ≤ c.m_duration / 2)
    (hg : 0 < c.m_fadeOutTime) (hg2 : c.m_fadeOutTime ≤ c.m_duration / 2) :
    c.calculateFadeMultiplier 0 = 0 ∧
    (∀ p : Nat, (p : K) = c.m_fadeInTime * c.m_sampleRate → c.calculateFadeMultiplier p = 1) ∧
    (∀ p : Nat, (p : K) = c.m_duration * c.m_sampleRate → c.calculateFadeMultiplier p = 0) := by
  have hne : c.m_sampleRate ≠ 0 := ne_of_gt hrate
  refine ⟨?_, ?_, ?_⟩
  · have h1 : ¬ (0 > c.m_duration - c.m_fadeOutTime) := by
      intro h; linarith
    simp only [Clip.calculateFadeMultiplier, Nat.cast_zero, zero_div, gt_iff_lt, hf, hg,
      and_self, if_true, mul_zero]
    rw [if_neg (by simpa using h1)]
  · intro p hp
    have ht : (p : K) / c.m_sampleRate = c.m_fadeInTime := by
      rw [hp, mul_div_assoc, div_self hne, mul_one]
    have h1 : ¬ (c.m_fadeInTime < c.m_fadeInTime) := lt_irrefl _
    have h2 : ¬ (c.m_duration - c.m_fadeOutTime < c.m_fadeInTime) := by
      intro h; linarith
    simp only [Clip.calculateFadeMultiplier, ht, gt_iff_lt, hf, hg, true_and, h1, if_false,
      if_true, h2]
  · intro p hp
    have ht : (p : K) / c.m_sampleRate = c.m_duration := by
      rw [hp, mul_div_assoc, div_self hne, mul_one]
    have h1 : ¬ (c.m_duration < c.m_fadeInTime) := by
      intro h; linarith
    have h2 : c.m_duration - c.m_fadeOutTime < c.m_duration := by linarith
    have h3 : (c.m_duration - (c.m_duration - c.m_fadeOutTime)) / c.m_fadeOutTime = 1 := by
      rw [sub_sub_cancel, div_self (ne_of_gt hg)]
    simp only [Clip.calculateFadeMultiplier, ht, gt_iff_lt, hf, hg, true_and, h1, if_false,
      if_true, h2, h3, sub_self, mul_zero]

/-- Witness of C13: a 2 s clip at 4 Hz with half-second fades; local time 0.5 s is sample 2
and the clip end is sample 8. -/
theorem C13_fade_multiplier_witness :
    fadedClip.calculateFadeMultiplier 0 = 0 ∧ fadedClip.calculateFadeMultiplier 2 = 1 ∧
    fadedClip.calculateFadeMultiplier 8 = 0 := by
  have h := C13_fade_multiplier fadedClip (by norm_num [fadedClip, Clip.mk_])
    (by norm_num [fadedClip, Clip.mk_]) (by norm_num [fadedClip, Clip.mk_])
    (by norm_num [fadedClip, Clip.mk_]) (by norm_num [fadedClip, Clip.mk_])
    (by norm_num [fadedClip, Clip.mk_])
  exact ⟨h.1, h.2.1 2 (by norm_num [fadedClip, Clip.mk_]),
    h.2.2 8 (by norm_num [fadedClip, Clip.mk_])⟩

/-- C14 at the failing input: after setDuration(10), setFadeIn(5), setDuration(2) the clip has
fadeInTime 5 and duration 2, so fadeInTime <= duration/2 does not hold. -/
theorem C14_fade_bound_broken_by_setDuration :
    shortenedClip.m_fadeInTime = 5 ∧ shortenedClip.m_duration = 2 ∧
    ¬ (shortenedClip.m_fadeInTime ≤ shortenedClip.m_duration / 2) := by
  norm_num [shortenedClip, Clip.setDuration, Clip.setFadeIn, Clip.mk_, stdClamp]

end Classic

/-! ### Planar sample storage -/

section Cells

variable {K : Type}

theorem cell?_cellSet (data : List (List K)) (c s : Nat) (v : K) (c2 s2 : Nat) :
    cell? (cellSet data c s v) c2 s2 =
      if c2 = c ∧ s2 = s then (cell? data c s).map (fun _ => v) else cell? data c2 s2 := by
  unfold cell? cellSet
  rw [List.getElem?_set]
  by_cases hc : c = c2
  · subst hc
    by_cases hlt : c < data.length
    · have hrow : data[c]? = some data[c] := List.getElem?_eq_getElem hlt
      have hD : data.getD c [] = data[c] := by
        rw [List.getD_eq_getElem?_getD, hrow]; rfl
      simp only [hlt, if_true, hrow, hD, Option.some_bind, true_and, List.getElem?_set]
      by_cases hs : s = s2
      · subst hs
        by_cases hsl : s < data[c].length
        · simp [hsl, List.getElem?_eq_getElem hsl]
        · simp [hsl, List.getElem?_eq_none (Nat.le_of_not_lt hsl)]
      · have hs2 : ¬ s2 = s := fun e => hs e.symm
        simp [hs, hs2]
    · have hnone : data[c]? = none := List.getElem?_eq_none (Nat.le_of_not_lt hlt)
      simp [hlt, hnone]
  · have hc2 : ¬ c2 = c := fun e => hc e.symm
    simp [hc, hc2]

theorem cellGet_eq [Zero K] (data : List (List K)) (c s : Nat) :
    cellGet data c s = (cell? data c s).getD 0 := by
  unfold cellGet cell?
  rw [List.getD_eq_getElem?_getD, List.getD_eq_getElem?_getD]
  cases data[c]? <;> simp

/-- An update of one cell through its old value, seen cell by cell. -/
theorem cell?_update [Zero K] (data : List (List K)) (c s : Nat) (f : K → K) (c2 s2 : Nat) :
    cell? (cellSet data c s (f (cellGet data c s))) c2 s2 =
      if c2 = c ∧ s2 = s then (cell? data c2 s2).map f else cell? data c2 s2 := by
  rw [cell?_cellSet, cellGet_eq]
  by_cases h : c2 = c ∧ s2 = s
  · obtain ⟨h1, h2⟩ := h
    subst h1; subst h2
    simp only [and_self, if_true]
    cases cell? data c2 s2 <;> simp
  · simp [h]

theorem cellSet_length (data : List (List K)) (c s : Nat) (v : K) :
    (cellSet data c s v).length = data.length := by
  simp [cellSet]

/-- A store keeps the length of every channel. -/
theorem cellSet_rowLengths (data : List (List K)) (c s : Nat) (v : K) :
    (cellSet data c s v).map List.length = data.map List.length := by
  unfold cellSet
  apply List.ext_getElem?
  intro j
  rw [List.getElem?_map, List.getElem?_map, List.getElem?_set]
  by_cases hc : c = j
  · subst hc
    by_cases hlt : c < data.length
    · simp [hlt, List.getElem?_eq_getElem hlt, List.getD_eq_getElem?_getD]
    · simp [hlt, List.getElem?_eq_none (Nat.le_of_not_lt hlt)]
  · simp [hc]

/-- Two vectors of channels with the same number of channels and the same cells are equal. -/
theorem cells_ext (d1 d2 : List (List K)) (hlen : d1.map List.length = d2.map List.length)
    (h : ∀ c s, cell? d1 c s = cell? d2 c s) : d1 = d2 := by
  have hl : d1.length = d2.length := by
    have := congrArg List.length hlen
    simpa using this
  apply List.ext_getElem?
  intro c
  by_cases hc : c < d1.length
  · have hc2 : c < d2.length := hl ▸ hc
    rw [List.getElem?_eq_getElem hc, List.getElem?_eq_getElem hc2]
    congr 1
    apply List.ext_getElem?
    intro s
    have := h c s
    simpa [cell?, List.getElem?_eq_getElem hc, List.getElem?_eq_getElem hc2] using this
  · have hc2 : ¬ c < d2.length := hl ▸ hc
    rw [List.getElem?_eq_none (Nat.le_of_not_lt hc), List.getElem?_eq_none (Nat.le_of_not_lt hc2)]

/-- A loop over the samples `off, off + 1, ...` of one channel, each updated through its old
value, seen cell by cell. -/
theorem cell?_rowLoop [Zero K] (F : Nat → K → K) (c off n : Nat) (data : List (List K))
    (c2 s2 : Nat) :
    cell? (forLoop n (fun s d => cellSet d c (off + s) (F s (cellGet d c (off + s)))) data)
        c2 s2 =
      if c2 = c ∧ off ≤ s2 ∧ s2 < off + n then (cell? data c2 s2).map (F (s2 - off))
      else cell? data c2 s2 := by
  induction n with
  | zero =>
    have : ¬ (c2 = c ∧ off ≤ s2 ∧ s2 < off + 0) := by omega
    simp only [forLoop]
    rw [if_neg this]
  | succ n ih =>
    simp only [forLoop]
    rw [cell?_update, ih]
    by_cases hc : c2 = c
    · by_cases hs : s2 = off + n
      · have h1 : ¬ (c2 = c ∧ off ≤ s2 ∧ s2 < off + n) := by omega
        have h2 : c2 = c ∧ off ≤ s2 ∧ s2 < off + (n + 1) := ⟨hc, by omega, by omega⟩
        have h3 : s2 - off = n := by omega
        rw [if_pos ⟨hc, hs⟩, if_neg h1, if_pos h2, h3]
      · have h0 : ¬ (c2 = c ∧ s2 = off + n) := fun h => hs h.2
        rw [if_neg h0]
        by_cases h1 : c2 = c ∧ off ≤ s2 ∧ s2 < off + n
        · have h2 : c2 = c ∧ off ≤ s2 ∧ s2 < off + (n + 1) := ⟨hc, h1.2.1, by omega⟩
          rw [if_pos h1, if_pos h2]
        · have h2 : ¬ (c2 = c ∧ off ≤ s2 ∧ s2 < off + (n + 1)) := by
            intro h; exact h1 ⟨hc, h.2.1, by omega⟩
          rw [if_neg h1, if_neg h2]
    · have h0 : ¬ (c2 = c ∧ s2 = off + n) := fun h => hc h.1
      have h1 : ¬ (c2 = c ∧ off ≤ s2 ∧ s2 < off + n) := fun h => hc h.1
      have h2 : ¬ (c2 = c ∧ off ≤ s2 ∧ s2 < off + (n + 1)) := fun h => hc h.1
      rw [if_neg h0, if_neg h1, if_neg h2]

/-- The nested channel/sample loop of the mixing operations, seen cell by cell. -/
theorem cell?_gridLoop [Zero K] (F : Nat → Nat → K → K) (off m n : Nat) (data : List (List K))
    (c2 s2 : Nat) :
    cell? (forLoop m (fun c d =>
        forLoop n (fun s d => cellSet d c (off + s) (F c s (cellGet d c (off + s)))) d) data)
        c2 s2 =
      if c2 < m ∧ off ≤ s2 ∧ s2 < off + n then (cell? data c2 s2).map (F c2 (s2 - off))
      else cell? data c2 s2 := by
  induction m with
  | zero =>
    have : ¬ (c2 < 0 ∧ off ≤ s2 ∧ s2 < off + n) := by omega
    simp only [forLoop]
    rw [if_neg this]
  | succ m ih =>
    simp only [forLoop]
    rw [cell?_rowLoop (F m) m off n, ih]
    by_cases hc : c2 = m
    · have h1 : ¬ (c2 < m ∧ off ≤ s2 ∧ s2 < off + n) := by omega
      rw [if_neg h1]
      by_cases hs : off ≤ s2 ∧ s2 < off + n
      · rw [if_pos ⟨hc, hs⟩, if_pos ⟨by omega, hs⟩, hc]
      · have h2 : ¬ (c2 = m ∧ off ≤ s2 ∧ s2 < off + n) := fun h => hs h.2
        have h3 : ¬ (c2 < m + 1 ∧ off ≤ s2 ∧ s2 < off + n) := fun h => hs h.2
        rw [if_neg h2, if_neg h3]
    · have h0 : ¬ (c2 = m ∧ off ≤ s2 ∧ s2 < off + n) := fun h => hc h.1
      rw [if_neg h0]
      by_cases h1 : c2 < m ∧ off ≤ s2 ∧ s2 < off + n
      · rw [if_pos h1, if_pos ⟨by omega, h1.2⟩]
      · have h2 : ¬ (c2 < m + 1 ∧ off ≤ s2 ∧ s2 < off + n) := by
          intro h; exact h1 ⟨by omega, h.2⟩
        rw [if_neg h1, if_neg h2]

/-- The nested channel/sample loop keeps the length of every channel. -/
theorem gridLoop_rowLengths [Zero K] (F : Nat → Nat → K → K) (off m n : Nat)
    (data : List (List K)) :
    (forLoop m (fun c d =>
        forLoop n (fun s d => cellSet d c (off + s) (F c s (cellGet d c (off + s)))) d) data).map
        List.length = data.map List.length := by
  apply forLoop_inv (fun d : List (List K) => d.map List.length = data.map List.length)
  · intro c d hd
    apply forLoop_inv (fun d : List (List K) => d.map List.length = data.map List.length)
    · intro s d2 hd2
      rw [cellSet_rowLengths]; exact hd2
    · exact hd
  · rfl

end Cells

/-! ### The planar buffer of `AudioBuffer.cpp` -/

namespace Classic

variable {K : Type} [LinearOrderedField K] [FloorRing K]

theorem cellGet_cleared (data : List (List K)) (c s : Nat) :
    cellGet (data.map (fun channel => channel.map (fun _ => (0 : K)))) c s = 0 := by
  rw [cellGet_eq]
  unfold cell?
  rw [List.getElem?_map]
  cases data[c]? with
  | none => rfl
  | some row =>
    simp only [Option.map_some', Option.some_bind, List.getElem?_map]
    cases row[s]? <;> rfl

/-- C15: after clear(), getSample returns 0 for every channel and sample index, in range or
not, and the channel count and sample count are unchanged. -/
theorem C15_clear_then_getSample (b : AudioBuffer K) (channel sample : Nat) :
    b.clear.getSample channel sample = 0 ∧
    b.clear.getNumChannels = b.getNumChannels ∧ b.clear.getNumSamples = b.getNumSamples := by
  refine ⟨?_, rfl, rfl⟩
  unfold AudioBuffer.getSample AudioBuffer.clear
  split
  · exact cellGet_cleared _ _ _
  · rfl

/-- In a well-formed buffer every in-range cell exists. -/
theorem AudioBuffer.cell?_inRange (b : AudioBuffer K) (hwf : b.WellFormed) (c s : Nat)
    (hc : c < b.m_numChannels) (hs : s < b.m_numSamples) :
    cell? b.m_data c s = some (cellGet b.m_data c s) := by
  obtain ⟨hlen, hrows⟩ := hwf
  have hc2 : c < b.m_data.length := by omega
  have hrow : b.m_data[c].length = b.m_numSamples := hrows _ (List.getElem_mem hc2)
  have hs2 : s < b.m_data[c].length := by omega
  rw [cellGet_eq]
  simp [cell?, List.getElem?_eq_getElem hc2, List.getElem?_eq_getElem hs2]

/-- C16: for an index pair with channel >= numChannels or sample >= numSamples getSample
returns 0 and setSample and addSample leave the whole buffer unchanged; for an in-range pair of
a well-formed buffer setSample followed by getSample returns the value set, and no other sample
changes. -/
theorem C16_index_guards (b : AudioBuffer K) (hwf : b.WellFormed) (c s : Nat) (v : K) :
    (¬ (c < b.m_numChannels ∧ s < b.m_numSamples) →
      b.getSample c s = 0 ∧ b.setSample c s v = b ∧ b.addSample c s v = b) ∧
    ((c < b.m_numChannels ∧ s < b.m_numSamples) →
      (b.setSample c s v).getSample c s = v ∧
      ∀ c2 s2, (c2 ≠ c ∨ s2 ≠ s) → (b.setSample c s v).getSample c2 s2 = b.getSample c2 s2) := by
  constructor
  · intro h
    simp only [AudioBuffer.getSample, AudioBuffer.setSample, AudioBuffer.addSample, h, if_false,
      and_self]
  · intro h
    have hcell := AudioBuffer.cell?_inRange b hwf c s h.1 h.2
    constructor
    · simp only [AudioBuffer.getSample, AudioBuffer.setSample, h, and_self, if_true]
      rw [cellGet_eq, cell?_cellSet, hcell]
      simp
    · intro c2 s2 hne
      simp only [AudioBuffer.getSample, AudioBuffer.setSample, h, and_self, if_true]
      have hne2 : ¬ (c2 = c ∧ s2 = s) := by
        intro e; rcases hne with h1 | h1
        · exact h1 e.1
        · exact h1 e.2
      split
      · rw [cellGet_eq, cellGet_eq, cell?_cellSet, if_neg hne2]
      · rfl

/-- Witness of C16: sample (1, 2) of the small stereo buffer is in range, (2, 0) is not. -/
theorem C16_index_guards_witness :
    (smallBuffer.setSample 1 2 9).getSample 1 2 = 9 ∧ smallBuffer.getSample 2 0 = 0 :=
  ⟨((C16_index_guards smallBuffer (by decide) 1 2 9).2 (by decide)).1,
   ((C16_index_guards smallBuffer (by decide) 2 0 9).1 (by decide)).1⟩

/-- The cells of a buffer after `addFrom`. -/
theorem AudioBuffer.cell?_addFrom (d a : AudioBuffer K) (c s : Nat) :
    cell? (d.addFrom a).m_data c s =
      if c < min d.m_numChannels a.m_numChannels ∧ s < min d.m_numSamples a.m_numSamples then
        (cell? d.m_data c s).map (fun x => x + cellGet a.m_data c s)
      else cell? d.m_data c s := by
  have h := cell?_gridLoop (fun c s (x : K) => x + cellGet a.m_data c s) 0
    (min d.m_numChannels a.m_numChannels) (min d.m_numSamples a.m_numSamples) d.m_data c s
  simp only [Nat.zero_add, Nat.zero_le, true_and, Nat.sub_zero] at h
  exact h

theorem AudioBuffer.rowLengths_addFrom (d a : AudioBuffer K) :
    (d.addFrom a).m_data.map List.length = d.m_data.map List.length := by
  have h := gridLoop_rowLengths (fun c s (x : K) => x + cellGet a.m_data c s) 0
    (min d.m_numChannels a.m_numChannels) (min d.m_numSamples a.m_numSamples) d.m_data
  simp only [Nat.zero_add] at h
  exact h

/-- C17: adding a and then b to d gives the same buffer as adding b and then a, for buffers of
any shapes, over exact arithmetic. -/
theorem C17_addFrom_commutes (d a b : AudioBuffer K) :
    (d.addFrom a).addFrom b = (d.addFrom b).addFrom a := by
  have hdata : ((d.addFrom a).addFrom b).m_data = ((d.addFrom b).addFrom a).m_data := by
    apply cells_ext
    · rw [AudioBuffer.rowLengths_addFrom, AudioBuffer.rowLengths_addFrom,
        AudioBuffer.rowLengths_addFrom, AudioBuffer.rowLengths_addFrom]
    · intro c s
      rw [AudioBuffer.cell?_addFrom, AudioBuffer.cell?_addFrom, AudioBuffer.cell?_addFrom,
        AudioBuffer.cell?_addFrom]
      have h1 : (d.addFrom a).m_numChannels = d.m_numChannels := rfl
      have h2 : (d.addFrom a).m_numSamples = d.m_numSamples := rfl
      have h3 : (d.addFrom b).m_numChannels = d.m_numChannels := rfl
      have h4 : (d.addFrom b).m_numSamples = d.m_numSamples := rfl
      rw [h1, h2, h3, h4]
      by_cases ha : c < min d.m_numChannels a.m_numChannels ∧
          s < min d.m_numSamples a.m_numSamples <;>
        by_cases hb : c < min d.m_numChannels b.m_numChannels ∧
          s < min d.m_numSamples b.m_numSamples <;>
        simp only [ha, hb, if_true, if_false]
      cases cell? d.m_data c s with
      | none => rfl
      | some x => simp [add_right_comm]
  have hshape : ∀ x y : AudioBuffer K, x.m_numChannels = y.m_numChannels →
      x.m_numSamples = y.m_numSamples → x.m_sampleRate = y.m_sampleRate →
      x.m_data = y.m_data → x = y := by
    intro x y e1 e2 e3 e4
    cases x; cases y
    simp only at e1 e2 e3 e4
    subst e1; subst e2; subst e3; subst e4
    rfl
  exact hshape _ _ rfl rfl rfl hdata

end Classic

/-! ### The planar buffer of `AudioBuffer.hpp` -/

namespace DAW

variable {K : Type} [LinearOrderedField K]

theorem AudioBuffer.getAt_eq (b : AudioBuffer K) (ch i : Nat) :
    b.getAt ch i = if ch < b.numChannels_ then cellGet b.channels_ ch i else 0 := by
  unfold AudioBuffer.getAt AudioBuffer.GetChannelData cellGet
  split
  · simp only [List.getD_eq_getElem?_getD]
  · rfl

theorem AudioBuffer.setAt_eq (b : AudioBuffer K) (ch i : Nat) (v : K) :
    b.setAt ch i v =
      if ch < b.numChannels_ then { b with channels_ := cellSet b.channels_ ch i v } else b := by
  unfold AudioBuffer.setAt AudioBuffer.GetChannelData cellSet
  by_cases hc : ch < b.numChannels_
  · simp only [hc, if_true]
    cases hrow : b.channels_[ch]? with
    | none =>
      have hge : b.channels_.length ≤ ch := by
        by_contra hlt
        rw [List.getElem?_eq_getElem (Nat.lt_of_not_le hlt)] at hrow
        exact Option.noConfusion hrow
      simp only [List.set_eq_of_length_le hge]
    | some row =>
      simp only [List.getD_eq_getElem?_getD, hrow, Option.getD_some]
  · simp only [hc, if_false]

theorem AudioBuffer.wellFormed_iff (b : AudioBuffer K) :
    b.WellFormed ↔ b.channels_.map List.length = List.replicate b.numChannels_ b.numFrames_ := by
  unfold AudioBuffer.WellFormed
  rw [List.eq_replicate_iff]
  simp

/-- In a well-formed buffer exactly the in-range cells exist. -/
theorem AudioBuffer.cell?_of_wellFormed (b : AudioBuffer K) (hwf : b.WellFormed) (c s : Nat) :
    cell? b.channels_ c s =
      if c < b.numChannels_ ∧ s < b.numFrames_ then some (cellGet b.channels_ c s) else none := by
  obtain ⟨hlen, hrows⟩ := hwf
  rw [cellGet_eq]
  by_cases hc : c < b.numChannels_
  · have hc2 : c < b.channels_.length := by omega
    have hrow : b.channels_[c].length = b.numFrames_ := hrows _ (List.getElem_mem hc2)
    by_cases hs : s < b.numFrames_
    · have hs2 : s < b.channels_[c].length := by omega
      simp [cell?, List.getElem?_eq_getElem hc2, List.getElem?_eq_getElem hs2, hc, hs]
    · have hs2 : b.channels_[c].length ≤ s := by omega
      simp [cell?, List.getElem?_eq_getElem hc2, List.getElem?_eq_none hs2, hs]
  · have hc2 : b.channels_.length ≤ c := by omega
    simp [cell?, List.getElem?_eq_none hc2, hc]

/-- C18: on a well-formed destination, MixFrom(other, gain, startFrame) keeps the shape, and
destination sample (ch, startFrame + i) becomes old + other(ch, i) * gain for
ch < min(numChannels, other.numChannels) and i < min(numFrames - startFrame, other.numFrames),
while every other destination sample is unchanged. -/
theorem C18_MixFrom_frame (d other : AudioBuffer K) (gain : K) (startFrame : Nat)
    (hwf : d.WellFormed) :
    (d.MixFrom other gain startFrame).numChannels_ = d.numChannels_ ∧
    (d.MixFrom other gain startFrame).numFrames_ = d.numFrames_ ∧
    (d.MixFrom other gain startFrame).WellFormed ∧
    ∀ ch j, (d.MixFrom other gain startFrame).getAt ch j =
      if ch < min d.numChannels_ other.numChannels_ ∧ startFrame ≤ j ∧
          j - startFrame < min (d.numFrames_ - startFrame) other.numFrames_
      then d.getAt ch j + other.getAt ch (j - startFrame) * gain
      else d.getAt ch j := by
  have hrows : (d.MixFrom other gain startFrame).channels_.map List.length
      = d.channels_.map List.length :=
    gridLoop_rowLengths (fun c s (x : K) => x + cellGet other.channels_ c s * gain) startFrame
      (min d.numChannels_ other.numChannels_)
      (min (d.numFrames_ - startFrame) other.numFrames_) d.channels_
  have hcell : ∀ ch j, cell? (d.MixFrom other gain startFrame).channels_ ch j =
      if ch < min d.numChannels_ other.numChannels_ ∧ startFrame ≤ j ∧
          j < startFrame + min (d.numFrames_ - startFrame) other.numFrames_
      then (cell? d.channels_ ch j).map
        (fun x => x + cellGet other.channels_ ch (j - startFrame) * gain)
      else cell? d.channels_ ch j :=
    fun ch j => cell?_gridLoop (fun c s (x : K) => x + cellGet other.channels_ c s * gain)
      startFrame (min d.numChannels_ other.numChannels_)
      (min (d.numFrames_ - startFrame) other.numFrames_) d.channels_ ch j
  refine ⟨rfl, rfl, ?_, ?_⟩
  · rw [AudioBuffer.wellFormed_iff, hrows]
    exact (AudioBuffer.wellFormed_iff d).1 hwf
  · intro ch j
    rw [AudioBuffer.getAt_eq, AudioBuffer.getAt_eq d, AudioBuffer.getAt_eq other]
    have hnc : (d.MixFrom other gain startFrame).numChannels_ = d.numChannels_ := rfl
    rw [hnc]
    by_cases hc : ch < d.numChannels_
    · simp only [hc, if_true]
      rw [cellGet_eq, hcell, AudioBuffer.cell?_of_wellFormed d hwf]
      by_cases hin : ch < min d.numChannels_ other.numChannels_ ∧ startFrame ≤ j ∧
          j < startFrame + min (d.numFrames_ - startFrame) other.numFrames_
      · have hin2 : ch < min d.numChannels_ other.numChannels_ ∧ startFrame ≤ j ∧
            j - startFrame < min (d.numFrames_ - startFrame) other.numFrames_ :=
          ⟨hin.1, hin.2.1, by omega⟩
        have hj : j < d.numFrames_ := by omega
        have hco : ch < other.numChannels_ := by omega
        rw [if_pos hin, if_pos hin2, if_pos ⟨hc, hj⟩, if_pos hco]
        rfl
      · have hin2 : ¬ (ch < min d.numChannels_ other.numChannels_ ∧ startFrame ≤ j ∧
            j - startFrame < min (d.numFrames_ - startFrame) other.numFrames_) := by
          intro h; exact hin ⟨h.1, h.2.1, by omega⟩
        rw [if_neg hin, if_neg hin2]
        by_cases hj : j < d.numFrames_
        · rw [if_pos ⟨hc, hj⟩]
          rfl
        · have hno : ¬ (ch < d.numChannels_ ∧ j < d.numFrames_) := fun h => hj h.2
          rw [if_neg hno, cellGet_eq, AudioBuffer.cell?_of_wellFormed d hwf, if_neg hno]
    · have hin2 : ¬ (ch < min d.numChannels_ other.numChannels_ ∧ startFrame ≤ j ∧
          j - startFrame < min (d.numFrames_ - startFrame) other.numFrames_) := by
        intro h; omega
      rw [if_neg hin2]
      simp only [if_neg hc]

/-- Witness of C18: mixing the mono pair at gain 2 into the stereo pair from frame 1 changes
only sample (0, 1), from 2 to 2 + 1 * 2. -/
theorem C18_MixFrom_frame_witness :
    ((stereoPair : AudioBuffer ℚ).MixFrom monoPair 2 1).getAt 0 1 = 4 ∧
    ((stereoPair : AudioBuffer ℚ).MixFrom monoPair 2 1).getAt 1 1 = 4 := by
  have h := (C18_MixFrom_frame (stereoPair : AudioBuffer ℚ) monoPair 2 1 (by decide)).2.2.2
  refine ⟨?_, ?_⟩
  · rw [h 0 1]
    norm_num [stereoPair, monoPair, AudioBuffer.getAt, AudioBuffer.GetChannelData]
  · rw [h 1 1]
    norm_num [stereoPair, monoPair, AudioBuffer.getAt, AudioBuffer.GetChannelData]

end DAW

/-! ### Volume and pan -/

namespace DAW

variable {K : Type} [LinearOrderedField K]

/-- A frame loop whose iteration `i` maps the samples of frame `i` channel-wise by `G`, seen
cell by cell. -/
theorem frameLoop_cells (body : Nat → AudioBuffer K → AudioBuffer K) (G : Nat → K → K) (N : Nat)
    (hshape : ∀ i r, r.numChannels_ = N → (body i r).numChannels_ = N)
    (hstep : ∀ i r, r.numChannels_ = N → ∀ c s, cell? (body i r).channels_ c s =
      if s = i then (cell? r.channels_ c s).map (G c) else cell? r.channels_ c s)
    (n : Nat) (b : AudioBuffer K) (hb : b.numChannels_ = N) :
    (forLoop n body b).numChannels_ = N ∧
    ∀ c s, cell? (forLoop n body b).channels_ c s =
      if s < n then (cell? b.channels_ c s).map (G c) else cell? b.channels_ c s := by
  induction n with
  | zero =>
    refine ⟨hb, fun c s => ?_⟩
    simp only [forLoop]
    rw [if_neg (Nat.not_lt_zero s)]
  | succ n ih =>
    obtain ⟨h1, h2⟩ := ih
    refine ⟨hshape n _ h1, fun c s => ?_⟩
    simp only [forLoop]
    rw [hstep n _ h1, h2]
    by_cases hs : s = n
    · have hn : ¬ s < n := by omega
      rw [if_pos hs, if_neg hn, if_pos (by omega)]
    · rw [if_neg hs]
      by_cases hlt : s < n
      · rw [if_pos hlt, if_pos (by omega)]
      · rw [if_neg hlt, if_neg (by omega)]

/-- One store through the old value, seen cell by cell. -/
theorem AudioBuffer.cell?_setAt_update (r : AudioBuffer K) (ch i : Nat) (f : K → K)
    (hch : ch < r.numChannels_) (c s : Nat) :
    cell? (r.setAt ch i (f (r.getAt ch i))).channels_ c s =
      if c = ch ∧ s = i then (cell? r.channels_ c s).map f else cell? r.channels_ c s := by
  rw [AudioBuffer.setAt_eq, AudioBuffer.getAt_eq, if_pos hch, if_pos hch]
  exact cell?_update r.channels_ ch i f c s

theorem AudioBuffer.numChannels_setAt (r : AudioBuffer K) (ch i : Nat) (v : K) :
    (r.setAt ch i v).numChannels_ = r.numChannels_ := by
  rw [AudioBuffer.setAt_eq]
  split <;> rfl

/-- The value read at a cell of a well-formed buffer after a channel-wise map of the frames
below the frame count. -/
theorem AudioBuffer.getAt_of_mapped (b r : AudioBuffer K) (hwf : b.WellFormed) (g : K → K)
    (hg : g 0 = 0) (hnc : r.numChannels_ = b.numChannels_) (c : Nat)
    (hcell : ∀ s, cell? r.channels_ c s =
      if s < b.numFrames_ then (cell? b.channels_ c s).map g else cell? b.channels_ c s)
    (i : Nat) : r.getAt c i = g (b.getAt c i) := by
  rw [AudioBuffer.getAt_eq, AudioBuffer.getAt_eq, hnc]
  by_cases hc : c < b.numChannels_
  · rw [if_pos hc, if_pos hc, cellGet_eq, hcell, AudioBuffer.cell?_of_wellFormed b hwf]
    by_cases hi : i < b.numFrames_
    · rw [if_pos hi, if_pos ⟨hc, hi⟩]
      rfl
    · have hno : ¬ (c < b.numChannels_ ∧ i < b.numFrames_) := fun h => hi h.2
      rw [if_neg hi, if_neg hno, cellGet_eq, AudioBuffer.cell?_of_wellFormed b hwf, if_neg hno]
      exact hg.symm
  · rw [if_neg hc, if_neg hc]
    exact hg.symm

/-- What `Track::ApplyVolumeAndPan` does to a well-formed buffer, for any libm: with two
channels or more the left samples are scaled by `cos((pan+1)·¼·π)·vol` and the right ones by
`sin((pan+1)·¼·π)·vol`; a mono buffer is scaled by `vol`. -/
theorem Track.ApplyVolumeAndPan_samples (M : Libm K) (t : Track K) (b : AudioBuffer K)
    (hwf : b.WellFormed) :
    (2 ≤ b.numChannels_ → ∀ i,
      (t.ApplyVolumeAndPan M b).getAt 0 i
        = b.getAt 0 i * (M.cos ((t.pan_ + 1) * (1 / 4) * M.pi) * t.volume_) ∧
      (t.ApplyVolumeAndPan M b).getAt 1 i
        = b.getAt 1 i * (M.sin ((t.pan_ + 1) * (1 / 4) * M.pi) * t.volume_)) ∧
    (b.numChannels_ = 1 → ∀ i,
      (t.ApplyVolumeAndPan M b).getAt 0 i = b.getAt 0 i * t.volume_) := by
  constructor
  · intro h2 i
    have hloop := frameLoop_cells
      (fun i (b : AudioBuffer K) =>
        (b.setAt 0 i (b.getAt 0 i * (M.cos ((t.pan_ + 1) * (1 / 4) * M.pi) * t.volume_))).setAt
          1 i ((b.setAt 0 i (b.getAt 0 i
            * (M.cos ((t.pan_ + 1) * (1 / 4) * M.pi) * t.volume_))).getAt 1 i
            * (M.sin ((t.pan_ + 1) * (1 / 4) * M.pi) * t.volume_)))
      (fun c x => if c = 0 then x * (M.cos ((t.pan_ + 1) * (1 / 4) * M.pi) * t.volume_)
        else if c = 1 then x * (M.sin ((t.pan_ + 1) * (1 / 4) * M.pi) * t.volume_) else x)
      b.numChannels_
      (fun i r hr => by
        rw [AudioBuffer.numChannels_setAt, AudioBuffer.numChannels_setAt]; exact hr)
      (fun i r hr c s => by
        have h0 : 0 < r.numChannels_ := by omega
        have h1 : 1 < (r.setAt 0 i (r.getAt 0 i
            * (M.cos ((t.pan_ + 1) * (1 / 4) * M.pi) * t.volume_))).numChannels_ := by
          rw [AudioBuffer.numChannels_setAt]; omega
        rw [AudioBuffer.cell?_setAt_update _ 1 i
            (fun x => x * (M.sin ((t.pan_ + 1) * (1 / 4) * M.pi) * t.volume_)) h1,
          AudioBuffer.cell?_setAt_update r 0 i
            (fun x => x * (M.cos ((t.pan_ + 1) * (1 / 4) * M.pi) * t.volume_)) h0]
        by_cases hs : s = i
        · by_cases hc0 : c = 0
          · subst hc0
            simp [hs]
          · by_cases hc1 : c = 1
            · subst hc1
              simp [hs]
            · have e : (fun x : K => x) = id := rfl
              simp [hs, hc0, hc1, e]
        · simp [hs])
      b.numFrames_ b rfl
    have hres : t.ApplyVolumeAndPan M b = forLoop b.numFrames_
      (fun i (b : AudioBuffer K) =>
        (b.setAt 0 i (b.getAt 0 i * (M.cos ((t.pan_ + 1) * (1 / 4) * M.pi) * t.volume_))).setAt
          1 i ((b.setAt 0 i (b.getAt 0 i
            * (M.cos ((t.pan_ + 1) * (1 / 4) * M.pi) * t.volume_))).getAt 1 i
            * (M.sin ((t.pan_ + 1) * (1 / 4) * M.pi) * t.volume_))) b := by
      unfold Track.ApplyVolumeAndPan
      simp only [AudioBuffer.GetNumChannels, AudioBuffer.GetNumFrames]
      rw [if_pos h2]
    rw [hres]
    constructor
    · rw [AudioBuffer.getAt_of_mapped b _ hwf
        (fun x => x * (M.cos ((t.pan_ + 1) * (1 / 4) * M.pi) * t.volume_)) (zero_mul _)
        hloop.1 0 (fun s => by rw [hloop.2 0 s]; simp)]
    · rw [AudioBuffer.getAt_of_mapped b _ hwf
        (fun x => x * (M.sin ((t.pan_ + 1) * (1 / 4) * M.pi) * t.volume_)) (zero_mul _)
        hloop.1 1 (fun s => by rw [hloop.2 1 s]; simp)]
  · intro h1 i
    have hloop := frameLoop_cells
      (fun i (b : AudioBuffer K) => b.setAt 0 i (b.getAt 0 i * t.volume_))
      (fun c x => if c = 0 then x * t.volume_ else x)
      b.numChannels_
      (fun i r hr => by rw [AudioBuffer.numChannels_setAt]; exact hr)
      (fun i r hr c s => by
        have h0 : 0 < r.numChannels_ := by omega
        rw [AudioBuffer.cell?_setAt_update r 0 i (fun x => x * t.volume_) h0]
        by_cases hs : s = i
        · by_cases hc0 : c = 0
          · subst hc0
            simp [hs]
          · have e : (fun x : K => x) = id := rfl
            simp [hs, hc0, e]
        · simp [hs])
      b.numFrames_ b rfl
    have hres : t.ApplyVolumeAndPan M b = forLoop b.numFrames_
        (fun i (b : AudioBuffer K) => b.setAt 0 i (b.getAt 0 i * t.volume_)) b := by
      unfold Track.ApplyVolumeAndPan
      simp only [AudioBuffer.GetNumChannels, AudioBuffer.GetNumFrames]
      rw [if_neg (by omega), if_pos h1]
    rw [hres, AudioBuffer.getAt_of_mapped b _ hwf (fun x => x * t.volume_) (zero_mul _)
      hloop.1 0 (fun s => by rw [hloop.2 0 s]; simp)]

end DAW

namespace DAW

/-- C19: on a well-formed stereo buffer ApplyVolumeAndPan multiplies every left sample by
gL = cos((p+1)·π/4)·v and every right sample by gR = sin((p+1)·π/4)·v, on a mono buffer every
sample by v; gL² + gR² = v² for every pan, (gL, gR) = (v, 0) at p = -1 and (0, v) at p = 1. -/
theorem C19_constant_power_pan (t : Track ℝ) (b : AudioBuffer ℝ) (hwf : b.WellFormed) :
    (b.numChannels_ = 2 → ∀ i,
      (t.ApplyVolumeAndPan (Libm.mk Real.sin Real.cos Real.pi) b).getAt 0 i
        = b.getAt 0 i * (Real.cos ((t.pan_ + 1) * Real.pi / 4) * t.volume_) ∧
      (t.ApplyVolumeAndPan (Libm.mk Real.sin Real.cos Real.pi) b).getAt 1 i
        = b.getAt 1 i * (Real.sin ((t.pan_ + 1) * Real.pi / 4) * t.volume_)) ∧
    (b.numChannels_ = 1 → ∀ i,
      (t.ApplyVolumeAndPan (Libm.mk Real.sin Real.cos Real.pi) b).getAt 0 i
        = b.getAt 0 i * t.volume_) ∧
    (Real.cos ((t.pan_ + 1) * Real.pi / 4) * t.volume_) ^ 2
      + (Real.sin ((t.pan_ + 1) * Real.pi / 4) * t.volume_) ^ 2 = t.volume_ ^ 2 ∧
    (t.pan_ = -1 → Real.cos ((t.pan_ + 1) * Real.pi / 4) * t.volume_ = t.volume_ ∧
      Real.sin ((t.pan_ + 1) * Real.pi / 4) * t.volume_ = 0) ∧
    (t.pan_ = 1 → Real.cos ((t.pan_ + 1) * Real.pi / 4) * t.volume_ = 0 ∧
      Real.sin ((t.pan_ + 1) * Real.pi / 4) * t.volume_ = t.volume_) := by
  have e : (t.pan_ + 1) * (1 / 4) * Real.pi = (t.pan_ + 1) * Real.pi / 4 := by ring
  have h := Track.ApplyVolumeAndPan_samples (Libm.mk Real.sin Real.cos Real.pi) t b hwf
  dsimp only at h
  rw [e] at h
  refine ⟨fun h2 i => h.1 (by omega) i, fun h1 i => h.2 h1 i, ?_, ?_, ?_⟩
  · rw [mul_pow, mul_pow, ← add_mul, Real.cos_sq_add_sin_sq, one_mul]
  · intro hp
    have e0 : (t.pan_ + 1) * Real.pi / 4 = 0 := by rw [hp]; ring
    rw [e0, Real.cos_zero, Real.sin_zero]
    exact ⟨one_mul _, zero_mul _⟩
  · intro hp
    have e1 : (t.pan_ + 1) * Real.pi / 4 = Real.pi / 2 := by rw [hp]; ring
    rw [e1, Real.cos_pi_div_two, Real.sin_pi_div_two]
    exact ⟨zero_mul _, one_mul _⟩

/-- Witness of C19: the fresh track (volume 1, pan 0) on the stereo pair. -/
theorem C19_constant_power_pan_witness :
    ((Track.mk_ "track" 0 : Track ℝ).ApplyVolumeAndPan (Libm.mk Real.sin Real.cos Real.pi)
        stereoPair).getAt 0 0
      = (stereoPair : AudioBuffer ℝ).getAt 0 0
          * (Real.cos (((Track.mk_ "track" 0 : Track ℝ).pan_ + 1) * Real.pi / 4)
              * (Track.mk_ "track" 0 : Track ℝ).volume_) :=
  ((C19_constant_power_pan (Track.mk_ "track" 0) stereoPair (by decide)).1 rfl 0).1

end DAW

/-! ### Bypassed effects -/

/-- C20: a disabled DelayFX, ChorusFX or ReverbFX and a bypassed DelayPlugin or ChorusPlugin
return from process with the buffer and the whole processor state (delay lines, write
positions, LFO phase, filter state) as they were. -/
theorem C20_bypass_is_noop (K : Type) [LinearOrderedField K] [FloorRing K] :
    (∀ (d : Classic.DelayFX K) (buffer : Classic.AudioBuffer K) (n : Nat),
      d.base.isEnabled = false → d.process buffer n = (d, buffer)) ∧
    (∀ (M : Libm K) (c : Classic.ChorusFX K) (buffer : Classic.AudioBuffer K) (n : Nat),
      c.base.isEnabled = false → c.process M buffer n = (c, buffer)) ∧
    (∀ (r : Classic.ReverbFX K) (buffer : Classic.AudioBuffer K) (n : Nat),
      r.base.isEnabled = false → r.process buffer n = (r, buffer)) ∧
    (∀ (d : DAW.DelayPlugin K) (buffer : DAW.AudioBuffer K) (sampleRate : Int),
      d.base.bypassed_ = true → d.ProcessAudio buffer sampleRate = (d, buffer)) ∧
    (∀ (M : Libm K) (c : DAW.ChorusPlugin K) (buffer : DAW.AudioBuffer K) (sampleRate : Int),
      c.base.bypassed_ = true → c.ProcessAudio M buffer sampleRate = (c, buffer)) := by
  refine ⟨?_, ?_, ?_, ?_, ?_⟩
  · intro d buffer n h
    simp [Classic.DelayFX.process, h]
  · intro M c buffer n h
    simp [Classic.ChorusFX.process, h]
  · intro r buffer n h
    simp [Classic.ReverbFX.process, h]
  · intro d buffer sampleRate h
    simp [DAW.DelayPlugin.ProcessAudio, h]
  · intro M c buffer sampleRate h
    simp [DAW.ChorusPlugin.ProcessAudio, h]

/-- Witness of C20: the switched-off DelayFX leaves the small stereo buffer alone. -/
theorem C20_bypass_is_noop_witness :
    Classic.disabledDelay.process Classic.smallBuffer 3
      = (Classic.disabledDelay, Classic.smallBuffer) :=
  (C20_bypass_is_noop ℚ).1 Classic.disabledDelay Classic.smallBuffer 3 rfl

/-! ### Transport ranges, musical time and the metronome -/

namespace DAW

theorem clamp_bounds {α : Type} [LinearOrder α] (value low high : α) (h : low ≤ high) :
    low ≤ clamp value low high ∧ clamp value low high ≤ high := by
  unfold clamp
  exact ⟨le_max_left _ _, max_le h (min_le_right _ _)⟩

theorem Transport.inRange_of_state (t u : Transport) (h : t.InRange)
    (hp : u.position_ = t.position_) (hb : u.bpm_ = t.bpm_)
    (hn : u.timeSigNumerator_ = t.timeSigNumerator_)
    (hd : u.timeSigDenominator_ = t.timeSigDenominator_)
    (hs : u.loopStart_ = t.loopStart_) (he : u.loopEnd_ = t.loopEnd_) : u.InRange := by
  unfold Transport.InRange at h ⊢
  rw [hp, hb, hn, hd, hs, he]
  exact h

/-- C27: the default transport has its state inside the documented ranges (position >= 0,
20 <= bpm <= 300, both time-signature parts in 1..32, 0 <= loopStart <= loopEnd), and Play,
Pause, Stop, Record, SetPosition, SetBPM, SetTimeSignature, SetLoopRegion, SetLoopEnabled with
arbitrary arguments and AdvancePosition with samples >= 0 and sampleRate > 0 keep it there. -/
theorem C27_transport_ranges_invariant :
    Transport.init.InRange ∧
    ∀ t : Transport, t.InRange →
      t.Play.InRange ∧ t.Pause.InRange ∧ t.Stop.InRange ∧ t.Record.InRange ∧
      (∀ seconds : ℚ, (t.SetPosition seconds).InRange) ∧
      (∀ bpm : ℚ, (t.SetBPM bpm).InRange) ∧
      (∀ numerator denominator : Int, (t.SetTimeSignature numerator denominator).InRange) ∧
      (∀ start stop : ℚ, (t.SetLoopRegion start stop).InRange) ∧
      (∀ enabled : Bool, (t.SetLoopEnabled enabled).InRange) ∧
      (∀ samples sampleRate : Int, 0 ≤ samples → 0 < sampleRate →
        (t.AdvancePosition samples sampleRate).InRange) := by
  refine ⟨by norm_num [Transport.InRange, Transport.init], ?_⟩
  intro t h
  have h0 := h
  obtain ⟨hpos, hbpm, hnum, hden, hls, hle⟩ := h
  refine ⟨?_, ?_, ?_, ?_, ?_, ?_, ?_, ?_, ?_, ?_⟩
  · unfold Transport.Play
    split_ifs <;> exact h0
  · unfold Transport.Pause
    split_ifs <;> exact h0
  · exact Transport.inRange_of_state t _ h0 rfl rfl rfl rfl rfl rfl
  · unfold Transport.Record
    split_ifs <;> exact h0
  · intro seconds
    exact ⟨le_max_left _ _, hbpm, hnum, hden, hls, hle⟩
  · intro bpm
    exact ⟨hpos, clamp_bounds bpm 20 300 (by norm_num), hnum, hden, hls, hle⟩
  · intro numerator denominator
    exact ⟨hpos, hbpm, clamp_bounds numerator 1 32 (by norm_num),
      clamp_bounds denominator 1 32 (by norm_num), hls, hle⟩
  · intro start stop
    exact ⟨hpos, hbpm, hnum, hden, le_max_left _ _, le_max_left _ _⟩
  · intro enabled
    exact Transport.inRange_of_state t _ h0 rfl rfl rfl rfl rfl rfl
  · intro samples sampleRate hs hr
    have hstep : (0 : ℚ) ≤ (samples : ℚ) / (sampleRate : ℚ) :=
      div_nonneg (by exact_mod_cast hs) (by exact_mod_cast hr.le)
    unfold Transport.AdvancePosition
    by_cases hplay : t.IsPlaying = true
    · rw [if_pos hplay]
      refine ⟨?_, hbpm, hnum, hden, hls, hle⟩
      show 0 ≤ (if t.loopEnabled_ = true ∧
          t.position_ + (samples : ℚ) / (sampleRate : ℚ) ≥ t.loopEnd_ then t.loopStart_
        else t.position_ + (samples : ℚ) / (sampleRate : ℚ))
      split_ifs
      · exact hls
      · exact add_nonneg hpos hstep
    · rw [if_neg hplay]
      exact h0

/-- Witness of C27: the default transport after SetBPM(1000) runs at 300 BPM. -/
theorem C27_transport_ranges_invariant_witness :
    (Transport.init.SetBPM 1000).InRange ∧ (Transport.init.SetBPM 1000).bpm_ = 300 :=
  ⟨(C27_transport_ranges_invariant.2 Transport.init C27_transport_ranges_invariant.1).2.2.2.2.2.1
      1000,
    by norm_num [Transport.SetBPM, Transport.init, clamp]⟩

end DAW

namespace DAW

theorem truncToInt_of_nonneg {K : Type} [LinearOrderedField K] [FloorRing K] (x : K)
    (h : 0 ≤ x) : truncToInt x = ⌊x⌋ := by
  unfold truncToInt
  rw [if_pos h]

theorem truncToInt_mono {K : Type} [LinearOrderedField K] [FloorRing K] (x y : K)
    (h : x ≤ y) : truncToInt x ≤ truncToInt y := by
  unfold truncToInt
  split_ifs with hx hy hy
  · exact Int.floor_le_floor h
  · exact absurd (le_trans hx h) hy
  · have h1 : ⌈x⌉ ≤ 0 := Int.ceil_le.mpr (by exact_mod_cast (not_le.mp hx).le)
    have h2 : (0 : Int) ≤ ⌊y⌋ := Int.floor_nonneg.mpr hy
    exact le_trans h1 h2
  · exact Int.ceil_le_ceil h

/-- C28: at a tempo of 20 to 300 BPM and a time-signature numerator of 1 to 32, over any field
of exact numbers (the reals among them), SecondsToBeats(s) = s*bpm/60 and SecondsToBars(s) =
SecondsToBeats(s)/numerator, and BeatsToSeconds and BarsToSeconds are their inverses on both
sides. -/
theorem C28_musical_time_roundtrip {K : Type} [LinearOrderedField K] (t : Transport)
    (hbpm : 20 ≤ t.bpm_ ∧ t.bpm_ ≤ 300)
    (hnum : 1 ≤ t.timeSigNumerator_ ∧ t.timeSigNumerator_ ≤ 32) (s b : K) :
    t.BeatsToSeconds (t.SecondsToBeats s) = s ∧
    t.SecondsToBeats (t.BeatsToSeconds b) = b ∧
    t.BarsToSeconds (t.SecondsToBars s) = s ∧
    t.SecondsToBars (t.BarsToSeconds b) = b ∧
    t.SecondsToBeats s = s * (t.bpm_ : K) / 60 ∧
    t.SecondsToBars s = t.SecondsToBeats s / (t.timeSigNumerator_ : K) := by
  have h1 : (t.bpm_ : K) ≠ 0 := by
    have : t.bpm_ ≠ 0 := by linarith [hbpm.1]
    exact_mod_cast this
  have h2 : (t.timeSigNumerator_ : K) ≠ 0 := by
    have : t.timeSigNumerator_ ≠ 0 := by linarith [hnum.1]
    exact_mod_cast this
  have h3 : (t.bpm_ : K) / 60 ≠ 0 := div_ne_zero h1 (by norm_num)
  refine ⟨?_, ?_, ?_, ?_, ?_, ?_⟩
  · unfold Transport.BeatsToSeconds Transport.SecondsToBeats
    exact mul_div_cancel_right₀ s h3
  · unfold Transport.BeatsToSeconds Transport.SecondsToBeats
    exact div_mul_cancel₀ b h3
  · unfold Transport.BarsToSeconds Transport.SecondsToBars Transport.BeatsToSeconds
      Transport.SecondsToBeats
    show s * ((t.bpm_ : K) / 60) / (t.timeSigNumerator_ : K) * (t.timeSigNumerator_ : K)
      / ((t.bpm_ : K) / 60) = s
    rw [div_mul_cancel₀ _ h2]
    exact mul_div_cancel_right₀ s h3
  · unfold Transport.BarsToSeconds Transport.SecondsToBars Transport.BeatsToSeconds
      Transport.SecondsToBeats
    show b * (t.timeSigNumerator_ : K) / ((t.bpm_ : K) / 60) * ((t.bpm_ : K) / 60)
      / (t.timeSigNumerator_ : K) = b
    rw [div_mul_cancel₀ _ h3]
    exact mul_div_cancel_right₀ b h2
  · unfold Transport.SecondsToBeats
    rw [mul_div_assoc]
  · rfl

/-- Witness of C28: at the default 120 BPM in 4/4, 3 s are 6 beats and 1.5 bars, and back. -/
theorem C28_musical_time_roundtrip_witness :
    Transport.init.BeatsToSeconds (Transport.init.SecondsToBeats (3 : ℚ)) = 3 ∧
    Transport.init.SecondsToBeats (3 : ℚ) = 6 ∧
    Transport.init.SecondsToBars (3 : ℚ) = 3 / 2 := by
  have h := C28_musical_time_roundtrip Transport.init
    (by norm_num [Transport.init]) (by norm_num [Transport.init]) (3 : ℚ) (0 : ℚ)
  refine ⟨h.1, ?_, ?_⟩
  · rw [h.2.2.2.2.1]
    norm_num [Transport.init]
  · rw [h.2.2.2.2.2, h.2.2.2.2.1]
    norm_num [Transport.init]

end DAW

/-! ### Unknown track ids -/

namespace AdvancedTrackManager

theorem soloFound_of_absent (trackId : Int) (tracks : List EnhancedTrack)
    (h : ∀ track ∈ tracks, track.state.id ≠ trackId) : soloFound trackId tracks = tracks := by
  induction tracks with
  | nil => rfl
  | cons track rest ih =>
    have h1 : track.state.id ≠ trackId := h track (List.mem_cons_self _ _)
    have h2 : ∀ x ∈ rest, x.state.id ≠ trackId := fun x hx => h x (List.mem_cons_of_mem _ hx)
    simp only [soloFound, if_neg h1, ih h2]

/-- C30 as stated fails: with track 1 soloed, soloTrack(99) for the unknown id 99 clears the
solo flag of track 1, although getTrack(99) is null. -/
theorem C30_soloTrack_unknown_id_unsolos :
    soloedManager.getTrack 99 = none ∧
    soloedManager.tracks.map (fun track => track.state.isSoloed) = [true, false] ∧
    (soloedManager.soloTrack 99).tracks.map (fun track => track.state.isSoloed)
      = [false, false] := by
  refine ⟨?_, ?_, ?_⟩ <;>
  simp [soloedManager, soloTrack, soloFound, getTrack, addTrack, mk_, EnhancedTrack.mk_]

/-- C30, amended: for a track id that matches no track, soloTrack(id) sets every track's
isSoloed flag to false and changes nothing else (no track is soloed, every other field of
every track and of the manager is kept), getTrack(id) returns null and removeTrack(id) leaves
the manager as it is. -/
theorem C30_unknown_id (m : AdvancedTrackManager) (trackId : Int)
    (h : ∀ track ∈ m.tracks, track.state.id ≠ trackId) :
    m.soloTrack trackId =
      { m with tracks := m.tracks.map
                 (fun track => { track with state := { track.state with isSoloed := false } }) } ∧
    m.getTrack trackId = none ∧
    m.removeTrack trackId = m := by
  refine ⟨?_, ?_, ?_⟩
  · unfold soloTrack
    simp only []
    rw [soloFound_of_absent]
    intro track ht
    obtain ⟨x, hx, rfl⟩ := List.mem_map.mp ht
    exact h x hx
  · unfold getTrack
    rw [List.find?_eq_none]
    intro x hx
    simpa using h x hx
  · unfold removeTrack
    have hf : m.tracks.filter (fun track => !decide (track.state.id = trackId)) = m.tracks := by
      rw [List.filter_eq_self]
      intro x hx
      simpa using h x hx
    rw [hf]

/-- Witness of C30: the soloed manager and the unknown id 99. -/
theorem C30_unknown_id_witness :
    soloedManager.getTrack 99 = none ∧ soloedManager.removeTrack 99 = soloedManager := by
  have h := C30_unknown_id soloedManager 99 (by
    simp [soloedManager, soloTrack, soloFound, addTrack, mk_, EnhancedTrack.mk_])
  exact ⟨h.2.1, h.2.2⟩

end AdvancedTrackManager

/-! ### Plugin parameters -/

theorem mapFind_cons {V : Type} (e : String × V) (rest : List (String × V)) (key : String) :
    mapFind (e :: rest) key = if e.1 = key then some e.2 else mapFind rest key := by
  unfold mapFind
  by_cases h : e.1 = key
  · rw [if_pos h, List.find?_cons_of_pos _ (by simpa using h)]
    rfl
  · rw [if_neg h, List.find?_cons_of_neg _ (by simpa using h)]

theorem mapFind_replaced_self {V : Type} (key : String) (value : V) (m : List (String × V))
    (h : ∃ x ∈ m, x.1 = key) :
    mapFind (m.map (fun e => if e.1 = key then (key, value) else e)) key = some value := by
  induction m with
  | nil => simp at h
  | cons e rest ih =>
    rw [List.map_cons, mapFind_cons]
    by_cases he : e.1 = key
    · simp only [he, if_true]
    · simp only [he, if_false]
      apply ih
      obtain ⟨x, hx, hxk⟩ := h
      rcases List.mem_cons.mp hx with rfl | hx
      · exact absurd hxk he
      · exact ⟨x, hx, hxk⟩

theorem mapFind_appended_self {V : Type} (key : String) (value : V) (m : List (String × V))
    (h : ∀ x ∈ m, x.1 ≠ key) : mapFind (m ++ [(key, value)]) key = some value := by
  induction m with
  | nil => simp [mapFind]
  | cons e rest ih =>
    rw [List.cons_append, mapFind_cons, if_neg (h e (List.mem_cons_self _ _))]
    exact ih (fun x hx => h x (List.mem_cons_of_mem _ hx))

theorem mapFind_replaced_other {V : Type} (key other : String) (value : V)
    (m : List (String × V)) (h : other ≠ key) :
    mapFind (m.map (fun e => if e.1 = key then (key, value) else e)) other = mapFind m other := by
  induction m with
  | nil => rfl
  | cons e rest ih =>
    rw [List.map_cons, mapFind_cons, mapFind_cons, ih]
    by_cases he : e.1 = key
    · have h1 : ¬ key = other := fun e2 => h e2.symm
      simp only [he, if_true, h1, if_false]
    · simp only [he, if_false]

theorem mapFind_appended_other {V : Type} (key other : String) (value : V)
    (m : List (String × V)) (h : other ≠ key) :
    mapFind (m ++ [(key, value)]) other = mapFind m other := by
  induction m with
  | nil =>
    have h1 : ¬ key = other := fun e2 => h e2.symm
    rw [List.nil_append, mapFind_cons, if_neg h1]
  | cons e rest ih =>
    rw [List.cons_append, mapFind_cons, mapFind_cons, ih]

theorem mapFind_mapAssign_self {V : Type} (m : List (String × V)) (key : String) (value : V) :
    mapFind (mapAssign m key value) key = some value := by
  unfold mapAssign
  by_cases hany : m.any (fun e => decide (e.1 = key)) = true
  · rw [if_pos hany]
    apply mapFind_replaced_self
    simpa using hany
  · rw [if_neg hany]
    apply mapFind_appended_self
    intro x hx hxk
    apply hany
    simp only [List.any_eq_true, decide_eq_true_eq]
    exact ⟨x, hx, hxk⟩

theorem mapFind_mapAssign_other {V : Type} (m : List (String × V)) (key other : String)
    (value : V) (h : other ≠ key) :
    mapFind (mapAssign m key value) other = mapFind m other := by
  unfold mapAssign
  split_ifs
  · exact mapFind_replaced_other key other value m h
  · exact mapFind_appended_other key other value m h

theorem stdClamp_bounds {K : Type} [LinearOrder K] (v lo hi : K) (h : lo ≤ hi) :
    lo ≤ stdClamp v lo hi ∧ stdClamp v lo hi ≤ hi := by
  unfold stdClamp
  split_ifs with h1 h2
  · exact ⟨le_refl _, h⟩
  · exact ⟨h, le_refl _⟩
  · exact ⟨not_lt.mp h1, not_lt.mp h2⟩

theorem stdClamp_of_inside {K : Type} [LinearOrder K] (v lo hi : K) (h1 : lo ≤ v)
    (h2 : v ≤ hi) : stdClamp v lo hi = v := by
  unfold stdClamp
  rw [if_neg (not_lt.mpr h1), if_neg (not_lt.mpr h2)]

namespace Classic

variable {K : Type} [LinearOrderedField K] [FloorRing K]

theorem FXPlugin.setParameter_of_found (p : FXPlugin K) (name : String) (v : K)
    (param : Parameter K) (h : mapFind p.m_parameters name = some param) :
    (p.setParameter name v).m_parameters = mapAssign p.m_parameters name
      { param with value := stdClamp v param.minValue param.maxValue } := by
  unfold FXPlugin.setParameter
  rw [h]

theorem FXPlugin.setParameter_of_absent (p : FXPlugin K) (name : String) (v : K)
    (h : mapFind p.m_parameters name = none) : p.setParameter name v = p := by
  unfold FXPlugin.setParameter
  rw [h]

/-- C22: addParameter(name, default, min, max, display) registers the parameter with its range.
For a registered parameter with min <= max, setParameter(name, v) followed by
getParameter(name) returns clamp(v, min, max): a value inside [min, max], v itself when v is in
range, min when v is below and max when v is above; the range of the parameter and every other
parameter are left as they were.  For a name that is not registered, setParameter changes
nothing, hasParameter is false and getParameter returns 0. -/
theorem C22_setParameter_clamps (p : FXPlugin K) (name : String) (v : K) :
    (∀ (d lo hi : K) (disp : String),
      mapFind (p.addParameter name d lo hi disp).m_parameters name
        = some { name := name, value := d, minValue := lo, maxValue := hi,
                 displayName := disp }) ∧
    (∀ param : Parameter K, mapFind p.m_parameters name = some param →
      param.minValue ≤ param.maxValue →
      (p.setParameter name v).getParameter name
        = stdClamp v param.minValue param.maxValue ∧
      (param.minValue ≤ (p.setParameter name v).getParameter name ∧
        (p.setParameter name v).getParameter name ≤ param.maxValue) ∧
      (param.minValue ≤ v → v ≤ param.maxValue →
        (p.setParameter name v).getParameter name = v) ∧
      (v < param.minValue → (p.setParameter name v).getParameter name = param.minValue) ∧
      (param.maxValue < v → (p.setParameter name v).getParameter name = param.maxValue) ∧
      mapFind (p.setParameter name v).m_parameters name
        = some { param with value := stdClamp v param.minValue param.maxValue } ∧
      (∀ other : String, other ≠ name →
        mapFind (p.setParameter name v).m_parameters other = mapFind p.m_parameters other ∧
        (p.setParameter name v).getParameter other = p.getParameter other)) ∧
    (mapFind p.m_parameters name = none →
      p.setParameter name v = p ∧ p.hasParameter name = false ∧ p.getParameter name = 0) := by
  refine ⟨?_, ?_, ?_⟩
  · intro d lo hi disp
    exact mapFind_mapAssign_self _ _ _
  · intro param hfound hrange
    have hparams := FXPlugin.setParameter_of_found p name v param hfound
    have hself : mapFind (p.setParameter name v).m_parameters name
        = some { param with value := stdClamp v param.minValue param.maxValue } := by
      rw [hparams]
      exact mapFind_mapAssign_self _ _ _
    have hget : (p.setParameter name v).getParameter name
        = stdClamp v param.minValue param.maxValue := by
      unfold FXPlugin.getParameter
      rw [hself]
    have hb := stdClamp_bounds v param.minValue param.maxValue hrange
    refine ⟨hget, ?_, ?_, ?_, ?_, hself, ?_⟩
    · rw [hget]
      exact hb
    · intro h1 h2
      rw [hget, stdClamp_of_inside v _ _ h1 h2]
    · intro h1
      rw [hget]
      unfold stdClamp
      rw [if_pos h1]
    · intro h1
      rw [hget]
      unfold stdClamp
      rw [if_neg (not_lt.mpr (le_trans hrange h1.le)), if_pos h1]
    · intro other hother
      have hfind : mapFind (p.setParameter name v).m_parameters other
          = mapFind p.m_parameters other := by
        rw [hparams]
        exact mapFind_mapAssign_other _ _ _ _ hother
      refine ⟨hfind, ?_⟩
      unfold FXPlugin.getParameter
      rw [hfind]
  · intro habsent
    refine ⟨FXPlugin.setParameter_of_absent p name v habsent, ?_, ?_⟩
    · unfold FXPlugin.hasParameter
      rw [habsent]
      rfl
    · unfold FXPlugin.getParameter
      rw [habsent]

/-- Witness of C22: on the delay's base plugin, setParameter("feedback", 2) is read back as the
upper limit 0.95, and "delayTime" keeps its value. -/
theorem C22_setParameter_clamps_witness :
    (feedbackPlugin.setParameter "feedback" 2).getParameter "feedback" = 19 / 20 ∧
    (feedbackPlugin.setParameter "feedback" 2).getParameter "delayTime"
      = feedbackPlugin.getParameter "delayTime" := by
  have hfound : mapFind feedbackPlugin.m_parameters "feedback"
      = some { name := "feedback", value := 3 / 10, minValue := 0, maxValue := 19 / 20,
               displayName := "Feedback" } :=
    (C22_setParameter_clamps
      ((FXPlugin.mk_ "Delay").addParameter "delayTime" (1 / 4) (1 / 1000) 2 "Delay Time")
      "feedback" 0).1 (3 / 10) 0 (19 / 20) "Feedback"
  have h := (C22_setParameter_clamps feedbackPlugin "feedback" 2).2.1 _ hfound (by norm_num)
  exact ⟨h.2.2.2.2.1 (by norm_num), (h.2.2.2.2.2.2 "delayTime" (by decide)).2⟩

end Classic

/-! ### The parameters of `DelayPlugin` -/

namespace DAW

/-- C23 at the failing input: on a freshly constructed DelayPlugin, SetParameter("feedback", 2)
is stored as given, so GetParameter("feedback") is 2, outside the declared range [0, 0.95]; the
same happens to "wet" with the value -1. -/
theorem C23_SetParameter_stores_out_of_range :
    ((DelayPlugin.mk_ : DelayPlugin ℚ).SetParameter "feedback" 2).GetParameter "feedback" = 2 ∧
    ¬ (((DelayPlugin.mk_ : DelayPlugin ℚ).SetParameter "feedback" 2).GetParameter "feedback"
        ≤ 95 / 100) ∧
    ((DelayPlugin.mk_ : DelayPlugin ℚ).SetParameter "wet" (-1)).GetParameter "wet" = -1 := by
  have h1 : ((DelayPlugin.mk_ : DelayPlugin ℚ).SetParameter "feedback" 2).GetParameter "feedback"
      = 2 := by
    unfold DelayPlugin.GetParameter DelayPlugin.SetParameter FXPlugin.GetParameter
      FXPlugin.SetParameter
    simp only [mapFind_mapAssign_self]
  have h2 : ((DelayPlugin.mk_ : DelayPlugin ℚ).SetParameter "wet" (-1)).GetParameter "wet"
      = -1 := by
    unfold DelayPlugin.GetParameter DelayPlugin.SetParameter FXPlugin.GetParameter
      FXPlugin.SetParameter
    simp only [mapFind_mapAssign_self]
  refine ⟨h1, ?_, h2⟩
  rw [h1]
  norm_num

end DAW

/-! ### Reset of the reverb -/

namespace Classic

theorem ReverbFX.reset_allpassFilters {K : Type} [LinearOrderedField K] [FloorRing K]
    (r : ReverbFX K) : r.reset.m_allpassFilters = r.m_allpassFilters := by
  unfold ReverbFX.reset
  show r.m_allpassFilters.map AllpassFilter.reset = r.m_allpassFilters
  have h : (AllpassFilter.reset : AllpassFilter K → AllpassFilter K) = id := rfl
  rw [h, List.map_id]

/-- C21 at the failing input: a ReverbFX at 196 Hz that has processed a five-sample unit
impulse and is then reset has its comb buffers and damping states at zero, but its four allpass
buffers still hold 1, (0, -1/2), 1/4 and -1/8.  One silent sample processed after reset() comes
out as (-9/80, 21/160), where the freshly set-up reverb with the same parameters gives
(0, 0). -/
theorem C21_reset_leaves_allpass_buffers :
    rungReverb.reset.m_allpassFilters.map (fun f => f.m_buffer)
      = [[1], [0, -1 / 2], [1 / 4], [-1 / 8]] ∧
    rungReverb.reset.m_combFilters.map (fun f => (f.m_buffer, f.m_filterState))
      = smallReverb.m_combFilters.map (fun f => (f.m_buffer, f.m_filterState)) ∧
    smallReverb.m_allpassFilters.map (fun f => f.m_buffer) = [[0], [0, 0], [0], [0]] ∧
    (rungReverb.reset.process silentBuffer 1).2.m_data = [[-9 / 80], [21 / 160]] ∧
    (smallReverb.process silentBuffer 1).2.m_data = [[0], [0]] := by
  decide!

end Classic

/-! ### Clip rendering -/

namespace Classic

variable {K : Type} [LinearOrderedField K] [FloorRing K]

end Classic

/-- Two runs of a loop whose states are related at the start, with a body that keeps them
related, are related at the end. -/
theorem forLoop_rel {σ τ : Type} (R : σ → τ → Prop) (n : Nat) (f : Nat → σ → σ)
    (g : Nat → τ → τ) (s : σ) (t : τ) (h0 : R s t)
    (hstep : ∀ i s t, R s t → R (f i s) (g i t)) : R (forLoop n f s) (forLoop n g t) := by
  induction n with
  | zero => exact h0
  | succ k ih => exact hstep k _ _ ih

namespace Classic

variable {K : Type} [LinearOrderedField K] [FloorRing K]

/-- One step of the sample loop reads the output buffer only through its sample count: it
stops, or it adds a value fixed by the clip to one cell. -/
theorem Clip.processAudioStep_shape (c : Clip K) (audio : AudioBuffer K)
    (outputStartSample clipStartSample ch i : Nat) :
    ∃ (pos : Nat) (v : K), ∀ s : Bool × AudioBuffer K,
      c.processAudioStep audio outputStartSample clipStartSample ch i s =
        if s.1 = true then s
        else if outputStartSample + i ≥ s.2.m_numSamples then (true, s.2)
        else if pos ≥ audio.m_numSamples then (true, s.2)
        else (false, s.2.addSample ch (outputStartSample + i) v) :=
  ⟨_, _, fun _ => rfl⟩

/-- A relation between output buffers that forces equal sizes and is kept when the same value
is added to the same cell of both is kept by `Clip::process` on both. -/
theorem Clip.process_lockstep (R : AudioBuffer K → AudioBuffer K → Prop)
    (hdim : ∀ x y, R x y → x.m_numChannels = y.m_numChannels ∧ x.m_numSamples = y.m_numSamples)
    (hadd : ∀ x y ch p v, R x y → R (x.addSample ch p v) (y.addSample ch p v))
    (c : Clip K) (x y : AudioBuffer K) (currentSample numSamples : Nat) (isPlaying : Bool)
    (hR : R x y) :
    R (c.process x currentSample numSamples isPlaying)
      (c.process y currentSample numSamples isPlaying) := by
  have hdata : ∀ o s n, R (c.processAudioData x o s n) (c.processAudioData y o s n) := by
    intro o s n
    unfold Clip.processAudioData
    cases c.m_audioData with
    | none => exact hR
    | some audio =>
      show R (forLoop (min x.getNumChannels audio.getNumChannels) _ x)
        (forLoop (min y.getNumChannels audio.getNumChannels) _ y)
      have hch : x.getNumChannels = y.getNumChannels := (hdim x y hR).1
      rw [hch]
      apply forLoop_rel R _ _ _ _ _ hR
      intro ch bx b_y hb
      have hinner := forLoop_rel
        (fun (sx sy : Bool × AudioBuffer K) => sx.1 = sy.1 ∧ R sx.2 sy.2) n
        (c.processAudioStep audio o s ch) (c.processAudioStep audio o s ch)
        (false, bx) (false, b_y) ⟨rfl, hb⟩
        (by
          intro i sx sy hs
          obtain ⟨pos, v, hshape⟩ := Clip.processAudioStep_shape c audio o s ch i
          rw [hshape sx, hshape sy]
          obtain ⟨hflag, hrel⟩ := hs
          have hn : sx.2.m_numSamples = sy.2.m_numSamples := (hdim _ _ hrel).2
          rw [hflag, hn]
          by_cases h1 : sy.1 = true
          · rw [if_pos h1, if_pos h1]
            exact ⟨hflag, hrel⟩
          · rw [if_neg h1, if_neg h1]
            by_cases h2 : o + i ≥ sy.2.m_numSamples
            · rw [if_pos h2, if_pos h2]
              exact ⟨rfl, hrel⟩
            · rw [if_neg h2, if_neg h2]
              by_cases h3 : pos ≥ audio.m_numSamples
              · rw [if_pos h3, if_pos h3]
                exact ⟨rfl, hrel⟩
              · rw [if_neg h3, if_neg h3]
                exact ⟨rfl, hadd _ _ _ _ _ hrel⟩)
      exact hinner.2
  unfold Clip.process
  simp only []
  split_ifs <;> first | exact hR | exact hdata _ _ _

end Classic

namespace Classic

variable {K : Type} [LinearOrderedField K] [FloorRing K]

theorem cell?_cleared (data : List (List K)) (c s : Nat) :
    cell? (data.map (fun channel => channel.map (fun _ => (0 : K)))) c s
      = (cell? data c s).map (fun _ => 0) := by
  unfold cell?
  rw [List.getElem?_map]
  cases data[c]? with
  | none => rfl
  | some row =>
    simp only [Option.map_some', Option.some_bind, List.getElem?_map]

theorem rowLengths_cleared (data : List (List K)) :
    (data.map (fun channel => channel.map (fun _ => (0 : K)))).map List.length
      = data.map List.length := by
  rw [List.map_map]
  apply List.map_congr_left
  intro row _
  simp

theorem cell?_isSome_of_rowLengths (d1 d2 : List (List K))
    (h : d1.map List.length = d2.map List.length) (c s : Nat) :
    (cell? d1 c s).isSome = (cell? d2 c s).isSome := by
  have hc := congrArg (fun l => l[c]?) h
  simp only [List.getElem?_map] at hc
  unfold cell?
  cases h1 : d1[c]? with
  | none =>
    cases h2 : d2[c]? with
    | none => rfl
    | some r2 => rw [h1, h2] at hc; simp at hc
  | some r1 =>
    cases h2 : d2[c]? with
    | none => rw [h1, h2] at hc; simp at hc
    | some r2 =>
      rw [h1, h2] at hc
      simp only [Option.map_some', Option.some.injEq] at hc
      simp only [Option.some_bind]
      by_cases hs : s < r1.length
      · have hs2 : s < r2.length := hc ▸ hs
        rw [List.getElem?_eq_getElem hs, List.getElem?_eq_getElem hs2]
        rfl
      · have hs2 : ¬ s < r2.length := hc ▸ hs
        rw [List.getElem?_eq_none (Nat.le_of_not_lt hs),
          List.getElem?_eq_none (Nat.le_of_not_lt hs2)]

theorem AudioBuffer.ext_fields (x y : AudioBuffer K) (e1 : x.m_numChannels = y.m_numChannels)
    (e2 : x.m_numSamples = y.m_numSamples) (e3 : x.m_sampleRate = y.m_sampleRate)
    (e4 : x.m_data = y.m_data) : x = y := by
  cases x; cases y
  simp only at e1 e2 e3 e4
  subst e1; subst e2; subst e3; subst e4
  rfl

/-- The sizes, the sample rate and the channel lengths of a buffer: what `addSample` keeps. -/
theorem AudioBuffer.addSample_frame (x : AudioBuffer K) (ch p : Nat) (v : K) :
    (x.addSample ch p v).m_numChannels = x.m_numChannels ∧
    (x.addSample ch p v).m_numSamples = x.m_numSamples ∧
    (x.addSample ch p v).m_sampleRate = x.m_sampleRate ∧
    (x.addSample ch p v).m_data.map List.length = x.m_data.map List.length := by
  unfold AudioBuffer.addSample
  split_ifs
  · exact ⟨rfl, rfl, rfl, cellSet_rowLengths _ _ _ _⟩
  · exact ⟨rfl, rfl, rfl, rfl⟩

theorem AudioBuffer.cell?_addSample (x : AudioBuffer K) (ch p : Nat) (v : K) (c s : Nat) :
    cell? (x.addSample ch p v).m_data c s =
      if (ch < x.m_numChannels ∧ p < x.m_numSamples) ∧ c = ch ∧ s = p then
        (cell? x.m_data c s).map (fun a => a + v)
      else cell? x.m_data c s := by
  unfold AudioBuffer.addSample
  by_cases hg : ch < x.m_numChannels ∧ p < x.m_numSamples
  · rw [if_pos hg]
    show cell? (cellSet x.m_data ch p (cellGet x.m_data ch p + v)) c s = _
    rw [cell?_update x.m_data ch p (fun a => a + v) c s]
    simp only [hg, and_self, true_and]
  · rw [if_neg hg]
    simp only [hg, false_and, if_false]

/-- `Clip::process` keeps the sizes, the sample rate and the channel lengths of the output
buffer. -/
theorem Clip.process_frame (c : Clip K) (x : AudioBuffer K) (currentSample numSamples : Nat)
    (isPlaying : Bool) :
    (c.process x currentSample numSamples isPlaying).m_numChannels = x.m_numChannels ∧
    (c.process x currentSample numSamples isPlaying).m_numSamples = x.m_numSamples ∧
    (c.process x currentSample numSamples isPlaying).m_sampleRate = x.m_sampleRate ∧
    (c.process x currentSample numSamples isPlaying).m_data.map List.length
      = x.m_data.map List.length := by
  have h := Clip.process_lockstep
    (fun (a b : AudioBuffer K) =>
      (a.m_numChannels = x.m_numChannels ∧ a.m_numSamples = x.m_numSamples ∧
        a.m_sampleRate = x.m_sampleRate ∧ a.m_data.map List.length = x.m_data.map List.length) ∧
      (b.m_numChannels = x.m_numChannels ∧ b.m_numSamples = x.m_numSamples))
    (fun a b hab => ⟨hab.1.1.trans hab.2.1.symm, hab.1.2.1.trans hab.2.2.symm⟩)
    (fun a b ch p v hab => by
      have ha := AudioBuffer.addSample_frame a ch p v
      have hb := AudioBuffer.addSample_frame b ch p v
      exact ⟨⟨ha.1.trans hab.1.1, ha.2.1.trans hab.1.2.1, ha.2.2.1.trans hab.1.2.2.1,
        ha.2.2.2.trans hab.1.2.2.2⟩, hb.1.trans hab.2.1, hb.2.1.trans hab.2.2⟩)
    c x x currentSample numSamples isPlaying ⟨⟨rfl, rfl, rfl, rfl⟩, rfl, rfl⟩
  exact h.1

/-- When the cells of one output buffer are those of another shifted by `δ`, they still are
after `Clip::process` on both. -/
theorem Clip.process_shift (δ : Nat → Nat → K) (c : Clip K) (x y : AudioBuffer K)
    (currentSample numSamples : Nat) (isPlaying : Bool)
    (hc : x.m_numChannels = y.m_numChannels) (hn : x.m_numSamples = y.m_numSamples)
    (hcells : ∀ ch i, cell? x.m_data ch i = (cell? y.m_data ch i).map (fun a => a + δ ch i)) :
    ∀ ch i, cell? (c.process x currentSample numSamples isPlaying).m_data ch i
      = (cell? (c.process y currentSample numSamples isPlaying).m_data ch i).map
          (fun a => a + δ ch i) := by
  have h := Clip.process_lockstep
    (fun (a b : AudioBuffer K) =>
      a.m_numChannels = b.m_numChannels ∧ a.m_numSamples = b.m_numSamples ∧
      ∀ ch i, cell? a.m_data ch i = (cell? b.m_data ch i).map (fun t => t + δ ch i))
    (fun a b hab => ⟨hab.1, hab.2.1⟩)
    (fun a b ch p v hab => by
      have ha := AudioBuffer.addSample_frame a ch p v
      have hb := AudioBuffer.addSample_frame b ch p v
      refine ⟨ha.1.trans (hab.1.trans hb.1.symm), ha.2.1.trans (hab.2.1.trans hb.2.1.symm), ?_⟩
      intro c2 s2
      rw [AudioBuffer.cell?_addSample, AudioBuffer.cell?_addSample, hab.1, hab.2.1, hab.2.2]
      split_ifs
      · cases cell? b.m_data c2 s2 with
        | none => rfl
        | some t =>
          simp only [Option.map_some']
          rw [add_right_comm]
      · rfl)
    c x y currentSample numSamples isPlaying ⟨hc, hn, hcells⟩
  exact h.2.2

/-- `Clip::process` only adds: every cell of the output buffer is the old cell plus the cell the
clip renders into the cleared buffer. -/
theorem Clip.cell?_process (c : Clip K) (b : AudioBuffer K) (currentSample numSamples : Nat)
    (isPlaying : Bool) (ch i : Nat) :
    cell? (c.process b currentSample numSamples isPlaying).m_data ch i
      = (cell? b.m_data ch i).map
          (fun a => a + cellGet (c.process b.clear currentSample numSamples isPlaying).m_data
            ch i) := by
  have hshift := Clip.process_shift (fun ch i => cellGet b.m_data ch i) c b b.clear
    currentSample numSamples isPlaying rfl rfl
    (by
      intro ch i
      show cell? b.m_data ch i = (cell? (b.m_data.map _) ch i).map _
      rw [cell?_cleared]
      show cell? b.m_data ch i
        = ((cell? b.m_data ch i).map (fun _ => (0 : K))).map (fun a => a + cellGet b.m_data ch i)
      rw [cellGet_eq]
      cases cell? b.m_data ch i with
      | none => rfl
      | some t => simp)
    ch i
  have hframe := (Clip.process_frame c b.clear currentSample numSamples isPlaying).2.2.2
  have hclear : b.clear.m_data.map List.length = b.m_data.map List.length :=
    rowLengths_cleared b.m_data
  have hsome := cell?_isSome_of_rowLengths _ _ (hframe.trans hclear) ch i
  rw [hshift, cellGet_eq, cellGet_eq]
  cases h1 : cell? (c.process b.clear currentSample numSamples isPlaying).m_data ch i with
  | none =>
    rw [h1] at hsome
    cases h2 : cell? b.m_data ch i with
    | none => rfl
    | some t => rw [h2] at hsome; simp at hsome
  | some z =>
    rw [h1] at hsome
    cases h2 : cell? b.m_data ch i with
    | none => rw [h2] at hsome; simp at hsome
    | some t =>
      simp only [Option.map_some', Option.getD_some]
      rw [add_comm]

theorem Clip.clear_process (c : Clip K) (b : AudioBuffer K) (currentSample numSamples : Nat)
    (isPlaying : Bool) : (c.process b currentSample numSamples isPlaying).clear = b.clear := by
  have hf := Clip.process_frame c b currentSample numSamples isPlaying
  apply AudioBuffer.ext_fields (c.process b currentSample numSamples isPlaying).clear b.clear
    hf.1 hf.2.1 hf.2.2.1
  show (c.process b currentSample numSamples isPlaying).m_data.map _ = b.m_data.map _
  apply cells_ext
  · rw [rowLengths_cleared, rowLengths_cleared]
    exact hf.2.2.2
  · intro ch i
    rw [cell?_cleared, cell?_cleared]
    have hsome := cell?_isSome_of_rowLengths _ _ hf.2.2.2 ch i
    cases h1 : cell? (c.process b currentSample numSamples isPlaying).m_data ch i with
    | none =>
      rw [h1] at hsome
      cases h2 : cell? b.m_data ch i with
      | none => rfl
      | some t => rw [h2] at hsome; simp at hsome
    | some z =>
      rw [h1] at hsome
      cases h2 : cell? b.m_data ch i with
      | none => rw [h2] at hsome; simp at hsome
      | some t => rfl

/-- The sample read by `getSample` after `Clip::process`: the old sample plus the sample the
clip renders into the cleared buffer. -/
theorem Clip.getSample_process (c : Clip K) (b : AudioBuffer K) (currentSample numSamples : Nat)
    (isPlaying : Bool) (ch i : Nat) :
    (c.process b currentSample numSamples isPlaying).getSample ch i
      = b.getSample ch i
        + (c.process b.clear currentSample numSamples isPlaying).getSample ch i := by
  have hf := Clip.process_frame c b currentSample numSamples isPlaying
  have hfc := Clip.process_frame c b.clear currentSample numSamples isPlaying
  have hcell := Clip.cell?_process c b currentSample numSamples isPlaying ch i
  have h1 : b.clear.m_numChannels = b.m_numChannels := rfl
  have h2 : b.clear.m_numSamples = b.m_numSamples := rfl
  unfold AudioBuffer.getSample
  rw [hf.1, hf.2.1, hfc.1, hfc.2.1, h1, h2]
  by_cases hg : ch < b.m_numChannels ∧ i < b.m_numSamples
  · rw [if_pos hg, if_pos hg, if_pos hg]
    rw [cellGet_eq (c.process b currentSample numSamples isPlaying).m_data, hcell,
      cellGet_eq b.m_data]
    cases h3 : cell? b.m_data ch i with
    | none =>
      have hsome := cell?_isSome_of_rowLengths _ _
        (hfc.2.2.2.trans (rowLengths_cleared b.m_data)) ch i
      rw [h3] at hsome
      have h4 : cell? (c.process b.clear currentSample numSamples isPlaying).m_data ch i
          = none := by
        cases h5 : cell? (c.process b.clear currentSample numSamples isPlaying).m_data ch i with
        | none => rfl
        | some z => rw [h5] at hsome; simp at hsome
      rw [cellGet_eq, h4]
      simp
    | some t => simp
  · rw [if_neg hg, if_neg hg, if_neg hg, add_zero]

end Classic

/-! ### Bounded feedback delay -/

/-- A property indexed by the iteration count, kept by every iteration, holds after the loop. -/
theorem forLoop_indexed {σ : Type} (P : Nat → σ → Prop) (body : Nat → σ → σ) (n : Nat) (s : σ)
    (h0 : P 0 s) (hstep : ∀ k s, k < n → P k s → P (k + 1) (body k s)) :
    P n (forLoop n body s) := by
  induction n with
  | zero => exact h0
  | succ m ih =>
    exact hstep m _ (Nat.lt_succ_self m)
      (ih (fun k s hk hP => hstep k s (Nat.lt_succ_of_lt hk) hP))

theorem abs_getD_le {K : Type} [LinearOrderedField K] (l : List K) (B : K) (hB : 0 ≤ B)
    (h : ∀ v ∈ l, |v| ≤ B) (j : Nat) : |l.getD j 0| ≤ B := by
  rw [List.getD_eq_getElem?_getD]
  by_cases hj : j < l.length
  · rw [List.getElem?_eq_getElem hj]
    exact h _ (List.getElem_mem hj)
  · rw [List.getElem?_eq_none (Nat.le_of_not_lt hj)]
    simpa using hB

theorem abs_le_of_mem_set {K : Type} [LinearOrderedField K] (l : List K) (B : K)
    (h : ∀ v ∈ l, |v| ≤ B) (j : Nat) (x : K) (hx : |x| ≤ B) : ∀ v ∈ l.set j x, |v| ≤ B := by
  intro v hv
  rcases List.mem_or_eq_of_mem_set hv with hmem | heq
  · exact h v hmem
  · rw [heq]
    exact hx

theorem cellGet_cellSet {K : Type} [Zero K] (data : List (List K)) (c s : Nat) (v : K)
    (c2 s2 : Nat) :
    cellGet (cellSet data c s v) c2 s2 =
      if c2 = c ∧ s2 = s then ((cell? data c s).map (fun _ => v)).getD 0
      else cellGet data c2 s2 := by
  rw [cellGet_eq, cell?_cellSet]
  split_ifs
  · rfl
  · rw [cellGet_eq]

theorem abs_cellGet_cellSet_le {K : Type} [LinearOrderedField K] (data : List (List K))
    (c s : Nat) (v B : K) (hB : 0 ≤ B) (hv : |v| ≤ B) : |cellGet (cellSet data c s v) c s| ≤ B := by
  rw [cellGet_cellSet, if_pos ⟨rfl, rfl⟩]
  cases cell? data c s with
  | none => simpa using hB
  | some t => simpa using hv

namespace Classic

variable {K : Type} [LinearOrderedField K] [FloorRing K]

theorem DelayFX.processSample_fields (delaySamples : Nat) (feedback wetLevel dryLevel : K)
    (i : Nat) (s : DelayFX K × AudioBuffer K) :
    (DelayFX.processSample delaySamples feedback wetLevel dryLevel i s).1.base = s.1.base ∧
    (DelayFX.processSample delaySamples feedback wetLevel dryLevel i s).1.m_delayBufferL
      = s.1.m_delayBufferL.set s.1.m_writePosition
          (cellGet s.2.m_data 0 i
            + s.1.m_delayBufferL.getD
                (delayReadPosition s.1.m_delayBufferL.length s.1.m_writePosition delaySamples) 0
              * feedback) ∧
    (DelayFX.processSample delaySamples feedback wetLevel dryLevel i s).1.m_delayBufferR
      = s.1.m_delayBufferR.set s.1.m_writePosition
          (cellGet s.2.m_data 1 i
            + s.1.m_delayBufferR.getD
                (delayReadPosition s.1.m_delayBufferL.length s.1.m_writePosition delaySamples) 0
              * feedback) ∧
    (DelayFX.processSample delaySamples feedback wetLevel dryLevel i s).2.m_data
      = cellSet
          (cellSet s.2.m_data 0 i
            (cellGet s.2.m_data 0 i * dryLevel
              + s.1.m_delayBufferL.getD
                  (delayReadPosition s.1.m_delayBufferL.length s.1.m_writePosition delaySamples) 0
                * wetLevel))
          1 i
          (cellGet s.2.m_data 1 i * dryLevel
            + s.1.m_delayBufferR.getD
                (delayReadPosition s.1.m_delayBufferL.length s.1.m_writePosition delaySamples) 0
              * wetLevel) :=
  ⟨rfl, rfl, rfl, rfl⟩

theorem abs_feedback_sum_le (x y f M B : K) (hf : 0 ≤ f) (hx : |x| ≤ M) (hy : |y| ≤ B)
    (hMB : M + B * f ≤ B) : |x + y * f| ≤ B := by
  have h1 : |y * f| ≤ B * f := by
    rw [abs_mul, abs_of_nonneg hf]
    exact mul_le_mul_of_nonneg_right hy hf
  calc |x + y * f| ≤ |x| + |y * f| := abs_add _ _
    _ ≤ M + B * f := add_le_add hx h1
    _ ≤ B := hMB

theorem abs_mix_le (x y dry wet M B : K) (hx : |x| ≤ M) (hy : |y| ≤ B) :
    |x * dry + y * wet| ≤ |dry| * M + |wet| * B := by
  have h1 : |x * dry| ≤ |dry| * M := by
    rw [abs_mul, mul_comm]
    exact mul_le_mul_of_nonneg_left hx (abs_nonneg _)
  have h2 : |y * wet| ≤ |wet| * B := by
    rw [abs_mul, mul_comm]
    exact mul_le_mul_of_nonneg_left hy (abs_nonneg _)
  calc |x * dry + y * wet| ≤ |x * dry| + |y * wet| := abs_add _ _
    _ ≤ |dry| * M + |wet| * B := add_le_add h1 h2

/-- One sample of the delay: with inputs of magnitude at most `M`, stored values of magnitude at
most `B` and `M + B*f <= B`, the stored values stay within `B`, the sample written to the output
is within `|dry|*M + |wet|*B`, and the samples further on are still the input. -/
theorem DelayFX.processSample_bound (delaySamples : Nat) (f wet dry M B : K) (hf : 0 ≤ f)
    (hM : 0 ≤ M) (hB : 0 ≤ B) (hMB : M + B * f ≤ B) (input : AudioBuffer K) (n : Nat)
    (hin : ∀ ch i, ch < 2 → i < n → |cellGet input.m_data ch i| ≤ M) (base0 : FXPlugin K)
    (k : Nat) (s : DelayFX K × AudioBuffer K) (hk : k < n)
    (hP : s.1.StoredWithin B ∧ s.1.base = base0 ∧
      (∀ ch i, ch < 2 → i < k → |cellGet s.2.m_data ch i| ≤ |dry| * M + |wet| * B) ∧
      (∀ ch i, k ≤ i → cellGet s.2.m_data ch i = cellGet input.m_data ch i)) :
    (DelayFX.processSample delaySamples f wet dry k s).1.StoredWithin B ∧
    (DelayFX.processSample delaySamples f wet dry k s).1.base = base0 ∧
    (∀ ch i, ch < 2 → i < k + 1 →
      |cellGet (DelayFX.processSample delaySamples f wet dry k s).2.m_data ch i|
        ≤ |dry| * M + |wet| * B) ∧
    (∀ ch i, k + 1 ≤ i →
      cellGet (DelayFX.processSample delaySamples f wet dry k s).2.m_data ch i
        = cellGet input.m_data ch i) := by
  obtain ⟨hst, hbase, hout, hrest⟩ := hP
  obtain ⟨e1, e2, e3, e4⟩ := DelayFX.processSample_fields delaySamples f wet dry k s
  have hbound : 0 ≤ |dry| * M + |wet| * B :=
    add_nonneg (mul_nonneg (abs_nonneg _) hM) (mul_nonneg (abs_nonneg _) hB)
  have hinL : |cellGet s.2.m_data 0 k| ≤ M := by
    rw [hrest 0 k (le_refl k)]
    exact hin 0 k (by norm_num) hk
  have hinR : |cellGet s.2.m_data 1 k| ≤ M := by
    rw [hrest 1 k (le_refl k)]
    exact hin 1 k (by norm_num) hk
  have hdL := abs_getD_le s.1.m_delayBufferL B hB hst.1
    (delayReadPosition s.1.m_delayBufferL.length s.1.m_writePosition delaySamples)
  have hdR := abs_getD_le s.1.m_delayBufferR B hB hst.2
    (delayReadPosition s.1.m_delayBufferL.length s.1.m_writePosition delaySamples)
  refine ⟨⟨?_, ?_⟩, e1.trans hbase, ?_, ?_⟩
  · rw [e2]
    exact abs_le_of_mem_set _ _ hst.1 _ _ (abs_feedback_sum_le _ _ f M B hf hinL hdL hMB)
  · rw [e3]
    exact abs_le_of_mem_set _ _ hst.2 _ _ (abs_feedback_sum_le _ _ f M B hf hinR hdR hMB)
  · intro ch i hch hi
    rw [e4]
    by_cases hik : i = k
    · subst hik
      have hch2 : ch = 0 ∨ ch = 1 := by omega
      rcases hch2 with h0 | h1
      · subst h0
        rw [cellGet_cellSet, if_neg (by simp)]
        exact abs_cellGet_cellSet_le _ _ _ _ _ hbound (abs_mix_le _ _ dry wet M B hinL hdL)
      · subst h1
        exact abs_cellGet_cellSet_le _ _ _ _ _ hbound (abs_mix_le _ _ dry wet M B hinR hdR)
    · rw [cellGet_cellSet, if_neg (fun h => hik h.2), cellGet_cellSet,
        if_neg (fun h => hik h.2)]
      exact hout ch i hch (by omega)
  · intro ch i hi
    have hik : ¬ i = k := by omega
    rw [e4, cellGet_cellSet, if_neg (fun h => hik h.2), cellGet_cellSet,
      if_neg (fun h => hik h.2)]
    exact hrest ch i (by omega)

/-- One block of the delay, under the hypotheses of `processSample_bound`. -/
theorem DelayFX.process_bound (d : DelayFX K) (buffer : AudioBuffer K) (n : Nat) (M B : K)
    (hf : 0 ≤ d.base.getParameter "feedback") (hM : 0 ≤ M) (hB : 0 ≤ B)
    (hMB : M + B * d.base.getParameter "feedback" ≤ B) (hst : d.StoredWithin B)
    (hin : ∀ ch i, ch < 2 → i < n → |cellGet buffer.m_data ch i| ≤ M) :
    (d.process buffer n).1.StoredWithin B ∧ (d.process buffer n).1.base = d.base ∧
    (d.base.isEnabled = true → 2 ≤ buffer.getNumChannels →
      ∀ ch i, ch < 2 → i < n →
        |cellGet (d.process buffer n).2.m_data ch i|
          ≤ |d.base.getParameter "dryLevel"| * M + |d.base.getParameter "wetLevel"| * B) := by
  unfold DelayFX.process
  by_cases hguard : (!d.base.isEnabled) = true ∨ buffer.getNumChannels < 2
  · rw [if_pos hguard]
    refine ⟨hst, rfl, ?_⟩
    intro hen hch
    rcases hguard with h | h
    · rw [hen] at h
      exact absurd h (by simp)
    · exact absurd hch (by omega)
  · rw [if_neg hguard]
    have h := forLoop_indexed
      (fun k (s : DelayFX K × AudioBuffer K) =>
        s.1.StoredWithin B ∧ s.1.base = d.base ∧
        (∀ ch i, ch < 2 → i < k → |cellGet s.2.m_data ch i|
          ≤ |d.base.getParameter "dryLevel"| * M + |d.base.getParameter "wetLevel"| * B) ∧
        (∀ ch i, k ≤ i → cellGet s.2.m_data ch i = cellGet buffer.m_data ch i))
      (DelayFX.processSample
        (min (truncToSize (d.base.getParameter "delayTime" * d.m_sampleRate))
          (d.m_delayBufferL.length - 1))
        (d.base.getParameter "feedback") (d.base.getParameter "wetLevel")
        (d.base.getParameter "dryLevel"))
      n (d, buffer)
      ⟨hst, rfl, fun ch i _ hi => absurd hi (Nat.not_lt_zero i), fun ch i _ => rfl⟩
      (fun k s hk hP =>
        DelayFX.processSample_bound _ _ _ _ M B hf hM hB hMB buffer n hin d.base k s hk hP)
    exact ⟨h.1, h.2.1, fun _ _ => h.2.2.1⟩

end Classic

namespace Classic

variable {K : Type} [LinearOrderedField K] [FloorRing K]

/-- A stream of blocks through the delay, under the hypotheses of `processSample_bound`. -/
theorem DelayFX.processStream_bound (M B : K) (hM : 0 ≤ M) (hB : 0 ≤ B)
    (blocks : List (AudioBuffer K × Nat)) :
    ∀ d : DelayFX K, 0 ≤ d.base.getParameter "feedback" →
      M + B * d.base.getParameter "feedback" ≤ B → d.StoredWithin B →
      (∀ blk ∈ blocks, ∀ ch i, ch < 2 → i < blk.2 → |cellGet blk.1.m_data ch i| ≤ M) →
      (d.processStream blocks).1.StoredWithin B ∧ (d.processStream blocks).1.base = d.base ∧
      (d.base.isEnabled = true → (∀ blk ∈ blocks, 2 ≤ blk.1.getNumChannels) →
        ∀ p ∈ blocks.zip (d.processStream blocks).2, ∀ ch i, ch < 2 → i < p.1.2 →
          |cellGet p.2.m_data ch i|
            ≤ |d.base.getParameter "dryLevel"| * M + |d.base.getParameter "wetLevel"| * B) := by
  induction blocks with
  | nil =>
    intro d _ _ hst _
    exact ⟨hst, rfl, fun _ _ p hp => absurd hp (by simp [DelayFX.processStream])⟩
  | cons block rest ih =>
    intro d hf hMB hst hin
    have h1 := DelayFX.process_bound d block.1 block.2 M B hf hM hB hMB hst
      (hin block (List.mem_cons_self _ _))
    have h2 := ih (d.process block.1 block.2).1 (by rw [h1.2.1]; exact hf)
      (by rw [h1.2.1]; exact hMB) h1.1 (fun blk hblk => hin blk (List.mem_cons_of_mem _ hblk))
    have hunfold : d.processStream (block :: rest) =
        (((d.process block.1 block.2).1.processStream rest).1,
          (d.process block.1 block.2).2 :: ((d.process block.1 block.2).1.processStream rest).2) :=
      rfl
    rw [hunfold]
    refine ⟨h2.1, h2.2.1.trans h1.2.1, ?_⟩
    intro hen hstereo p hp
    rw [List.zip_cons_cons, List.mem_cons] at hp
    rcases hp with hp | hp
    · rw [hp]
      exact h1.2.2 hen (hstereo block (List.mem_cons_self _ _))
    · have h3 := h2.2.2 (by rw [h1.2.1]; exact hen)
        (fun blk hblk => hstereo blk (List.mem_cons_of_mem _ hblk)) p hp
      rw [h1.2.1] at h3
      exact h3

/-- C24: a DelayFX with feedback f in [0, 0.95] is reset and then processes any sequence of
blocks whose left and right input samples have magnitude at most M.  After the last block (so
at every time, the sequence being arbitrary) every value held in either delay line has
magnitude at most M/(1 - f); when the effect is enabled with wetLevel, dryLevel >= 0 and the
blocks are stereo, every output sample has magnitude at most dryLevel*M + wetLevel*M/(1 - f).
From any state, a block of silent input leaves every bound B >= 0 on the magnitudes held in the
delay lines in force: the largest magnitude does not grow. -/
theorem C24_delay_is_bounded (d : DelayFX K) (M : K) (blocks : List (AudioBuffer K × Nat))
    (hf : 0 ≤ d.base.getParameter "feedback" ∧ d.base.getParameter "feedback" ≤ 19 / 20)
    (hM : 0 ≤ M)
    (hin : ∀ blk ∈ blocks, ∀ ch i, ch < 2 → i < blk.2 → |cellGet blk.1.m_data ch i| ≤ M) :
    (d.reset.processStream blocks).1.StoredWithin (M / (1 - d.base.getParameter "feedback")) ∧
    (d.base.isEnabled = true → 0 ≤ d.base.getParameter "wetLevel" →
      0 ≤ d.base.getParameter "dryLevel" → (∀ blk ∈ blocks, 2 ≤ blk.1.getNumChannels) →
      ∀ p ∈ blocks.zip (d.reset.processStream blocks).2, ∀ ch i, ch < 2 → i < p.1.2 →
        |cellGet p.2.m_data ch i|
          ≤ d.base.getParameter "dryLevel" * M
            + d.base.getParameter "wetLevel" * (M / (1 - d.base.getParameter "feedback"))) ∧
    (∀ (B : K) (buffer : AudioBuffer K) (n : Nat), 0 ≤ B → d.StoredWithin B →
      (∀ ch i, ch < 2 → i < n → cellGet buffer.m_data ch i = 0) →
      (d.process buffer n).1.StoredWithin B) := by
  have h1f : 0 < 1 - d.base.getParameter "feedback" := by linarith [hf.2]
  have hB : 0 ≤ M / (1 - d.base.getParameter "feedback") := div_nonneg hM h1f.le
  have hMB : M + M / (1 - d.base.getParameter "feedback") * d.base.getParameter "feedback"
      ≤ M / (1 - d.base.getParameter "feedback") := by
    apply le_of_eq
    field_simp
    ring
  have hreset : d.reset.StoredWithin (M / (1 - d.base.getParameter "feedback")) := by
    constructor
    · intro v hv
      obtain ⟨_, _, rfl⟩ := List.mem_map.mp hv
      simpa using hB
    · intro v hv
      obtain ⟨_, _, rfl⟩ := List.mem_map.mp hv
      simpa using hB
  have hbase : d.reset.base = d.base := rfl
  have h := DelayFX.processStream_bound M (M / (1 - d.base.getParameter "feedback")) hM hB
    blocks d.reset (by rw [hbase]; exact hf.1) (by rw [hbase]; exact hMB) hreset hin
  refine ⟨h.1, ?_, ?_⟩
  · intro hen hwet hdry hstereo p hp ch i hch hi
    have h2 := h.2.2 (by rw [hbase]; exact hen) hstereo p hp ch i hch hi
    rw [hbase, abs_of_nonneg hdry, abs_of_nonneg hwet] at h2
    exact h2
  · intro B buffer n hB0 hst hzero
    have h3 := DelayFX.process_bound d buffer n 0 B hf.1 (le_refl 0) hB0
      (by
        rw [zero_add]
        have hf1 : d.base.getParameter "feedback" ≤ 1 := by linarith [hf.2]
        exact mul_le_of_le_one_right hB0 hf1)
      hst
      (by
        intro ch i hch hi
        rw [hzero ch i hch hi, abs_zero])
    exact h3.1

/-- Witness of C24: the delay at 4 Hz with its default feedback 0.3 and the three-sample stereo
block holding 1, 2, 3 and 4, 5, 6, bounded by M = 6. -/
theorem C24_delay_is_bounded_witness :
    (smallDelay.reset.processStream [(smallBuffer, 3)]).1.StoredWithin
      (6 / (1 - smallDelay.base.getParameter "feedback")) :=
  (C24_delay_is_bounded smallDelay 6 [(smallBuffer, 3)] (by decide!) (by norm_num)
    (by
      intro blk hblk ch i hch hi
      rw [List.mem_singleton] at hblk
      subst hblk
      have hi3 : i < 3 := hi
      interval_cases ch <;> interval_cases i <;> decide!)).1

end Classic

namespace Classic

/-- The two example clips rendered into the buffer of tens over the window of eight samples
from sample 0: the stereo clip adds its samples from position 4 on, the mono clip with gain 2
adds 2 to the left channel from position 5 on, in either order. -/
theorem overlapping_clips_sum :
    (overlapPart.process (tonePart.process mixBuffer 0 8 true) 0 8 true).m_data
      = [[10, 10, 10, 10, 11, 14, 15, 16], [10, 10, 10, 10, 15, 16, 17, 18]] ∧
    (tonePart.process (overlapPart.process mixBuffer 0 8 true) 0 8 true).m_data
      = [[10, 10, 10, 10, 11, 14, 15, 16], [10, 10, 10, 10, 15, 16, 17, 18]] ∧
    (tonePart.process mixBuffer.clear 0 8 true).m_data
      = [[0, 0, 0, 0, 1, 2, 3, 4], [0, 0, 0, 0, 5, 6, 7, 8]] := by
  decide!

end Classic

/-! ### Gain and range clearing on the planar buffer -/

namespace Classic

variable {K : Type} [LinearOrderedField K] [FloorRing K]

theorem cell?_mapped (f : K → K) (data : List (List K)) (c s : Nat) :
    cell? (data.map (fun channel => channel.map f)) c s = (cell? data c s).map f := by
  unfold cell?
  rw [List.getElem?_map]
  cases data[c]? with
  | none => rfl
  | some row =>
    simp only [Option.map_some', Option.some_bind, List.getElem?_map]

/-- C32: after applyGain(g) every cell of every channel holds its previous value times g, so
getSample(c, s) returns g times what it returned before, for every c and s; the channel count,
the sample count, the sample rate and the length of every channel are unchanged. -/
theorem C32_applyGain_scales (b : AudioBuffer K) (g : K) :
    (∀ c s : Nat, (b.applyGain g).getSample c s = g * b.getSample c s) ∧
    (∀ c s : Nat, cell? (b.applyGain g).m_data c s = (cell? b.m_data c s).map (fun x => g * x)) ∧
    (b.applyGain g).getNumChannels = b.getNumChannels ∧
    (b.applyGain g).getNumSamples = b.getNumSamples ∧
    (b.applyGain g).m_sampleRate = b.m_sampleRate ∧
    (b.applyGain g).m_data.map List.length = b.m_data.map List.length := by
  have hcell : ∀ c s : Nat,
      cell? (b.applyGain g).m_data c s = (cell? b.m_data c s).map (fun x => x * g) :=
    fun c s => cell?_mapped (fun x => x * g) b.m_data c s
  refine ⟨?_, ?_, rfl, rfl, rfl, ?_⟩
  · intro c s
    unfold AudioBuffer.getSample
    have h1 : (b.applyGain g).m_numChannels = b.m_numChannels := rfl
    have h2 : (b.applyGain g).m_numSamples = b.m_numSamples := rfl
    rw [h1, h2]
    by_cases hg : c < b.m_numChannels ∧ s < b.m_numSamples
    · rw [if_pos hg, if_pos hg, cellGet_eq, cellGet_eq, hcell]
      cases cell? b.m_data c s with
      | none => simp
      | some x => simp [mul_comm]
    · rw [if_neg hg, if_neg hg, mul_zero]
  · intro c s
    rw [hcell]
    cases cell? b.m_data c s with
    | none => rfl
    | some x => simp [mul_comm]
  · show (b.m_data.map (fun channel => channel.map (fun sample => sample * g))).map List.length
      = b.m_data.map List.length
    rw [List.map_map]
    apply List.map_congr_left
    intro row _
    simp

/-- C36 at the failing input: on the stereo buffer of three samples per channel,
clearRange(4, 1) computes endSample = min(5, 3) = 3 and calls std::fill with begin + 4 and
begin + 3, which do not delimit a range: the fill stores outside the channel.  With the start
inside the buffer, clearRange(1, 5) zeroes the samples 1 and 2 of both channels. -/
theorem C36_clearRange_start_past_end :
    (smallBuffer.clearRange 4 1).isNone = true ∧
    (smallBuffer.clearRange 1 5).map (fun b => b.m_data) = some [[1, 0, 0], [4, 0, 0]] := by
  decide!

end Classic

/-! ### Reordering the effect chain -/

theorem insertIdx_eraseIdx_self {β : Type} (l : List β) (i : Nat) (h : i < l.length) :
    (l.eraseIdx i).insertIdx i (l.get ⟨i, h⟩) = l := by
  induction l generalizing i with
  | nil => exact absurd h (Nat.not_lt_zero _)
  | cons a rest ih =>
    cases i with
    | zero => rfl
    | succ j =>
      have hj : j < rest.length := Nat.lt_of_succ_lt_succ h
      show a :: (rest.eraseIdx j).insertIdx j (rest.get ⟨j, hj⟩) = a :: rest
      rw [ih j hj]

theorem length_eraseIdx_of_lt {β : Type} (l : List β) (i : Nat) (h : i < l.length) :
    (l.eraseIdx i).length = l.length - 1 := by
  rw [List.length_eraseIdx, if_pos h]

namespace DAW

variable {K : Type} [LinearOrderedField K] [FloorRing K]

/-- C33: for fromSlot and toSlot inside the chain and different, MoveFX keeps the length of the
chain, yields a permutation of the old chain, puts the effect that was at fromSlot at index
toSlot, and keeps the other effects in their order (the chain without the moved effect is the
same before and after); every other member of the track is kept.  When an index is out of
range or the two are equal the track is unchanged. -/
theorem C33_MoveFX (t : Track K) (fromSlot toSlot : Int) :
    (0 ≤ fromSlot ∧ fromSlot < (t.fxChain_.length : Int) ∧ 0 ≤ toSlot ∧
        toSlot < (t.fxChain_.length : Int) ∧ fromSlot ≠ toSlot →
      (t.MoveFX fromSlot toSlot).fxChain_.length = t.fxChain_.length ∧
      List.Perm (t.MoveFX fromSlot toSlot).fxChain_ t.fxChain_ ∧
      (t.MoveFX fromSlot toSlot).fxChain_[toSlot.toNat]? = t.fxChain_[fromSlot.toNat]? ∧
      (t.MoveFX fromSlot toSlot).fxChain_.eraseIdx toSlot.toNat
        = t.fxChain_.eraseIdx fromSlot.toNat ∧
      t.MoveFX fromSlot toSlot = { t with fxChain_ := (t.MoveFX fromSlot toSlot).fxChain_ }) ∧
    (¬ (0 ≤ fromSlot ∧ fromSlot < (t.fxChain_.length : Int) ∧ 0 ≤ toSlot ∧
        toSlot < (t.fxChain_.length : Int) ∧ fromSlot ≠ toSlot) →
      t.MoveFX fromSlot toSlot = t) := by
  constructor
  · rintro ⟨hf0, hf1, ht0, ht1, hne⟩
    have hf : fromSlot.toNat < t.fxChain_.length := by omega
    have hto : toSlot.toNat < t.fxChain_.length := by omega
    have hcond : fromSlot ≥ 0 ∧ fromSlot.toNat < t.fxChain_.length ∧ toSlot ≥ 0 ∧
        toSlot.toNat < t.fxChain_.length ∧ fromSlot ≠ toSlot := ⟨hf0, hf, ht0, hto, hne⟩
    have hget : t.fxChain_[fromSlot.toNat]? = some (t.fxChain_.get ⟨fromSlot.toNat, hf⟩) :=
      List.getElem?_eq_getElem hf
    have hchain : (t.MoveFX fromSlot toSlot).fxChain_ =
        (t.fxChain_.eraseIdx fromSlot.toNat).insertIdx toSlot.toNat
          (t.fxChain_.get ⟨fromSlot.toNat, hf⟩) := by
      unfold Track.MoveFX
      rw [if_pos hcond, hget]
    have hrest : t.MoveFX fromSlot toSlot
        = { t with fxChain_ := (t.MoveFX fromSlot toSlot).fxChain_ } := by
      unfold Track.MoveFX
      rw [if_pos hcond, hget]
    have hlen : (t.fxChain_.eraseIdx fromSlot.toNat).length = t.fxChain_.length - 1 :=
      length_eraseIdx_of_lt _ _ hf
    have hle : toSlot.toNat ≤ (t.fxChain_.eraseIdx fromSlot.toNat).length := by
      rw [hlen]
      omega
    refine ⟨?_, ?_, ?_, ?_, hrest⟩
    · rw [hchain, List.length_insertIdx _ _ hle, hlen]
      omega
    · rw [hchain]
      have h1 := List.perm_insertIdx (t.fxChain_.get ⟨fromSlot.toNat, hf⟩)
        (t.fxChain_.eraseIdx fromSlot.toNat) hle
      have h2 := List.perm_insertIdx (t.fxChain_.get ⟨fromSlot.toNat, hf⟩)
        (t.fxChain_.eraseIdx fromSlot.toNat) (by rw [hlen]; omega : fromSlot.toNat ≤ _)
      rw [insertIdx_eraseIdx_self t.fxChain_ fromSlot.toNat hf] at h2
      exact h1.trans h2.symm
    · rw [hchain, hget]
      have hlt : toSlot.toNat < ((t.fxChain_.eraseIdx fromSlot.toNat).insertIdx toSlot.toNat
          (t.fxChain_.get ⟨fromSlot.toNat, hf⟩)).length := by
        rw [List.length_insertIdx _ _ hle]
        omega
      rw [List.getElem?_eq_getElem hlt, List.getElem_insertIdx_self _ _ _ hle]
    · rw [hchain, List.eraseIdx_insertIdx]
  · intro h
    unfold Track.MoveFX
    have hcond : ¬ (fromSlot ≥ 0 ∧ fromSlot.toNat < t.fxChain_.length ∧ toSlot ≥ 0 ∧
        toSlot.toNat < t.fxChain_.length ∧ fromSlot ≠ toSlot) := by
      intro hc
      apply h
      obtain ⟨h1, h2, h3, h4, h5⟩ := hc
      exact ⟨h1, by omega, h3, by omega, h5⟩
    rw [if_neg hcond]

/-- Witness of C33: in a chain of three effects, MoveFX(0, 2) keeps the length 3. -/
theorem C33_MoveFX_witness : (threeFxTrack.MoveFX 0 2).fxChain_.length = 3 :=
  ((C33_MoveFX threeFxTrack 0 2).1 (by decide)).1

end DAW

/-! ### Sample references of the interleaved buffer -/

namespace Web

variable {K : Type} [LinearOrderedField K] [FloorRing K]

/-- C31 as stated fails: in the stereo buffer of two frames, getSample(0, 2) names channel 2,
which does not exist, yet it reads 3, the sample of frame 1 and channel 0, and a store through
it overwrites that sample.  After a store of 9 through the out-of-range getSample(2, 0) the
static cell holds 9, and getSample(5, 0) then reads 9. -/
theorem C31_getSample_checks_flat_index :
    twoFrames.readSample 0 0 2 = 3 ∧
    (twoFrames.writeSample 0 0 2 9).1.samples = [1, 2, 9, 4] ∧
    (twoFrames.writeSample 0 2 0 9).1.samples = [1, 2, 3, 4] ∧
    (twoFrames.writeSample 0 2 0 9).1.readSample (twoFrames.writeSample 0 2 0 9).2 5 0 = 9 := by
  decide!

/-- C31, amended: in a buffer of C channels and F frames, getSample(frame, channel) refers to
samples[frame*C + channel] exactly when 0 <= frame*C + channel < C*F.  For 0 <= channel < C and
0 <= frame < F that is the sample's own cell.  For every pair whose index frame*C + channel is
outside [0, C*F) the reference is the static cell: a read returns the value of that cell (0
while nothing has been stored through it) and a store leaves the buffer as it is. -/
theorem C31_getSample_cell (b : AudioBuffer K) (F : Nat) (hlen : b.samples.length = b.channels * F)
    (frame channel : Int) (dummy v : K) :
    (0 ≤ channel ∧ channel < (b.channels : Int) ∧ 0 ≤ frame ∧ frame < (F : Int) →
      b.getSampleCell frame channel = some (frame.toNat * b.channels + channel.toNat) ∧
      frame.toNat * b.channels + channel.toNat < b.samples.length) ∧
    (0 ≤ frame * (b.channels : Int) + channel ∧
        frame * (b.channels : Int) + channel < (b.channels : Int) * (F : Int) →
      b.getSampleCell frame channel = some (frame * (b.channels : Int) + channel).toNat) ∧
    (¬ (0 ≤ frame * (b.channels : Int) + channel ∧
        frame * (b.channels : Int) + channel < (b.channels : Int) * (F : Int)) →
      b.getSampleCell frame channel = none ∧
      b.readSample dummy frame channel = dummy ∧
      b.readSample 0 frame channel = 0 ∧
      (b.writeSample dummy frame channel v).1 = b) := by
  have hlenI : (b.samples.length : Int) = (b.channels : Int) * (F : Int) := by
    rw [hlen]
    push_cast
    rfl
  have hin : ∀ h : 0 ≤ frame * (b.channels : Int) + channel ∧
      frame * (b.channels : Int) + channel < (b.channels : Int) * (F : Int),
      b.getSampleCell frame channel = some (frame * (b.channels : Int) + channel).toNat := by
    intro h
    unfold AudioBuffer.getSampleCell
    simp only []
    rw [if_pos ⟨h.1, by rw [hlenI]; exact h.2⟩]
  refine ⟨?_, hin, ?_⟩
  · rintro ⟨hc0, hc1, hf0, hf1⟩
    have hC : (0 : Int) ≤ (b.channels : Int) := Int.natCast_nonneg _
    have h1 : 0 ≤ frame * (b.channels : Int) + channel :=
      add_nonneg (mul_nonneg hf0 hC) hc0
    have h2 : frame * (b.channels : Int) + channel < (b.channels : Int) * (F : Int) := by
      have h3 : (frame + 1) * (b.channels : Int) ≤ (F : Int) * (b.channels : Int) :=
        mul_le_mul_of_nonneg_right (by omega) hC
      nlinarith
    have hidx : (frame * (b.channels : Int) + channel).toNat
        = frame.toNat * b.channels + channel.toNat := by
      have e1 : ((frame.toNat : Int)) = frame := Int.toNat_of_nonneg hf0
      have e2 : ((channel.toNat : Int)) = channel := Int.toNat_of_nonneg hc0
      have e3 : frame * (b.channels : Int) + channel
          = ((frame.toNat * b.channels + channel.toNat : Nat) : Int) := by
        push_cast
        rw [e1, e2]
      rw [e3, Int.toNat_natCast]
    refine ⟨by rw [hin ⟨h1, h2⟩, hidx], ?_⟩
    rw [← hidx]
    have h4 : ((frame * (b.channels : Int) + channel).toNat : Int) < (b.samples.length : Int) := by
      rw [Int.toNat_of_nonneg h1, hlenI]
      exact h2
    exact_mod_cast h4
  · intro hout
    have hcell : b.getSampleCell frame channel = none := by
      unfold AudioBuffer.getSampleCell
      simp only []
      rw [if_neg (by rw [hlenI]; exact hout)]
    refine ⟨hcell, ?_, ?_, ?_⟩
    · unfold AudioBuffer.readSample
      rw [hcell]
    · unfold AudioBuffer.readSample
      rw [hcell]
    · unfold AudioBuffer.writeSample
      rw [hcell]

/-- Witness of C31: in the stereo buffer of two frames, frame 1 and channel 1 is the cell 3,
and frame 2 and channel 0 is out of range. -/
theorem C31_getSample_cell_witness :
    twoFrames.getSampleCell 1 1 = some 3 ∧ twoFrames.readSample 0 2 0 = 0 := by
  have h := C31_getSample_cell twoFrames 2 (by decide) 1 1 0 0
  have h2 := C31_getSample_cell twoFrames 2 (by decide) 2 0 0 0
  exact ⟨(h.1 (by decide)).1, (h2.2.2 (by decide)).2.2.1⟩

end Web

/-! ### The reverb of the web engine -/

namespace Web

variable {K : Type} [LinearOrderedField K] [FloorRing K]

/-- A well-formed delay line returns the sample it has just stored and stays well-formed. -/
theorem DelayLine.process_echo (d : DelayLine K) (h : d.WellFormed) (x : K) :
    (d.process x).2 = x ∧ (d.process x).1.WellFormed := by
  obtain ⟨hlen, hidx⟩ := h
  refine ⟨?_, ?_, ?_⟩
  · show (d.buffer.set d.index x).getD d.index 0 = x
    exact getD_set_same _ _ _ (by rw [hlen]; exact hidx)
  · show (d.buffer.set d.index x).length = d.size
    rw [List.length_set, hlen]
  · show (d.index + 1) % d.size < d.size
    exact Nat.mod_lt _ (by omega)

theorem DelayLine.mk_wellFormed (n : Nat) (hn : 0 < n) :
    (DelayLine.mk_ n : DelayLine K).WellFormed :=
  ⟨List.length_replicate _ _, hn⟩

/-- The delay-line loop of `Reverb::process` over well-formed delay lines: every line adds a
quarter of its input to the sum and stays well-formed. -/
theorem Reverb.delays_fold (y : K) (delays : List (DelayLine K))
    (h : ∀ d ∈ delays, d.WellFormed) (acc : List (DelayLine K) × K) :
    (delays.foldl
      (fun (acc : List (DelayLine K) × K) delay =>
        ((acc.1 ++ [(delay.process y).1], acc.2 + (delay.process y).2 * (1 / 4))))
      acc).2 = acc.2 + (delays.length : K) * (y * (1 / 4)) ∧
    (delays.foldl
      (fun (acc : List (DelayLine K) × K) delay =>
        ((acc.1 ++ [(delay.process y).1], acc.2 + (delay.process y).2 * (1 / 4))))
      acc).1.length = acc.1.length + delays.length ∧
    ((∀ d ∈ acc.1, d.WellFormed) →
      ∀ d ∈ (delays.foldl
        (fun (acc : List (DelayLine K) × K) delay =>
          ((acc.1 ++ [(delay.process y).1], acc.2 + (delay.process y).2 * (1 / 4))))
        acc).1, d.WellFormed) := by
  induction delays generalizing acc with
  | nil =>
    refine ⟨?_, rfl, fun hacc => hacc⟩
    simp
  | cons delay rest ih =>
    have hd := DelayLine.process_echo delay (h delay (List.mem_cons_self _ _)) y
    have hrest : ∀ d ∈ rest, d.WellFormed := fun d hd => h d (List.mem_cons_of_mem _ hd)
    obtain ⟨h1, h2, h3⟩ := ih hrest
      (acc.1 ++ [(delay.process y).1], acc.2 + (delay.process y).2 * (1 / 4))
    rw [List.foldl_cons]
    refine ⟨?_, ?_, ?_⟩
    · rw [h1, hd.1]
      simp only [List.length_cons]
      push_cast
      ring
    · rw [h2]
      simp only [List.length_append, List.length_cons, List.length_nil]
      omega
    · intro hacc
      apply h3
      intro d hmem
      rcases List.mem_append.mp hmem with hm | hm
      · exact hacc d hm
      · rw [List.mem_singleton] at hm
        rw [hm]
        exact hd.2

/-- One call of `process` on a well-formed reverb. -/
theorem Reverb.process_wellFormed (r : Reverb K) (h : r.WellFormed) (x : K) :
    (r.process x).2 = x * r.dryLevel + x * r.roomSize * (1 - r.damping) * r.wetLevel ∧
    (r.process x).1.WellFormed ∧
    (r.process x).1.roomSize = r.roomSize ∧ (r.process x).1.damping = r.damping ∧
    (r.process x).1.wetLevel = r.wetLevel ∧ (r.process x).1.dryLevel = r.dryLevel := by
  obtain ⟨h1, h2, h3⟩ := Reverb.delays_fold (x * r.roomSize) r.delays h.2 ([], 0)
  refine ⟨?_, ⟨?_, ?_⟩, rfl, rfl, rfl, rfl⟩
  · show x * r.dryLevel + (r.delays.foldl _ ([], 0)).2 * (1 - r.damping) * r.wetLevel = _
    rw [h1, h.1]
    push_cast
    ring
  · show (r.delays.foldl _ ([], 0)).1.length = 4
    rw [h2, h.1]
    rfl
  · exact h3 (fun d hd => absurd hd (List.not_mem_nil d))

/-- C40: the reverb as constructed has four well-formed delay lines, and the setters and
process keep that.  For every such reverb, whatever its parameters and whatever inputs it has
processed before, process(x) returns x*dryLevel + x*roomSize*(1 - damping)*wetLevel: every
delay line returns the sample it has just stored.  The output does not depend on the earlier
inputs and is 0 for the input 0. -/
theorem C40_web_reverb_is_memoryless (K : Type) [LinearOrderedField K] [FloorRing K] :
    (Reverb.mk_ : Reverb K).WellFormed ∧
    ∀ r : Reverb K, r.WellFormed →
      (∀ v : K, (r.setRoomSize v).WellFormed ∧ (r.setDamping v).WellFormed ∧
        (r.setWetLevel v).WellFormed ∧ (r.setDryLevel v).WellFormed) ∧
      (∀ x : K, (r.process x).1.WellFormed ∧
        (r.process x).2 = x * r.dryLevel + x * r.roomSize * (1 - r.damping) * r.wetLevel) ∧
      (∀ (history : List K) (x : K),
        ((history.foldl (fun s y => (s.process y).1) r).process x).2
          = x * r.dryLevel + x * r.roomSize * (1 - r.damping) * r.wetLevel) ∧
      (∀ history : List K,
        ((history.foldl (fun s y => (s.process y).1) r).process 0).2 = 0) := by
  have hhist : ∀ (history : List K) (r : Reverb K), r.WellFormed →
      (history.foldl (fun s y => (s.process y).1) r).WellFormed ∧
      (history.foldl (fun s y => (s.process y).1) r).roomSize = r.roomSize ∧
      (history.foldl (fun s y => (s.process y).1) r).damping = r.damping ∧
      (history.foldl (fun s y => (s.process y).1) r).wetLevel = r.wetLevel ∧
      (history.foldl (fun s y => (s.process y).1) r).dryLevel = r.dryLevel := by
    intro history
    induction history with
    | nil => exact fun r h => ⟨h, rfl, rfl, rfl, rfl⟩
    | cons y rest ih =>
      intro r h
      obtain ⟨_, hw, e1, e2, e3, e4⟩ := Reverb.process_wellFormed r h y
      obtain ⟨hw2, f1, f2, f3, f4⟩ := ih (r.process y).1 hw
      rw [List.foldl_cons]
      exact ⟨hw2, f1.trans e1, f2.trans e2, f3.trans e3, f4.trans e4⟩
  have hout : ∀ (history : List K) (r : Reverb K) (x : K), r.WellFormed →
      ((history.foldl (fun s y => (s.process y).1) r).process x).2
        = x * r.dryLevel + x * r.roomSize * (1 - r.damping) * r.wetLevel := by
    intro history r x h
    obtain ⟨hw, f1, f2, f3, f4⟩ := hhist history r h
    rw [(Reverb.process_wellFormed _ hw x).1, f1, f2, f3, f4]
  refine ⟨?_, ?_⟩
  · refine ⟨rfl, ?_⟩
    intro d hd
    simp only [Reverb.mk_, List.mem_cons, List.mem_singleton, List.not_mem_nil, or_false] at hd
    rcases hd with rfl | rfl | rfl | rfl <;>
      exact DelayLine.mk_wellFormed _ (by decide)
  · intro r h
    refine ⟨fun v => ⟨h, h, h, h⟩, ?_, ?_, ?_⟩
    · intro x
      exact ⟨(Reverb.process_wellFormed r h x).2.1, (Reverb.process_wellFormed r h x).1⟩
    · intro history x
      exact hout history r x h
    · intro history
      rw [hout history r 0 h]
      ring

/-- Witness of C40: the small reverb with one delay line mid-cycle returns 0.775 for the
input 1 after the inputs 4 and -2. -/
theorem C40_web_reverb_is_memoryless_witness :
    (([4, -2].foldl (fun s y => (s.process y).1) tinyReverb).process 1).2 = 31 / 40 := by
  have h := ((C40_web_reverb_is_memoryless ℚ).2 tinyReverb (by decide)).2.2.1 [4, -2] 1
  rw [h]
  norm_num [tinyReverb]

end Web

/-! ### Looped clips -/

namespace Classic

variable {K : Type} [LinearOrderedField K] [FloorRing K]

/-- The sample loop of `processAudioData` in terms of the wrapped position. -/
theorem Clip.processAudioStep_wrapped (c : Clip K) (audio : AudioBuffer K)
    (outputStartSample clipStartSample ch i : Nat) (s : Bool × AudioBuffer K) :
    c.processAudioStep audio outputStartSample clipStartSample ch i s =
      if s.1 = true then s
      else if outputStartSample + i ≥ s.2.getNumSamples then (true, s.2)
      else if c.wrappedPosition audio.getNumSamples (clipStartSample + i)
          ≥ audio.getNumSamples then (true, s.2)
      else (false, s.2.addSample ch (outputStartSample + i)
        (cellGet audio.m_data ch (c.wrappedPosition audio.getNumSamples (clipStartSample + i))
          * c.m_gain
          * c.calculateFadeMultiplier
              (c.wrappedPosition audio.getNumSamples (clipStartSample + i)))) :=
  rfl

theorem loopedPart_wraps :
    loopedPart.wrappedPosition 4 5 = 2 ∧ loopedPart.wrappedPosition 4 6 = 1 ∧
    truncToSize (loopedPart.m_loopStart * loopedPart.m_sampleRate) = 1 ∧
    truncToSize ((loopedPart.m_loopEnd - loopedPart.m_loopStart) * loopedPart.m_sampleRate)
      = 2 := by
  decide!

end Classic

/-! ### The chorus voices -/

namespace Classic

variable {K : Type} [LinearOrderedField K] [FloorRing K]

/-- One voice of `ChorusFX::process` in terms of `modulatedDelay`: the value converted to
`size_t` for `delaySamples` is `modulatedDelay * m_sampleRate`, the two taps are weighted with
`1 - fraction` and `fraction`, and the voices with `1 / numVoices`. -/
theorem ChorusFX.voiceStep_taps (M : Libm K) (c : ChorusFX K) (depth : K)
    (numVoices voice : Nat) (acc : K × K) :
    ChorusFX.voiceStep M c depth numVoices voice acc =
      (acc.1 +
        (c.m_delayBufferL.getD
            (delayReadPosition c.m_delayBufferL.length c.m_writePosition
              (min (truncToSize (ChorusFX.modulatedDelay M c.m_phase depth numVoices voice
                * c.m_sampleRate)) (c.m_delayBufferL.length - 1))) 0
          * (1 - (ChorusFX.modulatedDelay M c.m_phase depth numVoices voice * c.m_sampleRate
              - ((min (truncToSize (ChorusFX.modulatedDelay M c.m_phase depth numVoices voice
                * c.m_sampleRate)) (c.m_delayBufferL.length - 1) : Nat) : K)))
        + c.m_delayBufferL.getD
            ((delayReadPosition c.m_delayBufferL.length c.m_writePosition
              (min (truncToSize (ChorusFX.modulatedDelay M c.m_phase depth numVoices voice
                * c.m_sampleRate)) (c.m_delayBufferL.length - 1)) + 1)
              % c.m_delayBufferL.length) 0
          * (ChorusFX.modulatedDelay M c.m_phase depth numVoices voice * c.m_sampleRate
              - ((min (truncToSize (ChorusFX.modulatedDelay M c.m_phase depth numVoices voice
                * c.m_sampleRate)) (c.m_delayBufferL.length - 1) : Nat) : K)))
          / (numVoices : K),
       acc.2 +
        (c.m_delayBufferR.getD
            (delayReadPosition c.m_delayBufferL.length c.m_writePosition
              (min (truncToSize (ChorusFX.modulatedDelay M c.m_phase depth numVoices voice
                * c.m_sampleRate)) (c.m_delayBufferL.length - 1))) 0
          * (1 - (ChorusFX.modulatedDelay M c.m_phase depth numVoices voice * c.m_sampleRate
              - ((min (truncToSize (ChorusFX.modulatedDelay M c.m_phase depth numVoices voice
                * c.m_sampleRate)) (c.m_delayBufferL.length - 1) : Nat) : K)))
        + c.m_delayBufferR.getD
            ((delayReadPosition c.m_delayBufferL.length c.m_writePosition
              (min (truncToSize (ChorusFX.modulatedDelay M c.m_phase depth numVoices voice
                * c.m_sampleRate)) (c.m_delayBufferL.length - 1)) + 1)
              % c.m_delayBufferL.length) 0
          * (ChorusFX.modulatedDelay M c.m_phase depth numVoices voice * c.m_sampleRate
              - ((min (truncToSize (ChorusFX.modulatedDelay M c.m_phase depth numVoices voice
                * c.m_sampleRate)) (c.m_delayBufferL.length - 1) : Nat) : K)))
          / (numVoices : K)) :=
  rfl

/-- C35 at the failing input: with depth 1 (inside the registered range), two voices and the
LFO phase 3*pi/2, voice 0 has the modulated delay 0.005 + sin(3*pi/2)*1*0.01 = -0.005 s, which
is negative; at 44100 Hz the value converted to `size_t` for `delaySamples` is -220.5, for
which the conversion is not defined. -/
theorem C35_modulated_delay_negative :
    ChorusFX.modulatedDelay (Libm.mk Real.sin Real.cos Real.pi) (3 * Real.pi / 2) 1 2 0
      = -(1 / 200) ∧
    ChorusFX.modulatedDelay (Libm.mk Real.sin Real.cos Real.pi) (3 * Real.pi / 2) 1 2 0 < 0 ∧
    ChorusFX.modulatedDelay (Libm.mk Real.sin Real.cos Real.pi) (3 * Real.pi / 2) 1 2 0 * 44100
      = -(441 / 2) ∧
    castToSize
        (ChorusFX.modulatedDelay (Libm.mk Real.sin Real.cos Real.pi) (3 * Real.pi / 2) 1 2 0
          * 44100) = none := by
  have hsin : Real.sin (3 * Real.pi / 2) = -1 := by
    have h : 3 * Real.pi / 2 = Real.pi / 2 + Real.pi := by ring
    rw [h, Real.sin_add_pi, Real.sin_pi_div_two]
  have hmd : ChorusFX.modulatedDelay (Libm.mk Real.sin Real.cos Real.pi) (3 * Real.pi / 2) 1 2 0
      = -(1 / 200) := by
    unfold ChorusFX.modulatedDelay
    simp only [Nat.cast_zero, zero_mul, zero_div, add_zero, hsin]
    norm_num
  rw [hmd]
  refine ⟨rfl, by norm_num, by norm_num, ?_⟩
  unfold castToSize
  rw [if_neg]
  intro h
  norm_num at h

end Classic

/-! ### The track recorder -/

theorem map_range_split {β : Type} (f : Nat → β) (a b : Nat) :
    (List.range (a + b)).map f = (List.range a).map f ++ (List.range b).map (fun i => f (a + i)) := by
  rw [List.range_add, List.map_append, List.map_map]
  rfl

namespace RecordingBuffer

variable {α : Type} [Zero α]

/-- In a well-formed ring buffer the write position is the read position advanced by the
number of available frames, which is below the capacity. -/
theorem available_spec (rb : RecordingBuffer α) (hwf : rb.WellFormed) :
    rb.available < rb.bufferSize ∧
    rb.writePos = (rb.readPos + rb.available) % rb.bufferSize := by
  obtain ⟨_, hwp, hrp⟩ := hwf
  unfold available
  split_ifs with h
  · refine ⟨by omega, ?_⟩
    rw [Nat.add_sub_cancel' h, Nat.mod_eq_of_lt hwp]
  · refine ⟨by omega, ?_⟩
    have e : rb.readPos + (rb.bufferSize - rb.readPos + rb.writePos)
        = rb.bufferSize + rb.writePos := by omega
    rw [e, Nat.add_mod_left, Nat.mod_eq_of_lt hwp]

/-- The availability of a buffer whose write position is `t` frames ahead of the read
position. -/
theorem available_of_offset (rb : RecordingBuffer α) (t : Nat) (hrp : rb.readPos < rb.bufferSize)
    (ht : t < rb.bufferSize) (hwp : rb.writePos = (rb.readPos + t) % rb.bufferSize) :
    rb.available = t := by
  unfold available
  rw [hwp, available_after rb.bufferSize rb.readPos t hrp, Nat.mod_eq_of_lt ht]

theorem read_fields (rb : RecordingBuffer α) (samples : Nat → α) (maxFrames : Nat) :
    (rb.read samples maxFrames).1.buffer = rb.buffer ∧
    (rb.read samples maxFrames).1.writePos = rb.writePos ∧
    (rb.read samples maxFrames).1.bufferSize = rb.bufferSize ∧
    (rb.read samples maxFrames).1.channels = rb.channels ∧
    (rb.read samples maxFrames).2.2 = min maxFrames rb.available :=
  ⟨rfl, rfl, rfl, rfl, rfl⟩

/-- The samples of slot `(rp + i / ch) % C`, channel `i % ch`, for the running index `i`. -/
theorem slot_index (ch m i : Nat) (hi : i < m * ch) :
    i / ch < m ∧ i % ch < ch ∧ i / ch * ch + i % ch = i := by
  have hch : 0 < ch := by
    rcases Nat.eq_zero_or_pos ch with h | h
    · rw [h] at hi
      omega
    · exact h
  refine ⟨(Nat.div_lt_iff_lt_mul hch).mpr hi, Nat.mod_lt _ hch, ?_⟩
  rw [Nat.mul_comm]
  exact Nat.div_add_mod i ch

/-- One `read` of a well-formed buffer takes `min maxFrames available` frames: they are the
oldest pending frames, in order, and the rest stays pending. -/
theorem read_pending (rb : RecordingBuffer α) (samples : Nat → α) (maxFrames : Nat)
    (hwf : rb.WellFormed) :
    (rb.read samples maxFrames).1.WellFormed ∧
    (rb.read samples maxFrames).1.available = rb.available - min maxFrames rb.available ∧
    interleavedFrames rb.channels (rb.read samples maxFrames).2.1 (min maxFrames rb.available)
      ++ (rb.read samples maxFrames).1.pending = rb.pending := by
  obtain ⟨hav, hwpeq⟩ := available_spec rb hwf
  obtain ⟨hlen, hwp, hrp⟩ := hwf
  have hm : min maxFrames rb.available ≤ rb.available := Nat.min_le_right _ _
  have hpos : (rb.read samples maxFrames).1.readPos
      = (rb.readPos + min maxFrames rb.available) % rb.bufferSize :=
    read_loop_pos rb.bufferSize rb.channels rb.buffer samples rb.readPos hrp _
  have hrp2 : (rb.read samples maxFrames).1.readPos < rb.bufferSize := by
    rw [hpos]
    exact Nat.mod_lt _ (by omega)
  have hwf2 : (rb.read samples maxFrames).1.WellFormed := ⟨hlen, hwp, hrp2⟩
  have hav2 : (rb.read samples maxFrames).1.available
      = rb.available - min maxFrames rb.available := by
    apply available_of_offset _ _ hrp2 (by show _ < rb.bufferSize; omega)
    show rb.writePos = ((rb.read samples maxFrames).1.readPos + _) % rb.bufferSize
    rw [hpos, Nat.mod_add_mod, hwpeq]
    congr 1
    omega
  refine ⟨hwf2, hav2, ?_⟩
  unfold pending interleavedFrames
  rw [hav2]
  show List.map _ (List.range (min maxFrames rb.available * rb.channels))
    ++ List.map (fun i => rb.buffer.getD
        ((((rb.read samples maxFrames).1.readPos + i / rb.channels) % rb.bufferSize * rb.channels
          + i % rb.channels) % rb.buffer.length) 0)
      (List.range ((rb.available - min maxFrames rb.available) * rb.channels))
    = List.map _ (List.range (rb.available * rb.channels))
  have hsplit : rb.available * rb.channels
      = min maxFrames rb.available * rb.channels
        + (rb.available - min maxFrames rb.available) * rb.channels := by
    rw [← Nat.add_mul]
    congr 1
    omega
  rw [hsplit, map_range_split]
  congr 1
  · apply List.map_congr_left
    intro i hi
    rw [List.mem_range] at hi
    obtain ⟨h1, h2, h3⟩ := slot_index rb.channels _ i hi
    have hdata := read_loop_data rb.bufferSize rb.channels rb.buffer samples rb.readPos hrp
      (min maxFrames rb.available) (i / rb.channels) h1 (i % rb.channels) h2
    rw [h3] at hdata
    exact hdata
  · apply List.map_congr_left
    intro i hi
    rw [List.mem_range] at hi
    obtain ⟨h1, h2, h3⟩ := slot_index rb.channels _ i hi
    have hch : 0 < rb.channels := lt_of_le_of_lt (Nat.zero_le _) h2
    rw [hpos, Nat.mod_add_mod]
    have e1 : (min maxFrames rb.available * rb.channels + i) / rb.channels
        = min maxFrames rb.available + i / rb.channels := by
      rw [Nat.add_comm, Nat.add_mul_div_right _ _ hch, Nat.add_comm]
    have e2 : (min maxFrames rb.available * rb.channels + i) % rb.channels = i % rb.channels := by
      rw [Nat.add_comm, Nat.add_mul_mod_self_right]
    rw [e1, e2, Nat.add_assoc]

end RecordingBuffer
namespace RecordingBuffer

variable {α : Type} [Zero α]

theorem slot_lt (C ch s c : Nat) (hs : s < C) (hc : c < ch) : s * ch + c < C * ch := by
  have h := Nat.mul_le_mul_right ch (Nat.succ_le_of_lt hs)
  rw [Nat.succ_mul] at h
  omega

/-- The write loop leaves the slots it does not reach as they were. -/
theorem write_loop_other (C ch : Nat) (samples : Nat → α) (buf0 : List α) (wp0 : Nat)
    (hwp : wp0 < C) (hlen : buf0.length = C * ch) (n : Nat) :
    ∀ s c, s < C → c < ch → (∀ f, f < n → (wp0 + f) % C ≠ s) →
      (forLoop n (fun frame (st : List α × Nat) =>
        (writeFrame ch samples frame st.2 st.1, (st.2 + 1) % C)) (buf0, wp0)).1.getD
          (s * ch + c) 0 = buf0.getD (s * ch + c) 0 := by
  induction n with
  | zero => intro s c _ _ _; rfl
  | succ n ih =>
    intro s c hs hc hne
    obtain ⟨hpos, hl⟩ := write_loop_pos C ch samples buf0 wp0 hwp n
    have hCpos : 0 < C := by omega
    have hslotlt : (wp0 + n) % C < C := Nat.mod_lt _ hCpos
    have hslot : (wp0 + n) % C * ch + ch ≤
        (forLoop n (fun frame (st : List α × Nat) =>
          (writeFrame ch samples frame st.2 st.1, (st.2 + 1) % C)) (buf0, wp0)).1.length := by
      rw [hl, hlen]
      have := Nat.mul_le_mul_right ch (Nat.succ_le_of_lt hslotlt)
      rw [Nat.succ_mul] at this
      exact this
    simp only [forLoop, hpos]
    rw [writeFrame_getD _ _ _ _ _ hslot]
    have hsn : s ≠ (wp0 + n) % C := fun e => hne n (Nat.lt_succ_self n) e.symm
    rw [if_neg (slot_disjoint ch s _ c hc hsn)]
    exact ih s c hs hc (fun f hf => hne f (Nat.lt_succ_of_lt hf))

/-- One `write` of `n` frames into a well-formed buffer with room for them (fewer than
`bufferSize` frames available afterwards): the frames already pending are still there, and the
new frames are appended to them in order. -/
theorem write_pending (rb : RecordingBuffer α) (samples : Nat → α) (n : Nat)
    (hwf : rb.WellFormed) (hroom : rb.available + n < rb.bufferSize) :
    (rb.write samples n).WellFormed ∧
    (rb.write samples n).available = rb.available + n ∧
    (rb.write samples n).pending = rb.pending ++ interleavedFrames rb.channels samples n := by
  obtain ⟨hav, hwpeq⟩ := available_spec rb hwf
  obtain ⟨hpos, hwf2⟩ := write_writePos rb samples n hwf
  obtain ⟨hlen, hwp, hrp⟩ := hwf
  have hlen' : rb.buffer.length = rb.bufferSize * rb.channels := hlen
  have hav2 : (rb.write samples n).available = rb.available + n := by
    have hw2 : (rb.write samples n).writePos
        = ((rb.write samples n).readPos + (rb.available + n)) % (rb.write samples n).bufferSize := by
      show (rb.write samples n).writePos = (rb.readPos + (rb.available + n)) % rb.bufferSize
      rw [hpos, hwpeq, Nat.mod_add_mod, Nat.add_assoc]
    exact available_of_offset (rb.write samples n) (rb.available + n) hrp hroom hw2
  refine ⟨hwf2, hav2, ?_⟩
  have hlen2 : (rb.write samples n).buffer.length = rb.bufferSize * rb.channels := hwf2.1
  unfold pending interleavedFrames
  rw [hav2, Nat.add_mul, map_range_split]
  show List.map (fun i => (rb.write samples n).buffer.getD
        (((rb.readPos + i / rb.channels) % rb.bufferSize * rb.channels + i % rb.channels)
          % (rb.write samples n).buffer.length) 0)
      (List.range (rb.available * rb.channels))
    ++ List.map (fun i => (rb.write samples n).buffer.getD
        (((rb.readPos + (rb.available * rb.channels + i) / rb.channels) % rb.bufferSize
            * rb.channels + (rb.available * rb.channels + i) % rb.channels)
          % (rb.write samples n).buffer.length) 0)
      (List.range (n * rb.channels))
    = List.map (fun i => rb.buffer.getD
        (((rb.readPos + i / rb.channels) % rb.bufferSize * rb.channels + i % rb.channels)
          % rb.buffer.length) 0)
      (List.range (rb.available * rb.channels))
    ++ List.map samples (List.range (n * rb.channels))
  have hC : 0 < rb.bufferSize := by omega
  congr 1
  · apply List.map_congr_left
    intro i hi
    rw [List.mem_range] at hi
    obtain ⟨h1, h2, h3⟩ := slot_index rb.channels _ i hi
    have hs : (rb.readPos + i / rb.channels) % rb.bufferSize < rb.bufferSize := Nat.mod_lt _ hC
    have hidx := slot_lt rb.bufferSize rb.channels _ _ hs h2
    rw [hlen2, hlen', Nat.mod_eq_of_lt hidx]
    apply write_loop_other rb.bufferSize rb.channels samples rb.buffer rb.writePos hwp hlen n
      _ _ hs h2
    intro f hf
    rw [hwpeq, Nat.mod_add_mod, Nat.add_assoc]
    exact (slot_ne rb.bufferSize rb.readPos (i / rb.channels) (rb.available + f) (by omega)
      (by omega)).symm
  · apply List.map_congr_left
    intro i hi
    rw [List.mem_range] at hi
    obtain ⟨h1, h2, h3⟩ := slot_index rb.channels _ i hi
    have hch : 0 < rb.channels := lt_of_le_of_lt (Nat.zero_le _) h2
    have e1 : (rb.available * rb.channels + i) / rb.channels = rb.available + i / rb.channels := by
      rw [Nat.add_comm, Nat.add_mul_div_right _ _ hch, Nat.add_comm]
    have e2 : (rb.available * rb.channels + i) % rb.channels = i % rb.channels := by
      rw [Nat.add_comm, Nat.add_mul_mod_self_right]
    have hs : (rb.readPos + (rb.available + i / rb.channels)) % rb.bufferSize < rb.bufferSize :=
      Nat.mod_lt _ hC
    have hidx := slot_lt rb.bufferSize rb.channels _ _ hs h2
    rw [e1, e2, hlen2, Nat.mod_eq_of_lt hidx]
    have hdata := write_loop_data rb.bufferSize rb.channels samples rb.buffer rb.writePos hwp
      hlen n (by omega) (i / rb.channels) h1 (i % rb.channels) h2
    have hslot_eq : (rb.writePos + i / rb.channels) % rb.bufferSize
        = (rb.readPos + (rb.available + i / rb.channels)) % rb.bufferSize := by
      rw [hwpeq, Nat.mod_add_mod, Nat.add_assoc]
    rw [h3, hslot_eq] at hdata
    exact hdata

end RecordingBuffer
namespace TrackRecorder

variable {α : Type} [Zero α]

/-- The drain loop on a well-formed ring buffer with an open file writer of the same channel
count: with more fuel than frames available it ends, the writer has received the pending
frames in chunks of at most 1024 frames, and nothing is left to read. -/
theorem flushLoop_drains (fuel : Nat) :
    ∀ (rb : RecordingBuffer α) (temp : Nat → α) (w : AudioFileWriter α),
      rb.WellFormed → w.isOpen = true → w.channels = rb.channels → rb.available < fuel →
      ∃ rb2 w2, flushLoop fuel rb temp w = some (rb2, w2) ∧
        rb2.WellFormed ∧ rb2.available = 0 ∧ rb2.buffer = rb.buffer ∧
        rb2.writePos = rb.writePos ∧ rb2.bufferSize = rb.bufferSize ∧
        rb2.channels = rb.channels ∧ w2.isOpen = true ∧ w2.channels = w.channels ∧
        w2.samplesWritten = w.samplesWritten + (rb.available : Int) ∧
        ∃ chunks, w2.received = w.received ++ chunks ∧ chunks.flatten = rb.pending ∧
          ∀ c ∈ chunks, c.length ≤ 1024 * rb.channels := by
  induction fuel with
  | zero => intro rb temp w _ _ _ h; exact absurd h (Nat.not_lt_zero _)
  | succ fuel ih =>
    intro rb temp w hwf hopen hch hfuel
    obtain ⟨hwf2, hav2, hpend⟩ := RecordingBuffer.read_pending rb temp 1024 hwf
    obtain ⟨hb, hwp, hsz, hchan, hcount⟩ := RecordingBuffer.read_fields rb temp 1024
    have hunfold : flushLoop (fuel + 1) rb temp w =
        if (rb.read temp 1024).2.2 > 0 then
          flushLoop fuel (rb.read temp 1024).1 (rb.read temp 1024).2.1
            (w.writeInterleavedSamples (rb.read temp 1024).2.1 (rb.read temp 1024).2.2)
        else some ((rb.read temp 1024).1, w) := rfl
    rw [hunfold, hcount]
    by_cases hzero : min 1024 rb.available > 0
    · rw [if_pos hzero]
      have hw1 : w.writeInterleavedSamples (rb.read temp 1024).2.1 (min 1024 rb.available)
          = { w with
              received := w.received
                ++ [interleavedFrames w.channels (rb.read temp 1024).2.1 (min 1024 rb.available)],
              samplesWritten := w.samplesWritten + ((min 1024 rb.available : Nat) : Int) } := by
        simp only [AudioFileWriter.writeInterleavedSamples, hopen, Bool.not_true,
          Bool.false_eq_true, if_false]
      have hw1open : (w.writeInterleavedSamples (rb.read temp 1024).2.1
          (min 1024 rb.available)).isOpen = true := by
        rw [hw1]
        exact hopen
      obtain ⟨rb2, w2, hres, hwf3, hav3, hb3, hwp3, hsz3, hch3, hopen3, hchw3, hsw3, chunks,
        hrec3, hflat3, hsize3⟩ := ih (rb.read temp 1024).1 (rb.read temp 1024).2.1
          (w.writeInterleavedSamples (rb.read temp 1024).2.1 (min 1024 rb.available))
          hwf2 hw1open (by rw [hw1, hchan]; exact hch) (by rw [hav2]; omega)
      refine ⟨rb2, w2, hres, hwf3, hav3, hb3.trans hb, hwp3.trans hwp, hsz3.trans hsz,
        hch3.trans hchan, hopen3, ?_, ?_, ?_⟩
      · rw [hchw3, hw1]
      · rw [hsw3, hw1, hav2]
        show w.samplesWritten + ((min 1024 rb.available : Nat) : Int)
          + ((rb.available - min 1024 rb.available : Nat) : Int)
          = w.samplesWritten + (rb.available : Int)
        have hle : min 1024 rb.available ≤ rb.available := Nat.min_le_right _ _
        omega
      · refine ⟨interleavedFrames w.channels (rb.read temp 1024).2.1 (min 1024 rb.available)
          :: chunks, ?_, ?_, ?_⟩
        · rw [hrec3, hw1]
          show (w.received ++ [_]) ++ chunks = w.received ++ (_ :: chunks)
          rw [List.append_assoc]
          rfl
        · rw [List.flatten_cons, hflat3, hch]
          exact hpend
        · intro c hc
          rcases List.mem_cons.mp hc with hc | hc
          · rw [hc, hch]
            unfold interleavedFrames
            rw [List.length_map, List.length_range]
            exact Nat.mul_le_mul_right _ (Nat.min_le_left _ _)
          · rw [← hchan]
            exact hsize3 c hc
    · rw [if_neg hzero]
      have hav0 : rb.available = 0 := by omega
      have hpend0 : rb.pending = [] := by
        unfold RecordingBuffer.pending
        rw [hav0, Nat.zero_mul]
        rfl
      have hsw : w.samplesWritten = w.samplesWritten + (rb.available : Int) := by
        rw [hav0]
        simp
      have hzero2 : (rb.read temp 1024).1.available = 0 := by
        rw [hav2, hav0]
        rfl
      exact ⟨(rb.read temp 1024).1, w, rfl, hwf2, hzero2, hb, hwp, hsz, hchan, hopen, rfl, hsw,
        [], (List.append_nil _).symm, hpend0.symm ▸ rfl,
        fun c hc => absurd hc (List.not_mem_nil c)⟩

end TrackRecorder

namespace TrackRecorder

variable {α : Type} [Zero α]

/-- A recording recorder has an open file writer of the buffer's channel count. -/
theorem Recording.writer {r : TrackRecorder α} (h : r.Recording) :
    ∃ w, r.fileWriter = some w ∧ w.isOpen = true ∧ w.channels = r.buffer.channels := by
  obtain ⟨_, _, _, _, hw⟩ := h
  cases hfw : r.fileWriter with
  | none => rw [hfw] at hw; exact absurd hw (by simp)
  | some w =>
    rw [hfw] at hw
    simp only [Option.map_some', Option.some.injEq, Bool.and_eq_true, decide_eq_true_eq] at hw
    exact ⟨w, rfl, hw.1, hw.2⟩

/-- Nothing is pending in a buffer with no frame available. -/
theorem pending_of_available_zero (rb : RecordingBuffer α) (h : rb.available = 0) :
    rb.pending = [] := by
  unfold RecordingBuffer.pending
  rw [h, Nat.zero_mul]
  rfl

/-- `flushBufferToFile` of a recorder with an open file writer of the buffer's channel count
and a well-formed buffer: with more fuel than frames available it returns, the writer has
received the pending frames, and the buffer is drained. -/
theorem flushBufferToFile_drains (fuel : Nat) (r : TrackRecorder α) (w : AudioFileWriter α)
    (hfw : r.fileWriter = some w) (hopen : w.isOpen = true)
    (hch : w.channels = r.buffer.channels) (hwf : r.buffer.WellFormed)
    (hfuel : r.buffer.available < fuel) :
    ∃ r2 w2 chunks, r.flushBufferToFile fuel = some r2 ∧ r2.state = r.state ∧
      r2.audioChannels = r.audioChannels ∧ r2.fileWriter = some w2 ∧ w2.isOpen = true ∧ w2.channels = w.channels ∧
      r2.buffer.WellFormed ∧ r2.buffer.bufferSize = r.buffer.bufferSize ∧
      r2.buffer.channels = r.buffer.channels ∧ r2.buffer.available = 0 ∧
      w2.received = w.received ++ chunks ∧ chunks.flatten = r.buffer.pending ∧
      ∀ c ∈ chunks, c.length ≤ 1024 * r.buffer.channels := by
  obtain ⟨rb2, w2, hres, hwf2, hav2, _, _, hsz2, hch2, hopen2, hchw2, _, chunks, hrec, hflat,
    hsize⟩ := flushLoop_drains fuel r.buffer (fun _ => 0) w hwf hopen hch hfuel
  refine ⟨{ r with buffer := rb2, fileWriter := some w2 }, w2, chunks, ?_, rfl, rfl, rfl,
    hopen2, hchw2, hwf2, hsz2, hch2, hav2, hrec, hflat, hsize⟩
  unfold flushBufferToFile
  rw [hfw]
  show Option.map _ (flushLoop fuel r.buffer (fun _ => 0) w) = _
  rw [hres]
  rfl

/-- One `processAudio` call of at most 4095 frames on a recording recorder whose buffer of
8192 frames holds at most 4096: the call returns, the recorder is still recording with at most
4096 frames in the buffer, and the frames handed to the file writer followed by the frames
pending in the buffer are those of before followed by the frames of the call. -/
theorem processAudio_keeps (fuel : Nat) (r : TrackRecorder α) (samples : Nat → α) (n : Nat)
    (t : ℚ) (hrec : r.Recording) (hsize : r.buffer.bufferSize = 8192)
    (hav : r.buffer.available ≤ 4096) (hn : n ≤ 4095) (hfuel : 8192 ≤ fuel) :
    ∃ r2, r.processAudio fuel samples n t = some r2 ∧ r2.Recording ∧
      r2.buffer.bufferSize = 8192 ∧ r2.buffer.channels = r.buffer.channels ∧
      r2.buffer.available ≤ 4096 ∧
      r2.handed ++ r2.buffer.pending
        = r.handed ++ r.buffer.pending ++ interleavedFrames r.buffer.channels samples n := by
  obtain ⟨w, hfw, hopen, hch⟩ := hrec.writer
  obtain ⟨hisrec, hmode, hwf, haudio, hwriter⟩ := hrec
  obtain ⟨hwf1, hav1, hpend1⟩ :=
    RecordingBuffer.write_pending r.buffer samples n hwf (by rw [hsize]; omega)
  have hsz1 : (r.buffer.write samples n).bufferSize = r.buffer.bufferSize := rfl
  have hch1 : (r.buffer.write samples n).channels = r.buffer.channels := rfl
  have hhanded : r.handed = w.received.flatten := by
    unfold handed
    rw [hfw]
  have hstep : r.processAudio fuel samples n t =
      if (r.buffer.write samples n).getAvailableFrames > 4096
      then flushBufferToFile fuel { r with buffer := r.buffer.write samples n }
      else some { r with buffer := r.buffer.write samples n } := by
    unfold processAudio
    rw [hisrec]
    simp only [Bool.not_true, Bool.false_eq_true, if_false]
    rw [if_neg (fun h => hmode h.1)]
  rw [hstep]
  by_cases hbig : (r.buffer.write samples n).getAvailableFrames > 4096
  · rw [if_pos hbig]
    obtain ⟨r2, w2, chunks, hres, hst2, haud2, hfw2, hopen2, hchw2, hwf2, hsz2, hch2, hav2,
      hrec2, hflat2, _⟩ := flushBufferToFile_drains fuel { r with buffer := r.buffer.write samples n }
        w hfw hopen (hch.trans hch1.symm) hwf1 (by
          show (r.buffer.write samples n).available < fuel
          rw [hav1]
          omega)
    have hch2' : r2.buffer.channels = r.buffer.channels := hch2.trans hch1
    refine ⟨r2, hres, ⟨?_, ?_, hwf2, haud2.trans (haudio.trans hch2'.symm), ?_⟩,
      hsz2.trans (hsz1.trans hsize), hch2', ?_, ?_⟩
    · rw [hst2]; exact hisrec
    · rw [hst2]; exact hmode
    · rw [hfw2]
      simp only [Option.map_some', Option.some.injEq, Bool.and_eq_true, decide_eq_true_eq]
      exact ⟨hopen2, hchw2.trans (hch.trans hch2'.symm)⟩
    · rw [hav2]; omega
    · have hh2 : r2.handed = w2.received.flatten := by
        unfold handed
        rw [hfw2]
      rw [hh2, pending_of_available_zero _ hav2, List.append_nil, hrec2, List.flatten_append,
        hflat2, hhanded]
      show w.received.flatten ++ (r.buffer.write samples n).pending = _
      rw [hpend1, List.append_assoc]
  · rw [if_neg hbig]
    refine ⟨{ r with buffer := r.buffer.write samples n }, rfl,
      ⟨hisrec, hmode, hwf1, haudio.trans hch1.symm, ?_⟩, hsz1.trans hsize, hch1, ?_, ?_⟩
    · show r.fileWriter.map _ = some true
      rw [hfw]
      simp only [Option.map_some', Option.some.injEq, Bool.and_eq_true, decide_eq_true_eq]
      exact ⟨hopen, hch.trans hch1.symm⟩
    · exact Nat.le_of_not_lt hbig
    · have hh2 : handed { r with buffer := r.buffer.write samples n } = w.received.flatten := by
        unfold handed
        show (match r.fileWriter with
          | some w => w.received.flatten
          | none => []) = _
        rw [hfw]
      rw [hh2, hhanded]
      show w.received.flatten ++ (r.buffer.write samples n).pending = _
      rw [hpend1, List.append_assoc]

/-- A session of `processAudio` calls of at most 4095 frames each, from a recording recorder
whose buffer of 8192 frames holds at most 4096: every call returns and keeps the bound, and
the frames handed to the file writer followed by those pending in the buffer are those of
before followed by the frames of the calls, in order. -/
theorem processCalls_keeps (fuel : Nat) (hfuel : 8192 ≤ fuel)
    (calls : List ((Nat → α) × Nat × ℚ)) :
    ∀ (r : TrackRecorder α), r.Recording → r.buffer.bufferSize = 8192 →
      r.buffer.available ≤ 4096 → (∀ call ∈ calls, call.2.1 ≤ 4095) →
      ∃ r2, processCalls fuel r calls = some r2 ∧ r2.Recording ∧
        r2.buffer.bufferSize = 8192 ∧ r2.buffer.channels = r.buffer.channels ∧
        r2.buffer.available ≤ 4096 ∧
        r2.handed ++ r2.buffer.pending
          = r.handed ++ r.buffer.pending ++ framesOfCalls r.buffer.channels calls := by
  induction calls with
  | nil =>
    intro r hrec hsize hav _
    refine ⟨r, rfl, hrec, hsize, rfl, hav, ?_⟩
    show _ = r.handed ++ r.buffer.pending ++ []
    rw [List.append_nil]
  | cons call rest ih =>
    intro r hrec hsize hav hcalls
    obtain ⟨r1, hres1, hrec1, hsize1, hch1, hav1, hkeep1⟩ :=
      processAudio_keeps fuel r call.1 call.2.1 call.2.2 hrec hsize hav
        (hcalls call (List.mem_cons_self _ _)) hfuel
    obtain ⟨r2, hres2, hrec2, hsize2, hch2, hav2, hkeep2⟩ :=
      ih r1 hrec1 hsize1 hav1 (fun c hc => hcalls c (List.mem_cons_of_mem _ hc))
    refine ⟨r2, ?_, hrec2, hsize2, hch2.trans hch1, hav2, ?_⟩
    · show (match r.processAudio fuel call.1 call.2.1 call.2.2 with
        | some r1 => processCalls fuel r1 rest
        | none => none) = _
      rw [hres1]
      exact hres2
    · rw [hkeep2, hkeep1, hch1]
      show _ = r.handed ++ r.buffer.pending
        ++ (interleavedFrames r.buffer.channels call.1 call.2.1
          ++ framesOfCalls r.buffer.channels rest)
      rw [List.append_assoc]

/-- `stopRecording` of a recording recorder: the last flush hands the pending frames to the
file writer and the file is closed. -/
theorem stopRecording_flushes (fuel : Nat) (r : TrackRecorder α) (hrec : r.Recording)
    (hfuel : r.buffer.available < fuel) :
    ∃ r2 file, r.stopRecording fuel = some (r2, some file) ∧ r2.state.isRecording = false ∧
      r2.fileWriter = none ∧ file.isOpen = false ∧
      file.received.flatten = r.handed ++ r.buffer.pending := by
  obtain ⟨w, hfw, hopen, hch⟩ := hrec.writer
  obtain ⟨hisrec, _, hwf, _, _⟩ := hrec
  obtain ⟨r1, w1, chunks, hres, _, _, hfw1, hopen1, _, _, _, _, _, hrec1, hflat1, _⟩ :=
    flushBufferToFile_drains fuel r w hfw hopen hch hwf hfuel
  refine ⟨{ r1 with fileWriter := none, state := { r1.state with isRecording := false } },
    w1.close, ?_, rfl, rfl, ?_, ?_⟩
  · unfold stopRecording
    rw [hisrec]
    simp only [Bool.not_true, Bool.false_eq_true, if_false]
    rw [hfw]
    show Option.map _ (r.flushBufferToFile fuel) = _
    rw [hres]
    show some (_, r1.fileWriter.map AudioFileWriter.close) = _
    rw [hfw1]
    rfl
  · unfold AudioFileWriter.close
    rw [hopen1]
    rfl
  · have hclose : w1.close.received = w1.received := by
      unfold AudioFileWriter.close
      rw [hopen1]
      rfl
    rw [hclose, hrec1, List.flatten_append, hflat1]
    unfold handed
    rw [hfw]

end TrackRecorder

namespace TrackRecorder

variable {α : Type} [Zero α]

/-- A successful `startRecording` of an armed recorder in OVERDUB or REPLACE mode whose audio
format has the buffer's channel count: the recorder is recording into an open file, nothing is
in the buffer and nothing has been handed to the file writer. -/
theorem startRecording_recording (r : TrackRecorder α) (filename : String) (startTime : ℚ)
    (hidle : r.state.isRecording = false) (harmed : r.state.isArmed = true)
    (hmode : r.state.mode ≠ RecordMode.PUNCH_IN_OUT) (hwf : r.buffer.WellFormed)
    (hch : r.audioChannels = r.buffer.channels) :
    (r.startRecording filename startTime true).2 = true ∧
    (r.startRecording filename startTime true).1.Recording ∧
    (r.startRecording filename startTime true).1.buffer.bufferSize = r.buffer.bufferSize ∧
    (r.startRecording filename startTime true).1.buffer.channels = r.buffer.channels ∧
    (r.startRecording filename startTime true).1.buffer.available = 0 ∧
    (r.startRecording filename startTime true).1.handed = [] := by
  have hstart : r.startRecording filename startTime true =
      ({ r with
          fileWriter := some { channels := r.audioChannels, isOpen := true, samplesWritten := 0,
                                received := [] },
          buffer := r.buffer.clear,
          state := { r.state with recordingPath := filename, recordingStartTime := startTime,
                                  isRecording := true } }, true) := by
    unfold startRecording
    rw [hidle, harmed]
    simp [AudioFileWriter.open_, AudioFileWriter.mk_]
  rw [hstart]
  obtain ⟨hlen, hwp, _⟩ := hwf
  refine ⟨rfl, ⟨rfl, hmode, ⟨?_, ?_, ?_⟩, hch, ?_⟩, rfl, rfl, rfl, rfl⟩
  · show (r.buffer.buffer.map (fun _ => (0 : α))).length = _
    rw [List.length_map]
    exact hlen
  · exact Nat.lt_of_le_of_lt (Nat.zero_le _) hwp
  · exact Nat.lt_of_le_of_lt (Nat.zero_le _) hwp
  · show Option.map _ (some _) = some true
    simp only [Option.map_some', Option.some.injEq, Bool.and_eq_true, decide_eq_true_eq]
    exact ⟨trivial, hch⟩

/-- The buffer of the constructor is well formed when it has at least one frame. -/
theorem mk_buffer_wellFormed (id : Int) (bufferSize channels : Nat) (h : 0 < bufferSize) :
    (TrackRecorder.mk_ id bufferSize channels : TrackRecorder α).buffer.WellFormed :=
  ⟨List.length_replicate _ _, h, h⟩

end TrackRecorder

/-- The recorder of the example is recording into an open file, with an empty buffer of 8192
stereo frames. -/
theorem runningRecorder_recording :
    runningRecorder.Recording ∧ runningRecorder.buffer.bufferSize = 8192 ∧
    runningRecorder.buffer.channels = 2 ∧ runningRecorder.buffer.available = 0 ∧
    runningRecorder.handed = [] :=
  (TrackRecorder.startRecording_recording
    ((TrackRecorder.mk_ 1 8192 2 : TrackRecorder Int).armForRecording true) "take.wav" 0 rfl rfl
    (by decide) (TrackRecorder.mk_buffer_wellFormed 1 8192 2 (by decide)) rfl).2

namespace TrackRecorder

variable {α : Type} [Zero α]

/-- C38: the drain loop of `flushBufferToFile`, on a recorder whose ring buffer satisfies the
class invariant and whose audio format and open file writer have the buffer's channel count,
ends for every fuel above the number of frames available; the file writer receives exactly
the frames that were pending at entry, oldest first, in chunks of at most 1024 frames, and
afterwards `getAvailableFrames` is 0. -/
theorem C38_flush_drains_buffer (fuel : Nat) (r : TrackRecorder α) (w : AudioFileWriter α)
    (hfw : r.fileWriter = some w) (hopen : w.isOpen = true)
    (hch : w.channels = r.buffer.channels) (_haudio : r.audioChannels = r.buffer.channels)
    (hwf : r.buffer.WellFormed) (hfuel : r.buffer.getAvailableFrames < fuel) :
    r.buffer.pending.length = r.buffer.getAvailableFrames * r.buffer.channels ∧
    ∃ r2 w2 chunks, r.flushBufferToFile fuel = some r2 ∧ r2.fileWriter = some w2 ∧
      w2.received = w.received ++ chunks ∧ chunks.flatten = r.buffer.pending ∧
      (∀ c ∈ chunks, c.length ≤ 1024 * r.buffer.channels) ∧
      r2.buffer.getAvailableFrames = 0 := by
  obtain ⟨r2, w2, chunks, hres, _, _, hfw2, _, _, _, _, _, hav2, hrec, hflat, hsize⟩ :=
    flushBufferToFile_drains fuel r w hfw hopen hch hwf hfuel
  refine ⟨?_, r2, w2, chunks, hres, hfw2, hrec, hflat, hsize, hav2⟩
  unfold RecordingBuffer.pending
  rw [List.length_map, List.length_range]
  rfl

/-- C38 on a ring of four mono frames that holds `7, 8, 9` across the wrap. -/
theorem C38_flush_drains_buffer_witness :
    drainingRecorder.buffer.pending = [7, 8, 9] ∧
    ∃ r2 w2 chunks, drainingRecorder.flushBufferToFile 4 = some r2 ∧
      r2.fileWriter = some w2 ∧ w2.received = [] ++ chunks ∧
      chunks.flatten = drainingRecorder.buffer.pending ∧
      (∀ c ∈ chunks, c.length ≤ 1024 * drainingRecorder.buffer.channels) ∧
      r2.buffer.getAvailableFrames = 0 :=
  ⟨by decide,
    (C38_flush_drains_buffer 4 drainingRecorder
      { channels := 1, isOpen := true, samplesWritten := 0, received := [] }
      rfl rfl rfl rfl (by decide) (by decide)).2⟩

/-- C37: a recorder that is recording in OVERDUB or REPLACE mode into an open file writer,
with a buffer of 8192 frames holding at most 4096 (none right after `startRecording`), takes
`processAudio` calls of at most 4095 frames each.  Every call returns; after every call
`getAvailableFrames` is at most 4096, and the frames handed to the file writer followed by the
frames still unread in the buffer are exactly the frames received so far, in order.  The
final `stopRecording` returns, closes the file, and the file writer has then been handed
exactly the frames received, in order. -/
theorem C37_recording_keeps_every_frame (fuel : Nat) (r : TrackRecorder α)
    (calls : List ((Nat → α) × Nat × ℚ)) (hrec : r.Recording)
    (hsize : r.buffer.bufferSize = 8192) (hav : r.buffer.getAvailableFrames ≤ 4096)
    (hcalls : ∀ call ∈ calls, call.2.1 ≤ 4095) (hfuel : 8192 ≤ fuel) :
    (∀ k, ∃ rk, processCalls fuel r (calls.take k) = some rk ∧ rk.Recording ∧
      rk.buffer.getAvailableFrames ≤ 4096 ∧
      rk.handed ++ rk.buffer.pending
        = r.handed ++ r.buffer.pending ++ framesOfCalls r.buffer.channels (calls.take k)) ∧
    ∃ r2 r3 file, processCalls fuel r calls = some r2 ∧
      r2.stopRecording fuel = some (r3, some file) ∧ r3.state.isRecording = false ∧
      file.isOpen = false ∧
      file.received.flatten
        = r.handed ++ r.buffer.pending ++ framesOfCalls r.buffer.channels calls := by
  constructor
  · intro k
    obtain ⟨rk, hres, hrk, _, _, havk, hkeep⟩ :=
      processCalls_keeps fuel hfuel (calls.take k) r hrec hsize hav
        (fun c hc => hcalls c (List.mem_of_mem_take hc))
    exact ⟨rk, hres, hrk, havk, hkeep⟩
  · obtain ⟨r2, hres, hr2, _, _, hav2, hkeep⟩ :=
      processCalls_keeps fuel hfuel calls r hrec hsize hav hcalls
    obtain ⟨r3, file, hstop, hoff, _, hclosed, hfile⟩ :=
      stopRecording_flushes fuel r2 hr2 (by omega)
    exact ⟨r2, r3, file, hres, hstop, hoff, hclosed, by rw [hfile, hkeep]⟩

/-- C37 on the recorder of the example, for a call of three stereo frames and a call of two. -/
theorem C37_recording_keeps_every_frame_witness :
    ∃ r2 r3 file,
      processCalls 8192 runningRecorder
        [(fun i => (i : Int), 3, 0), (fun i => 10 + (i : Int), 2, 0)] = some r2 ∧
      r2.stopRecording 8192 = some (r3, some file) ∧ r3.state.isRecording = false ∧
      file.isOpen = false ∧
      file.received.flatten
        = runningRecorder.handed ++ runningRecorder.buffer.pending
          ++ framesOfCalls runningRecorder.buffer.channels
            [(fun i => (i : Int), 3, 0), (fun i => 10 + (i : Int), 2, 0)] :=
  (C37_recording_keeps_every_frame 8192 runningRecorder
    [(fun i => (i : Int), 3, 0), (fun i => 10 + (i : Int), 2, 0)]
    runningRecorder_recording.1 runningRecorder_recording.2.1
    (by
      show runningRecorder.buffer.available ≤ 4096
      rw [runningRecorder_recording.2.2.2.1]
      exact Nat.zero_le _)
    (by
      intro call hcall
      simp only [List.mem_cons, List.mem_singleton, List.not_mem_nil, or_false] at hcall
      rcases hcall with h | h <;> rw [h] <;> decide)
    (Nat.le_refl _)).2

/-- The frames of the example session: three stereo frames, then two. -/
theorem framesOfCalls_example :
    framesOfCalls 2 [((fun i => (i : Int)), 3, (0 : ℚ)), ((fun i => 10 + (i : Int)), 2, 0)]
      = [0, 1, 2, 3, 4, 5, 10, 11, 12, 13] := by
  decide

end TrackRecorder

/-! ### The contribution of a clip -/

namespace Classic

variable {K : Type} [LinearOrderedField K] [FloorRing K]

/-- `Clip::process` is `processAudioData` on the window, or nothing. -/
theorem Clip.process_eq_window (c : Clip K) (out : AudioBuffer K)
    (currentSample numSamples : Nat) (isPlaying : Bool) :
    c.process out currentSample numSamples isPlaying =
      match c.renderWindow currentSample numSamples isPlaying with
      | none => out
      | some w => c.processAudioData out w.1 w.2.1 w.2.2 := by
  unfold Clip.process Clip.renderWindow
  simp only []
  split_ifs <;> rfl

theorem Clip.runsThrough_succ (c : Clip K) (audio : AudioBuffer K) (ns o s k : Nat) :
    c.runsThrough audio ns o s (k + 1) =
      (c.runsThrough audio ns o s k &&
        decide (o + k < ns ∧
          c.wrappedPosition audio.getNumSamples (s + k) < audio.getNumSamples)) := by
  unfold Clip.runsThrough
  rw [List.range_succ, List.all_append]
  simp only [List.all_cons, List.all_nil, Bool.and_true]

theorem Clip.runsThrough_of_succ (c : Clip K) (audio : AudioBuffer K) (ns o s k : Nat)
    (h : c.runsThrough audio ns o s (k + 1) = true) : c.runsThrough audio ns o s k = true := by
  rw [Clip.runsThrough_succ, Bool.and_eq_true] at h
  exact h.1

/-- The sample loop of `processAudioData` on one channel: it keeps the sizes of the output
buffer, and it adds the rendered sample to the cells of that channel from `outputStartSample`
on for as long as it runs. -/
theorem Clip.sampleLoop_cells (c : Clip K) (audio : AudioBuffer K) (o s ch : Nat)
    (out : AudioBuffer K) (hch : ch < out.m_numChannels) (n : Nat) :
    (forLoop n (c.processAudioStep audio o s ch) (false, out)).2.m_numChannels
      = out.m_numChannels ∧
    (forLoop n (c.processAudioStep audio o s ch) (false, out)).2.m_numSamples
      = out.m_numSamples ∧
    ∀ c2 i, cell? (forLoop n (c.processAudioStep audio o s ch) (false, out)).2.m_data c2 i
      = (cell? out.m_data c2 i).map (fun a => a +
          if c2 = ch ∧ o ≤ i ∧ i - o < n ∧
              c.runsThrough audio out.m_numSamples o s (i - o + 1) = true then
            c.renderedSample audio ch (s + (i - o))
          else 0) := by
  have h := forLoop_indexed
    (fun k (st : Bool × AudioBuffer K) =>
      st.1 = !c.runsThrough audio out.m_numSamples o s k ∧
      st.2.m_numChannels = out.m_numChannels ∧ st.2.m_numSamples = out.m_numSamples ∧
      ∀ c2 i, cell? st.2.m_data c2 i
        = (cell? out.m_data c2 i).map (fun a => a +
            if c2 = ch ∧ o ≤ i ∧ i - o < k ∧
                c.runsThrough audio out.m_numSamples o s (i - o + 1) = true then
              c.renderedSample audio ch (s + (i - o))
            else 0))
    (c.processAudioStep audio o s ch) n (false, out)
    (by
      refine ⟨rfl, rfl, rfl, ?_⟩
      intro c2 i
      have : ¬ (c2 = ch ∧ o ≤ i ∧ i - o < 0 ∧
          c.runsThrough audio out.m_numSamples o s (i - o + 1) = true) :=
        fun h => Nat.not_lt_zero _ h.2.2.1
      rw [if_neg this]
      cases cell? out.m_data c2 i with
      | none => rfl
      | some a => simp)
    (by
      intro k st _ hP
      obtain ⟨hflag, hnc, hns, hcells⟩ := hP
      rw [Clip.processAudioStep_wrapped]
      have hsucc := Clip.runsThrough_succ c audio out.m_numSamples o s k
      -- the cells when the step leaves the buffer as it is and the loop has stopped
      have hsame : c.runsThrough audio out.m_numSamples o s (k + 1) = false →
          ∀ c2 i, cell? st.2.m_data c2 i
            = (cell? out.m_data c2 i).map (fun a => a +
                if c2 = ch ∧ o ≤ i ∧ i - o < k + 1 ∧
                    c.runsThrough audio out.m_numSamples o s (i - o + 1) = true then
                  c.renderedSample audio ch (s + (i - o))
                else 0) := by
        intro hstop c2 i
        rw [hcells c2 i]
        by_cases hik : i - o = k
        · have h1 : ¬ (c2 = ch ∧ o ≤ i ∧ i - o < k ∧
              c.runsThrough audio out.m_numSamples o s (i - o + 1) = true) :=
            fun h => by have := h.2.2.1; omega
          have h2 : ¬ (c2 = ch ∧ o ≤ i ∧ i - o < k + 1 ∧
              c.runsThrough audio out.m_numSamples o s (i - o + 1) = true) := by
            intro h
            rw [hik, hstop] at h
            exact Bool.false_ne_true h.2.2.2
          rw [if_neg h1, if_neg h2]
        · have hiff : (c2 = ch ∧ o ≤ i ∧ i - o < k ∧
              c.runsThrough audio out.m_numSamples o s (i - o + 1) = true) ↔
              (c2 = ch ∧ o ≤ i ∧ i - o < k + 1 ∧
              c.runsThrough audio out.m_numSamples o s (i - o + 1) = true) := by
            constructor
            · intro h; exact ⟨h.1, h.2.1, by omega, h.2.2.2⟩
            · intro h; exact ⟨h.1, h.2.1, by have := h.2.2.1; omega, h.2.2.2⟩
          simp only [hiff]
      by_cases hst : st.1 = true
      · rw [if_pos hst]
        have hk : c.runsThrough audio out.m_numSamples o s k = false := by
          rw [hst] at hflag
          cases hr : c.runsThrough audio out.m_numSamples o s k
          · rfl
          · rw [hr] at hflag; exact absurd hflag (by decide)
        have hk1 : c.runsThrough audio out.m_numSamples o s (k + 1) = false := by
          rw [hsucc, hk]; rfl
        exact ⟨by rw [hst, hk1]; rfl, hnc, hns, hsame hk1⟩
      · rw [if_neg hst]
        have hk : c.runsThrough audio out.m_numSamples o s k = true := by
          cases hr : c.runsThrough audio out.m_numSamples o s k
          · rw [hr] at hflag; exact absurd hflag hst
          · rfl
        by_cases h1 : o + k ≥ st.2.getNumSamples
        · rw [if_pos h1]
          have hk1 : c.runsThrough audio out.m_numSamples o s (k + 1) = false := by
            rw [hsucc, hk, Bool.true_and, decide_eq_false_iff_not]
            intro h
            have : st.2.getNumSamples = out.m_numSamples := hns
            omega
          exact ⟨by rw [hk1]; rfl, hnc, hns, hsame hk1⟩
        · rw [if_neg h1]
          by_cases h2 : c.wrappedPosition audio.getNumSamples (s + k) ≥ audio.getNumSamples
          · rw [if_pos h2]
            have hk1 : c.runsThrough audio out.m_numSamples o s (k + 1) = false := by
              rw [hsucc, hk, Bool.true_and, decide_eq_false_iff_not]
              intro h
              omega
            exact ⟨by rw [hk1]; rfl, hnc, hns, hsame hk1⟩
          · rw [if_neg h2]
            have hin : o + k < out.m_numSamples := by
              have : st.2.getNumSamples = out.m_numSamples := hns
              omega
            have hk1 : c.runsThrough audio out.m_numSamples o s (k + 1) = true := by
              rw [hsucc, hk, Bool.true_and, decide_eq_true_eq]
              exact ⟨hin, by omega⟩
            have hfr := AudioBuffer.addSample_frame st.2 ch (o + k)
              (c.renderedSample audio ch (s + k))
            refine ⟨by rw [hk1]; rfl, hfr.1.trans hnc, hfr.2.1.trans hns, ?_⟩
            intro c2 i
            show cell? (st.2.addSample ch (o + k) (c.renderedSample audio ch (s + k))).m_data c2 i
              = _
            rw [AudioBuffer.cell?_addSample, hcells c2 i, hnc, hns]
            by_cases hat : c2 = ch ∧ i = o + k
            · obtain ⟨hc2, hi⟩ := hat
              have hio : i - o = k := by omega
              have h3 : ¬ (c2 = ch ∧ o ≤ i ∧ i - o < k ∧
                  c.runsThrough audio out.m_numSamples o s (i - o + 1) = true) :=
                fun h => by have := h.2.2.1; omega
              have h4 : (c2 = ch ∧ o ≤ i ∧ i - o < k + 1 ∧
                  c.runsThrough audio out.m_numSamples o s (i - o + 1) = true) :=
                ⟨hc2, by omega, by omega, by rw [hio]; exact hk1⟩
              rw [if_pos (And.intro (And.intro hch hin) (And.intro hc2 hi)), if_neg h3,
                if_pos h4, hio]
              cases cell? out.m_data c2 i with
              | none => rfl
              | some a => simp
            · have h5 : ¬ ((ch < out.m_numChannels ∧ o + k < out.m_numSamples)
                  ∧ c2 = ch ∧ i = o + k) := fun h => hat h.2
              rw [if_neg h5]
              have hiff : (c2 = ch ∧ o ≤ i ∧ i - o < k ∧
                  c.runsThrough audio out.m_numSamples o s (i - o + 1) = true) ↔
                  (c2 = ch ∧ o ≤ i ∧ i - o < k + 1 ∧
                  c.runsThrough audio out.m_numSamples o s (i - o + 1) = true) := by
                constructor
                · intro h; exact ⟨h.1, h.2.1, by omega, h.2.2.2⟩
                · intro h
                  refine ⟨h.1, h.2.1, ?_, h.2.2.2⟩
                  have h6 := h.2.2.1
                  have h7 : i ≠ o + k := fun hi => hat ⟨h.1, hi⟩
                  have h8 := h.2.1
                  omega
              simp only [hiff])
  exact ⟨h.2.1, h.2.2.1, h.2.2.2⟩

end Classic

namespace Classic

variable {K : Type} [LinearOrderedField K] [FloorRing K]

/-- `processAudioData` keeps the sizes of the output buffer and adds, on every channel that
both the output buffer and the audio have, the rendered samples from `outputStartSample` on
for as long as the sample loop runs. -/
theorem Clip.processAudioData_cells (c : Clip K) (audio : AudioBuffer K)
    (haudio : c.m_audioData = some audio) (out : AudioBuffer K) (o s n : Nat) :
    (c.processAudioData out o s n).m_numChannels = out.m_numChannels ∧
    (c.processAudioData out o s n).m_numSamples = out.m_numSamples ∧
    ∀ c2 i, cell? (c.processAudioData out o s n).m_data c2 i
      = (cell? out.m_data c2 i).map (fun a => a +
          if c2 < min out.m_numChannels audio.m_numChannels ∧ o ≤ i ∧ i - o < n ∧
              c.runsThrough audio out.m_numSamples o s (i - o + 1) = true then
            c.renderedSample audio c2 (s + (i - o))
          else 0) := by
  have hdef : c.processAudioData out o s n =
      forLoop (min out.m_numChannels audio.m_numChannels)
        (fun ch b => (forLoop n (c.processAudioStep audio o s ch) (false, b)).2) out := by
    unfold Clip.processAudioData
    rw [haudio]
    rfl
  rw [hdef]
  have h := forLoop_indexed
    (fun k (st : AudioBuffer K) =>
      st.m_numChannels = out.m_numChannels ∧ st.m_numSamples = out.m_numSamples ∧
      ∀ c2 i, cell? st.m_data c2 i
        = (cell? out.m_data c2 i).map (fun a => a +
            if (c2 < k ∧ c2 < min out.m_numChannels audio.m_numChannels) ∧ o ≤ i ∧ i - o < n ∧
                c.runsThrough audio out.m_numSamples o s (i - o + 1) = true then
              c.renderedSample audio c2 (s + (i - o))
            else 0))
    (fun ch b => (forLoop n (c.processAudioStep audio o s ch) (false, b)).2)
    (min out.m_numChannels audio.m_numChannels) out
    (by
      refine ⟨rfl, rfl, ?_⟩
      intro c2 i
      have : ¬ ((c2 < 0 ∧ c2 < min out.m_numChannels audio.m_numChannels) ∧ o ≤ i ∧ i - o < n ∧
          c.runsThrough audio out.m_numSamples o s (i - o + 1) = true) :=
        fun h => Nat.not_lt_zero _ h.1.1
      rw [if_neg this]
      cases cell? out.m_data c2 i with
      | none => rfl
      | some a => simp)
    (by
      intro k st hk hP
      obtain ⟨hnc, hns, hcells⟩ := hP
      have hkch : k < st.m_numChannels := by
        rw [hnc]
        exact lt_of_lt_of_le hk (Nat.min_le_left _ _)
      obtain ⟨h1, h2, h3⟩ := Clip.sampleLoop_cells c audio o s k st hkch n
      refine ⟨h1.trans hnc, h2.trans hns, ?_⟩
      intro c2 i
      show cell? (forLoop n (c.processAudioStep audio o s k) (false, st)).2.m_data c2 i = _
      rw [h3 c2 i, hcells c2 i, hns]
      by_cases hc2 : c2 = k
      · by_cases hrest : o ≤ i ∧ i - o < n ∧
            c.runsThrough audio out.m_numSamples o s (i - o + 1) = true
        · have ha : ¬ ((c2 < k ∧ c2 < min out.m_numChannels audio.m_numChannels) ∧ o ≤ i ∧
              i - o < n ∧ c.runsThrough audio out.m_numSamples o s (i - o + 1) = true) :=
            fun h => by have := h.1.1; omega
          have hb : (c2 < k + 1 ∧ c2 < min out.m_numChannels audio.m_numChannels) ∧ o ≤ i ∧
              i - o < n ∧ c.runsThrough audio out.m_numSamples o s (i - o + 1) = true :=
            ⟨⟨by omega, by omega⟩, hrest⟩
          rw [if_neg ha, if_pos (And.intro hc2 hrest), if_pos hb, hc2]
          cases cell? out.m_data k i with
          | none => rfl
          | some a => simp
        · have ha : ¬ ((c2 < k ∧ c2 < min out.m_numChannels audio.m_numChannels) ∧ o ≤ i ∧
              i - o < n ∧ c.runsThrough audio out.m_numSamples o s (i - o + 1) = true) :=
            fun h => hrest h.2
          have hb : ¬ ((c2 < k + 1 ∧ c2 < min out.m_numChannels audio.m_numChannels) ∧ o ≤ i ∧
              i - o < n ∧ c.runsThrough audio out.m_numSamples o s (i - o + 1) = true) :=
            fun h => hrest h.2
          have hc : ¬ (c2 = k ∧ o ≤ i ∧ i - o < n ∧
              c.runsThrough audio out.m_numSamples o s (i - o + 1) = true) :=
            fun h => hrest h.2
          rw [if_neg ha, if_neg hb, if_neg hc]
          cases cell? out.m_data c2 i with
          | none => rfl
          | some a => simp
      · have hc : ¬ (c2 = k ∧ o ≤ i ∧ i - o < n ∧
            c.runsThrough audio out.m_numSamples o s (i - o + 1) = true) :=
          fun h => hc2 h.1
        rw [if_neg hc]
        have hiff : ((c2 < k ∧ c2 < min out.m_numChannels audio.m_numChannels) ∧ o ≤ i ∧
              i - o < n ∧ c.runsThrough audio out.m_numSamples o s (i - o + 1) = true) ↔
            ((c2 < k + 1 ∧ c2 < min out.m_numChannels audio.m_numChannels) ∧ o ≤ i ∧
              i - o < n ∧ c.runsThrough audio out.m_numSamples o s (i - o + 1) = true) := by
          constructor
          · intro h; exact ⟨⟨by have := h.1.1; omega, h.1.2⟩, h.2⟩
          · intro h; exact ⟨⟨by have := h.1.1; omega, h.1.2⟩, h.2⟩
        simp only [hiff]
        cases cell? out.m_data c2 i with
        | none => rfl
        | some a => simp)
  refine ⟨h.1, h.2.1, ?_⟩
  intro c2 i
  rw [h.2.2 c2 i]
  have hiff : ((c2 < min out.m_numChannels audio.m_numChannels
        ∧ c2 < min out.m_numChannels audio.m_numChannels) ∧ o ≤ i ∧
        i - o < n ∧ c.runsThrough audio out.m_numSamples o s (i - o + 1) = true) ↔
      (c2 < min out.m_numChannels audio.m_numChannels ∧ o ≤ i ∧
        i - o < n ∧ c.runsThrough audio out.m_numSamples o s (i - o + 1) = true) :=
    ⟨fun h => ⟨h.1.1, h.2⟩, fun h => ⟨⟨h.1, h.1⟩, h.2⟩⟩
  simp only [hiff]

/-- A sample loop that runs through index `k` finds the output position inside the buffer. -/
theorem Clip.runsThrough_output (c : Clip K) (audio : AudioBuffer K) (ns o s k : Nat)
    (h : c.runsThrough audio ns o s (k + 1) = true) : o + k < ns := by
  rw [Clip.runsThrough_succ, Bool.and_eq_true, decide_eq_true_eq] at h
  exact h.2.1

/-- The contribution of a clip is 0 outside the output buffer. -/
theorem Clip.contribution_outside (c : Clip K) (nc ns currentSample numSamples : Nat)
    (isPlaying : Bool) (ch p : Nat) (h : ¬ (ch < nc ∧ p < ns)) :
    c.contribution nc ns currentSample numSamples isPlaying ch p = 0 := by
  unfold Clip.contribution
  cases c.m_audioData with
  | none => rfl
  | some audio =>
    cases c.renderWindow currentSample numSamples isPlaying with
    | none => rfl
    | some w =>
      show (if ch < min nc audio.getNumChannels ∧ w.1 ≤ p ∧ p - w.1 < w.2.2 ∧
          c.runsThrough audio ns w.1 w.2.1 (p - w.1 + 1) = true then
        c.renderedSample audio ch (w.2.1 + (p - w.1)) else 0) = 0
      rw [if_neg]
      intro hc
      apply h
      refine ⟨lt_of_lt_of_le hc.1 (Nat.min_le_left _ _), ?_⟩
      have := Clip.runsThrough_output c audio ns w.1 w.2.1 (p - w.1) hc.2.2.2
      have := hc.2.1
      omega

/-- `Clip::process` on a well-formed output buffer: every sample is the old sample plus the
contribution of the clip. -/
theorem Clip.getSample_process_contribution (c : Clip K) (b : AudioBuffer K)
    (hwf : b.WellFormed) (currentSample numSamples : Nat) (isPlaying : Bool) (ch i : Nat) :
    (c.process b currentSample numSamples isPlaying).getSample ch i
      = b.getSample ch i
        + c.contribution b.m_numChannels b.m_numSamples currentSample numSamples isPlaying
            ch i := by
  have hf := Clip.process_frame c b currentSample numSamples isPlaying
  by_cases hg : ch < b.m_numChannels ∧ i < b.m_numSamples
  · have hcell := AudioBuffer.cell?_inRange b hwf ch i hg.1 hg.2
    unfold AudioBuffer.getSample
    rw [hf.1, hf.2.1, if_pos hg, if_pos hg]
    rw [Clip.process_eq_window]
    unfold Clip.contribution
    cases hw : c.renderWindow currentSample numSamples isPlaying with
    | none =>
      cases c.m_audioData with
      | none => simp
      | some audio => simp
    | some w =>
      cases ha : c.m_audioData with
      | none =>
        have : c.processAudioData b w.1 w.2.1 w.2.2 = b := by
          unfold Clip.processAudioData
          rw [ha]
        simp [this]
      | some audio =>
        obtain ⟨_, _, h3⟩ := Clip.processAudioData_cells c audio ha b w.1 w.2.1 w.2.2
        show cellGet (c.processAudioData b w.1 w.2.1 w.2.2).m_data ch i = _
        rw [cellGet_eq, h3 ch i, hcell]
        rfl
  · have h0 := Clip.contribution_outside c b.m_numChannels b.m_numSamples currentSample
      numSamples isPlaying ch i hg
    unfold AudioBuffer.getSample
    rw [hf.1, hf.2.1, if_neg hg, if_neg hg, h0, add_zero]

/-- `Clip::process` keeps a well-formed output buffer well formed. -/
theorem Clip.process_keeps_wellFormed (c : Clip K) (b : AudioBuffer K) (hwf : b.WellFormed)
    (currentSample numSamples : Nat) (isPlaying : Bool) :
    (c.process b currentSample numSamples isPlaying).WellFormed := by
  have hf := Clip.process_frame c b currentSample numSamples isPlaying
  obtain ⟨hlen, hrows⟩ := hwf
  have hmap : (c.process b currentSample numSamples isPlaying).m_data.map List.length
      = List.replicate b.m_numChannels b.m_numSamples := by
    rw [hf.2.2.2, List.eq_replicate_iff]
    refine ⟨by rw [List.length_map]; exact hlen, ?_⟩
    intro x hx
    obtain ⟨row, hrow, rfl⟩ := List.mem_map.mp hx
    exact hrows row hrow
  rw [List.eq_replicate_iff] at hmap
  refine ⟨?_, ?_⟩
  · rw [hf.1, ← hmap.1, List.length_map]
  · intro row hrow
    rw [hf.2.1]
    exact hmap.2 _ (List.mem_map_of_mem _ hrow)

end Classic

namespace Classic

variable {K : Type} [LinearOrderedField K] [FloorRing K]

/-- C25: for every well-formed output buffer, every window (currentSample, numSamples), every
playing flag and every two clips A and B that hold audio, rendering A and then B gives the
same buffer as rendering B and then A, and each call only adds to the samples that are there:
after A every sample is the old sample plus A's contribution, and after A and B it is the
old sample plus A's contribution plus B's contribution.  The contribution of a clip to a
sample inside the overlap of the clip with the window is the source sample of the matching
(wrapped) position times the gain times the fade multiplier, and 0 elsewhere. -/
theorem C25_clip_rendering_is_additive (A B : Clip K) (outputBuffer : AudioBuffer K)
    (currentSample numSamples : Nat) (isPlaying : Bool) (hwf : outputBuffer.WellFormed)
    (_hA : A.HoldsAudio) (_hB : B.HoldsAudio) :
    B.process (A.process outputBuffer currentSample numSamples isPlaying)
        currentSample numSamples isPlaying
      = A.process (B.process outputBuffer currentSample numSamples isPlaying)
        currentSample numSamples isPlaying ∧
    ∀ ch i : Nat,
      (A.process outputBuffer currentSample numSamples isPlaying).getSample ch i
        = outputBuffer.getSample ch i
          + A.contribution outputBuffer.getNumChannels outputBuffer.getNumSamples
              currentSample numSamples isPlaying ch i ∧
      (B.process (A.process outputBuffer currentSample numSamples isPlaying)
          currentSample numSamples isPlaying).getSample ch i
        = outputBuffer.getSample ch i
          + A.contribution outputBuffer.getNumChannels outputBuffer.getNumSamples
              currentSample numSamples isPlaying ch i
          + B.contribution outputBuffer.getNumChannels outputBuffer.getNumSamples
              currentSample numSamples isPlaying ch i := by
  have hA := Clip.process_frame A outputBuffer currentSample numSamples isPlaying
  have hB := Clip.process_frame B outputBuffer currentSample numSamples isPlaying
  have hBA := Clip.process_frame B (A.process outputBuffer currentSample numSamples isPlaying)
    currentSample numSamples isPlaying
  have hAB := Clip.process_frame A (B.process outputBuffer currentSample numSamples isPlaying)
    currentSample numSamples isPlaying
  constructor
  · apply AudioBuffer.ext_fields _ _ (hBA.1.trans (hA.1.trans (hAB.1.trans hB.1).symm))
      (hBA.2.1.trans (hA.2.1.trans (hAB.2.1.trans hB.2.1).symm))
      (hBA.2.2.1.trans (hA.2.2.1.trans (hAB.2.2.1.trans hB.2.2.1).symm))
    apply cells_ext
    · exact hBA.2.2.2.trans (hA.2.2.2.trans (hAB.2.2.2.trans hB.2.2.2).symm)
    · intro ch i
      rw [Clip.cell?_process B, Clip.clear_process A, Clip.cell?_process A,
        Clip.cell?_process A (B.process outputBuffer currentSample numSamples isPlaying),
        Clip.clear_process B, Clip.cell?_process B]
      cases cell? outputBuffer.m_data ch i with
      | none => rfl
      | some t =>
        simp only [Option.map_some']
        rw [add_right_comm]
  · intro ch i
    have h1 := Clip.getSample_process_contribution A outputBuffer hwf currentSample numSamples
      isPlaying ch i
    have hwfA := Clip.process_keeps_wellFormed A outputBuffer hwf currentSample numSamples isPlaying
    have h2 := Clip.getSample_process_contribution B
      (A.process outputBuffer currentSample numSamples isPlaying) hwfA currentSample numSamples
      isPlaying ch i
    rw [hA.1, hA.2.1, h1] at h2
    exact ⟨h1, h2⟩

/-- Witness of C25: the two example clips rendered into the buffer of tens over the window of
eight samples from sample 0.  At sample 5 of the left channel the stereo clip contributes its
second sample, 2, and the mono clip with gain 2 contributes 2: the buffer holds
10 + 2 + 2 = 14 after both. -/
theorem C25_clip_rendering_is_additive_witness :
    tonePart.contribution 2 8 0 8 true 0 5 = 2 ∧
    overlapPart.contribution 2 8 0 8 true 0 5 = 2 ∧
    overlapPart.contribution 2 8 0 8 true 1 5 = 0 ∧
    (overlapPart.process (tonePart.process mixBuffer 0 8 true) 0 8 true).getSample 0 5
      = mixBuffer.getSample 0 5
        + tonePart.contribution mixBuffer.getNumChannels mixBuffer.getNumSamples 0 8 true 0 5
        + overlapPart.contribution mixBuffer.getNumChannels mixBuffer.getNumSamples 0 8 true
            0 5 :=
  ⟨by decide!, by decide!, by decide!,
    ((C25_clip_rendering_is_additive tonePart overlapPart mixBuffer 0 8 true (by decide!)
      (by decide!) (by decide!)).2 0 5).2⟩

end Classic

/-! ### Rounding to `double` -/

namespace Double

theorem roundEven_intCast (k : Int) : roundEven (k : ℚ) = k := by
  unfold roundEven
  rw [Int.floor_intCast, sub_self, if_pos (by norm_num)]

theorem floor_le_roundEven (m : ℚ) : ⌊m⌋ ≤ roundEven m := by
  unfold roundEven
  split_ifs <;> omega

theorem roundEven_le_floor_succ (m : ℚ) : roundEven m ≤ ⌊m⌋ + 1 := by
  unfold roundEven
  split_ifs <;> omega

theorem roundEven_of_lt_half (m : ℚ) (h : m - ⌊m⌋ < 1 / 2) : roundEven m = ⌊m⌋ := by
  unfold roundEven
  rw [if_pos h]

/-- Rounding to the nearest integer keeps the order. -/
theorem roundEven_mono {a b : ℚ} (h : a ≤ b) : roundEven a ≤ roundEven b := by
  have hfl : ⌊a⌋ ≤ ⌊b⌋ := Int.floor_le_floor h
  rcases lt_or_eq_of_le hfl with hlt | heq
  · have h1 := roundEven_le_floor_succ a
    have h2 := floor_le_roundEven b
    omega
  · have hfr : a - (⌊a⌋ : ℚ) ≤ b - (⌊a⌋ : ℚ) := by linarith
    unfold roundEven
    rw [← heq]
    split_ifs <;> first | omega | (exfalso; linarith)

theorem roundEven_nonneg {m : ℚ} (h : 0 ≤ m) : 0 ≤ roundEven m :=
  le_trans (Int.floor_nonneg.mpr h) (floor_le_roundEven m)

theorem roundEven_le_of_le_intCast {m : ℚ} {k : Int} (h : m ≤ (k : ℚ)) : roundEven m ≤ k := by
  have := roundEven_mono h
  rwa [roundEven_intCast] at this

theorem le_roundEven_of_intCast_le {m : ℚ} {k : Int} (h : (k : ℚ) ≤ m) : k ≤ roundEven m := by
  have := roundEven_mono h
  rwa [roundEven_intCast] at this

theorem two_zpow_pos (e : Int) : (0 : ℚ) < (2 : ℚ) ^ e := zpow_pos (by norm_num) e

theorem two_zpow_le {a b : Int} (h : a ≤ b) : (2 : ℚ) ^ a ≤ (2 : ℚ) ^ b :=
  zpow_le_zpow_right₀ (by norm_num) h

theorem two_zpow_lt {a b : Int} (h : a < b) : (2 : ℚ) ^ a < (2 : ℚ) ^ b :=
  zpow_lt_zpow_right₀ (by norm_num) h

theorem two_zpow_add (a b : Int) : (2 : ℚ) ^ (a + b) = (2 : ℚ) ^ a * (2 : ℚ) ^ b :=
  zpow_add₀ (by norm_num) a b

theorem two_zpow_log_le {x : ℚ} (hx : 0 < x) : (2 : ℚ) ^ Int.log 2 x ≤ x := by
  have h := Int.zpow_log_le_self (b := 2) (by norm_num) hx
  simpa using h

theorem lt_two_zpow_log (x : ℚ) : x < (2 : ℚ) ^ (Int.log 2 x + 1) := by
  have h := Int.lt_zpow_succ_log_self (b := 2) (by norm_num) x
  simpa using h

theorem log_lt_of_lt_two_zpow {x : ℚ} {e : Int} (hx : 0 < x) (h : x < (2 : ℚ) ^ e) :
    Int.log 2 x < e := by
  have h2 : x < ((2 : Nat) : ℚ) ^ e := by simpa using h
  exact (Int.lt_zpow_iff_log_lt (b := 2) (by norm_num) hx).mp h2

theorem le_log_of_two_zpow_le {x : ℚ} {e : Int} (hx : 0 < x) (h : (2 : ℚ) ^ e ≤ x) :
    e ≤ Int.log 2 x := by
  have h2 : ((2 : Nat) : ℚ) ^ e ≤ x := by simpa using h
  exact (Int.zpow_le_iff_le_log (b := 2) (by norm_num) hx).mp h2

theorem ulp_pos (x : ℚ) : 0 < ulp x := two_zpow_pos _

theorem ulp_of_pos {x : ℚ} (hx : 0 < x) :
    ulp x = (2 : ℚ) ^ (max (Int.log 2 x) (-1022) - 52) := by
  unfold ulp
  rw [abs_of_pos hx]

/-- The spacing around a positive value between `2^e` and `2^(e+1)`, `e ≥ -1022`. -/
theorem ulp_of_bounds {x : ℚ} {e : Int} (he : -1022 ≤ e) (h1 : (2 : ℚ) ^ e ≤ x)
    (h2 : x < (2 : ℚ) ^ (e + 1)) : ulp x = (2 : ℚ) ^ (e - 52) := by
  have hx : 0 < x := lt_of_lt_of_le (two_zpow_pos e) h1
  have hlog : Int.log 2 x = e := by
    have ha := le_log_of_two_zpow_le hx h1
    have hb := log_lt_of_lt_two_zpow hx h2
    omega
  rw [ulp_of_pos hx, hlog, max_eq_left he]

/-- The rounding of a positive value between `2^e` and `2^(e+1)`, `e ≥ -1022`, with its
spacing written out. -/
theorem round_of_bounds {x : ℚ} (e : Int) (he : -1022 ≤ e) (h1 : (2 : ℚ) ^ e ≤ x)
    (h2 : x < (2 : ℚ) ^ (e + 1)) :
    round x = (roundEven (x / (2 : ℚ) ^ (e - 52)) : ℚ) * (2 : ℚ) ^ (e - 52) := by
  unfold round
  rw [ulp_of_bounds he h1 h2]

theorem round_zero : round 0 = 0 := by
  unfold round
  rw [zero_div, show ((0 : ℚ)) = ((0 : Int) : ℚ) by norm_num, roundEven_intCast]
  norm_num

/-- Rounding keeps a non-negative value non-negative. -/
theorem round_nonneg {x : ℚ} (hx : 0 ≤ x) : 0 ≤ round x := by
  unfold round
  have h1 : 0 ≤ x / ulp x := div_nonneg hx (ulp_pos x).le
  have h2 : (0 : ℚ) ≤ (roundEven (x / ulp x) : ℚ) := by exact_mod_cast roundEven_nonneg h1
  exact mul_nonneg h2 (ulp_pos x).le

/-- A positive value is less than `2^53` spacings. -/
theorem div_ulp_lt {x : ℚ} (hx : 0 < x) : x / ulp x < (2 : ℚ) ^ (53 : Int) := by
  rw [div_lt_iff₀ (ulp_pos x), ulp_of_pos hx, ← two_zpow_add]
  refine lt_of_lt_of_le (lt_two_zpow_log x) (two_zpow_le ?_)
  have := le_max_left (Int.log 2 x) (-1022)
  omega

/-- A value of at least `2^(-1022)` is at least `2^52` spacings. -/
theorem le_div_ulp {x : ℚ} (hx : 0 < x) (he : -1022 ≤ Int.log 2 x) :
    (2 : ℚ) ^ (52 : Int) ≤ x / ulp x := by
  rw [le_div_iff₀ (ulp_pos x), ulp_of_pos hx, max_eq_left he, ← two_zpow_add]
  have h : (52 : Int) + (Int.log 2 x - 52) = Int.log 2 x := by omega
  rw [h]
  exact two_zpow_log_le hx

end Double

namespace Double

theorem intCast_two_pow_53 : ((2 ^ 53 : Int) : ℚ) = (2 : ℚ) ^ (53 : Int) := by norm_num

theorem intCast_two_pow_52 : ((2 ^ 52 : Int) : ℚ) = (2 : ℚ) ^ (52 : Int) := by norm_num

theorem natCast_two_pow_53 : ((2 ^ 53 : Nat) : ℚ) = (2 : ℚ) ^ (53 : Int) := by norm_num

/-- A positive value rounds to at most `2^53` spacings. -/
theorem roundEven_div_ulp_le {x : ℚ} (hx : 0 < x) : roundEven (x / ulp x) ≤ 2 ^ 53 := by
  apply roundEven_le_of_le_intCast
  rw [intCast_two_pow_53]
  exact (div_ulp_lt hx).le

/-- A value of at least `2^(-1022)` rounds to at least `2^52` spacings. -/
theorem le_roundEven_div_ulp {x : ℚ} (hx : 0 < x) (he : -1022 ≤ Int.log 2 x) :
    2 ^ 52 ≤ roundEven (x / ulp x) := by
  apply le_roundEven_of_intCast_le
  rw [intCast_two_pow_52]
  exact le_div_ulp hx he

theorem rep_zero : Rep 0 := ⟨0, 0, by norm_num, by norm_num, by norm_num⟩

/-- A natural number below `2^53` is a `double`. -/
theorem rep_natCast (N : Nat) (h : N < 2 ^ 53) : Rep (N : ℚ) :=
  ⟨N, 0, h, by norm_num, by norm_num⟩

/-- Rounding leaves a `double` as it is. -/
theorem round_of_rep {x : ℚ} (h : Rep x) : round x = x := by
  obtain ⟨M, j, hM, hj, rfl⟩ := h
  rcases Nat.eq_zero_or_pos M with h0 | hpos
  · subst h0
    rw [Nat.cast_zero, zero_mul]
    exact round_zero
  · have hMq : (0 : ℚ) < (M : ℚ) := by exact_mod_cast hpos
    have hx : (0 : ℚ) < (M : ℚ) * (2 : ℚ) ^ j := mul_pos hMq (two_zpow_pos j)
    have hlt : (M : ℚ) * (2 : ℚ) ^ j < (2 : ℚ) ^ (53 + j) := by
      rw [two_zpow_add]
      apply mul_lt_mul_of_pos_right _ (two_zpow_pos j)
      rw [← natCast_two_pow_53]
      exact_mod_cast hM
    have hlog := log_lt_of_lt_two_zpow hx hlt
    have hk : 0 ≤ j + 52 - max (Int.log 2 ((M : ℚ) * (2 : ℚ) ^ j)) (-1022) := by
      have := max_le (a := Int.log 2 ((M : ℚ) * (2 : ℚ) ^ j)) (b := -1022) (c := j + 52)
        (by omega) (by omega)
      omega
    obtain ⟨k, hkeq⟩ := Int.eq_ofNat_of_zero_le hk
    have hq : ulp ((M : ℚ) * (2 : ℚ) ^ j) = (2 : ℚ) ^ (j - (k : Int)) := by
      rw [ulp_of_pos hx]
      congr 1
      omega
    have hdiv : (M : ℚ) * (2 : ℚ) ^ j / (2 : ℚ) ^ (j - (k : Int))
        = (((M * 2 ^ k : Nat) : Int) : ℚ) := by
      rw [mul_div_assoc, ← zpow_sub₀ (by norm_num : (2 : ℚ) ≠ 0)]
      have : j - (j - (k : Int)) = (k : Int) := by omega
      rw [this, zpow_natCast]
      push_cast
      ring
    unfold round
    rw [hq, hdiv, roundEven_intCast]
    push_cast
    rw [mul_assoc, ← zpow_natCast, ← two_zpow_add]
    congr 2
    omega

/-- The result of rounding a non-negative value is a `double`. -/
theorem rep_round {x : ℚ} (hx : 0 ≤ x) : Rep (round x) := by
  rcases eq_or_lt_of_le hx with h0 | hpos
  · rw [← h0, round_zero]
    exact rep_zero
  · have hT0 : 0 ≤ roundEven (x / ulp x) :=
      roundEven_nonneg (div_nonneg hx (ulp_pos x).le)
    have hT1 : roundEven (x / ulp x) ≤ 2 ^ 53 := roundEven_div_ulp_le hpos
    obtain ⟨T, hT⟩ := Int.eq_ofNat_of_zero_le hT0
    have hge : -1074 ≤ max (Int.log 2 x) (-1022) - 52 := by
      have := le_max_right (Int.log 2 x) (-1022)
      omega
    unfold round
    rw [hT, ulp_of_pos hpos]
    rcases lt_or_eq_of_le hT1 with hlt | heq
    · refine ⟨T, _, ?_, hge, ?_⟩
      · rw [hT] at hlt
        exact_mod_cast hlt
      · norm_num
    · refine ⟨2 ^ 52, max (Int.log 2 x) (-1022) - 52 + 1, by norm_num, by omega, ?_⟩
      have hT2 : (T : Int) = 2 ^ 53 := by rw [← hT]; exact heq
      have hT3 : (((T : Nat) : Int) : ℚ) = (2 : ℚ) ^ (53 : Nat) := by
        rw [hT2]; norm_num
      rw [hT3, two_zpow_add]
      push_cast
      ring

/-- Rounding twice is rounding once. -/
theorem round_round {x : ℚ} (hx : 0 ≤ x) : round (round x) = round x :=
  round_of_rep (rep_round hx)

/-- Rounding keeps the order of non-negative values. -/
theorem round_mono {x y : ℚ} (hx : 0 ≤ x) (hxy : x ≤ y) : round x ≤ round y := by
  rcases eq_or_lt_of_le hx with h0 | hpos
  · rw [← h0, round_zero]
    exact round_nonneg (le_trans hx hxy)
  · have hypos : 0 < y := lt_of_lt_of_le hpos hxy
    have hlog : Int.log 2 x ≤ Int.log 2 y := Int.log_mono_right hpos hxy
    rcases lt_or_eq_of_le (max_le_max hlog (le_refl (-1022 : Int))) with hlt | heq
    · have hey : max (Int.log 2 y) (-1022) = Int.log 2 y := by
        rcases le_total (Int.log 2 y) (-1022) with h | h
        · rw [max_eq_right h] at hlt
          have := le_max_right (Int.log 2 x) (-1022)
          omega
        · exact max_eq_left h
      have hya : -1022 ≤ Int.log 2 y := by
        have := le_max_right (Int.log 2 y) (-1022)
        omega
      have h1 : round x ≤ (2 : ℚ) ^ (max (Int.log 2 x) (-1022) + 1) := by
        unfold round
        have hTq : (roundEven (x / ulp x) : ℚ) ≤ (2 : ℚ) ^ (53 : Int) := by
          rw [← intCast_two_pow_53]
          exact_mod_cast roundEven_div_ulp_le hpos
        calc (roundEven (x / ulp x) : ℚ) * ulp x
            ≤ (2 : ℚ) ^ (53 : Int) * ulp x := mul_le_mul_of_nonneg_right hTq (ulp_pos x).le
          _ = (2 : ℚ) ^ (max (Int.log 2 x) (-1022) + 1) := by
            rw [ulp_of_pos hpos, ← two_zpow_add]
            congr 1
            omega
      have h2 : (2 : ℚ) ^ (Int.log 2 y) ≤ round y := by
        unfold round
        have hTq : (2 : ℚ) ^ (52 : Int) ≤ (roundEven (y / ulp y) : ℚ) := by
          rw [← intCast_two_pow_52]
          exact_mod_cast le_roundEven_div_ulp hypos hya
        calc (2 : ℚ) ^ (Int.log 2 y)
            = (2 : ℚ) ^ (52 : Int) * ulp y := by
              rw [ulp_of_pos hypos, max_eq_left hya, ← two_zpow_add]
              congr 1
              omega
          _ ≤ (roundEven (y / ulp y) : ℚ) * ulp y :=
              mul_le_mul_of_nonneg_right hTq (ulp_pos y).le
      refine le_trans h1 (le_trans (two_zpow_le ?_) h2)
      rw [hey] at hlt
      omega
    · have hq : ulp x = ulp y := by
        rw [ulp_of_pos hpos, ulp_of_pos hypos, heq]
      unfold round
      rw [hq]
      apply mul_le_mul_of_nonneg_right _ (ulp_pos y).le
      have : roundEven (x / ulp y) ≤ roundEven (y / ulp y) :=
        roundEven_mono (div_le_div_of_nonneg_right hxy (ulp_pos y).le)
      exact_mod_cast this

end Double

namespace Double

/-- The fractional part of a `double` is a `double`. -/
theorem rep_sub_floor {x : ℚ} (h : Rep x) : Rep (x - (⌊x⌋ : ℚ)) := by
  obtain ⟨M, j, hM, hj, rfl⟩ := h
  rcases le_or_lt 0 j with hj0 | hj0
  · obtain ⟨k, rfl⟩ := Int.eq_ofNat_of_zero_le hj0
    have hx : (M : ℚ) * (2 : ℚ) ^ ((k : Nat) : Int) = (((M * 2 ^ k : Nat) : Int) : ℚ) := by
      rw [zpow_natCast]
      push_cast
      ring
    rw [hx, Int.floor_intCast, sub_self]
    exact rep_zero
  · obtain ⟨k, hk⟩ := Int.eq_ofNat_of_zero_le (show 0 ≤ -j by omega)
    have hjk : j = -(k : Int) := by omega
    have hpow : (2 : ℚ) ^ j = 1 / ((2 ^ k : Nat) : ℚ) := by
      rw [hjk, zpow_neg, zpow_natCast]
      push_cast
      rw [one_div]
    have hd0 : (0 : ℚ) < ((2 ^ k : Nat) : ℚ) := by positivity
    have hx : (M : ℚ) * (2 : ℚ) ^ j = ((M : Int) : ℚ) / ((2 ^ k : Nat) : ℚ) := by
      rw [hpow]
      push_cast
      ring
    have hfl : ⌊((M : Int) : ℚ) / ((2 ^ k : Nat) : ℚ)⌋ = (M : Int) / ((2 ^ k : Nat) : Int) :=
      Rat.floor_intCast_div_natCast _ _
    refine ⟨M % 2 ^ k, j, lt_of_le_of_lt (Nat.mod_le _ _) hM, hj, ?_⟩
    rw [hx, hfl, hpow]
    have hdm : (M : Int) = ((2 ^ k : Nat) : Int) * ((M : Int) / ((2 ^ k : Nat) : Int))
        + (((M % 2 ^ k : Nat)) : Int) := by
      rw [Int.natCast_mod]
      exact (Int.ediv_add_emod _ _).symm
    have hdmq : ((M : Int) : ℚ) = ((2 ^ k : Nat) : ℚ)
        * (((M : Int) / ((2 ^ k : Nat) : Int) : Int) : ℚ) + ((M % 2 ^ k : Nat) : ℚ) := by
      have h := congrArg (Int.cast : Int → ℚ) hdm
      rw [Int.cast_add, Int.cast_mul, Int.cast_natCast, Int.cast_natCast] at h
      exact h
    rw [eq_comm, mul_one_div, div_eq_iff (ne_of_gt hd0), sub_mul, div_mul_cancel₀ _ (ne_of_gt hd0)]
    rw [hdmq]
    ring

/-- A natural number `N` from 1 to `2^53` lies in the binade `(2^(c-1), 2^c]` of some
`0 ≤ c ≤ 53`, where the spacing is `2^(c-53)`; `N` is a whole number `A` of spacings. -/
theorem binade (N : Nat) (h1 : 1 ≤ N) (h53 : N ≤ 2 ^ 53) :
    ∃ (c : Int) (A : Nat), 0 ≤ c ∧ c ≤ 53 ∧ 2 ^ 52 + 1 ≤ A ∧ A ≤ 2 ^ 53 ∧
      (N : ℚ) = (A : ℚ) * (2 : ℚ) ^ (c - 53) := by
  have hNq : (0 : ℚ) < (N : ℚ) := by exact_mod_cast h1
  have hup : (N : ℚ) ≤ (2 : ℚ) ^ Int.clog 2 (N : ℚ) := by
    have h := Int.self_le_zpow_clog (b := 2) (by norm_num) (N : ℚ)
    simpa using h
  have hlo : (2 : ℚ) ^ (Int.clog 2 (N : ℚ) - 1) < (N : ℚ) := by
    have h := Int.zpow_pred_clog_lt_self (b := 2) (r := (N : ℚ)) (by norm_num) hNq
    simpa using h
  have hc53 : Int.clog 2 (N : ℚ) ≤ 53 := by
    apply (Int.le_zpow_iff_clog_le (b := 2) (by norm_num) hNq).mp
    have : ((N : Nat) : ℚ) ≤ ((2 ^ 53 : Nat) : ℚ) := by exact_mod_cast h53
    rw [natCast_two_pow_53] at this
    simpa using this
  have hc0 : 0 ≤ Int.clog 2 (N : ℚ) := by
    by_contra hneg
    have hlt : Int.clog 2 (N : ℚ) < 0 := by omega
    have h2 : (2 : ℚ) ^ Int.clog 2 (N : ℚ) < (2 : ℚ) ^ (0 : Int) := two_zpow_lt hlt
    rw [zpow_zero] at h2
    have h3 : (1 : ℚ) ≤ (N : ℚ) := by exact_mod_cast h1
    linarith
  obtain ⟨k, hk⟩ := Int.eq_ofNat_of_zero_le (show 0 ≤ 53 - Int.clog 2 (N : ℚ) by omega)
  have hN : (N : ℚ) = ((N * 2 ^ k : Nat) : ℚ) * (2 : ℚ) ^ (Int.clog 2 (N : ℚ) - 53) := by
    have hexp : Int.clog 2 (N : ℚ) - 53 = -(k : Int) := by omega
    rw [hexp, zpow_neg, zpow_natCast]
    push_cast
    field_simp
  have hu : (0 : ℚ) < (2 : ℚ) ^ (Int.clog 2 (N : ℚ) - 53) := two_zpow_pos _
  refine ⟨Int.clog 2 (N : ℚ), N * 2 ^ k, hc0, hc53, ?_, ?_, hN⟩
  · have h : (2 : ℚ) ^ (52 : Int) * (2 : ℚ) ^ (Int.clog 2 (N : ℚ) - 53)
        < ((N * 2 ^ k : Nat) : ℚ) * (2 : ℚ) ^ (Int.clog 2 (N : ℚ) - 53) := by
      rw [← hN, ← two_zpow_add]
      have : (52 : Int) + (Int.clog 2 (N : ℚ) - 53) = Int.clog 2 (N : ℚ) - 1 := by omega
      rw [this]
      exact hlo
    have h2 := lt_of_mul_lt_mul_right h hu.le
    have h3 : ((2 ^ 52 : Nat) : ℚ) < ((N * 2 ^ k : Nat) : ℚ) := by
      have : ((2 ^ 52 : Nat) : ℚ) = (2 : ℚ) ^ (52 : Int) := by norm_num
      rw [this]
      exact h2
    have h4 : 2 ^ 52 < N * 2 ^ k := by exact_mod_cast h3
    omega
  · have h : ((N * 2 ^ k : Nat) : ℚ) * (2 : ℚ) ^ (Int.clog 2 (N : ℚ) - 53)
        ≤ (2 : ℚ) ^ (53 : Int) * (2 : ℚ) ^ (Int.clog 2 (N : ℚ) - 53) := by
      rw [← hN, ← two_zpow_add]
      have : (53 : Int) + (Int.clog 2 (N : ℚ) - 53) = Int.clog 2 (N : ℚ) := by omega
      rw [this]
      exact hup
    have h2 := le_of_mul_le_mul_right h hu
    rw [← natCast_two_pow_53] at h2
    exact_mod_cast h2

/-- A `double` below a natural number `N ≤ 2^53` is below it by at least the relative distance
`2^(-53)`. -/
theorem rep_lt_natCast {v : ℚ} (hv : Rep v) (N : Nat) (h1 : 1 ≤ N) (h53 : N ≤ 2 ^ 53)
    (hlt : v < (N : ℚ)) : v ≤ (N : ℚ) * (1 - (2 : ℚ) ^ (-53 : Int)) := by
  obtain ⟨c, A, hc0, hc53, hA1, hA2, hN⟩ := binade N h1 h53
  obtain ⟨M, j, hM, hj, rfl⟩ := hv
  have hu : (0 : ℚ) < (2 : ℚ) ^ (c - 53) := two_zpow_pos _
  have hNle : (N : ℚ) * (2 : ℚ) ^ (-53 : Int) ≤ (2 : ℚ) ^ (c - 53) := by
    rw [hN, mul_assoc, ← two_zpow_add]
    have hAq : (A : ℚ) ≤ (2 : ℚ) ^ (53 : Int) := by
      rw [← natCast_two_pow_53]
      exact_mod_cast hA2
    calc (A : ℚ) * (2 : ℚ) ^ (c - 53 + -53)
        ≤ (2 : ℚ) ^ (53 : Int) * (2 : ℚ) ^ (c - 53 + -53) :=
          mul_le_mul_of_nonneg_right hAq (two_zpow_pos _).le
      _ = (2 : ℚ) ^ (c - 53) := by
          rw [← two_zpow_add]
          congr 1
          omega
  have hkey : (M : ℚ) * (2 : ℚ) ^ j + (2 : ℚ) ^ (c - 53) ≤ (N : ℚ) := by
    rcases le_or_lt ((M : ℚ) * (2 : ℚ) ^ j) ((2 : ℚ) ^ (c - 1)) with hsmall | hbig
    · have h52 : (2 : ℚ) ^ (c - 1) = ((2 ^ 52 : Nat) : ℚ) * (2 : ℚ) ^ (c - 53) := by
        have : ((2 ^ 52 : Nat) : ℚ) = (2 : ℚ) ^ (52 : Int) := by norm_num
        rw [this, ← two_zpow_add]
        congr 1
        omega
      have hA : ((2 ^ 52 : Nat) : ℚ) + 1 ≤ (A : ℚ) := by exact_mod_cast hA1
      calc (M : ℚ) * (2 : ℚ) ^ j + (2 : ℚ) ^ (c - 53)
          ≤ ((2 ^ 52 : Nat) : ℚ) * (2 : ℚ) ^ (c - 53) + (2 : ℚ) ^ (c - 53) := by
            rw [← h52]
            linarith
        _ = (((2 ^ 52 : Nat) : ℚ) + 1) * (2 : ℚ) ^ (c - 53) := by ring
        _ ≤ (A : ℚ) * (2 : ℚ) ^ (c - 53) := mul_le_mul_of_nonneg_right hA hu.le
        _ = (N : ℚ) := hN.symm
    · have hMq : (M : ℚ) < (2 : ℚ) ^ (53 : Int) := by
        rw [← natCast_two_pow_53]
        exact_mod_cast hM
      have h2 : (2 : ℚ) ^ (c - 1) < (2 : ℚ) ^ (53 + j) := by
        rw [two_zpow_add]
        exact lt_trans hbig (mul_lt_mul_of_pos_right hMq (two_zpow_pos j))
      have hjc : c - 1 < 53 + j := (zpow_lt_zpow_iff_right₀ (by norm_num : (1 : ℚ) < 2)).mp h2
      obtain ⟨k, hk⟩ := Int.eq_ofNat_of_zero_le (show 0 ≤ j - c + 53 by omega)
      have hv : (M : ℚ) * (2 : ℚ) ^ j = ((M * 2 ^ k : Nat) : ℚ) * (2 : ℚ) ^ (c - 53) := by
        have : j = (k : Int) + (c - 53) := by omega
        rw [this, two_zpow_add, zpow_natCast]
        push_cast
        ring
      rw [hv, hN] at hlt
      have h3 : ((M * 2 ^ k : Nat) : ℚ) < (A : ℚ) := lt_of_mul_lt_mul_right hlt hu.le
      have h4 : M * 2 ^ k + 1 ≤ A := by
        have : M * 2 ^ k < A := by exact_mod_cast h3
        omega
      have h5 : ((M * 2 ^ k : Nat) : ℚ) + 1 ≤ (A : ℚ) := by exact_mod_cast h4
      calc (M : ℚ) * (2 : ℚ) ^ j + (2 : ℚ) ^ (c - 53)
          = (((M * 2 ^ k : Nat) : ℚ) + 1) * (2 : ℚ) ^ (c - 53) := by rw [hv]; ring
        _ ≤ (A : ℚ) * (2 : ℚ) ^ (c - 53) := mul_le_mul_of_nonneg_right h5 hu.le
        _ = (N : ℚ) := hN.symm
  linarith

/-- A non-negative value below a natural number `N ≤ 2^53` by at least the relative distance
`2^(-53)` is rounded to a `double` below `N`. -/
theorem round_lt_natCast {y : ℚ} (hy : 0 ≤ y) (N : Nat) (h1 : 1 ≤ N) (h53 : N ≤ 2 ^ 53)
    (hle : y ≤ (N : ℚ) * (1 - (2 : ℚ) ^ (-53 : Int))) : round y < (N : ℚ) := by
  obtain ⟨c, A, hc0, hc53, hA1, hA2, hN⟩ := binade N h1 h53
  have hu : (0 : ℚ) < (2 : ℚ) ^ (c - 53) := two_zpow_pos _
  have hAq : ((2 ^ 52 : Nat) : ℚ) + 1 ≤ (A : ℚ) := by exact_mod_cast hA1
  have h52 : ((2 ^ 52 : Nat) : ℚ) = (2 : ℚ) ^ (52 : Int) := by norm_num
  have hA1' : 1 ≤ A := by omega
  have hpredrep : Rep (((A - 1 : Nat) : ℚ) * (2 : ℚ) ^ (c - 53)) :=
    ⟨A - 1, c - 53, by omega, by omega, rfl⟩
  have hpred : ((A - 1 : Nat) : ℚ) * (2 : ℚ) ^ (c - 53) = (N : ℚ) - (2 : ℚ) ^ (c - 53) := by
    rw [hN, Nat.cast_sub hA1']
    push_cast
    ring
  have hpredlt : ((A - 1 : Nat) : ℚ) * (2 : ℚ) ^ (c - 53) < (N : ℚ) := by
    rw [hpred]
    linarith
  rcases le_or_lt y (((A - 1 : Nat) : ℚ) * (2 : ℚ) ^ (c - 53)) with hsmall | hbig
  · have := round_mono hy hsmall
    rw [round_of_rep hpredrep] at this
    exact lt_of_le_of_lt this hpredlt
  · have hlow : (2 : ℚ) ^ (c - 1) ≤ ((A - 1 : Nat) : ℚ) * (2 : ℚ) ^ (c - 53) := by
      have hA' : (2 : ℚ) ^ (52 : Int) ≤ ((A - 1 : Nat) : ℚ) := by
        rw [← h52, Nat.cast_sub hA1']
        push_cast
        push_cast at hAq
        linarith
      calc (2 : ℚ) ^ (c - 1) = (2 : ℚ) ^ (52 : Int) * (2 : ℚ) ^ (c - 53) := by
            rw [← two_zpow_add]
            congr 1
            omega
        _ ≤ ((A - 1 : Nat) : ℚ) * (2 : ℚ) ^ (c - 53) := mul_le_mul_of_nonneg_right hA' hu.le
    have hNhalf : (2 : ℚ) ^ (c - 53) * (1 / 2) < (N : ℚ) * (2 : ℚ) ^ (-53 : Int) := by
      have h1 : (2 : ℚ) ^ (c - 53) * (1 / 2) = (2 : ℚ) ^ (c - 1) * (2 : ℚ) ^ (-53 : Int) := by
        have : (1 / 2 : ℚ) = (2 : ℚ) ^ (-1 : Int) := by norm_num
        rw [this, ← two_zpow_add, ← two_zpow_add]
        congr 1
        omega
      rw [h1]
      apply mul_lt_mul_of_pos_right _ (two_zpow_pos _)
      exact lt_of_le_of_lt hlow hpredlt
    have hyN : y < (N : ℚ) - (2 : ℚ) ^ (c - 53) * (1 / 2) := by
      have hexp : (N : ℚ) * (1 - (2 : ℚ) ^ (-53 : Int))
          = (N : ℚ) - (N : ℚ) * (2 : ℚ) ^ (-53 : Int) := by ring
      rw [hexp] at hle
      generalize (N : ℚ) * (2 : ℚ) ^ (-53 : Int) = a at hle hNhalf
      linarith
    have hup : (N : ℚ) ≤ (2 : ℚ) ^ (c - 1 + 1) := by
      rw [hN]
      have hAq2 : (A : ℚ) ≤ (2 : ℚ) ^ (53 : Int) := by
        rw [← natCast_two_pow_53]
        exact_mod_cast hA2
      calc (A : ℚ) * (2 : ℚ) ^ (c - 53)
          ≤ (2 : ℚ) ^ (53 : Int) * (2 : ℚ) ^ (c - 53) := mul_le_mul_of_nonneg_right hAq2 hu.le
        _ = (2 : ℚ) ^ (c - 1 + 1) := by
            rw [← two_zpow_add]
            congr 1
            omega
    have hulp : ulp y = (2 : ℚ) ^ (c - 53) := by
      have h := ulp_of_bounds (x := y) (e := c - 1) (by omega) (le_trans hlow hbig.le)
        (lt_of_lt_of_le (by linarith) hup)
      rw [h]
      congr 1
      omega
    have hq1 : ((A - 1 : Nat) : ℚ) < y / (2 : ℚ) ^ (c - 53) := by
      rw [lt_div_iff₀ hu]
      exact hbig
    have hq2 : y / (2 : ℚ) ^ (c - 53) < ((A - 1 : Nat) : ℚ) + 1 / 2 := by
      rw [div_lt_iff₀ hu, add_mul, hpred]
      linarith
    have hfl : ⌊y / (2 : ℚ) ^ (c - 53)⌋ = ((A - 1 : Nat) : Int) := by
      rw [Int.floor_eq_iff]
      push_cast
      constructor
      · exact hq1.le
      · linarith
    have hre : roundEven (y / (2 : ℚ) ^ (c - 53)) = ((A - 1 : Nat) : Int) := by
      rw [roundEven_of_lt_half _ (by rw [hfl]; push_cast; linarith), hfl]
    unfold round
    rw [hulp, hre]
    push_cast
    exact hpredlt

end Double

/-! ### The metronome and the musical position in `double` arithmetic -/

namespace Double

/-- The conversion to `int` of a non-negative `double` is its floor, defined below `2^31`. -/
theorem toInt_of_nonneg {x : ℚ} (hx : 0 ≤ x) :
    toInt x = if x < 2 ^ 31 then some ⌊x⌋ else none := by
  unfold toInt
  rw [DAW.truncToInt_of_nonneg x hx]
  have h0 : -(2 ^ 31 : Int) ≤ ⌊x⌋ := le_trans (by norm_num) (Int.floor_nonneg.mpr hx)
  have hiff : ⌊x⌋ < (2 ^ 31 : Int) ↔ x < 2 ^ 31 := by
    rw [Int.floor_lt]
    norm_num
  by_cases h : x < 2 ^ 31
  · rw [if_pos ⟨h0, hiff.mpr h⟩, if_pos h]
  · rw [if_neg (fun hh => h (hiff.mp hh.2)), if_neg h]

/-- A rounded value is positive when the exact one is at least a positive `double`. -/
theorem round_pos_of_rep_le {d x : ℚ} (hd : Rep d) (hd0 : 0 < d) (hx : d ≤ x) : 0 < round x := by
  have h := round_mono hd0.le hx
  rw [round_of_rep hd] at h
  exact lt_of_lt_of_le hd0 h

end Double

namespace DAW

/-- The beat duration `60 / bpm` is positive in `double` for every tempo of at most 300 BPM. -/
theorem Transport.beatDuration_pos (t : Transport) (hbpm : 20 ≤ t.bpm_ ∧ t.bpm_ ≤ 300) :
    0 < Double.div 60 t.bpm_ := by
  have hb : (0 : ℚ) < t.bpm_ := by linarith [hbpm.1]
  have hrep : Double.Rep (1 / 8) := ⟨1, -3, by norm_num, by norm_num, by norm_num⟩
  apply Double.round_pos_of_rep_le hrep (by norm_num)
  rw [le_div_iff₀ hb]
  linarith [hbpm.2]

/-- C29, amended: with position >= 0, bpm in [20, 300], samples >= 0 and sampleRate > 0, the
beat duration 60/bpm is positive and the two quotients a = position/beatDuration and
b = (position + samples/sampleRate)/beatDuration are non-negative as `double` arithmetic
computes them.  When the metronome is enabled and the transport is Playing or Recording,
ShouldTriggerMetronome returns floor(b) > floor(a) if a and b are below 2^31, and is undefined
otherwise (the conversion to int); in every other state it returns false.  The member is
const: it returns the flag and has no effect on the transport. -/
theorem C29_metronome_compares_rounded_beats (t : Transport) (samples sampleRate : Int)
    (hpos : 0 ≤ t.position_) (hbpm : 20 ≤ t.bpm_ ∧ t.bpm_ ≤ 300) (hs : 0 ≤ samples)
    (hr : 0 < sampleRate) :
    0 < Double.div 60 t.bpm_ ∧ 0 ≤ t.currentBeatTime ∧ 0 ≤ t.nextBeatTime samples sampleRate ∧
    t.ShouldTriggerMetronome samples sampleRate =
      if t.metronomeEnabled_ = true ∧ (t.state_ = State.PLAYING ∨ t.state_ = State.RECORDING)
      then
        if t.currentBeatTime < 2 ^ 31 ∧ t.nextBeatTime samples sampleRate < 2 ^ 31 then
          some (decide (⌊t.nextBeatTime samples sampleRate⌋ > ⌊t.currentBeatTime⌋))
        else none
      else some false := by
  have hbd := Transport.beatDuration_pos t hbpm
  have hstep : (0 : ℚ) ≤ Double.div (samples : ℚ) (sampleRate : ℚ) :=
    Double.round_nonneg (div_nonneg (by exact_mod_cast hs) (by exact_mod_cast hr.le))
  have hnext : (0 : ℚ) ≤ Double.add t.position_ (Double.div (samples : ℚ) (sampleRate : ℚ)) :=
    Double.round_nonneg (add_nonneg hpos hstep)
  have ha : 0 ≤ t.currentBeatTime := Double.round_nonneg (div_nonneg hpos hbd.le)
  have hb : 0 ≤ t.nextBeatTime samples sampleRate :=
    Double.round_nonneg (div_nonneg hnext hbd.le)
  refine ⟨hbd, ha, hb, ?_⟩
  have hdef : t.ShouldTriggerMetronome samples sampleRate =
      if (!t.metronomeEnabled_ || !t.IsPlaying) = true then some false
      else (Double.toInt t.currentBeatTime).bind fun currentBeat =>
        (Double.toInt (t.nextBeatTime samples sampleRate)).bind fun nextBeat =>
          some (decide (nextBeat > currentBeat)) := rfl
  rw [hdef, Double.toInt_of_nonneg ha, Double.toInt_of_nonneg hb]
  unfold Transport.IsPlaying
  by_cases hm : t.metronomeEnabled_ = true
  · by_cases hp : t.state_ = State.PLAYING ∨ t.state_ = State.RECORDING
    · have hcond : ¬ ((!t.metronomeEnabled_ ||
          !(decide (t.state_ = State.PLAYING) || decide (t.state_ = State.RECORDING))) = true) := by
        rcases hp with hp | hp <;> simp [hm, hp]
      rw [if_neg hcond, if_pos (And.intro hm hp)]
      by_cases h0 : t.currentBeatTime < 2 ^ 31
      · by_cases h1 : t.nextBeatTime samples sampleRate < 2 ^ 31
        · rw [if_pos h0, if_pos h1, if_pos (And.intro h0 h1)]
          rfl
        · rw [if_pos h0, if_neg h1, if_neg (fun h : _ ∧ _ => h1 h.2)]
          rfl
      · rw [if_neg h0, if_neg (fun h : _ ∧ _ => h0 h.1)]
        rfl
    · have hcond : ((!t.metronomeEnabled_ ||
          !(decide (t.state_ = State.PLAYING) || decide (t.state_ = State.RECORDING))) = true) := by
        simp only [not_or] at hp
        simp [hm, hp.1, hp.2]
      rw [if_pos hcond, if_neg (fun h : _ ∧ _ => hp h.2)]
  · have hcond : ((!t.metronomeEnabled_ ||
        !(decide (t.state_ = State.PLAYING) || decide (t.state_ = State.RECORDING))) = true) := by
      simp [hm]
    rw [if_pos hcond, if_neg (fun h : _ ∧ _ => hm h.1)]

/-- C29, as stated, fails: playing at 300 BPM with the metronome on, at position 0.5 s, a
block of 4800 samples at 48 kHz ends at 0.6 s; the exact beat count floor(t/0.2) goes from 2
to 3, but in `double` the quotient 0.6/0.2 is 2.9999999999999996 and ShouldTriggerMetronome
returns false. -/
theorem C29_rounding_hides_beat :
    clickTransport.metronomeEnabled_ = true ∧ clickTransport.state_ = State.PLAYING ∧
    ⌊(clickTransport.position_ + (4800 : ℚ) / 48000) / (60 / clickTransport.bpm_)⌋
      > ⌊clickTransport.position_ / (60 / clickTransport.bpm_)⌋ ∧
    clickTransport.nextBeatTime 4800 48000 = 6755399441055743 / 2251799813685248 ∧
    clickTransport.ShouldTriggerMetronome 4800 48000 = some false := by
  decide!

/-- Witness of C29 (amended): at 300 BPM from 0.5 s the block of 4800 samples at 48 kHz
gives the quotients 2.5 and 2.9999999999999996, no click; the block of 4801 samples gives a
click. -/
theorem C29_metronome_compares_rounded_beats_witness :
    clickTransport.ShouldTriggerMetronome 4800 48000 = some false ∧
    clickTransport.ShouldTriggerMetronome 4801 48000 = some true := by
  have h1 := (C29_metronome_compares_rounded_beats clickTransport 4800 48000 (by decide!)
    (by decide!) (by decide) (by decide)).2.2.2
  have h2 := (C29_metronome_compares_rounded_beats clickTransport 4801 48000 (by decide!)
    (by decide!) (by decide) (by decide)).2.2.2
  rw [h1, h2]
  decide!

end DAW

/-- The quotient of a non-negative `double` below `2^31` by a whole number `n` from 1 to 32
has, as `double` arithmetic rounds it, the floor of the exact quotient. -/
theorem Double.floor_div_natCast {x : ℚ} (hx : Double.Rep x) (hx0 : 0 ≤ x)
    (hx31 : x < 2 ^ 31) (n : Int) (hn : 1 ≤ n ∧ n ≤ 32) :
    ⌊Double.div x (n : ℚ)⌋ = ⌊x⌋ / n := by
  have hn0 : (0 : Int) < n := by omega
  have hnq : (0 : ℚ) < (n : ℚ) := by exact_mod_cast hn0
  have hm0 : (0 : Int) ≤ ⌊x⌋ := Int.floor_nonneg.mpr hx0
  have hm31 : ⌊x⌋ < 2 ^ 31 := by
    rw [Int.floor_lt]
    norm_num
    exact hx31
  have hb0 : 0 ≤ ⌊x⌋ / n := Int.ediv_nonneg hm0 hn0.le
  have hdm := Int.ediv_add_emod ⌊x⌋ n
  have hr1 := Int.emod_nonneg ⌊x⌋ (ne_of_gt hn0)
  have hr2 := Int.emod_lt_of_pos ⌊x⌋ hn0
  have hble : ⌊x⌋ / n ≤ ⌊x⌋ := Int.ediv_le_self _ hm0
  obtain ⟨b, hb⟩ := Int.eq_ofNat_of_zero_le hb0
  obtain ⟨N, hN⟩ := Int.eq_ofNat_of_zero_le (show 0 ≤ (⌊x⌋ / n + 1) * n by positivity)
  have hNint : ⌊x⌋ + 1 ≤ (N : Int) := by
    rw [← hN]
    have : (⌊x⌋ / n + 1) * n = n * (⌊x⌋ / n) + n := by ring
    rw [this]
    omega
  have hN1 : 1 ≤ N := by omega
  have hN53 : N ≤ 2 ^ 53 := by
    have h1 : (N : Int) ≤ (2 ^ 31 + 1) * 32 := by
      rw [← hN]
      apply mul_le_mul (by omega) hn.2 hn0.le (by norm_num)
    have h2 : ((2 ^ 31 + 1) * 32 : Int) ≤ 2 ^ 53 := by norm_num
    exact_mod_cast le_trans h1 h2
  have hxN : x < (N : ℚ) := by
    have h1 : x < (⌊x⌋ : ℚ) + 1 := Int.lt_floor_add_one x
    have h2 : ((⌊x⌋ + 1 : Int) : ℚ) ≤ ((N : Int) : ℚ) := by exact_mod_cast hNint
    push_cast at h2
    linarith
  have hgap := Double.rep_lt_natCast hx N hN1 hN53 hxN
  have hNq : (N : ℚ) = ((b + 1 : Nat) : ℚ) * (n : ℚ) := by
    have h : ((N : Int) : ℚ) = (((⌊x⌋ / n + 1) * n : Int) : ℚ) := by rw [hN]
    rw [hb] at h
    push_cast at h
    push_cast
    exact h
  have hquot : x / (n : ℚ) ≤ ((b + 1 : Nat) : ℚ) * (1 - (2 : ℚ) ^ (-53 : Int)) := by
    rw [div_le_iff₀ hnq]
    calc x ≤ (N : ℚ) * (1 - (2 : ℚ) ^ (-53 : Int)) := hgap
      _ = ((b + 1 : Nat) : ℚ) * (1 - (2 : ℚ) ^ (-53 : Int)) * (n : ℚ) := by rw [hNq]; ring
  have hb53 : b + 1 ≤ 2 ^ 53 := by
    have : (b : Int) < 2 ^ 31 := by omega
    have h2 : b < 2 ^ 31 := by exact_mod_cast this
    have h3 : (2 : Nat) ^ 31 ≤ 2 ^ 53 := by norm_num
    omega
  have hupper : Double.div x (n : ℚ) < ((b + 1 : Nat) : ℚ) :=
    Double.round_lt_natCast (div_nonneg hx0 hnq.le) (b + 1) (by omega) hb53 hquot
  have hlower : (b : ℚ) ≤ Double.div x (n : ℚ) := by
    have hbx : (b : ℚ) ≤ x / (n : ℚ) := by
      rw [le_div_iff₀ hnq]
      have h1 : (⌊x⌋ / n) * n ≤ ⌊x⌋ := by
        have : (⌊x⌋ / n) * n = n * (⌊x⌋ / n) := by ring
        omega
      have h2 : (((⌊x⌋ / n) * n : Int) : ℚ) ≤ ((⌊x⌋ : Int) : ℚ) := by exact_mod_cast h1
      rw [hb] at h2
      push_cast at h2
      exact le_trans h2 (Int.floor_le x)
    have h := Double.round_mono (Nat.cast_nonneg b) hbx
    rw [Double.round_of_rep (Double.rep_natCast b (by omega))] at h
    exact h
  rw [hb, Int.floor_eq_iff]
  push_cast
  push_cast at hupper
  exact ⟨hlower, hupper⟩

namespace DAW

/-- The value of GetMusicalPosition in `double` arithmetic, for a non-negative position and
totalBeats = position*(bpm/60) below 2^31: whole beats split by the numerator into bars and
beats, and the rounded product of the fraction of the beat with ticksPerBeat split into its
floor, below ticksPerBeat, and its fractional part. -/
theorem Transport.musicalPosition_value (t : Transport) (ticksPerBeat : Int)
    (hpos : 0 ≤ t.position_) (hbpm : 20 ≤ t.bpm_ ∧ t.bpm_ ≤ 300)
    (hnum : 1 ≤ t.timeSigNumerator_ ∧ t.timeSigNumerator_ ≤ 32)
    (htpb : 1 ≤ ticksPerBeat ∧ ticksPerBeat < 2 ^ 31)
    (hbeats : t.SecondsToBeatsRounded t.position_ < 2 ^ 31) :
    0 ≤ t.SecondsToBeatsRounded t.position_ ∧
    t.GetMusicalPosition ticksPerBeat = some
      { bars := ⌊t.SecondsToBeatsRounded t.position_⌋ / t.timeSigNumerator_,
        beats := ⌊t.SecondsToBeatsRounded t.position_⌋ % t.timeSigNumerator_,
        ticks := ⌊Double.mul (t.SecondsToBeatsRounded t.position_
            - (⌊t.SecondsToBeatsRounded t.position_⌋ : ℚ)) (ticksPerBeat : ℚ)⌋,
        fractionalTicks := Double.mul (t.SecondsToBeatsRounded t.position_
            - (⌊t.SecondsToBeatsRounded t.position_⌋ : ℚ)) (ticksPerBeat : ℚ)
          - (⌊Double.mul (t.SecondsToBeatsRounded t.position_
            - (⌊t.SecondsToBeatsRounded t.position_⌋ : ℚ)) (ticksPerBeat : ℚ)⌋ : ℚ) } ∧
    0 ≤ ⌊Double.mul (t.SecondsToBeatsRounded t.position_
        - (⌊t.SecondsToBeatsRounded t.position_⌋ : ℚ)) (ticksPerBeat : ℚ)⌋ ∧
    ⌊Double.mul (t.SecondsToBeatsRounded t.position_
        - (⌊t.SecondsToBeatsRounded t.position_⌋ : ℚ)) (ticksPerBeat : ℚ)⌋ < ticksPerBeat := by
  have hrate : (0 : ℚ) ≤ Double.div t.bpm_ 60 :=
    Double.round_nonneg (div_nonneg (by linarith [hbpm.1]) (by norm_num))
  have htb0 : 0 ≤ t.SecondsToBeatsRounded t.position_ :=
    Double.round_nonneg (mul_nonneg hpos hrate)
  have htbrep : Double.Rep (t.SecondsToBeatsRounded t.position_) :=
    Double.rep_round (mul_nonneg hpos hrate)
  refine ⟨htb0, ?_⟩
  have hdef : t.GetMusicalPosition ticksPerBeat =
      (Double.toInt (Double.div (t.SecondsToBeatsRounded t.position_)
          (t.timeSigNumerator_ : ℚ))).bind fun bars =>
        (Double.toInt (t.SecondsToBeatsRounded t.position_)).bind fun wholeBeats =>
          if t.timeSigNumerator_ = 0 then none
          else
            (Double.toInt (Double.mul (Double.sub (t.SecondsToBeatsRounded t.position_)
              (⌊t.SecondsToBeatsRounded t.position_⌋ : ℚ)) (ticksPerBeat : ℚ))).bind fun ticks =>
              some { bars := bars, beats := wholeBeats.tmod t.timeSigNumerator_, ticks := ticks,
                     fractionalTicks := Double.sub (Double.mul (Double.sub
                        (t.SecondsToBeatsRounded t.position_)
                        (⌊t.SecondsToBeatsRounded t.position_⌋ : ℚ)) (ticksPerBeat : ℚ))
                       (ticks : ℚ) } := rfl
  rw [hdef]
  generalize t.SecondsToBeatsRounded t.position_ = tb at hbeats htb0 htbrep ⊢
  have hn0 : (0 : Int) < t.timeSigNumerator_ := by omega
  have hm0 : (0 : Int) ≤ ⌊tb⌋ := Int.floor_nonneg.mpr htb0
  have hm31 : ⌊tb⌋ < 2 ^ 31 := by
    rw [Int.floor_lt]
    norm_num
    exact hbeats
  -- the bars
  have hbars := Double.floor_div_natCast htbrep htb0 hbeats t.timeSigNumerator_ hnum
  have hq0 : 0 ≤ Double.div tb (t.timeSigNumerator_ : ℚ) :=
    Double.round_nonneg (div_nonneg htb0 (by exact_mod_cast hn0.le))
  have hq31 : Double.div tb (t.timeSigNumerator_ : ℚ) < 2 ^ 31 := by
    have h1 := Int.lt_floor_add_one (Double.div tb (t.timeSigNumerator_ : ℚ))
    have h2 : ⌊tb⌋ / t.timeSigNumerator_ ≤ ⌊tb⌋ := Int.ediv_le_self _ hm0
    have h3 : ⌊Double.div tb (t.timeSigNumerator_ : ℚ)⌋ + 1 ≤ 2 ^ 31 := by
      rw [hbars]
      omega
    have h4 : ((⌊Double.div tb (t.timeSigNumerator_ : ℚ)⌋ + 1 : Int) : ℚ) ≤ ((2 ^ 31 : Int) : ℚ) := by
      exact_mod_cast h3
    push_cast at h4
    linarith
  -- the fraction of the beat
  have hfb : Double.sub tb (⌊tb⌋ : ℚ) = tb - (⌊tb⌋ : ℚ) :=
    Double.round_of_rep (Double.rep_sub_floor htbrep)
  have hfb0 : 0 ≤ tb - (⌊tb⌋ : ℚ) := sub_nonneg.mpr (Int.floor_le tb)
  have hfb1 : tb - (⌊tb⌋ : ℚ) < ((1 : Nat) : ℚ) := by
    have := Int.lt_floor_add_one tb
    push_cast
    linarith
  have hfbgap := Double.rep_lt_natCast (Double.rep_sub_floor htbrep) 1 (le_refl 1) (by norm_num)
    hfb1
  rw [Nat.cast_one, one_mul] at hfbgap
  -- the ticks
  have htpb0 : (0 : Int) ≤ ticksPerBeat := by omega
  obtain ⟨T, hT⟩ := Int.eq_ofNat_of_zero_le htpb0
  have hTq : (ticksPerBeat : ℚ) = (T : ℚ) := by rw [hT]; norm_cast
  have hT1 : 1 ≤ T := by omega
  have hT53 : T ≤ 2 ^ 53 := by
    have h1 : (T : Int) < 2 ^ 31 := by omega
    have h2 : T < 2 ^ 31 := by exact_mod_cast h1
    have h3 : (2 : Nat) ^ 31 ≤ 2 ^ 53 := by norm_num
    omega
  have hTpos : (0 : ℚ) ≤ (T : ℚ) := Nat.cast_nonneg T
  have hprod0 : 0 ≤ (tb - (⌊tb⌋ : ℚ)) * (ticksPerBeat : ℚ) := by
    rw [hTq]
    exact mul_nonneg hfb0 hTpos
  have hprodle : (tb - (⌊tb⌋ : ℚ)) * (ticksPerBeat : ℚ)
      ≤ (T : ℚ) * (1 - (2 : ℚ) ^ (-53 : Int)) := by
    rw [hTq, mul_comm]
    exact mul_le_mul_of_nonneg_left hfbgap hTpos
  have htt0 : 0 ≤ Double.mul (tb - (⌊tb⌋ : ℚ)) (ticksPerBeat : ℚ) :=
    Double.round_nonneg hprod0
  have httrep : Double.Rep (Double.mul (tb - (⌊tb⌋ : ℚ)) (ticksPerBeat : ℚ)) :=
    Double.rep_round hprod0
  have httlt : Double.mul (tb - (⌊tb⌋ : ℚ)) (ticksPerBeat : ℚ) < (ticksPerBeat : ℚ) := by
    rw [hTq]
    have := Double.round_lt_natCast hprod0 T hT1 hT53 hprodle
    rw [← hTq] at this ⊢
    exact this
  have htt31 : Double.mul (tb - (⌊tb⌋ : ℚ)) (ticksPerBeat : ℚ) < 2 ^ 31 := by
    have h1 : ((ticksPerBeat : Int) : ℚ) < ((2 ^ 31 : Int) : ℚ) := by exact_mod_cast htpb.2
    push_cast at h1
    linarith
  have hft : Double.sub (Double.mul (tb - (⌊tb⌋ : ℚ)) (ticksPerBeat : ℚ))
        (⌊Double.mul (tb - (⌊tb⌋ : ℚ)) (ticksPerBeat : ℚ)⌋ : ℚ)
      = Double.mul (tb - (⌊tb⌋ : ℚ)) (ticksPerBeat : ℚ)
        - (⌊Double.mul (tb - (⌊tb⌋ : ℚ)) (ticksPerBeat : ℚ)⌋ : ℚ) :=
    Double.round_of_rep (Double.rep_sub_floor httrep)
  rw [hfb, Double.toInt_of_nonneg hq0, Double.toInt_of_nonneg htb0,
    Double.toInt_of_nonneg htt0, if_pos hq31, if_pos hbeats, if_pos htt31]
  refine ⟨?_, Int.floor_nonneg.mpr htt0, Int.floor_lt.mpr httlt⟩
  simp only [Option.some_bind, if_neg (ne_of_gt hn0)]
  rw [hbars, Int.tmod_eq_emod hm0 hn0.le, hft]

/-- C39, amended: with position >= 0, bpm in [20, 300], numerator n in [1, 32],
1 <= ticksPerBeat < 2^31 and totalBeats = position*(bpm/60) as `double` arithmetic computes
it, non-negative and below 2^31, GetMusicalPosition returns bars, beats, ticks and
fractionalTicks with 0 <= beats < n, 0 <= ticks < ticksPerBeat, 0 <= fractionalTicks < 1,
bars*n + beats = floor(totalBeats), and ticks + fractionalTicks is the product
(totalBeats - floor(totalBeats)) * ticksPerBeat rounded to `double`. -/
theorem C39_musical_position_rounded (t : Transport) (ticksPerBeat : Int)
    (hpos : 0 ≤ t.position_) (hbpm : 20 ≤ t.bpm_ ∧ t.bpm_ ≤ 300)
    (hnum : 1 ≤ t.timeSigNumerator_ ∧ t.timeSigNumerator_ ≤ 32)
    (htpb : 1 ≤ ticksPerBeat ∧ ticksPerBeat < 2 ^ 31)
    (hbeats : t.SecondsToBeatsRounded t.position_ < 2 ^ 31) :
    0 ≤ t.SecondsToBeatsRounded t.position_ ∧
    ∃ mp, t.GetMusicalPosition ticksPerBeat = some mp ∧
      (0 ≤ mp.beats ∧ mp.beats < t.timeSigNumerator_) ∧
      (0 ≤ mp.ticks ∧ mp.ticks < ticksPerBeat) ∧
      (0 ≤ mp.fractionalTicks ∧ mp.fractionalTicks < 1) ∧
      mp.bars * t.timeSigNumerator_ + mp.beats = ⌊t.SecondsToBeatsRounded t.position_⌋ ∧
      (mp.ticks : ℚ) + mp.fractionalTicks
        = Double.mul (t.SecondsToBeatsRounded t.position_
            - (⌊t.SecondsToBeatsRounded t.position_⌋ : ℚ)) (ticksPerBeat : ℚ) := by
  obtain ⟨h0, hval, ht0, ht1⟩ :=
    Transport.musicalPosition_value t ticksPerBeat hpos hbpm hnum htpb hbeats
  have hn0 : (0 : Int) < t.timeSigNumerator_ := by omega
  refine ⟨h0, _, hval, ⟨Int.emod_nonneg _ (ne_of_gt hn0), Int.emod_lt_of_pos _ hn0⟩,
    ⟨ht0, ht1⟩, ⟨?_, ?_⟩, ?_, ?_⟩
  · exact sub_nonneg.mpr (Int.floor_le _)
  · have := Int.lt_floor_add_one (Double.mul (t.SecondsToBeatsRounded t.position_
        - (⌊t.SecondsToBeatsRounded t.position_⌋ : ℚ)) (ticksPerBeat : ℚ))
    show _ - _ < (1 : ℚ)
    linarith
  · show ⌊t.SecondsToBeatsRounded t.position_⌋ / t.timeSigNumerator_ * t.timeSigNumerator_
      + ⌊t.SecondsToBeatsRounded t.position_⌋ % t.timeSigNumerator_ = _
    rw [mul_comm]
    exact Int.ediv_add_emod _ _
  · show (_ : ℚ) + (_ - _) = _
    ring

end DAW

namespace DAW

/-- The rate 42/60 beats per second of the example transport, rounded to `double`. -/
theorem slowTransport_rate :
    Double.div (42 : ℚ) 60 = 3152519739159347 / 4503599627370496 := by
  unfold Double.div
  rw [Double.round_of_bounds (-1) (by norm_num) (by norm_num) (by norm_num)]
  decide!

/-- The beats of the example transport as `double` arithmetic computes them:
62.99999999999999. -/
theorem slowTransport_beats :
    slowTransport.SecondsToBeatsRounded slowTransport.position_
      = 8866461766385663 / 140737488355328 := by
  show Double.mul (90 : ℚ) (Double.div (42 : ℚ) 60) = _
  rw [slowTransport_rate]
  unfold Double.mul
  rw [Double.round_of_bounds 5 (by norm_num) (by norm_num) (by norm_num)]
  decide!

/-- The ticks of the fraction of those beats, as the product by 960 is rounded:
959.9999999999932. -/
theorem slowTransport_ticks :
    Double.mul ((8866461766385663 / 140737488355328 : ℚ) - ((62 : Int) : ℚ)) ((960 : Int) : ℚ)
      = 2111062325329905 / 2199023255552 := by
  unfold Double.mul
  rw [Double.round_of_bounds 9 (by norm_num) (by norm_num) (by norm_num)]
  decide!

/-- C39, as stated, fails: at position 90 s and 42 BPM in 4/4, position*bpm/60 is 63 beats,
but GetMusicalPosition computes position*(bpm/60) in `double` as 62.99999999999999 and
returns bar 15, beat 2, tick 959, so bars*4 + beats is 62, and ticks + fractionalTicks is not
the exact fraction 0 of the beat. -/
theorem C39_rounding_loses_a_beat :
    ⌊slowTransport.position_ * slowTransport.bpm_ / 60⌋ = 63 ∧
    ∃ mp, slowTransport.GetMusicalPosition 960 = some mp ∧
      mp.bars = 15 ∧ mp.beats = 2 ∧ mp.ticks = 959 ∧
      mp.bars * slowTransport.timeSigNumerator_ + mp.beats = 62 := by
  obtain ⟨_, hval, _, _⟩ := Transport.musicalPosition_value slowTransport 960 (by decide!)
    (by decide!) (by decide!) (by decide) (by rw [slowTransport_beats]; norm_num)
  have hfl : ⌊(8866461766385663 / 140737488355328 : ℚ)⌋ = 62 := by
    rw [Int.floor_eq_iff]
    constructor <;> norm_num
  have hfl2 : ⌊(2111062325329905 / 2199023255552 : ℚ)⌋ = 959 := by
    rw [Int.floor_eq_iff]
    constructor <;> norm_num
  rw [slowTransport_beats, hfl, slowTransport_ticks, hfl2] at hval
  refine ⟨by decide!, _, hval, ?_, ?_, rfl, ?_⟩
  · show (62 : Int) / slowTransport.timeSigNumerator_ = 15
    decide
  · show (62 : Int) % slowTransport.timeSigNumerator_ = 2
    decide
  · show (62 : Int) / slowTransport.timeSigNumerator_ * slowTransport.timeSigNumerator_
      + (62 : Int) % slowTransport.timeSigNumerator_ = 62
    decide

/-- Witness of C39 (amended): 90 s at 42 BPM in 4/4 with 960 ticks per beat. -/
theorem C39_musical_position_rounded_witness :
    ∃ mp, slowTransport.GetMusicalPosition 960 = some mp ∧
      (0 ≤ mp.beats ∧ mp.beats < slowTransport.timeSigNumerator_) ∧
      (0 ≤ mp.ticks ∧ mp.ticks < 960) ∧
      (0 ≤ mp.fractionalTicks ∧ mp.fractionalTicks < 1) ∧
      mp.bars * slowTransport.timeSigNumerator_ + mp.beats
        = ⌊slowTransport.SecondsToBeatsRounded slowTransport.position_⌋ ∧
      (mp.ticks : ℚ) + mp.fractionalTicks
        = Double.mul (slowTransport.SecondsToBeatsRounded slowTransport.position_
            - (⌊slowTransport.SecondsToBeatsRounded slowTransport.position_⌋ : ℚ))
            ((960 : Int) : ℚ) :=
  (C39_musical_position_rounded slowTransport 960 (by decide!) (by decide!) (by decide!)
    (by decide) (by rw [slowTransport_beats]; norm_num)).2

end DAW
